import Mathlib

/-!
# classreader: a shallow embedding of the Java class-file decoder

The development follows `src/src/javaclass.c`, `src/src/javamethod.c` and
`src/src/javafield.c`.

Conventions of the embedding
* a byte (`guchar`, `gchar`) is a `Fin 256`; a byte array is a list of bytes;
* `guint16` / `guint32` values are naturals, kept below `2^16` / `2^32`
  wherever the C arithmetic can wrap (`dec16`, `skip_bytes`, `copy_bytes`);
* a C string is the list of its characters before the terminating NUL;
  a nullable pointer is an `Option`;
* a C function that can set a `GError`, fail a `g_assert`, or leave the
  defined behaviour of C (a read or write outside an object, a read of memory
  that was never written, a floating-point conversion out of range) returns in
  `Exec`;
* the host is little-endian with IEEE 754 `float` and `double`; this matters
  only for the value stored for a Float or Double constant.
-/

namespace ClassReader

/-! ## Bytes and results -/

abbrev Byte := Fin 256

abbrev Bytes := List Byte

/-- Error codes of `JavaClassGError` (javaclass.h, lines 38-42). -/
inductive JavaClassGError where
  | JAVACLASS_ERROR_UNSUPPORTED_VERSION
  | JAVACLASS_ERROR_TAG_UNKNOWN
deriving DecidableEq, Repr

/-- What `g_set_error` stores: the code and the formatted message
(the domain is always `JAVACLASS_GERROR`). -/
structure GError where
  code : JavaClassGError
  message : String
deriving DecidableEq, Repr

/-- Result of running a piece of the decoder.
* `ok a`: the code ran to its end and produced `a`;
* `error e`: `g_set_error` was called and the error propagated to the caller
  (`javaclass_new` then returns `NULL`);
* `abort`: a `g_assert` failed, which ends the whole process;
* `undefined`: the C code accessed memory outside an object, read
  uninitialised memory or converted a floating-point value that the target
  integer type cannot hold; C gives such a run no meaning, and the model says
  nothing about what a real run does from there on (it may crash, report an
  error or return a class). -/
inductive Exec (α : Type) where
  | ok (a : α)
  | error (e : GError)
  | abort
  | undefined
deriving DecidableEq, Repr

namespace Exec

/-- Sequencing: the first result that is not `ok` ends the run. -/
def bind {α β : Type} (x : Exec α) (f : α → Exec β) : Exec β :=
  match x with
  | ok a => f a
  | error e => error e
  | abort => abort
  | undefined => undefined

instance : Monad Exec where
  pure := Exec.ok
  bind := Exec.bind

/-- True when the run produced a value. -/
def isOk {α : Type} : Exec α → Bool
  | ok _ => true
  | _ => false

end Exec

/-! ## Constants (javaclass.c, lines 28-66) -/

def MAX_MAJOR_VERSION : Nat := 50

def TAG_UTF8 : Nat := 1
def TAG_INTEGER : Nat := 3
def TAG_FLOAT : Nat := 4
def TAG_LONG : Nat := 5
def TAG_DOUBLE : Nat := 6
def TAG_CLASS : Nat := 7
def TAG_STRING : Nat := 8
def TAG_FIELDREF : Nat := 9
def TAG_METHODREF : Nat := 10
def TAG_INTERFACEMETHODREF : Nat := 11
def TAG_NAMEANDTYPE : Nat := 12

def INVALID_INDEX : Nat := 65535

/-- The character `'.'`. -/
def DOT : Byte := 46

/-- The character `'/'`. -/
def SLASH : Byte := 47

/-- The characters of an ASCII string literal of the source, as bytes. -/
def ascii (s : String) : Bytes := s.toList.map (fun ch => Fin.ofNat ch.toNat)

/-! ## The cursor (javaclass.c, lines 92-109) -/

/-- Big-endian value of a byte sequence (`GUINT16_FROM_BE`, `GUINT32_FROM_BE`,
`GINT64_FROM_BE` applied to bytes copied from the file). -/
def be (b : Bytes) : Nat := b.foldl (fun acc x => acc * 256 + x.val) 0

/-- `copy_bytes(dest, src, &offset, num)`: the `num` bytes of `src` that
start at `offset`, and the advanced offset (a `guint32`).  `memcpy` from
outside `src` has no defined behaviour; the function itself makes no check
and has no way to report a failure. -/
def copy_bytes (src : Bytes) (offset num : Nat) : Exec (Bytes × Nat) :=
  if offset + num ≤ src.length then
    .ok ((src.drop offset).take num, (offset + num) % 2 ^ 32)
  else .undefined

/-- `skip_bytes(&offset, num)`: only the offset moves (a `guint32`). -/
def skip_bytes (offset num : Nat) : Nat := (offset + num) % 2 ^ 32

/-- `copy_bytes(&x, src, &offset, 2); GUINT16_CONV(x);` -/
def read_u16 (src : Bytes) (offset : Nat) : Exec (Nat × Nat) := do
  let (b, offset) ← copy_bytes src offset 2
  pure (be b, offset)

/-- `copy_bytes(&x, src, &offset, 4); GUINT32_CONV(x);` -/
def read_u32 (src : Bytes) (offset : Nat) : Exec (Nat × Nat) := do
  let (b, offset) ← copy_bytes src offset 4
  pure (be b, offset)

/-- `x--` on a `guint16`: 0 wraps to 65535. -/
def dec16 (x : Nat) : Nat := if x = 0 then 65535 else x - 1

/-- Two's-complement reading of a `w`-bit pattern (`gint32`, `gint64`). -/
def toSigned (w : Nat) (v : Nat) : Int :=
  if v < 2 ^ (w - 1) then (v : Int) else (v : Int) - (2 ^ w : Nat)

/-! ## Strings -/

/-- The C string held in a buffer: the characters before the first NUL
(what `strlen`, `g_strdup`, `g_strcmp0` see). -/
def cstr (buf : Bytes) : Bytes := buf.takeWhile (fun ch => ch ≠ 0)

/-- `classname_to_external_format(str)` (javaclass.c, lines 117-123): walks
the buffer up to the first NUL and overwrites each `'/'` with `'.'`.  The
buffer is given without its final NUL. -/
def classname_to_external_format : Bytes → Bytes
  | [] => []
  | ch :: rest =>
    if ch = 0 then ch :: rest
    else (if ch = SLASH then DOT else ch) :: classname_to_external_format rest

/-- `g_strcmp0(a, b) == 0` on nullable C strings. -/
def g_strcmp0_eq (a b : Option Bytes) : Bool := decide (a = b)

/-- `is_known_attribute(attribute)` (javaclass.c, lines 128-138). -/
def is_known_attribute (name : Option Bytes) : Bool :=
  [ascii "Exceptions", ascii "SourceFile", ascii "Signature", ascii "Code"].any
    (fun known => g_strcmp0_eq name (some known))

/-- `g_strrstr(haystack, needle)` for a one-character needle, the only use in
the source: the position of the last occurrence, `none` for `NULL`. -/
def g_strrstr (haystack : Bytes) (needle : Byte) : Option Nat :=
  match haystack with
  | [] => none
  | ch :: rest =>
    match g_strrstr rest needle with
    | some p => some (p + 1)
    | none => if ch = needle then some 0 else none

/-- `javaclass_extract_classname(fqn)` (javaclass.c, lines 792-802). -/
def javaclass_extract_classname (fqn : Option Bytes) : Option Bytes :=
  match fqn with
  | none => none
  | some s =>
    match g_strrstr s DOT with
    | none => some s
    | some pos => if s.drop (pos + 1) = [] then none else some (s.drop (pos + 1))

/-- `javaclass_extract_package(fqn)` (javaclass.c, lines 804-813). -/
def javaclass_extract_package (fqn : Option Bytes) : Option Bytes :=
  match fqn with
  | none => none
  | some s =>
    match g_strrstr s DOT with
    | none => none
    | some pos => some (s.take pos)

/-! ## Data model (javaclass.h, lines 48-126; javafield.h; javamethod.c) -/

/-- The union `cp_value`, with the member that was last written.  `uninit`
is a union that was never written (the second slot of a Long or Double).
A `gfloat` or `gdouble` member is given by its IEEE 754 bit pattern. -/
inductive cp_value where
  | uninit
  | str (s : Bytes)
  | i (v : Int)
  | f (bits : Nat)
  | l (v : Int)
  | d (bits : Nat)
  | index (v : Nat)
  | indexpair (a b : Nat)
deriving DecidableEq, Repr

structure cp_info where
  tag : Nat
  value : cp_value
deriving DecidableEq, Repr

/-- An attribute record; `info` is `NULL` for a skipped payload and for a
retained payload of length 0 (`g_new(guchar, 0)` is `NULL`). -/
structure attribute_info where
  attribute_name_index : Nat
  attribute_length : Nat
  info : Option Bytes
deriving DecidableEq, Repr

structure field_info where
  access_flags : Nat
  name_index : Nat
  descriptor_index : Nat
  attributes_count : Nat
  attributes : List attribute_info
deriving DecidableEq, Repr

structure method_info where
  access_flags : Nat
  name_index : Nat
  descriptor_index : Nat
  attributes_count : Nat
  attributes : List attribute_info
deriving DecidableEq, Repr

structure JavaField where
  access_flags : Nat
  name : Option Bytes
  descriptor : Option Bytes
  signature : Option Bytes
deriving DecidableEq, Repr

structure JavaMethod where
  access_flags : Nat
  name : Option Bytes
  descriptor : Option Bytes
  signature : Option Bytes
  exceptions : Option (List Bytes)
  code : Option Bytes
  codelen : Nat
deriving DecidableEq, Repr

/-- The struct `JavaClass`.  The raw arrays are lists (an empty list for the
`NULL` of a zero count).  `_interfaces` holds pointers into the constant
pool: each is the number of the slot whose string it points to. -/
structure JavaClass where
  magic_number : Nat
  minor_version : Nat
  major_version : Nat
  constant_pool_count : Nat
  constant_pool : List cp_info
  access_flags : Nat
  this_class : Nat
  super_class : Nat
  interfaces_count : Nat
  interfaces : List Nat
  fields_count : Nat
  fields : List field_info
  methods_count : Nat
  methods : List method_info
  attributes_count : Nat
  attributes : List attribute_info
  _package : Option Bytes
  _classname : Option Bytes
  _interfaces : Option (List Nat)
  _fields : Option (List JavaField)
  _methods : Option (List JavaMethod)
  _signature : Option Bytes
deriving DecidableEq, Repr

/-! ## Constant-pool access (javaclass.c, lines 76-90) -/

/-- Read of `c->constant_pool[i]`: outside the array there is no object. -/
def cp_get (pool : List cp_info) (i : Nat) : Exec cp_info :=
  match pool.get? i with
  | some e => .ok e
  | none => .undefined

/-- The C string stored in slot `j` (empty if the slot holds no string). -/
def cp_cstr (pool : List cp_info) (j : Nat) : Bytes :=
  match pool.get? j with
  | some ⟨_, .str s⟩ => cstr s
  | _ => []

/-- `string_from_cp(c, i)`: asserts the tag, returns the string. -/
def string_from_cp (pool : List cp_info) (i : Nat) : Exec Bytes := do
  let e ← cp_get pool i
  if e.tag = TAG_UTF8 then
    match e.value with
    | .str s => pure (cstr s)
    | _ => .undefined
  else .abort

/-- `classname_from_cp(c, i)`: asserts both tags; the result is the pointer
`c->constant_pool[c->constant_pool[i].value.index].value.str`, given as the
number of the slot it points into. -/
def classname_from_cp (pool : List cp_info) (i : Nat) : Exec Nat := do
  let e ← cp_get pool i
  if e.tag = TAG_CLASS then
    match e.value with
    | .index j => do
      let u ← cp_get pool j
      if u.tag = TAG_UTF8 then
        match u.value with
        | .str _ => pure j
        | _ => .undefined
      else .abort
    | _ => .undefined
  else .abort

/-- `classname_to_external_format(classname_from_cp(c, i))`: the string of
the class entry is rewritten in place inside the pool. -/
def classname_to_external_format_at (pool : List cp_info) (i : Nat) :
    Exec (List cp_info) := do
  let j ← classname_from_cp pool i
  match pool.get? j with
  | some ⟨t, .str s⟩ => pure (pool.set j ⟨t, .str (classname_to_external_format s)⟩)
  | _ => .undefined

/-! ## `GINT32_CONV` and `GINT64_CONV` on a floating-point member

Lines 166-168 and 180-182 copy the payload of a Float or Double record into
the `gfloat` / `gdouble` member and then apply the integer macro to it:
`variable = GINT64_FROM_BE(variable)`, which GLib expands on a little-endian
host to `variable = (gint64) bswap64((guint64) variable)`.  So the floating-point
value is converted to an unsigned integer (C truncates toward zero; a value the
type cannot hold has no defined conversion), the bytes of that integer are
swapped, the result is read as a signed integer and converted back to floating
point (to the nearest value, ties to even).  The host is taken to be
little-endian with IEEE 754 `float` and `double`. -/

/-- Little-endian value of a byte sequence: the object a `memcpy` of these
bytes leaves in an integer or floating-point variable of a little-endian
host. -/
def le (b : Bytes) : Nat := be b.reverse

/-- The `w` bytes of `v`, least significant first. -/
def le_bytes : Nat → Nat → Bytes
  | 0, _ => []
  | w + 1, v => Fin.ofNat (v % 256) :: le_bytes w (v / 256)

/-- `bswap32` / `bswap64` on a value of `w` bytes. -/
def bswap (w : Nat) (v : Nat) : Nat := be (le_bytes w v)

/-- Conversion of a floating-point value to an unsigned integer of `w` bits,
`(guint32) x` / `(guint64) x`.  The value is given by its bit pattern, with
`ebits` exponent bits and `mbits` fraction bits; the fraction of the value is
discarded.  `none` when the integral part is not a value of the type
(negative, too large, infinite or not a number). -/
def float_to_unsigned (ebits mbits w : Nat) (bits : Nat) : Option Nat :=
  let sign := bits / 2 ^ (ebits + mbits) % 2
  let e := bits / 2 ^ mbits % 2 ^ ebits
  let m := bits % 2 ^ mbits
  let bias := 2 ^ (ebits - 1) - 1
  if e = 2 ^ ebits - 1 then none
  else
    let mag :=
      if e = 0 then 0
      else if e < bias + mbits then (2 ^ mbits + m) / 2 ^ (bias + mbits - e)
      else (2 ^ mbits + m) * 2 ^ (e - (bias + mbits))
    if sign = 1 then (if mag = 0 then some 0 else none)
    else if mag < 2 ^ w then some mag else none

/-- The number of bits of `a`: the least `k ≤ 64` with `a < 2^k`. -/
def bit_length (a : Nat) : Nat :=
  (List.range 65).foldl (fun acc k => if 2 ^ k ≤ a then k + 1 else acc) 0

/-- Conversion of a signed integer of at most 64 bits to floating point,
`(gfloat) v` / `(gdouble) v`: the bit pattern of the nearest value, ties to
even. -/
def signed_to_float (ebits mbits : Nat) (v : Int) : Nat :=
  if v = 0 then 0
  else
    let sign := if v < 0 then 1 else 0
    let a := v.natAbs
    let len := bit_length a
    let bias := 2 ^ (ebits - 1) - 1
    let q :=
      if len ≤ mbits + 1 then a * 2 ^ (mbits + 1 - len)
      else
        let sh := len - (mbits + 1)
        let q0 := a / 2 ^ sh
        let r := a % 2 ^ sh
        if r > 2 ^ (sh - 1) ∨ (r = 2 ^ (sh - 1) ∧ q0 % 2 = 1) then q0 + 1 else q0
    sign * 2 ^ (ebits + mbits) + (bias + len - 1) * 2 ^ mbits + (q - 2 ^ mbits)

/-- `GINT32_CONV(cur->value.f)` after the 4 payload bytes `b` were copied
into the `gfloat`: the bit pattern of the `gfloat` stored. -/
def GINT32_CONV_gfloat (b : Bytes) : Exec Nat :=
  match float_to_unsigned 8 23 32 (le b) with
  | some u => pure (signed_to_float 8 23 (toSigned 32 (bswap 4 u)))
  | none => .undefined

/-- `GINT64_CONV(cur->value.d)` after the 8 payload bytes `b` were copied
into the `gdouble`: the bit pattern of the `gdouble` stored. -/
def GINT64_CONV_gdouble (b : Bytes) : Exec Nat :=
  match float_to_unsigned 11 52 64 (le b) with
  | some u => pure (signed_to_float 11 52 (toSigned 64 (bswap 8 u)))
  | none => .undefined

/-! ## The constant pool decoder (javaclass.c, lines 143-222) -/

/-- The message of the unknown-tag error (line 218). -/
def unknown_tag_message (tag : Nat) : String :=
  "Error parsing class file: Unknown constant pool tag " ++ toString tag ++ "\n"

/-- One pass through the loop body (lines 150-220) for the slot `cur`: the
tag byte and the payload of the record at `offset`.  Returns the entry, whether
the record is a Long or Double (which takes a second slot), and the new
offset. -/
def read_cp_entry (classbytes : Bytes) (offset : Nat) : Exec (cp_info × Bool × Nat) := do
  let (tagb, offset) ← copy_bytes classbytes offset 1
  let tag := be tagb
  if tag = TAG_UTF8 then do
    let (slen, offset) ← read_u16 classbytes offset
    let (s, offset) ← copy_bytes classbytes offset slen
    pure (⟨tag, .str s⟩, false, offset)
  else if tag = TAG_INTEGER then do
    let (v, offset) ← read_u32 classbytes offset
    pure (⟨tag, .i (toSigned 32 v)⟩, false, offset)
  else if tag = TAG_FLOAT then do
    let (b, offset) ← copy_bytes classbytes offset 4
    let f ← GINT32_CONV_gfloat b
    pure (⟨tag, .f f⟩, false, offset)
  else if tag = TAG_LONG then do
    let (b, offset) ← copy_bytes classbytes offset 8
    pure (⟨tag, .l (toSigned 64 (be b))⟩, true, offset)
  else if tag = TAG_DOUBLE then do
    let (b, offset) ← copy_bytes classbytes offset 8
    let d ← GINT64_CONV_gdouble b
    pure (⟨tag, .d d⟩, true, offset)
  else if tag = TAG_CLASS ∨ tag = TAG_STRING then do
    let (v, offset) ← read_u16 classbytes offset
    pure (⟨tag, .index (dec16 v)⟩, false, offset)
  else if tag = TAG_FIELDREF ∨ tag = TAG_METHODREF ∨ tag = TAG_INTERFACEMETHODREF
      ∨ tag = TAG_NAMEANDTYPE then do
    let (a, offset) ← read_u16 classbytes offset
    let (b, offset) ← read_u16 classbytes offset
    pure (⟨tag, .indexpair (dec16 a) (dec16 b)⟩, false, offset)
  else
    .error ⟨.JAVACLASS_ERROR_TAG_UNKNOWN, unknown_tag_message tag⟩

/-- `read_constant_pool`: the loop `for (i = 0; i < constant_pool_count; i++)`.
The first argument is the number of slots still to fill,
`constant_pool_count - i`; the result lists the slots `i, i+1, ...` in order.
A Long or Double fills slot `i`, then does `i++` and writes the tag of slot
`i+1`; when slot `i` was the last one that write is outside the array. -/
def read_constant_pool (classbytes : Bytes) : Nat → Nat → Exec (List cp_info × Nat)
  | 0, offset => pure ([], offset)
  | n + 1, offset => do
    let (e, two, offset) ← read_cp_entry classbytes offset
    if two then
      match n with
      | 0 => .undefined
      | m + 1 => do
        let (rest, offset) ← read_constant_pool classbytes m offset
        pure (e :: ⟨e.tag, .uninit⟩ :: rest, offset)
    else do
      let (rest, offset) ← read_constant_pool classbytes n offset
      pure (e :: rest, offset)

/-- The offsets at which `read_constant_pool` reads a tag byte (line 151),
in the order of the reads: one per record it starts to decode. -/
def cp_record_offsets (classbytes : Bytes) : Nat → Nat → List Nat
  | 0, _ => []
  | n + 1, offset =>
    offset ::
      match read_cp_entry classbytes offset with
      | .ok (_, two, offset) =>
        if two then
          match n with
          | 0 => []
          | m + 1 => cp_record_offsets classbytes m offset
        else cp_record_offsets classbytes n offset
      | _ => []

/-! ## Attributes, fields and methods (javaclass.c, lines 227-325) -/

/-- `g_new(guchar, n)` filled with `bytes`: `NULL` when `n` is 0. -/
def g_new_guchar (bytes : Bytes) : Option Bytes :=
  if bytes = [] then none else some bytes

/-- `read_attributes`: the first numeric argument is `attributes_count - i`. -/
def read_attributes (pool : List cp_info) (classbytes : Bytes) :
    Nat → Nat → Exec (List attribute_info × Nat)
  | 0, offset => pure ([], offset)
  | n + 1, offset => do
    let (idx, offset) ← read_u16 classbytes offset
    let attribute_name_index := dec16 idx
    let (attribute_length, offset) ← read_u32 classbytes offset
    let name ← string_from_cp pool attribute_name_index
    if is_known_attribute (some name) then do
      let (info, offset) ← copy_bytes classbytes offset attribute_length
      let (rest, offset) ← read_attributes pool classbytes n offset
      pure (⟨attribute_name_index, attribute_length, g_new_guchar info⟩ :: rest, offset)
    else do
      let offset := skip_bytes offset attribute_length
      let (rest, offset) ← read_attributes pool classbytes n offset
      pure (⟨attribute_name_index, attribute_length, none⟩ :: rest, offset)

/-- `read_fields`: the first numeric argument is `fields_count - i`. -/
def read_fields (pool : List cp_info) (classbytes : Bytes) :
    Nat → Nat → Exec (List field_info × Nat)
  | 0, offset => pure ([], offset)
  | n + 1, offset => do
    let (access_flags, offset) ← read_u16 classbytes offset
    let (name_index, offset) ← read_u16 classbytes offset
    let (descriptor_index, offset) ← read_u16 classbytes offset
    let (attributes_count, offset) ← read_u16 classbytes offset
    let (attributes, offset) ← read_attributes pool classbytes attributes_count offset
    let (rest, offset) ← read_fields pool classbytes n offset
    pure (⟨access_flags, dec16 name_index, dec16 descriptor_index, attributes_count,
      attributes⟩ :: rest, offset)

/-- `read_methods`: the first numeric argument is `methods_count - i`. -/
def read_methods (pool : List cp_info) (classbytes : Bytes) :
    Nat → Nat → Exec (List method_info × Nat)
  | 0, offset => pure ([], offset)
  | n + 1, offset => do
    let (access_flags, offset) ← read_u16 classbytes offset
    let (name_index, offset) ← read_u16 classbytes offset
    let (descriptor_index, offset) ← read_u16 classbytes offset
    let (attributes_count, offset) ← read_u16 classbytes offset
    let (attributes, offset) ← read_attributes pool classbytes attributes_count offset
    let (rest, offset) ← read_methods pool classbytes n offset
    pure (⟨access_flags, dec16 name_index, dec16 descriptor_index, attributes_count,
      attributes⟩ :: rest, offset)

/-- Read through a payload pointer: `NULL` points at no object. -/
def payload (info : Option Bytes) : Bytes := info.getD []

/-! ## Exceptions (javaclass.c, lines 330-368) -/

/-- The inner loop of `extract_exceptions` (lines 354-361); the first numeric
argument is `num_exceptions - i`.  Returns the pool after the in-place
conversions and the pointers stored in `exceptions[i]`. -/
def extract_exceptions_loop (info : Bytes) :
    Nat → List cp_info → Nat → Exec (List cp_info × List Nat)
  | 0, pool, _ => pure (pool, [])
  | n + 1, pool, offset => do
    let (cur, offset) ← read_u16 info offset
    let curindex := dec16 cur
    let pool ← classname_to_external_format_at pool curindex
    let j ← classname_from_cp pool curindex
    let (pool, rest) ← extract_exceptions_loop info n pool offset
    pure (pool, j :: rest)

/-- `extract_exceptions(c, attributes, count)`: the search loop (lines
338-365) over the attribute array; the first `Exceptions` attribute decides. -/
def extract_exceptions (pool : List cp_info) :
    List attribute_info → Exec (List cp_info × Option (List Nat))
  | [] => pure (pool, none)
  | a :: rest => do
    let name ← string_from_cp pool a.attribute_name_index
    if g_strcmp0_eq (some (ascii "Exceptions")) (some name) then do
      let (num_exceptions, offset) ← read_u16 (payload a.info) 0
      if num_exceptions = 0 then pure (pool, none)
      else do
        let (pool, ptrs) ← extract_exceptions_loop (payload a.info) num_exceptions pool offset
        pure (pool, some ptrs)
    else extract_exceptions pool rest

/-! ## Field and method descriptors (javafield.c, javamethod.c) -/

/-- `javafield_new`: the strings are copied with `g_strdup`. -/
def javafield_new (access_flags : Nat) (name descriptor signature : Option Bytes) :
    JavaField :=
  ⟨access_flags, name, descriptor, signature⟩

/-- `javamethod_new` (javamethod.c, lines 39-67): strings and the
`NULL`-terminated exception array are copied; `code` starts as `NULL`. -/
def javamethod_new (access_flags : Nat) (name descriptor signature : Option Bytes)
    (exceptions : Option (List Bytes)) : JavaMethod :=
  ⟨access_flags, name, descriptor, signature, exceptions, none, 0⟩

/-- `javamethod_set_code(method, code, codelen)` (javamethod.c, lines
191-198).  `code` is what lies between the pointer and the end of the object it
points into; `memcpy` of more than that is outside the object. -/
def javamethod_set_code (method : JavaMethod) (code : Option Bytes) (codelen : Nat) :
    Exec JavaMethod :=
  match code with
  | none => pure method
  | some bytes =>
    if codelen = 0 then pure method
    else if codelen ≤ bytes.length then
      pure { method with code := some (bytes.take codelen), codelen := codelen }
    else .undefined

/-! ## `javaclass_new`: the structural parse (javaclass.c, lines 425-524) -/

/-- The conversion loop over `c->interfaces` (lines 471-474).  `buf` holds the
bytes that `copy_bytes` stored at the start of the array; entry `i` is read
from bytes `2i, 2i+1`, and an entry past the copied bytes was never
initialised.  The first numeric argument is `interfaces_count - i`. -/
def read_interfaces (buf : Bytes) : Nat → Nat → Exec (List Nat)
  | 0, _ => pure []
  | n + 1, i => do
    let (v, _) ← read_u16 buf (2 * i)
    let rest ← read_interfaces buf n (i + 1)
    pure (dec16 v :: rest)

/-- Lines 442-459: access flags, this-class and super-class references; the
two class names are converted in place. -/
def javaclass_new_parse_refs (classbytes : Bytes) (pool : List cp_info) (offset : Nat) :
    Exec (Nat × Nat × Nat × List cp_info × Nat) := do
  let (access_flags, offset) ← read_u16 classbytes offset
  let (v, offset) ← read_u16 classbytes offset
  let this_class := dec16 v
  let pool ← classname_to_external_format_at pool this_class
  let (v, offset) ← read_u16 classbytes offset
  let super_class := dec16 v
  if super_class ≠ INVALID_INDEX then do
    let pool ← classname_to_external_format_at pool super_class
    pure (access_flags, this_class, super_class, pool, offset)
  else pure (access_flags, this_class, super_class, pool, offset)

/-- Lines 461-475: the interface list; `guint16 len = c->interfaces_count * 2`. -/
def javaclass_new_parse_interfaces (classbytes : Bytes) (offset : Nat) :
    Exec (Nat × List Nat × Nat) := do
  let (interfaces_count, offset) ← read_u16 classbytes offset
  if interfaces_count > 0 then do
    let len := (interfaces_count * 2) % 65536
    let (buf, offset) ← copy_bytes classbytes offset len
    let interfaces ← read_interfaces buf interfaces_count 0
    pure (interfaces_count, interfaces, offset)
  else pure (interfaces_count, [], offset)

/-- Lines 477-491: the field list. -/
def javaclass_new_parse_fields (pool : List cp_info) (classbytes : Bytes) (offset : Nat) :
    Exec (Nat × List field_info × Nat) := do
  let (fields_count, offset) ← read_u16 classbytes offset
  if fields_count > 0 then do
    let (fields, offset) ← read_fields pool classbytes fields_count offset
    pure (fields_count, fields, offset)
  else pure (fields_count, [], offset)

/-- Lines 493-507: the method list. -/
def javaclass_new_parse_methods (pool : List cp_info) (classbytes : Bytes) (offset : Nat) :
    Exec (Nat × List method_info × Nat) := do
  let (methods_count, offset) ← read_u16 classbytes offset
  if methods_count > 0 then do
    let (methods, offset) ← read_methods pool classbytes methods_count offset
    pure (methods_count, methods, offset)
  else pure (methods_count, [], offset)

/-- Lines 509-524: the attribute list of the class. -/
def javaclass_new_parse_attributes (pool : List cp_info) (classbytes : Bytes)
    (offset : Nat) : Exec (Nat × List attribute_info × Nat) := do
  let (attributes_count, offset) ← read_u16 classbytes offset
  if attributes_count > 0 then do
    let (attributes, offset) ← read_attributes pool classbytes attributes_count offset
    pure (attributes_count, attributes, offset)
  else pure (attributes_count, [], offset)

/-- The `tag` members of the pool array when `read_constant_pool` has
returned, slot by slot; `none` stands for a slot that was never written (the
array comes from `g_new`, which does not initialise it).  The tag byte of a
record is stored in its slot before the `switch` looks at it (line 151), also
when it is not a known tag. -/
def cp_tags_written (classbytes : Bytes) : Nat → Nat → List (Option Nat)
  | 0, _ => []
  | n + 1, offset =>
    match read_cp_entry classbytes offset with
    | .ok (e, two, offset) =>
      if two then
        match n with
        | 0 => [some e.tag]
        | m + 1 => some e.tag :: some e.tag :: cp_tags_written classbytes m offset
      else some e.tag :: cp_tags_written classbytes n offset
    | .error _ => some (be ((classbytes.drop offset).take 1)) :: List.replicate n none
    | _ => List.replicate (n + 1) none

/-- `javaclass_free(c)` (javaclass.c, lines 815-868) as called at the error
exit of line 438, where every pointer of the struct other than
`constant_pool` is still `NULL`: the loop of lines 818-822 reads the tag of
every slot of the pool and frees the string of each slot with tag 1.  For a
slot written by `read_constant_pool` that string is a valid pointer.  The tag
of a slot that was never written is an indeterminate value, and when it
happens to be 1 the indeterminate pointer next to it is passed to `g_free`;
the contents of uninitialised memory are not part of this model, so a run that
reads such a tag is given no result.  The argument lists the tags of the
slots. -/
def javaclass_free : List (Option Nat) → Exec Unit
  | [] => pure ()
  | none :: _ => .undefined
  | some _ :: rest => javaclass_free rest

/-- Lines 434-440: `read_constant_pool`, and on an error the exit through
`g_propagate_error` and `javaclass_free`. -/
def javaclass_new_parse_pool (classbytes : Bytes) (n offset : Nat) :
    Exec (List cp_info × Nat) :=
  match read_constant_pool classbytes n offset with
  | .error e => do
    javaclass_free (cp_tags_written classbytes n offset)
    .error e
  | r => r

/-- Lines 425-524: from the constant-pool count to the end of the top-level
attribute list.  Returns the struct as filled so far and the final offset. -/
def javaclass_new_parse (classbytes : Bytes) (magic_number minor_version major_version : Nat)
    (offset : Nat) : Exec (JavaClass × Nat) := do
  -- lines 425-440: `c->constant_pool_count--`, then the pool
  let (cnt, offset) ← read_u16 classbytes offset
  let (pool, offset) ← javaclass_new_parse_pool classbytes (dec16 cnt) offset
  let (access_flags, this_class, super_class, pool, offset) ←
    javaclass_new_parse_refs classbytes pool offset
  let (interfaces_count, interfaces, offset) ← javaclass_new_parse_interfaces classbytes offset
  let (fields_count, fields, offset) ← javaclass_new_parse_fields pool classbytes offset
  let (methods_count, methods, offset) ← javaclass_new_parse_methods pool classbytes offset
  let (attributes_count, attributes, offset) ←
    javaclass_new_parse_attributes pool classbytes offset
  pure ({ magic_number := magic_number, minor_version := minor_version,
          major_version := major_version, constant_pool_count := dec16 cnt,
          constant_pool := pool, access_flags := access_flags, this_class := this_class,
          super_class := super_class, interfaces_count := interfaces_count,
          interfaces := interfaces, fields_count := fields_count, fields := fields,
          methods_count := methods_count, methods := methods,
          attributes_count := attributes_count, attributes := attributes,
          _package := none, _classname := none, _interfaces := none, _fields := none,
          _methods := none, _signature := none }, offset)

/-! ## `javaclass_new`: the derived views (javaclass.c, lines 529-638) -/

/-- Lines 542-545: convert each interface name in place and keep a pointer to
it. -/
def javaclass_new_interfaces : List Nat → List cp_info → Exec (List cp_info × List Nat)
  | [], pool => pure (pool, [])
  | idx :: rest, pool => do
    let pool ← classname_to_external_format_at pool idx
    let j ← classname_from_cp pool idx
    let (pool, ptrs) ← javaclass_new_interfaces rest pool
    pure (pool, j :: ptrs)

/-- The `Signature` search over an attribute array (lines 559-571 for a
field, lines 625-636 for the class): `signature` is the value found so far. -/
def scan_signature (pool : List cp_info) :
    List attribute_info → Option Bytes → Exec (Option Bytes)
  | [], signature => pure signature
  | a :: rest, signature => do
    let name ← string_from_cp pool a.attribute_name_index
    if g_strcmp0_eq (some (ascii "Signature")) (some name) then do
      let (sig, _) ← read_u16 (payload a.info) 0
      let s ← string_from_cp pool (dec16 sig)
      scan_signature pool rest (some s)
    else scan_signature pool rest signature

/-- Lines 552-575: one `JavaField` per `field_info`. -/
def javaclass_new_fields (pool : List cp_info) : List field_info → Exec (List JavaField)
  | [] => pure []
  | fld :: rest => do
    let name ← string_from_cp pool fld.name_index
    let descriptor ← string_from_cp pool fld.descriptor_index
    let signature ← scan_signature pool fld.attributes none
    let rest ← javaclass_new_fields pool rest
    pure (javafield_new fld.access_flags (some name) (some descriptor) signature :: rest)

/-- Lines 595-613: the search over a method's attributes; the state is
`(signature, codelen, code)`, `code` being the pointer `info + 8`. -/
def scan_method_attributes (pool : List cp_info) (includecode : Bool) :
    List attribute_info → Option Bytes × Nat × Option Bytes →
      Exec (Option Bytes × Nat × Option Bytes)
  | [], st => pure st
  | a :: rest, (signature, codelen, code) => do
    let name ← string_from_cp pool a.attribute_name_index
    if g_strcmp0_eq (some (ascii "Signature")) (some name) then do
      let (sig, _) ← read_u16 (payload a.info) 0
      let s ← string_from_cp pool (dec16 sig)
      scan_method_attributes pool includecode rest (some s, codelen, code)
    else if includecode then do
      let name ← string_from_cp pool a.attribute_name_index
      if g_strcmp0_eq (some (ascii "Code")) (some name) then do
        let (len, _) ← read_u32 (payload a.info) 4
        scan_method_attributes pool includecode rest
          (signature, len, some ((payload a.info).drop 8))
      else scan_method_attributes pool includecode rest (signature, codelen, code)
    else scan_method_attributes pool includecode rest (signature, codelen, code)

/-- Lines 582-621: one `JavaMethod` per `method_info`.  `name` and
`descriptor` are pointers taken before `extract_exceptions` runs and copied by
`javamethod_new` after it. -/
def javaclass_new_methods (includecode : Bool) :
    List method_info → List cp_info → Exec (List cp_info × List JavaMethod)
  | [], pool => pure (pool, [])
  | m :: rest, pool => do
    let _ ← string_from_cp pool m.name_index
    let _ ← string_from_cp pool m.descriptor_index
    let (pool, exceptions) ← extract_exceptions pool m.attributes
    let (signature, codelen, code) ←
      scan_method_attributes pool includecode m.attributes (none, 0, none)
    let method := javamethod_new m.access_flags (some (cp_cstr pool m.name_index))
      (some (cp_cstr pool m.descriptor_index)) signature
      (exceptions.map (fun ptrs => ptrs.map (cp_cstr pool)))
    let method ← (if includecode then javamethod_set_code method code codelen
      else pure method)
    let (pool, methods) ← javaclass_new_methods includecode rest pool
    pure (pool, method :: methods)

/-- Lines 538-546: `_interfaces`, `NULL` when there is no interface. -/
def javaclass_new_views_interfaces (c : JavaClass) (pool : List cp_info) :
    Exec (List cp_info × Option (List Nat)) :=
  if c.interfaces_count > 0 then do
    let (pool, ptrs) ← javaclass_new_interfaces c.interfaces pool
    pure (pool, some ptrs)
  else pure (pool, none)

/-- Lines 548-576: `_fields`, `NULL` when there is no field. -/
def javaclass_new_views_fields (c : JavaClass) (pool : List cp_info) :
    Exec (Option (List JavaField)) :=
  if c.fields_count > 0 then do
    let fields ← javaclass_new_fields pool c.fields
    pure (some fields)
  else pure none

/-- Lines 578-622: `_methods`, `NULL` when there is no method. -/
def javaclass_new_views_methods (c : JavaClass) (includecode : Bool) (pool : List cp_info) :
    Exec (List cp_info × Option (List JavaMethod)) :=
  if c.methods_count > 0 then do
    let (pool, methods) ← javaclass_new_methods includecode c.methods pool
    pure (pool, some methods)
  else pure (pool, none)

/-- Lines 529-638: the second pass over the parsed struct. -/
def javaclass_new_views (c : JavaClass) (includecode : Bool) : Exec JavaClass := do
  let pool := c.constant_pool
  let j ← classname_from_cp pool c.this_class
  let _package := javaclass_extract_package (some (cp_cstr pool j))
  let j ← classname_from_cp pool c.this_class
  let _classname := javaclass_extract_classname (some (cp_cstr pool j))
  let (pool, _interfaces) ← javaclass_new_views_interfaces c pool
  let _fields ← javaclass_new_views_fields c pool
  let (pool, _methods) ← javaclass_new_views_methods c includecode pool
  let _signature ← scan_signature pool c.attributes none
  pure { c with constant_pool := pool, _package := _package, _classname := _classname,
                _interfaces := _interfaces, _fields := _fields, _methods := _methods,
                _signature := _signature }

/-! ## `javaclass_new` (javaclass.c, lines 370-639) -/

/-- Lines 425-638, entered once magic number and version are accepted:
the structural parse, then `g_assert(offset == length)` (line 527), then the
derived views. -/
def javaclass_new_body (classbytes : Bytes) (length : Nat) (includecode : Bool)
    (magic_number minor_version major_version : Nat) (offset : Nat) : Exec JavaClass := do
  let (c, offset) ← javaclass_new_parse classbytes magic_number minor_version
    major_version offset
  if offset = length then javaclass_new_views c includecode else .abort

def bad_magic_message : String :=
  "Error parsing class file: File is not a valid CLASS file!\n"

def unsupported_version_message : String :=
  "Error parsing class file: The version of the class file format used by this class file is not supported, yet!\n"

/-- `javaclass_new(classbytes, length, includecode, error)`.  `classbytes` is
the object the pointer refers to, `length` the number the caller passes.  At
the two error exits of lines 398-423 `javaclass_free(c)` finds every pointer
of the struct `NULL` and frees only the struct. -/
def javaclass_new (classbytes : Bytes) (length : Nat) (includecode : Bool) :
    Exec JavaClass := do
  let (magic_number, offset) ← read_u32 classbytes 0
  if magic_number ≠ 0xCAFEBABE then
    .error ⟨.JAVACLASS_ERROR_TAG_UNKNOWN, bad_magic_message⟩
  else do
    let (minor_version, offset) ← read_u16 classbytes offset
    let (major_version, offset) ← read_u16 classbytes offset
    if major_version > MAX_MAJOR_VERSION then
      .error ⟨.JAVACLASS_ERROR_UNSUPPORTED_VERSION, unsupported_version_message⟩
    else
      javaclass_new_body classbytes length includecode magic_number minor_version
        major_version offset

/-! ## Accessors of `JavaClass` (javaclass.c, lines 675-790) -/

def JAVACLASS_ACC_PUBLIC : Nat := 0x0001
def JAVACLASS_ACC_FINAL : Nat := 0x0010
def JAVACLASS_ACC_SUPER : Nat := 0x0020
def JAVACLASS_ACC_INTERFACE : Nat := 0x0200
def JAVACLASS_ACC_ABSTRACT : Nat := 0x0400
def JAVACLASS_ACC_SYNTHETIC : Nat := 0x1000
def JAVACLASS_ACC_ANNOTATION : Nat := 0x2000
def JAVACLASS_ACC_ENUM : Nat := 0x4000

def javaclass_get_name (c : JavaClass) : Option Bytes := c._classname

def javaclass_get_package (c : JavaClass) : Option Bytes := c._package

/-- `javaclass_get_fq_name`: the pointer `classname_from_cp` returns, read as
a C string in the pool of `c`. -/
def javaclass_get_fq_name (c : JavaClass) : Exec Bytes := do
  let j ← classname_from_cp c.constant_pool c.this_class
  pure (cp_cstr c.constant_pool j)

/-- `javaclass_get_fq_parent`: `NULL` for the index `INVALID_INDEX`. -/
def javaclass_get_fq_parent (c : JavaClass) : Exec (Option Bytes) :=
  if c.super_class = INVALID_INDEX then pure none
  else do
    let j ← classname_from_cp c.constant_pool c.super_class
    pure (some (cp_cstr c.constant_pool j))

def javaclass_get_interface_number (c : JavaClass) : Nat := c.interfaces_count

/-- `javaclass_get_interfaces`: the array `_interfaces` of pointers into the
pool, each read as a C string. -/
def javaclass_get_interfaces (c : JavaClass) : Option (List Bytes) :=
  c._interfaces.map (fun ptrs => ptrs.map (cp_cstr c.constant_pool))

def javaclass_get_field_number (c : JavaClass) : Nat := c.fields_count

def javaclass_get_fields (c : JavaClass) : Option (List JavaField) := c._fields

def javaclass_get_method_number (c : JavaClass) : Nat := c.methods_count

def javaclass_get_methods (c : JavaClass) : Option (List JavaMethod) := c._methods

def javaclass_get_major_version_number (c : JavaClass) : Nat := c.major_version

def javaclass_get_minor_version_number (c : JavaClass) : Nat := c.minor_version

/-- `javaclass_get_version_name`: the `switch` over `major_version`. -/
def javaclass_get_version_name (c : JavaClass) : String :=
  match c.major_version with
  | 50 => "J2SE 6.0"
  | 49 => "J2SE 5.0"
  | 48 => "JDK 1.4"
  | 47 => "JDK 1.3"
  | 46 => "JDK 1.2"
  | 45 => "JDK 1.1"
  | _ => "UNKNOWN JAVA VERSION"

def javaclass_is_public (c : JavaClass) : Bool :=
  if c.access_flags &&& JAVACLASS_ACC_PUBLIC ≠ 0 then true else false

def javaclass_is_final (c : JavaClass) : Bool :=
  if c.access_flags &&& JAVACLASS_ACC_FINAL ≠ 0 then true else false

def javaclass_is_interface (c : JavaClass) : Bool :=
  if c.access_flags &&& JAVACLASS_ACC_INTERFACE ≠ 0 then true else false

def javaclass_is_abstract (c : JavaClass) : Bool :=
  if c.access_flags &&& JAVACLASS_ACC_ABSTRACT ≠ 0 then true else false

def javaclass_is_annotation (c : JavaClass) : Bool :=
  if c.access_flags &&& JAVACLASS_ACC_ANNOTATION ≠ 0 then true else false

def javaclass_is_enum (c : JavaClass) : Bool :=
  if c.access_flags &&& JAVACLASS_ACC_ENUM ≠ 0 then true else false

def javaclass_get_signature (c : JavaClass) : Option Bytes := c._signature

/-! ## Access flags of `JavaField` (javafield.c) -/

/-- The operand `~mask` of `access_flags &= ~mask` as it acts on the 16 bits
of `access_flags`. -/
def not16 (mask : Nat) : Nat := 0xFFFF ^^^ mask

def JAVAFIELD_ACC_PUBLIC : Nat := 0x0001
def JAVAFIELD_ACC_PRIVATE : Nat := 0x0002
def JAVAFIELD_ACC_PROTECTED : Nat := 0x0004
def JAVAFIELD_ACC_STATIC : Nat := 0x0008
def JAVAFIELD_ACC_FINAL : Nat := 0x0010
def JAVAFIELD_ACC_VOLATILE : Nat := 0x0040
def JAVAFIELD_ACC_TRANSIENT : Nat := 0x0080
def JAVAFIELD_ACC_SYNTHETIC : Nat := 0x1000
def JAVAFIELD_ACC_ENUM : Nat := 0x4000

def javafield_is_public (field : JavaField) : Bool :=
  if field.access_flags &&& JAVAFIELD_ACC_PUBLIC ≠ 0 then true else false

def javafield_is_protected (field : JavaField) : Bool :=
  if field.access_flags &&& JAVAFIELD_ACC_PROTECTED ≠ 0 then true else false

def javafield_is_private (field : JavaField) : Bool :=
  if field.access_flags &&& JAVAFIELD_ACC_PRIVATE ≠ 0 then true else false

def javafield_is_static (field : JavaField) : Bool :=
  if field.access_flags &&& JAVAFIELD_ACC_STATIC ≠ 0 then true else false

def javafield_is_final (field : JavaField) : Bool :=
  if field.access_flags &&& JAVAFIELD_ACC_FINAL ≠ 0 then true else false

def javafield_is_enum (field : JavaField) : Bool :=
  if field.access_flags &&& JAVAFIELD_ACC_ENUM ≠ 0 then true else false

def javafield_set_is_public (field : JavaField) (value : Bool) : JavaField :=
  if value = true then
    { field with access_flags := field.access_flags ||| JAVAFIELD_ACC_PUBLIC }
  else { field with access_flags := field.access_flags &&& not16 JAVAFIELD_ACC_PUBLIC }

def javafield_set_is_protected (field : JavaField) (value : Bool) : JavaField :=
  if value = true then
    { field with access_flags := field.access_flags ||| JAVAFIELD_ACC_PROTECTED }
  else { field with access_flags := field.access_flags &&& not16 JAVAFIELD_ACC_PROTECTED }

/-- `javafield_set_is_private` (javafield.c, lines 105-111): the second
branch is `access_flags &= JAVAFIELD_ACC_PRIVATE`, without a complement. -/
def javafield_set_is_private (field : JavaField) (value : Bool) : JavaField :=
  if value = true then
    { field with access_flags := field.access_flags ||| JAVAFIELD_ACC_PRIVATE }
  else { field with access_flags := field.access_flags &&& JAVAFIELD_ACC_PRIVATE }

def javafield_set_is_static (field : JavaField) (value : Bool) : JavaField :=
  if value = true then
    { field with access_flags := field.access_flags ||| JAVAFIELD_ACC_STATIC }
  else { field with access_flags := field.access_flags &&& not16 JAVAFIELD_ACC_STATIC }

def javafield_set_is_final (field : JavaField) (value : Bool) : JavaField :=
  if value = true then
    { field with access_flags := field.access_flags ||| JAVAFIELD_ACC_FINAL }
  else { field with access_flags := field.access_flags &&& not16 JAVAFIELD_ACC_FINAL }

def javafield_set_is_enum (field : JavaField) (value : Bool) : JavaField :=
  if value = true then
    { field with access_flags := field.access_flags ||| JAVAFIELD_ACC_ENUM }
  else { field with access_flags := field.access_flags &&& not16 JAVAFIELD_ACC_ENUM }

/-! ## Access flags of `JavaMethod` (javamethod.c) -/

def JAVAMETHOD_ACC_PUBLIC : Nat := 0x0001
def JAVAMETHOD_ACC_PRIVATE : Nat := 0x0002
def JAVAMETHOD_ACC_PROTECTED : Nat := 0x0004
def JAVAMETHOD_ACC_STATIC : Nat := 0x0008
def JAVAMETHOD_ACC_FINAL : Nat := 0x0010
def JAVAMETHOD_ACC_SYNCHRONIZED : Nat := 0x0020
def JAVAMETHOD_ACC_BRIDGE : Nat := 0x0040
def JAVAMETHOD_ACC_VARARGS : Nat := 0x0080
def JAVAMETHOD_ACC_NATIVE : Nat := 0x0100
def JAVAMETHOD_ACC_ABSTRACT : Nat := 0x0400
def JAVAMETHOD_ACC_STRICT : Nat := 0x0800
def JAVAMETHOD_ACC_SYNTHETIC : Nat := 0x1000

def javamethod_is_public (method : JavaMethod) : Bool :=
  if method.access_flags &&& JAVAMETHOD_ACC_PUBLIC ≠ 0 then true else false

def javamethod_is_protected (method : JavaMethod) : Bool :=
  if method.access_flags &&& JAVAMETHOD_ACC_PROTECTED ≠ 0 then true else false

def javamethod_is_private (method : JavaMethod) : Bool :=
  if method.access_flags &&& JAVAMETHOD_ACC_PRIVATE ≠ 0 then true else false

def javamethod_is_static (method : JavaMethod) : Bool :=
  if method.access_flags &&& JAVAMETHOD_ACC_STATIC ≠ 0 then true else false

def javamethod_is_final (method : JavaMethod) : Bool :=
  if method.access_flags &&& JAVAMETHOD_ACC_FINAL ≠ 0 then true else false

def javamethod_is_synchronized (method : JavaMethod) : Bool :=
  if method.access_flags &&& JAVAMETHOD_ACC_SYNCHRONIZED ≠ 0 then true else false

def javamethod_is_bridge_method (method : JavaMethod) : Bool :=
  if method.access_flags &&& JAVAMETHOD_ACC_BRIDGE ≠ 0 then true else false

def javamethod_has_varargs (method : JavaMethod) : Bool :=
  if method.access_flags &&& JAVAMETHOD_ACC_VARARGS ≠ 0 then true else false

def javamethod_is_abstract (method : JavaMethod) : Bool :=
  if method.access_flags &&& JAVAMETHOD_ACC_ABSTRACT ≠ 0 then true else false

def javamethod_set_is_public (method : JavaMethod) (value : Bool) : JavaMethod :=
  if value = true then
    { method with access_flags := method.access_flags ||| JAVAMETHOD_ACC_PUBLIC }
  else { method with access_flags := method.access_flags &&& not16 JAVAMETHOD_ACC_PUBLIC }

def javamethod_set_is_protected (method : JavaMethod) (value : Bool) : JavaMethod :=
  if value = true then
    { method with access_flags := method.access_flags ||| JAVAMETHOD_ACC_PROTECTED }
  else { method with access_flags := method.access_flags &&& not16 JAVAMETHOD_ACC_PROTECTED }

def javamethod_set_is_private (method : JavaMethod) (value : Bool) : JavaMethod :=
  if value = true then
    { method with access_flags := method.access_flags ||| JAVAMETHOD_ACC_PRIVATE }
  else { method with access_flags := method.access_flags &&& not16 JAVAMETHOD_ACC_PRIVATE }

def javamethod_set_is_abstract (method : JavaMethod) (value : Bool) : JavaMethod :=
  if value = true then
    { method with access_flags := method.access_flags ||| JAVAMETHOD_ACC_ABSTRACT }
  else { method with access_flags := method.access_flags &&& not16 JAVAMETHOD_ACC_ABSTRACT }

def javamethod_set_is_static (method : JavaMethod) (value : Bool) : JavaMethod :=
  if value = true then
    { method with access_flags := method.access_flags ||| JAVAMETHOD_ACC_STATIC }
  else { method with access_flags := method.access_flags &&& not16 JAVAMETHOD_ACC_STATIC }

def javamethod_set_is_final (method : JavaMethod) (value : Bool) : JavaMethod :=
  if value = true then
    { method with access_flags := method.access_flags ||| JAVAMETHOD_ACC_FINAL }
  else { method with access_flags := method.access_flags &&& not16 JAVAMETHOD_ACC_FINAL }

def javamethod_set_is_synchronized (method : JavaMethod) (value : Bool) : JavaMethod :=
  if value = true then
    { method with access_flags := method.access_flags ||| JAVAMETHOD_ACC_SYNCHRONIZED }
  else
    { method with access_flags := method.access_flags &&& not16 JAVAMETHOD_ACC_SYNCHRONIZED }

/-! ## Accessors of `JavaField` and `JavaMethod` (javafield.c, javamethod.c) -/

def javafield_get_name (field : JavaField) : Option Bytes := field.name

def javafield_get_descriptor (field : JavaField) : Option Bytes := field.descriptor

def javafield_get_signature (field : JavaField) : Option Bytes := field.signature

def javamethod_get_name (method : JavaMethod) : Option Bytes := method.name

def javamethod_get_descriptor (method : JavaMethod) : Option Bytes := method.descriptor

def javamethod_get_signature (method : JavaMethod) : Option Bytes := method.signature

def javamethod_get_exceptions (method : JavaMethod) : Option (List Bytes) := method.exceptions

/-! ## Predicates used to state the properties -/

/-- Every error the run can report to the caller satisfies `P`. -/
def Exec.ErrorsIn {α : Type} (P : GError → Prop) : Exec α → Prop
  | .error e => P e
  | _ => True

/-- The tag bytes the constant-pool decoder has a `case` for. -/
def recognised_tag (tag : Nat) : Prop :=
  tag ∈ [TAG_UTF8, TAG_INTEGER, TAG_FLOAT, TAG_LONG, TAG_DOUBLE, TAG_CLASS, TAG_STRING,
    TAG_FIELDREF, TAG_METHODREF, TAG_INTERFACEMETHODREF, TAG_NAMEANDTYPE]

/-- Relates a run `x` over a buffer to the run `x'` of the same code over the
first `len` bytes of that buffer, both started at offset `o`; `off` reads the
final offset out of a result.  If `x` ends at an offset within the first `len`
bytes, `x'` gives the same result; if `x` ends beyond them, `x'` has read
past the end of the shorter buffer. -/
def Truncates {β : Type} (len : Nat) (off : β → Nat) (o : Nat) (x x' : Exec β) : Prop :=
  ∀ r, x = .ok r →
    o ≤ off r ∧ (o ≤ len → x' = if off r ≤ len then .ok r else .undefined)

/-- The entry holds the value of a Long or Double record (not the
placeholder of its second slot). -/
def is_long_or_double (e : cp_info) : Bool :=
  match e.value with
  | .l _ => true
  | .d _ => true
  | _ => false

/-- The 64-bit value of the 8 payload bytes of a Long (tag 5) or Double
(tag 6) record: the big-endian two's-complement integer, or the `double` whose
bit pattern is the big-endian value of the bytes. -/
def wide_value (tag : Nat) (b : Bytes) : cp_value :=
  if tag = TAG_LONG then .l (toSigned 64 (be b)) else .d (be b)

/-- What `classname_to_external_format` does to one character. -/
def to_external_char (ch : Byte) : Byte := if ch = SLASH then DOT else ch

/-- `e'` is the entry `e`, possibly after its string went through
`classname_to_external_format`. -/
def SlotConv (e e' : cp_info) : Prop :=
  e' = e ∨ ∃ t s, e = ⟨t, .str s⟩ ∧ e' = ⟨t, .str (classname_to_external_format s)⟩

/-- `p'` is the pool `p` after some in-place name conversions: the same
slots, some strings converted. -/
def PoolConv (p p' : List cp_info) : Prop :=
  ∀ j : Nat, (p[j]? = none ∧ p'[j]? = none) ∨
    ∃ e e' : cp_info, p[j]? = some e ∧ p'[j]? = some e' ∧ SlotConv e e'

/-- The `code_length` field of a Code attribute payload: the big-endian value
of its bytes 4..7. -/
def code_length_field (p : Bytes) : Nat := be ((p.drop 4).take 4)

/-- A class file with one method `m()V` whose Code attribute holds one byte of
bytecode (`return`). -/
def one_method_class : Bytes :=
  [0xCA, 0xFE, 0xBA, 0xBE, 0, 0, 0, 0x32, 0, 6,
   1, 0, 1, 0x41,
   7, 0, 1,
   1, 0, 1, 0x6D,
   1, 0, 3, 0x28, 0x29, 0x56,
   1, 0, 4, 0x43, 0x6F, 0x64, 0x65,
   0, 1, 0, 2, 0, 0,
   0, 0,
   0, 0,
   0, 1,
   0, 1, 0, 3, 0, 4, 0, 1,
   0, 5, 0, 0, 0, 13, 0, 0, 0, 0, 0, 0, 0, 1, 0xB1, 0, 0, 0, 0,
   0, 0]

/-- The Code attribute record of `one_method_class`. -/
def one_method_class_code : attribute_info :=
  ⟨4, 13, some [0, 0, 0, 0, 0, 0, 0, 1, 0xB1, 0, 0, 0, 0]⟩

/-- What `javaclass_new` builds from `one_method_class`. -/
def one_method_class_decoded : JavaClass :=
  { magic_number := 0xCAFEBABE, minor_version := 0, major_version := 50,
    constant_pool_count := 5,
    constant_pool := [⟨1, .str [0x41]⟩, ⟨7, .index 0⟩, ⟨1, .str [0x6D]⟩,
      ⟨1, .str [0x28, 0x29, 0x56]⟩, ⟨1, .str [0x43, 0x6F, 0x64, 0x65]⟩],
    access_flags := 1, this_class := 1, super_class := 65535,
    interfaces_count := 0, interfaces := [], fields_count := 0, fields := [],
    methods_count := 1, methods := [⟨1, 2, 3, 1, [one_method_class_code]⟩],
    attributes_count := 0, attributes := [],
    _package := none, _classname := some [0x41], _interfaces := none, _fields := none,
    _methods := some [⟨1, some [0x6D], some [0x28, 0x29, 0x56], none, none, some [0xB1], 1⟩],
    _signature := none }

/-- The smallest class file: `public class pkg.ClassName extends
java.lang.Object`, version 50.0, no interface, field, method or attribute. -/
def minimal_class : Bytes :=
  [0xCA, 0xFE, 0xBA, 0xBE, 0, 0, 0, 0x32, 0, 5,
   1, 0, 13] ++ ascii "pkg/ClassName" ++
  [7, 0, 1,
   1, 0, 16] ++ ascii "java/lang/Object" ++
  [7, 0, 3,
   0, 1, 0, 2, 0, 4,
   0, 0, 0, 0, 0, 0, 0, 0]

/-- What `javaclass_new` builds from `minimal_class`. -/
def minimal_class_decoded : JavaClass :=
  { magic_number := 0xCAFEBABE, minor_version := 0, major_version := 50,
    constant_pool_count := 4,
    constant_pool := [⟨1, .str (ascii "pkg.ClassName")⟩, ⟨7, .index 0⟩,
      ⟨1, .str (ascii "java.lang.Object")⟩, ⟨7, .index 2⟩],
    access_flags := 1, this_class := 1, super_class := 3,
    interfaces_count := 0, interfaces := [], fields_count := 0, fields := [],
    methods_count := 0, methods := [],
    attributes_count := 0, attributes := [],
    _package := some (ascii "pkg"), _classname := some (ascii "ClassName"),
    _interfaces := none, _fields := none, _methods := none, _signature := none }

/-- The contract of a flag setter of `JavaField` for the flag at bit `k`:
the getter returns the value just set, every other bit of the access flags is
as before, and so are name, descriptor and signature. -/
def FieldSetterContract (set : JavaField → Bool → JavaField) (get : JavaField → Bool)
    (k : Nat) (field : JavaField) (value : Bool) : Prop :=
  get (set field value) = value ∧
  (∀ i : Nat, i ≠ k →
    (set field value).access_flags.testBit i = field.access_flags.testBit i) ∧
  (set field value).name = field.name ∧
  (set field value).descriptor = field.descriptor ∧
  (set field value).signature = field.signature

/-- The contract of a flag setter of `JavaMethod` for the flag at bit `k`:
the getter returns the value just set, every other bit of the access flags is
as before, and so are name, descriptor, signature, exceptions and code. -/
def MethodSetterContract (set : JavaMethod → Bool → JavaMethod) (get : JavaMethod → Bool)
    (k : Nat) (method : JavaMethod) (value : Bool) : Prop :=
  get (set method value) = value ∧
  (∀ i : Nat, i ≠ k →
    (set method value).access_flags.testBit i = method.access_flags.testBit i) ∧
  (set method value).name = method.name ∧
  (set method value).descriptor = method.descriptor ∧
  (set method value).signature = method.signature ∧
  (set method value).exceptions = method.exceptions ∧
  (set method value).code = method.code ∧
  (set method value).codelen = method.codelen

/-- Slot `i` of the pool holds a class entry whose name index `j` is the slot
of a Utf8 entry holding the bytes `s`. -/
def class_name_at (pool : List cp_info) (i j : Nat) (s : Bytes) : Prop :=
  pool[i]? = some ⟨TAG_CLASS, .index j⟩ ∧ pool[j]? = some ⟨TAG_UTF8, .str s⟩

/-- The external form of a name: every `'/'` replaced by `'.'`. -/
def external_name (name : Bytes) : Bytes := name.map to_external_char

/-- The constant pool as `read_constant_pool` leaves it, before any name in
it is converted, with the offset of the byte after it. -/
def pool_as_read (classbytes : Bytes) : Exec (List cp_info × Nat) := do
  let (cnt, offset) ← read_u16 classbytes 8
  read_constant_pool classbytes (dec16 cnt) offset

/-- A class file for `public class A implements a.I, b.J`, without a
super-class. -/
def two_interface_class : Bytes :=
  [0xCA, 0xFE, 0xBA, 0xBE, 0, 0, 0, 0x32, 0, 7,
   1, 0, 1, 0x41,
   7, 0, 1,
   1, 0, 3, 0x61, 0x2F, 0x49,
   7, 0, 3,
   1, 0, 3, 0x62, 0x2F, 0x4A,
   7, 0, 5,
   0, 1, 0, 2, 0, 0,
   0, 2, 0, 4, 0, 6,
   0, 0, 0, 0, 0, 0]

/-- What `javaclass_new` builds from `two_interface_class`. -/
def two_interface_class_decoded : JavaClass :=
  { magic_number := 0xCAFEBABE, minor_version := 0, major_version := 50,
    constant_pool_count := 6,
    constant_pool := [⟨1, .str [0x41]⟩, ⟨7, .index 0⟩, ⟨1, .str [0x61, 0x2E, 0x49]⟩,
      ⟨7, .index 2⟩, ⟨1, .str [0x62, 0x2E, 0x4A]⟩, ⟨7, .index 4⟩],
    access_flags := 1, this_class := 1, super_class := 65535,
    interfaces_count := 2, interfaces := [3, 5], fields_count := 0, fields := [],
    methods_count := 0, methods := [],
    attributes_count := 0, attributes := [],
    _package := none, _classname := some [0x41],
    _interfaces := some [2, 4], _fields := none, _methods := none, _signature := none }

/-- A method descriptor without its bytecode. -/
def erase_code (method : JavaMethod) : JavaMethod :=
  { method with code := none, codelen := 0 }

/-- A class whose method descriptors are without their bytecode; every other
part is kept. -/
def erase_codes (c : JavaClass) : JavaClass :=
  { c with _methods := c._methods.map (fun methods => methods.map erase_code) }

/-- Index `i` is a slot of the pool and the slot holds a string under the
Utf8 tag. -/
def utf8_at (pool : List cp_info) (i : Nat) : Prop :=
  ∃ s, pool[i]? = some ⟨TAG_UTF8, .str s⟩

/-- Index `i` is a slot of the pool, the slot holds a class entry, and the
name index inside it is a slot that holds a string under the Utf8 tag. -/
def class_at (pool : List cp_info) (i : Nat) : Prop :=
  ∃ j s, class_name_at pool i j s

/-- The indices dereferenced through an attribute array: every attribute
name index, and the string index in the first two payload bytes of every
attribute named `Signature`. -/
def attributes_refs_ok (pool : List cp_info) (attrs : List attribute_info) : Prop :=
  ∀ a ∈ attrs, utf8_at pool a.attribute_name_index ∧
    (string_from_cp pool a.attribute_name_index = .ok (ascii "Signature") →
      2 ≤ (payload a.info).length ∧
      utf8_at pool (dec16 (be ((payload a.info).take 2))))

/-- The payload size of a constant-pool record with tag `tag`, in bytes after
the tag byte; `len` is the length field of a Utf8 record. -/
def cp_payload_size (tag len : Nat) : Nat :=
  if tag = TAG_UTF8 then 2 + len
  else if tag = TAG_INTEGER ∨ tag = TAG_FLOAT then 4
  else if tag = TAG_LONG ∨ tag = TAG_DOUBLE then 8
  else if tag = TAG_CLASS ∨ tag = TAG_STRING then 2
  else 4

/-- The bytes of the stream that went into an entry of the pool: the tag byte
and the payload of its record; none for the placeholder slot after a Long or
Double. -/
def cp_record_size (e : cp_info) : Nat :=
  match e.value with
  | .uninit => 0
  | .str s => 1 + cp_payload_size e.tag s.length
  | _ => 1 + cp_payload_size e.tag 0

/-- The bytes an attribute array occupies in the stream: for each record a
6-byte header and as many bytes as its length field declares. -/
def attributes_span (attrs : List attribute_info) : Nat :=
  (attrs.map (fun a => 6 + a.attribute_length)).sum

/-- The bytes a field array occupies in the stream: for each record an 8-byte
header and its attribute array. -/
def fields_span (fields : List field_info) : Nat :=
  (fields.map (fun f => 8 + attributes_span f.attributes)).sum

/-- The bytes a method array occupies in the stream: for each record an 8-byte
header and its attribute array. -/
def methods_span (methods : List method_info) : Nat :=
  (methods.map (fun m => 8 + attributes_span m.attributes)).sum

/-- The attribute record `a` was read from position `p` of the stream: name
index and length come from the 6-byte header, and the payload pointer is as
`read_attributes` leaves it. -/
def attribute_record_at (pool : List cp_info) (classbytes : Bytes) (p : Nat)
    (a : attribute_info) : Prop :=
  p + 6 ≤ classbytes.length ∧
  a.attribute_name_index = dec16 (be ((classbytes.drop p).take 2)) ∧
  a.attribute_length = be ((classbytes.drop (p + 2)).take 4) ∧
  ∃ name, string_from_cp pool a.attribute_name_index = .ok name ∧
    (is_known_attribute (some name) = true →
      p + 6 + a.attribute_length ≤ classbytes.length ∧
      payload a.info = (classbytes.drop (p + 6)).take a.attribute_length ∧
      (payload a.info).length = a.attribute_length ∧
      (a.info = none ↔ a.attribute_length = 0)) ∧
    (is_known_attribute (some name) = false → a.info = none)

/-- The field record `f` was read from position `p` of the stream: an 8-byte
header (flags, name index, descriptor index, attribute count) followed by its
attribute array. -/
def field_record_at (pool : List cp_info) (classbytes : Bytes) (p : Nat)
    (f : field_info) : Prop :=
  p + 8 ≤ classbytes.length ∧
  f.access_flags = be ((classbytes.drop p).take 2) ∧
  f.name_index = dec16 (be ((classbytes.drop (p + 2)).take 2)) ∧
  f.descriptor_index = dec16 (be ((classbytes.drop (p + 4)).take 2)) ∧
  f.attributes_count = be ((classbytes.drop (p + 6)).take 2) ∧
  ∃ o, read_attributes pool classbytes f.attributes_count (p + 8) = .ok (f.attributes, o)

/-- The method record `m` was read from position `p` of the stream: an 8-byte
header (flags, name index, descriptor index, attribute count) followed by its
attribute array. -/
def method_record_at (pool : List cp_info) (classbytes : Bytes) (p : Nat)
    (m : method_info) : Prop :=
  p + 8 ≤ classbytes.length ∧
  m.access_flags = be ((classbytes.drop p).take 2) ∧
  m.name_index = dec16 (be ((classbytes.drop (p + 2)).take 2)) ∧
  m.descriptor_index = dec16 (be ((classbytes.drop (p + 4)).take 2)) ∧
  m.attributes_count = be ((classbytes.drop (p + 6)).take 2) ∧
  ∃ o, read_attributes pool classbytes m.attributes_count (p + 8) = .ok (m.attributes, o)

/-- The name is one of the four attribute names of the allow-list, byte for
byte. -/
def known_attribute_name (name : Bytes) : Prop :=
  name = ascii "Exceptions" ∨ name = ascii "SourceFile" ∨ name = ascii "Signature" ∨
    name = ascii "Code"

/-- The re-based value of a 2-byte reference whose bytes are `b0`, `b1` in
file order: `(256 * b0 + b1 - 1) mod 2^16`. -/
def rebased (b0 b1 : Byte) : Nat :=
  Int.toNat ((256 * (b0.val : Int) + (b1.val : Int) - 1) % 65536)

/-- The value `v` is the re-based value of the two bytes at positions `p` and
`p + 1` of the stream. -/
def stored_rebased (classbytes : Bytes) (p v : Nat) : Prop :=
  ∃ b0 b1 : Byte, classbytes[p]? = some b0 ∧ classbytes[p + 1]? = some b1 ∧
    v = rebased b0 b1

/-- The slot indices `read_constant_pool` writes (lines 149-189), in the
order of the writes: slot `i` for the record decoded into it (line 150) and,
after a Long or Double, slot `i + 1` for the placeholder tag (lines 171-173,
181-183).  The first argument is `constant_pool_count - i`. -/
def cp_written_slots (classbytes : Bytes) : Nat → Nat → Nat → List Nat
  | 0, _, _ => []
  | n + 1, i, offset =>
    i ::
      match read_cp_entry classbytes offset with
      | .ok (_, two, offset) =>
        if two then
          (i + 1) ::
            match n with
            | 0 => []
            | m + 1 => cp_written_slots classbytes m (i + 2) offset
        else cp_written_slots classbytes n (i + 1) offset
      | _ => []

/-- A class file whose pool of 3 slots (declared count 4) holds a Utf8 entry,
a class entry and, in its last slot, a Long. -/
def long_in_last_slot_class : Bytes :=
  [0xCA, 0xFE, 0xBA, 0xBE, 0, 0, 0, 0x32, 0, 4,
   1, 0, 1, 0x41,
   7, 0, 1,
   5, 0, 0, 0, 0, 0, 0, 0, 9,
   0, 1, 0, 2, 0, 0,
   0, 0, 0, 0, 0, 0, 0, 0]

/-- A class file that declares the constant-pool count 0. -/
def zero_count_class : Bytes :=
  [0xCA, 0xFE, 0xBA, 0xBE, 0, 0, 0, 0x32, 0, 0,
   0, 1, 0, 0, 0, 0,
   0, 0, 0, 0, 0, 0, 0, 0]

/-- An interface list that declares 32768 entries and holds all of their
65536 bytes (each index is 0x0101). -/
def wide_interface_list : Bytes :=
  0x80 :: 0x00 :: List.replicate 65536 1

/-- The attribute named `Signature` decides the signature found in an
attribute array (the last one, if there are several): the value is the text of
the Utf8 entry at the index in the first two payload bytes, less one; without
such an attribute there is no signature. -/
def signature_resolved (pool : List cp_info) (attrs : List attribute_info)
    (sig : Option Bytes) : Prop :=
  ((∀ a ∈ attrs, string_from_cp pool a.attribute_name_index ≠ .ok (ascii "Signature")) →
    sig = none) ∧
  (∀ (pre : List attribute_info) (a : attribute_info) (post : List attribute_info),
    attrs = pre ++ a :: post →
    string_from_cp pool a.attribute_name_index = .ok (ascii "Signature") →
    (∀ b ∈ post, string_from_cp pool b.attribute_name_index ≠ .ok (ascii "Signature")) →
    2 ≤ (payload a.info).length ∧ 1 ≤ be ((payload a.info).take 2) ∧
    ∃ text, string_from_cp pool (be ((payload a.info).take 2) - 1) = .ok text ∧
      sig = some text)

/-- A class file for `class A` with one method `m()V` that declares the
checked exception `a/E`: the pool holds `A`, class 1, `m`, `()V`,
`Exceptions`, `a/E`, class 6. -/
def throwing_method_class : Bytes :=
  [0xCA, 0xFE, 0xBA, 0xBE, 0, 0, 0, 0x32, 0, 8,
   1, 0, 1, 0x41,
   7, 0, 1,
   1, 0, 1, 0x6D,
   1, 0, 3, 0x28, 0x29, 0x56,
   1, 0, 10, 0x45, 0x78, 0x63, 0x65, 0x70, 0x74, 0x69, 0x6F, 0x6E, 0x73,
   1, 0, 3, 0x61, 0x2F, 0x45,
   7, 0, 6,
   0, 0x21, 0, 2, 0, 0, 0, 0, 0, 0, 0, 1,
   0, 1, 0, 3, 0, 4, 0, 1,
   0, 5, 0, 0, 0, 4, 0, 1, 0, 7,
   0, 0]

/-- The `method_info` record of `throwing_method_class`. -/
def throwing_method_info : method_info :=
  { access_flags := 1, name_index := 2, descriptor_index := 3, attributes_count := 1,
    attributes := [⟨4, 4, some [0, 1, 0, 7]⟩] }

/-- The class `javaclass_new` returns for `throwing_method_class`. -/
def throwing_method_class_decoded : JavaClass :=
  { magic_number := 0xCAFEBABE, minor_version := 0, major_version := 50,
    constant_pool_count := 7,
    constant_pool := [⟨1, .str [0x41]⟩, ⟨7, .index 0⟩, ⟨1, .str [0x6D]⟩,
      ⟨1, .str [0x28, 0x29, 0x56]⟩,
      ⟨1, .str [0x45, 0x78, 0x63, 0x65, 0x70, 0x74, 0x69, 0x6F, 0x6E, 0x73]⟩,
      ⟨1, .str [0x61, 0x2E, 0x45]⟩, ⟨7, .index 5⟩],
    access_flags := 33, this_class := 1, super_class := 65535,
    interfaces_count := 0, interfaces := [], fields_count := 0, fields := [],
    methods_count := 1, methods := [throwing_method_info],
    attributes_count := 0, attributes := [],
    _package := none, _classname := some [0x41],
    _interfaces := none, _fields := none,
    _methods := some [⟨1, some [0x6D], some [0x28, 0x29, 0x56], none,
      some [[0x61, 0x2E, 0x45]], none, 0⟩],
    _signature := none }

/-- A class file for the class `a/b` with one private field whose name index
is the Utf8 entry of the class name: the pool holds `a/b`, class 1, `I`,
`Signature`; the field has descriptor `I` and a Signature attribute with string
index 3. -/
def shared_name_class : Bytes :=
  [0xCA, 0xFE, 0xBA, 0xBE, 0, 0, 0, 0x32, 0, 5,
   1, 0, 3, 0x61, 0x2F, 0x62,
   7, 0, 1,
   1, 0, 1, 0x49,
   1, 0, 9, 0x53, 0x69, 0x67, 0x6E, 0x61, 0x74, 0x75, 0x72, 0x65,
   0, 1, 0, 2, 0, 0, 0, 0, 0, 1,
   0, 2, 0, 1, 0, 3, 0, 1,
   0, 4, 0, 0, 0, 2, 0, 3,
   0, 0, 0, 0]

/-- The `field_info` record of `shared_name_class`. -/
def shared_name_field_info : field_info :=
  { access_flags := 2, name_index := 0, descriptor_index := 2, attributes_count := 1,
    attributes := [⟨3, 2, some [0, 3]⟩] }

/-- The pool `read_constant_pool` builds for `shared_name_class`. -/
def shared_name_pool : List cp_info :=
  [⟨1, .str [0x61, 0x2F, 0x62]⟩, ⟨7, .index 0⟩, ⟨1, .str [0x49]⟩,
   ⟨1, .str [0x53, 0x69, 0x67, 0x6E, 0x61, 0x74, 0x75, 0x72, 0x65]⟩]

/-- The class `javaclass_new` returns for `shared_name_class`. -/
def shared_name_class_decoded : JavaClass :=
  { magic_number := 0xCAFEBABE, minor_version := 0, major_version := 50,
    constant_pool_count := 4,
    constant_pool := [⟨1, .str [0x61, 0x2E, 0x62]⟩, ⟨7, .index 0⟩, ⟨1, .str [0x49]⟩,
      ⟨1, .str [0x53, 0x69, 0x67, 0x6E, 0x61, 0x74, 0x75, 0x72, 0x65]⟩],
    access_flags := 1, this_class := 1, super_class := 65535,
    interfaces_count := 0, interfaces := [], fields_count := 1,
    fields := [shared_name_field_info],
    methods_count := 0, methods := [],
    attributes_count := 0, attributes := [],
    _package := some [0x61], _classname := some [0x62],
    _interfaces := none,
    _fields := some [⟨2, some [0x61, 0x2E, 0x62], some [0x49], some [0x49]⟩],
    _methods := none, _signature := none }

/-- Slot `j` of the pool `pool0` is the name slot of one of its class
entries. -/
def class_name_slot (pool0 : List cp_info) (j : Nat) : Prop :=
  ∃ i s, class_name_at pool0 i j s

/-- The pool `p` is the pool `pool0` after some class names were converted in
place: a slot holds what it held in `pool0`, or it is the name slot of a class
entry and holds the converted string. -/
def NamesConverted (pool0 p : List cp_info) : Prop :=
  ∀ j : Nat, p[j]? = pool0[j]? ∨
    ∃ i s, class_name_at pool0 i j s ∧
      p[j]? = some ⟨TAG_UTF8, .str (classname_to_external_format s)⟩

/-- The text `text` reported for slot `idx` against the pool as read
`pool0`: the slot holds a Utf8 string, and the text is its C string, or, only
when the slot is the name slot of a class entry, that C string with every
`'/'` replaced by `'.'`. -/
def reported_text (pool0 : List cp_info) (idx : Nat) (text : Option Bytes) : Prop :=
  ∃ s, pool0[idx]? = some ⟨TAG_UTF8, .str s⟩ ∧
    (text = some (cstr s) ∨
      (class_name_slot pool0 idx ∧ text = some (external_name (cstr s))))

/-- The attribute record `a` belongs to the class `c`: to its top-level
attribute array, or to the attribute array of one of its field or method
records. -/
def attribute_of_class (c : JavaClass) (a : attribute_info) : Prop :=
  a ∈ c.attributes ∨ (∃ f ∈ c.fields, a ∈ f.attributes) ∨
    (∃ m ∈ c.methods, a ∈ m.attributes)

/-- The name index of the attribute record `a` resolves, in `pool`, to the
C string `name`. -/
@[reducible] def attribute_named (pool : List cp_info) (a : attribute_info) (name : String) :
    Prop :=
  string_from_cp pool a.attribute_name_index = .ok (ascii name)

/-- A class file for `class A` with one method `m()V` that carries four
attributes: `Exceptions` with count 0 (2 bytes), `Exceptions` with count 5 in
a payload of 2 bytes, `Code` with `code_length` 9 in a payload of 8 bytes, and
`Code` with `code_length` 1 in a payload of 9 bytes.  The pool holds `A`,
class 1, `m`, `()V`, `Exceptions`, `Code`. -/
def unread_payloads_class : Bytes :=
  [0xCA, 0xFE, 0xBA, 0xBE, 0, 0, 0, 0x32, 0, 7,
   1, 0, 1, 0x41,
   7, 0, 1,
   1, 0, 1, 0x6D,
   1, 0, 3, 0x28, 0x29, 0x56,
   1, 0, 10, 0x45, 0x78, 0x63, 0x65, 0x70, 0x74, 0x69, 0x6F, 0x6E, 0x73,
   1, 0, 4, 0x43, 0x6F, 0x64, 0x65,
   0, 0x21, 0, 2, 0, 0, 0, 0, 0, 0, 0, 1,
   0, 1, 0, 3, 0, 4, 0, 4,
   0, 5, 0, 0, 0, 2, 0, 0,
   0, 5, 0, 0, 0, 2, 0, 5,
   0, 6, 0, 0, 0, 8, 0, 0, 0, 0, 0, 0, 0, 9,
   0, 6, 0, 0, 0, 9, 0, 0, 0, 0, 0, 0, 0, 1, 0xB1,
   0, 0]

/-- The pool `read_constant_pool` builds for `unread_payloads_class`; no
name in it holds a `'/'`, so no conversion changes it. -/
def unread_payloads_pool : List cp_info :=
  [⟨1, .str [0x41]⟩, ⟨7, .index 0⟩, ⟨1, .str [0x6D]⟩, ⟨1, .str [0x28, 0x29, 0x56]⟩,
   ⟨1, .str [0x45, 0x78, 0x63, 0x65, 0x70, 0x74, 0x69, 0x6F, 0x6E, 0x73]⟩,
   ⟨1, .str [0x43, 0x6F, 0x64, 0x65]⟩]

/-- The second `Exceptions` attribute of the method of
`unread_payloads_class`. -/
def unread_exceptions_attribute : attribute_info := ⟨4, 2, some [0, 5]⟩

/-- The first `Code` attribute of the method of `unread_payloads_class`. -/
def unread_code_attribute : attribute_info := ⟨5, 8, some [0, 0, 0, 0, 0, 0, 0, 9]⟩

/-- The `method_info` record of `unread_payloads_class`. -/
def unread_payloads_method_info : method_info :=
  { access_flags := 1, name_index := 2, descriptor_index := 3, attributes_count := 4,
    attributes := [⟨4, 2, some [0, 0]⟩, unread_exceptions_attribute, unread_code_attribute,
      ⟨5, 9, some [0, 0, 0, 0, 0, 0, 0, 1, 0xB1]⟩] }

/-- The class `javaclass_new` returns for `unread_payloads_class` with
`includecode = TRUE`. -/
def unread_payloads_class_decoded : JavaClass :=
  { magic_number := 0xCAFEBABE, minor_version := 0, major_version := 50,
    constant_pool_count := 6,
    constant_pool := unread_payloads_pool,
    access_flags := 33, this_class := 1, super_class := 65535,
    interfaces_count := 0, interfaces := [], fields_count := 0, fields := [],
    methods_count := 1, methods := [unread_payloads_method_info],
    attributes_count := 0, attributes := [],
    _package := none, _classname := some [0x41],
    _interfaces := none, _fields := none,
    _methods := some [⟨1, some [0x6D], some [0x28, 0x29, 0x56], none, none, some [0xB1], 1⟩],
    _signature := none }

/-- The signature found in an attribute array comes from its last attribute
named `Signature` (names resolved in the pool as read `pool0`): the text of the
Utf8 entry, in the pool `pv` of the second pass, at the index in the first two
payload bytes less one; without such an attribute there is none. -/
def signature_from_last (pool0 pv : List cp_info) (attrs : List attribute_info)
    (sig : Option Bytes) : Prop :=
  ((∀ a ∈ attrs, ¬ attribute_named pool0 a "Signature") → sig = none) ∧
  (∀ (pre : List attribute_info) (a : attribute_info) (post : List attribute_info),
    attrs = pre ++ a :: post → attribute_named pool0 a "Signature" →
    (∀ b ∈ post, ¬ attribute_named pool0 b "Signature") →
    2 ≤ (payload a.info).length ∧ 1 ≤ be ((payload a.info).take 2) ∧
    ∃ text, string_from_cp pv (be ((payload a.info).take 2) - 1) = .ok text ∧
      sig = some text)

/-- The bytecode blob of a method comes from the last attribute named `Code`
of its attribute array: `code_length` bytes from payload offset 8, absent when
`code_length` is 0; without such an attribute there is none. -/
def code_from_last (pool0 : List cp_info) (attrs : List attribute_info)
    (code : Option Bytes) (codelen : Nat) : Prop :=
  ((∀ a ∈ attrs, ¬ attribute_named pool0 a "Code") → code = none ∧ codelen = 0) ∧
  (∀ (pre : List attribute_info) (a : attribute_info) (post : List attribute_info),
    attrs = pre ++ a :: post → attribute_named pool0 a "Code" →
    (∀ b ∈ post, ¬ attribute_named pool0 b "Code") →
    8 + code_length_field (payload a.info) ≤ (payload a.info).length ∧
    (code_length_field (payload a.info) = 0 → code = none ∧ codelen = 0) ∧
    (code_length_field (payload a.info) ≠ 0 →
      code = some (((payload a.info).drop 8).take (code_length_field (payload a.info))) ∧
      codelen = code_length_field (payload a.info)))

/-- The exception list of a method comes from the first attribute named
`Exceptions` of its attribute array and from no other: absent when its count is
0, otherwise one name per class index of its payload; without such an
attribute there is none. -/
def exceptions_from_first (pool0 : List cp_info) (attrs : List attribute_info)
    (exc : Option (List Bytes)) : Prop :=
  ((∀ a ∈ attrs, ¬ attribute_named pool0 a "Exceptions") → exc = none) ∧
  (∀ (pre : List attribute_info) (a : attribute_info) (post : List attribute_info),
    attrs = pre ++ a :: post →
    (∀ b ∈ pre, ¬ attribute_named pool0 b "Exceptions") →
    attribute_named pool0 a "Exceptions" →
    2 ≤ (payload a.info).length ∧
    (be ((payload a.info).take 2) = 0 → exc = none) ∧
    (0 < be ((payload a.info).take 2) →
      ∃ names, exc = some names ∧ names.length = be ((payload a.info).take 2) ∧
        ∀ t, t < be ((payload a.info).take 2) →
          2 + 2 * t + 2 ≤ (payload a.info).length ∧
          1 ≤ be (((payload a.info).drop (2 + 2 * t)).take 2) ∧
          ∃ (j : Nat) (s : Bytes),
            class_name_at pool0 (be (((payload a.info).drop (2 + 2 * t)).take 2) - 1) j s ∧
            names[t]? = some (external_name (cstr s))))

/-- A class file for `class A` with one private field (name `A`, descriptor
`I`) that carries two `Signature` attributes, the first with string index 1
(`A`), the second with string index 3 (`I`).  The pool holds `A`, class 1, `I`,
`Signature`. -/
def two_signature_class : Bytes :=
  [0xCA, 0xFE, 0xBA, 0xBE, 0, 0, 0, 0x32, 0, 5,
   1, 0, 1, 0x41,
   7, 0, 1,
   1, 0, 1, 0x49,
   1, 0, 9, 0x53, 0x69, 0x67, 0x6E, 0x61, 0x74, 0x75, 0x72, 0x65,
   0, 1, 0, 2, 0, 0, 0, 0, 0, 1,
   0, 2, 0, 1, 0, 3, 0, 2,
   0, 4, 0, 0, 0, 2, 0, 1,
   0, 4, 0, 0, 0, 2, 0, 3,
   0, 0, 0, 0]

/-- The class `javaclass_new` returns for `two_signature_class`: the signature
of the field is `I`, the text the second attribute points to. -/
def two_signature_class_decoded : JavaClass :=
  { magic_number := 0xCAFEBABE, minor_version := 0, major_version := 50,
    constant_pool_count := 4,
    constant_pool := [⟨1, .str [0x41]⟩, ⟨7, .index 0⟩, ⟨1, .str [0x49]⟩,
      ⟨1, .str [0x53, 0x69, 0x67, 0x6E, 0x61, 0x74, 0x75, 0x72, 0x65]⟩],
    access_flags := 1, this_class := 1, super_class := 65535,
    interfaces_count := 0, interfaces := [], fields_count := 1,
    fields := [⟨2, 0, 2, 2, [⟨3, 2, some [0, 1]⟩, ⟨3, 2, some [0, 3]⟩]⟩],
    methods_count := 0, methods := [],
    attributes_count := 0, attributes := [],
    _package := none, _classname := some [0x41],
    _interfaces := none,
    _fields := some [⟨2, some [0x41], some [0x49], some [0x49]⟩],
    _methods := none, _signature := none }

/-! ## Inputs for the error exit of the constant-pool step -/

/-- A class file with a valid magic number and version 50 that declares the
constant-pool count 3 (two slots).  The record for slot 0 starts with the
byte 99, which is no tag; the three bytes after it would be an empty Utf8
record for slot 1. -/
def unknown_first_tag_class : Bytes :=
  [0xCA, 0xFE, 0xBA, 0xBE, 0, 0, 0, 0x32, 0, 3,
   99,
   1, 0, 0]

/-! ## Long and Double entries as stored -/

/-- The entry a Long or Double record with tag `t` and the 8 payload bytes
`b` leaves in its slot: for a Long the big-endian two's-complement value of
the bytes; for a Double the `gdouble` that `GINT64_CONV` produced from them. -/
def wide_entry (t : Nat) (b : Bytes) (e : cp_info) : Prop :=
  (t = TAG_LONG ∧ e = ⟨t, .l (toSigned 64 (be b))⟩) ∨
  (t = TAG_DOUBLE ∧ ∃ d, GINT64_CONV_gdouble b = .ok d ∧ e = ⟨t, .d d⟩)

/-- A class file for `class A` whose pool holds `A`, class 1 and the Double
constant 1.0 (payload `3F F0 00 00 00 00 00 00` at offsets 18 to 25). -/
def double_constant_class : Bytes :=
  [0xCA, 0xFE, 0xBA, 0xBE, 0, 0, 0, 0x32, 0, 5,
   1, 0, 1, 0x41,
   7, 0, 1,
   6, 0x3F, 0xF0, 0, 0, 0, 0, 0, 0,
   0, 1, 0, 2, 0, 0,
   0, 0, 0, 0, 0, 0, 0, 0]

/-- The class `javaclass_new` returns for `double_constant_class`: the value
stored in slot 2 is the `gdouble` 0.0 (bit pattern 0). -/
def double_constant_class_decoded : JavaClass :=
  { magic_number := 0xCAFEBABE, minor_version := 0, major_version := 50,
    constant_pool_count := 4,
    constant_pool := [⟨1, .str [0x41]⟩, ⟨7, .index 0⟩, ⟨6, .d 0⟩, ⟨6, .uninit⟩],
    access_flags := 1, this_class := 1, super_class := 65535,
    interfaces_count := 0, interfaces := [], fields_count := 0, fields := [],
    methods_count := 0, methods := [],
    attributes_count := 0, attributes := [],
    _package := none, _classname := some [0x41],
    _interfaces := none, _fields := none, _methods := none, _signature := none }

/-! ## A Code attribute shorter than its `code_length` -/

/-- The class file `one_method_class` with a shorter Code attribute: its
declared length is 9, so the payload is the 8 bytes up to `code_length` and
one byte of bytecode, while `code_length` is 9. -/
def overread_code_class : Bytes :=
  [0xCA, 0xFE, 0xBA, 0xBE, 0, 0, 0, 0x32, 0, 6,
   1, 0, 1, 0x41,
   7, 0, 1,
   1, 0, 1, 0x6D,
   1, 0, 3, 0x28, 0x29, 0x56,
   1, 0, 4, 0x43, 0x6F, 0x64, 0x65,
   0, 1, 0, 2, 0, 0,
   0, 0,
   0, 0,
   0, 1,
   0, 1, 0, 3, 0, 4, 0, 1,
   0, 5, 0, 0, 0, 9, 0, 0, 0, 0, 0, 0, 0, 9, 0xB1,
   0, 0]

/-- The Code attribute record of `overread_code_class`. -/
def overread_code_attribute : attribute_info :=
  ⟨4, 9, some [0, 0, 0, 0, 0, 0, 0, 9, 0xB1]⟩

/-- The method record of `overread_code_class`. -/
def overread_code_method_info : method_info :=
  ⟨1, 2, 3, 1, [overread_code_attribute]⟩

/-- What `javaclass_new` builds from `overread_code_class` when `includecode`
is `FALSE`. -/
def overread_code_class_decoded : JavaClass :=
  { magic_number := 0xCAFEBABE, minor_version := 0, major_version := 50,
    constant_pool_count := 5,
    constant_pool := [⟨1, .str [0x41]⟩, ⟨7, .index 0⟩, ⟨1, .str [0x6D]⟩,
      ⟨1, .str [0x28, 0x29, 0x56]⟩, ⟨1, .str [0x43, 0x6F, 0x64, 0x65]⟩],
    access_flags := 1, this_class := 1, super_class := 65535,
    interfaces_count := 0, interfaces := [], fields_count := 0, fields := [],
    methods_count := 1, methods := [overread_code_method_info],
    attributes_count := 0, attributes := [],
    _package := none, _classname := some [0x41], _interfaces := none, _fields := none,
    _methods := some [⟨1, some [0x6D], some [0x28, 0x29, 0x56], none, none, none, 0⟩],
    _signature := none }

/-! ## A method name shared with the class name -/

/-- A class file for the class `a/b` with one method whose name index is the
Utf8 entry of the class name: the pool holds `a/b`, class 1 and `()V`; the
method record has flags 1, name index 1, descriptor index 3 and no
attribute. -/
def shared_method_name_class : Bytes :=
  [0xCA, 0xFE, 0xBA, 0xBE, 0, 0, 0, 0x32, 0, 4,
   1, 0, 3, 0x61, 0x2F, 0x62,
   7, 0, 1,
   1, 0, 3, 0x28, 0x29, 0x56,
   0, 1, 0, 2, 0, 0,
   0, 0,
   0, 0,
   0, 1,
   0, 1, 0, 1, 0, 3, 0, 0,
   0, 0]

/-- The pool `read_constant_pool` builds for `shared_method_name_class`. -/
def shared_method_name_pool : List cp_info :=
  [⟨1, .str [0x61, 0x2F, 0x62]⟩, ⟨7, .index 0⟩, ⟨1, .str [0x28, 0x29, 0x56]⟩]

/-- The method record of `shared_method_name_class`. -/
def shared_method_name_info : method_info :=
  { access_flags := 1, name_index := 0, descriptor_index := 2, attributes_count := 0,
    attributes := [] }

/-- The class `javaclass_new` returns for `shared_method_name_class`. -/
def shared_method_name_class_decoded : JavaClass :=
  { magic_number := 0xCAFEBABE, minor_version := 0, major_version := 50,
    constant_pool_count := 3,
    constant_pool := [⟨1, .str [0x61, 0x2E, 0x62]⟩, ⟨7, .index 0⟩,
      ⟨1, .str [0x28, 0x29, 0x56]⟩],
    access_flags := 1, this_class := 1, super_class := 65535,
    interfaces_count := 0, interfaces := [], fields_count := 0, fields := [],
    methods_count := 1, methods := [shared_method_name_info],
    attributes_count := 0, attributes := [],
    _package := some [0x61], _classname := some [0x62],
    _interfaces := none, _fields := none,
    _methods := some [⟨1, some [0x61, 0x2E, 0x62], some [0x28, 0x29, 0x56], none, none,
      none, 0⟩],
    _signature := none }

/-- The signature reported for an attribute array, against the pool as read
`pool0`: none when no attribute is named `Signature`; otherwise the last
attribute of that name has at least 2 payload bytes, their big-endian value is
at least 1, and the signature is the text reported for the Utf8 entry at that
value less one. -/
def signature_reported (pool0 : List cp_info) (attrs : List attribute_info)
    (sig : Option Bytes) : Prop :=
  ((∀ a ∈ attrs, ¬ attribute_named pool0 a "Signature") → sig = none) ∧
  (∀ (pre : List attribute_info) (a : attribute_info) (post : List attribute_info),
    attrs = pre ++ a :: post → attribute_named pool0 a "Signature" →
    (∀ b ∈ post, ¬ attribute_named pool0 b "Signature") →
    2 ≤ (payload a.info).length ∧ 1 ≤ be ((payload a.info).take 2) ∧
    reported_text pool0 (be ((payload a.info).take 2) - 1) sig)

set_option linter.unusedTactic false
set_option linter.unreachableTactic false

/-! ## Basic facts about `Exec` and the cursor -/

@[simp] theorem Exec.ok_bind {α β : Type} (a : α) (f : α → Exec β) :
    (Exec.ok a >>= f) = f a := rfl

@[simp] theorem Exec.error_bind {α β : Type} (e : GError) (f : α → Exec β) :
    ((Exec.error e : Exec α) >>= f) = Exec.error e := rfl

@[simp] theorem Exec.abort_bind {α β : Type} (f : α → Exec β) :
    ((Exec.abort : Exec α) >>= f) = Exec.abort := rfl

@[simp] theorem Exec.undefined_bind {α β : Type} (f : α → Exec β) :
    ((Exec.undefined : Exec α) >>= f) = Exec.undefined := rfl

@[simp] theorem Exec.pure_eq {α : Type} (a : α) : (pure a : Exec α) = Exec.ok a := rfl

theorem be4 (a b c d : Byte) :
    be [a, b, c, d] = a.val * 16777216 + b.val * 65536 + c.val * 256 + d.val := by
  simp [be]; ring

theorem be2 (a b : Byte) : be [a, b] = a.val * 256 + b.val := by
  simp [be]

theorem copy_bytes_ok (src : Bytes) (offset num : Nat) (h : offset + num ≤ src.length)
    (hlen : src.length < 2 ^ 32) :
    copy_bytes src offset num = .ok ((src.drop offset).take num, offset + num) := by
  unfold copy_bytes
  rw [if_pos h, Nat.mod_eq_of_lt (by omega)]

theorem be4_eq_magic (a b c d : Byte) (h : be [a, b, c, d] = 0xCAFEBABE) :
    [a, b, c, d] = [0xCA, 0xFE, 0xBA, 0xBE] := by
  rw [be4] at h
  have ha := a.isLt; have hb := b.isLt; have hc := c.isLt; have hd := d.isLt
  have h1 : a = 0xCA := Fin.ext (by show a.val = 0xCA; omega)
  have h2 : b = 0xFE := Fin.ext (by show b.val = 0xFE; omega)
  have h3 : c = 0xBA := Fin.ext (by show c.val = 0xBA; omega)
  have h4 : d = 0xBE := Fin.ext (by show d.val = 0xBE; omega)
  rw [h1, h2, h3, h4]

/-! ## The magic number -/

/-- C1: for every buffer of at least 4 bytes whose first four bytes are not
CA FE BA BE, and either value of `includecode`, `javaclass_new` returns no
class and sets an error; the result is the same whatever the bytes after the
first four are, so nothing after the magic number is examined. -/
theorem bad_magic_fails (classbytes : Bytes) (length : Nat) (includecode : Bool)
    (hlen : 4 ≤ classbytes.length)
    (hmagic : classbytes.take 4 ≠ [0xCA, 0xFE, 0xBA, 0xBE]) :
    javaclass_new classbytes length includecode
      = .error ⟨.JAVACLASS_ERROR_TAG_UNKNOWN, bad_magic_message⟩ := by
  match classbytes, hlen, hmagic with
  | a :: b :: c :: d :: rest, _, hmagic =>
    have hne : be [a, b, c, d] ≠ 0xCAFEBABE :=
      fun h => hmagic (by simpa using be4_eq_magic a b c d h)
    simp [javaclass_new, read_u32, copy_bytes, hne]

/-- C1, at a concrete input: a wrong fourth byte, followed by a version. -/
theorem bad_magic_fails_witness :
    javaclass_new [0xCA, 0xFE, 0xBA, 0xBF, 0, 0, 0, 50] 8 true
      = .error ⟨.JAVACLASS_ERROR_TAG_UNKNOWN, bad_magic_message⟩ :=
  bad_magic_fails [0xCA, 0xFE, 0xBA, 0xBF, 0, 0, 0, 50] 8 true (by decide) (by decide)

/-! ## Which errors each function can report -/

theorem Exec.ErrorsIn.bind {α β : Type} {P : GError → Prop} {x : Exec α} {f : α → Exec β}
    (hx : Exec.ErrorsIn P x) (hf : ∀ a, Exec.ErrorsIn P (f a)) :
    Exec.ErrorsIn P (x >>= f) := by
  cases x with
  | ok a => exact hf a
  | error e => exact hx
  | abort => trivial
  | undefined => trivial

theorem Exec.ErrorsIn.pure {α : Type} {P : GError → Prop} (a : α) :
    Exec.ErrorsIn P (pure a : Exec α) := trivial

theorem Exec.ErrorsIn.abort {α : Type} {P : GError → Prop} :
    Exec.ErrorsIn P (Exec.abort : Exec α) := trivial

theorem Exec.ErrorsIn.undefined {α : Type} {P : GError → Prop} :
    Exec.ErrorsIn P (Exec.undefined : Exec α) := trivial

theorem Exec.ErrorsIn.of_eq {α : Type} {P : GError → Prop} {x : Exec α}
    (hx : Exec.ErrorsIn P x) (e : GError) (h : x = .error e) : P e := by
  subst h; exact hx

theorem copy_bytes_errors {P : GError → Prop} (src : Bytes) (offset num : Nat) :
    Exec.ErrorsIn P (copy_bytes src offset num) := by
  unfold copy_bytes
  split
  · exact Exec.ErrorsIn.pure _
  · exact Exec.ErrorsIn.undefined

theorem read_u16_errors {P : GError → Prop} (src : Bytes) (offset : Nat) :
    Exec.ErrorsIn P (read_u16 src offset) := by
  unfold read_u16
  exact Exec.ErrorsIn.bind (copy_bytes_errors _ _ _) (fun _ => Exec.ErrorsIn.pure _)

theorem read_u32_errors {P : GError → Prop} (src : Bytes) (offset : Nat) :
    Exec.ErrorsIn P (read_u32 src offset) := by
  unfold read_u32
  exact Exec.ErrorsIn.bind (copy_bytes_errors _ _ _) (fun _ => Exec.ErrorsIn.pure _)

theorem cp_get_errors {P : GError → Prop} (pool : List cp_info) (i : Nat) :
    Exec.ErrorsIn P (cp_get pool i) := by
  unfold cp_get
  split
  · exact Exec.ErrorsIn.pure _
  · exact Exec.ErrorsIn.undefined

theorem string_from_cp_errors {P : GError → Prop} (pool : List cp_info) (i : Nat) :
    Exec.ErrorsIn P (string_from_cp pool i) := by
  unfold string_from_cp
  repeat' (first
    | split
    | with_reducible apply Exec.ErrorsIn.bind
    | intro _
    | with_reducible exact cp_get_errors _ _
    | with_reducible exact Exec.ErrorsIn.pure _
    | with_reducible exact Exec.ErrorsIn.abort
    | with_reducible exact Exec.ErrorsIn.undefined
    | dsimp only)

theorem classname_from_cp_errors {P : GError → Prop} (pool : List cp_info) (i : Nat) :
    Exec.ErrorsIn P (classname_from_cp pool i) := by
  unfold classname_from_cp
  repeat' (first
    | split
    | with_reducible apply Exec.ErrorsIn.bind
    | intro _
    | with_reducible exact cp_get_errors _ _
    | with_reducible exact Exec.ErrorsIn.pure _
    | with_reducible exact Exec.ErrorsIn.abort
    | with_reducible exact Exec.ErrorsIn.undefined
    | dsimp only)

theorem classname_to_external_format_at_errors {P : GError → Prop} (pool : List cp_info)
    (i : Nat) : Exec.ErrorsIn P (classname_to_external_format_at pool i) := by
  unfold classname_to_external_format_at
  repeat' (first
    | split
    | with_reducible apply Exec.ErrorsIn.bind
    | intro _
    | with_reducible exact classname_from_cp_errors _ _
    | with_reducible exact Exec.ErrorsIn.pure _
    | with_reducible exact Exec.ErrorsIn.undefined
    | dsimp only)

theorem GINT32_CONV_gfloat_errors {P : GError → Prop} (b : Bytes) :
    Exec.ErrorsIn P (GINT32_CONV_gfloat b) := by
  unfold GINT32_CONV_gfloat
  split
  · exact Exec.ErrorsIn.pure _
  · exact Exec.ErrorsIn.undefined

theorem GINT64_CONV_gdouble_errors {P : GError → Prop} (b : Bytes) :
    Exec.ErrorsIn P (GINT64_CONV_gdouble b) := by
  unfold GINT64_CONV_gdouble
  split
  · exact Exec.ErrorsIn.pure _
  · exact Exec.ErrorsIn.undefined

theorem read_cp_entry_errors (classbytes : Bytes) (offset : Nat) :
    Exec.ErrorsIn (fun e => e.code = .JAVACLASS_ERROR_TAG_UNKNOWN)
      (read_cp_entry classbytes offset) := by
  unfold read_cp_entry
  repeat' (first
    | split
    | with_reducible apply Exec.ErrorsIn.bind
    | intro _
    | with_reducible exact copy_bytes_errors _ _ _
    | with_reducible exact read_u16_errors _ _
    | with_reducible exact read_u32_errors _ _
    | with_reducible exact GINT32_CONV_gfloat_errors _
    | with_reducible exact GINT64_CONV_gdouble_errors _
    | with_reducible exact Exec.ErrorsIn.pure _
    | exact (rfl : JavaClassGError.JAVACLASS_ERROR_TAG_UNKNOWN = _)
    | dsimp only)

theorem read_constant_pool_errors (classbytes : Bytes) (n offset : Nat) :
    Exec.ErrorsIn (fun e => e.code = .JAVACLASS_ERROR_TAG_UNKNOWN)
      (read_constant_pool classbytes n offset) := by
  induction n using Nat.strong_induction_on generalizing offset with
  | _ n ih =>
    match n with
    | 0 => exact Exec.ErrorsIn.pure _
    | n + 1 =>
      unfold read_constant_pool
      repeat' (first
        | split
        | with_reducible apply Exec.ErrorsIn.bind
        | intro _
        | with_reducible exact read_cp_entry_errors _ _
        | with_reducible exact ih _ (by omega) _
        | with_reducible exact Exec.ErrorsIn.pure _
        | with_reducible exact Exec.ErrorsIn.undefined
        | dsimp only)

theorem read_attributes_errors {P : GError → Prop} (pool : List cp_info) (classbytes : Bytes)
    (n offset : Nat) : Exec.ErrorsIn P (read_attributes pool classbytes n offset) := by
  induction n generalizing offset with
  | zero => exact Exec.ErrorsIn.pure _
  | succ n ih =>
    unfold read_attributes
    repeat' (first
      | split
      | with_reducible apply Exec.ErrorsIn.bind
      | intro _
      | with_reducible exact read_u16_errors _ _
      | with_reducible exact read_u32_errors _ _
      | with_reducible exact copy_bytes_errors _ _ _
      | with_reducible exact string_from_cp_errors _ _
      | with_reducible exact ih _
      | with_reducible exact Exec.ErrorsIn.pure _
      | dsimp only)

theorem read_fields_errors {P : GError → Prop} (pool : List cp_info) (classbytes : Bytes)
    (n offset : Nat) : Exec.ErrorsIn P (read_fields pool classbytes n offset) := by
  induction n generalizing offset with
  | zero => exact Exec.ErrorsIn.pure _
  | succ n ih =>
    unfold read_fields
    repeat' (first
      | split
      | with_reducible apply Exec.ErrorsIn.bind
      | intro _
      | with_reducible exact read_u16_errors _ _
      | with_reducible exact read_attributes_errors _ _ _ _
      | with_reducible exact ih _
      | with_reducible exact Exec.ErrorsIn.pure _
      | dsimp only)

theorem read_methods_errors {P : GError → Prop} (pool : List cp_info) (classbytes : Bytes)
    (n offset : Nat) : Exec.ErrorsIn P (read_methods pool classbytes n offset) := by
  induction n generalizing offset with
  | zero => exact Exec.ErrorsIn.pure _
  | succ n ih =>
    unfold read_methods
    repeat' (first
      | split
      | with_reducible apply Exec.ErrorsIn.bind
      | intro _
      | with_reducible exact read_u16_errors _ _
      | with_reducible exact read_attributes_errors _ _ _ _
      | with_reducible exact ih _
      | with_reducible exact Exec.ErrorsIn.pure _
      | dsimp only)

theorem read_interfaces_errors {P : GError → Prop} (buf : Bytes) (n i : Nat) :
    Exec.ErrorsIn P (read_interfaces buf n i) := by
  induction n generalizing i with
  | zero => exact Exec.ErrorsIn.pure _
  | succ n ih =>
    unfold read_interfaces
    repeat' (first
      | split
      | with_reducible apply Exec.ErrorsIn.bind
      | intro _
      | with_reducible exact read_u16_errors _ _
      | with_reducible exact ih _
      | with_reducible exact Exec.ErrorsIn.pure _
      | dsimp only)

theorem extract_exceptions_loop_errors {P : GError → Prop} (info : Bytes) (n : Nat)
    (pool : List cp_info) (offset : Nat) :
    Exec.ErrorsIn P (extract_exceptions_loop info n pool offset) := by
  induction n generalizing pool offset with
  | zero => exact Exec.ErrorsIn.pure _
  | succ n ih =>
    unfold extract_exceptions_loop
    repeat' (first
      | split
      | with_reducible apply Exec.ErrorsIn.bind
      | intro _
      | with_reducible exact read_u16_errors _ _
      | with_reducible exact classname_to_external_format_at_errors _ _
      | with_reducible exact classname_from_cp_errors _ _
      | with_reducible exact ih _ _
      | with_reducible exact Exec.ErrorsIn.pure _
      | dsimp only)

theorem extract_exceptions_errors {P : GError → Prop} (pool : List cp_info)
    (attrs : List attribute_info) : Exec.ErrorsIn P (extract_exceptions pool attrs) := by
  induction attrs with
  | nil => exact Exec.ErrorsIn.pure _
  | cons a rest ih =>
    unfold extract_exceptions
    repeat' (first
      | split
      | with_reducible apply Exec.ErrorsIn.bind
      | intro _
      | with_reducible exact read_u16_errors _ _
      | with_reducible exact string_from_cp_errors _ _
      | with_reducible exact extract_exceptions_loop_errors _ _ _ _
      | with_reducible exact ih
      | with_reducible exact Exec.ErrorsIn.pure _
      | dsimp only)

theorem javamethod_set_code_errors {P : GError → Prop} (method : JavaMethod)
    (code : Option Bytes) (codelen : Nat) :
    Exec.ErrorsIn P (javamethod_set_code method code codelen) := by
  unfold javamethod_set_code
  repeat' (first
    | split
    | with_reducible exact Exec.ErrorsIn.pure _
    | with_reducible exact Exec.ErrorsIn.undefined
    | dsimp only)

theorem javaclass_new_interfaces_errors {P : GError → Prop} (idxs : List Nat)
    (pool : List cp_info) : Exec.ErrorsIn P (javaclass_new_interfaces idxs pool) := by
  induction idxs generalizing pool with
  | nil => exact Exec.ErrorsIn.pure _
  | cons idx rest ih =>
    unfold javaclass_new_interfaces
    repeat' (first
      | split
      | with_reducible apply Exec.ErrorsIn.bind
      | intro _
      | with_reducible exact classname_to_external_format_at_errors _ _
      | with_reducible exact classname_from_cp_errors _ _
      | with_reducible exact ih _
      | with_reducible exact Exec.ErrorsIn.pure _
      | dsimp only)

theorem scan_signature_errors {P : GError → Prop} (pool : List cp_info)
    (attrs : List attribute_info) (signature : Option Bytes) :
    Exec.ErrorsIn P (scan_signature pool attrs signature) := by
  induction attrs generalizing signature with
  | nil => exact Exec.ErrorsIn.pure _
  | cons a rest ih =>
    unfold scan_signature
    repeat' (first
      | split
      | with_reducible apply Exec.ErrorsIn.bind
      | intro _
      | with_reducible exact read_u16_errors _ _
      | with_reducible exact string_from_cp_errors _ _
      | with_reducible exact ih _
      | with_reducible exact Exec.ErrorsIn.pure _
      | dsimp only)

theorem javaclass_new_fields_errors {P : GError → Prop} (pool : List cp_info)
    (flds : List field_info) : Exec.ErrorsIn P (javaclass_new_fields pool flds) := by
  induction flds with
  | nil => exact Exec.ErrorsIn.pure _
  | cons fld rest ih =>
    unfold javaclass_new_fields
    repeat' (first
      | split
      | with_reducible apply Exec.ErrorsIn.bind
      | intro _
      | with_reducible exact string_from_cp_errors _ _
      | with_reducible exact scan_signature_errors _ _ _
      | with_reducible exact ih
      | with_reducible exact Exec.ErrorsIn.pure _
      | dsimp only)

theorem scan_method_attributes_errors {P : GError → Prop} (pool : List cp_info)
    (includecode : Bool) (attrs : List attribute_info)
    (st : Option Bytes × Nat × Option Bytes) :
    Exec.ErrorsIn P (scan_method_attributes pool includecode attrs st) := by
  induction attrs generalizing st with
  | nil => exact Exec.ErrorsIn.pure _
  | cons a rest ih =>
    obtain ⟨signature, codelen, code⟩ := st
    unfold scan_method_attributes
    repeat' (first
      | split
      | with_reducible apply Exec.ErrorsIn.bind
      | intro _
      | with_reducible exact read_u16_errors _ _
      | with_reducible exact read_u32_errors _ _
      | with_reducible exact string_from_cp_errors _ _
      | with_reducible exact ih _
      | with_reducible exact Exec.ErrorsIn.pure _
      | dsimp only)

theorem javaclass_new_methods_errors {P : GError → Prop} (includecode : Bool)
    (ms : List method_info) (pool : List cp_info) :
    Exec.ErrorsIn P (javaclass_new_methods includecode ms pool) := by
  induction ms generalizing pool with
  | nil => exact Exec.ErrorsIn.pure _
  | cons m rest ih =>
    unfold javaclass_new_methods
    repeat' (first
      | split
      | with_reducible apply Exec.ErrorsIn.bind
      | intro _
      | with_reducible exact string_from_cp_errors _ _
      | with_reducible exact extract_exceptions_errors _ _
      | with_reducible exact scan_method_attributes_errors _ _ _ _
      | with_reducible exact javamethod_set_code_errors _ _ _
      | with_reducible exact ih _
      | with_reducible exact Exec.ErrorsIn.pure _
      | dsimp only)

theorem javaclass_new_views_interfaces_errors {P : GError → Prop} (c : JavaClass)
    (pool : List cp_info) : Exec.ErrorsIn P (javaclass_new_views_interfaces c pool) := by
  unfold javaclass_new_views_interfaces
  repeat' (first
    | split
    | with_reducible apply Exec.ErrorsIn.bind
    | intro _
    | with_reducible exact javaclass_new_interfaces_errors _ _
    | with_reducible exact Exec.ErrorsIn.pure _
    | dsimp only)

theorem javaclass_new_views_fields_errors {P : GError → Prop} (c : JavaClass)
    (pool : List cp_info) : Exec.ErrorsIn P (javaclass_new_views_fields c pool) := by
  unfold javaclass_new_views_fields
  repeat' (first
    | split
    | with_reducible apply Exec.ErrorsIn.bind
    | intro _
    | with_reducible exact javaclass_new_fields_errors _ _
    | with_reducible exact Exec.ErrorsIn.pure _
    | dsimp only)

theorem javaclass_new_views_methods_errors {P : GError → Prop} (c : JavaClass)
    (includecode : Bool) (pool : List cp_info) :
    Exec.ErrorsIn P (javaclass_new_views_methods c includecode pool) := by
  unfold javaclass_new_views_methods
  repeat' (first
    | split
    | with_reducible apply Exec.ErrorsIn.bind
    | intro _
    | with_reducible exact javaclass_new_methods_errors _ _ _
    | with_reducible exact Exec.ErrorsIn.pure _
    | dsimp only)

theorem javaclass_new_views_errors {P : GError → Prop} (c : JavaClass) (includecode : Bool) :
    Exec.ErrorsIn P (javaclass_new_views c includecode) := by
  unfold javaclass_new_views
  repeat' (first
    | split
    | with_reducible apply Exec.ErrorsIn.bind
    | intro _
    | with_reducible exact classname_from_cp_errors _ _
    | with_reducible exact javaclass_new_views_interfaces_errors _ _
    | with_reducible exact javaclass_new_views_fields_errors _ _
    | with_reducible exact javaclass_new_views_methods_errors _ _ _
    | with_reducible exact scan_signature_errors _ _ _
    | with_reducible exact Exec.ErrorsIn.pure _
    | dsimp only)

theorem javaclass_new_parse_refs_errors {P : GError → Prop} (classbytes : Bytes)
    (pool : List cp_info) (offset : Nat) :
    Exec.ErrorsIn P (javaclass_new_parse_refs classbytes pool offset) := by
  unfold javaclass_new_parse_refs
  repeat' (first
    | split
    | with_reducible apply Exec.ErrorsIn.bind
    | intro _
    | with_reducible exact read_u16_errors _ _
    | with_reducible exact classname_to_external_format_at_errors _ _
    | with_reducible exact Exec.ErrorsIn.pure _
    | dsimp only)

theorem javaclass_new_parse_interfaces_errors {P : GError → Prop} (classbytes : Bytes)
    (offset : Nat) : Exec.ErrorsIn P (javaclass_new_parse_interfaces classbytes offset) := by
  unfold javaclass_new_parse_interfaces
  repeat' (first
    | split
    | with_reducible apply Exec.ErrorsIn.bind
    | intro _
    | with_reducible exact read_u16_errors _ _
    | with_reducible exact copy_bytes_errors _ _ _
    | with_reducible exact read_interfaces_errors _ _ _
    | with_reducible exact Exec.ErrorsIn.pure _
    | dsimp only)

theorem javaclass_new_parse_fields_errors {P : GError → Prop} (pool : List cp_info)
    (classbytes : Bytes) (offset : Nat) :
    Exec.ErrorsIn P (javaclass_new_parse_fields pool classbytes offset) := by
  unfold javaclass_new_parse_fields
  repeat' (first
    | split
    | with_reducible apply Exec.ErrorsIn.bind
    | intro _
    | with_reducible exact read_u16_errors _ _
    | with_reducible exact read_fields_errors _ _ _ _
    | with_reducible exact Exec.ErrorsIn.pure _
    | dsimp only)

theorem javaclass_new_parse_methods_errors {P : GError → Prop} (pool : List cp_info)
    (classbytes : Bytes) (offset : Nat) :
    Exec.ErrorsIn P (javaclass_new_parse_methods pool classbytes offset) := by
  unfold javaclass_new_parse_methods
  repeat' (first
    | split
    | with_reducible apply Exec.ErrorsIn.bind
    | intro _
    | with_reducible exact read_u16_errors _ _
    | with_reducible exact read_methods_errors _ _ _ _
    | with_reducible exact Exec.ErrorsIn.pure _
    | dsimp only)

theorem javaclass_new_parse_attributes_errors {P : GError → Prop} (pool : List cp_info)
    (classbytes : Bytes) (offset : Nat) :
    Exec.ErrorsIn P (javaclass_new_parse_attributes pool classbytes offset) := by
  unfold javaclass_new_parse_attributes
  repeat' (first
    | split
    | with_reducible apply Exec.ErrorsIn.bind
    | intro _
    | with_reducible exact read_u16_errors _ _
    | with_reducible exact read_attributes_errors _ _ _ _
    | with_reducible exact Exec.ErrorsIn.pure _
    | dsimp only)

theorem javaclass_new_parse_pool_error (classbytes : Bytes) (n offset : Nat) (e : GError)
    (h : read_constant_pool classbytes n offset = .error e) :
    javaclass_new_parse_pool classbytes n offset
      = (javaclass_free (cp_tags_written classbytes n offset) >>= fun _ => .error e) := by
  unfold javaclass_new_parse_pool
  rw [h]

theorem javaclass_new_parse_pool_undefined (classbytes : Bytes) (n offset : Nat)
    (h : read_constant_pool classbytes n offset = .undefined) :
    javaclass_new_parse_pool classbytes n offset = .undefined := by
  unfold javaclass_new_parse_pool
  rw [h]

theorem javaclass_new_parse_pool_abort (classbytes : Bytes) (n offset : Nat)
    (h : read_constant_pool classbytes n offset = .abort) :
    javaclass_new_parse_pool classbytes n offset = .abort := by
  unfold javaclass_new_parse_pool
  rw [h]

theorem javaclass_new_parse_pool_ok (classbytes : Bytes) (n offset : Nat)
    (r : List cp_info × Nat) (h : read_constant_pool classbytes n offset = .ok r) :
    javaclass_new_parse_pool classbytes n offset = .ok r := by
  unfold javaclass_new_parse_pool
  rw [h]

theorem javaclass_free_ok_or_undefined (tags : List (Option Nat)) :
    javaclass_free tags = .ok () ∨ javaclass_free tags = .undefined := by
  induction tags with
  | nil => exact Or.inl rfl
  | cons t rest ih =>
    cases t with
    | none => exact Or.inr rfl
    | some v => exact ih

/-- The error exit of lines 436-440 adds no error of its own: what
`javaclass_new_parse_pool` reports is what `read_constant_pool` reported. -/
theorem javaclass_new_parse_pool_errors {P : GError → Prop} (classbytes : Bytes)
    (n offset : Nat) (h : Exec.ErrorsIn P (read_constant_pool classbytes n offset)) :
    Exec.ErrorsIn P (javaclass_new_parse_pool classbytes n offset) := by
  cases hr : read_constant_pool classbytes n offset with
  | ok r => rw [javaclass_new_parse_pool_ok _ _ _ _ hr]; exact Exec.ErrorsIn.pure _
  | error e =>
    rw [javaclass_new_parse_pool_error _ _ _ _ hr]
    rw [hr] at h
    rcases javaclass_free_ok_or_undefined (cp_tags_written classbytes n offset) with hf | hf
    · rw [hf]; exact h
    · rw [hf]; exact Exec.ErrorsIn.undefined
  | abort => rw [javaclass_new_parse_pool_abort _ _ _ hr]; exact Exec.ErrorsIn.abort
  | undefined =>
    rw [javaclass_new_parse_pool_undefined _ _ _ hr]; exact Exec.ErrorsIn.undefined

theorem javaclass_new_parse_pool_total_errors (classbytes : Bytes) (n offset : Nat) :
    Exec.ErrorsIn (fun e => e.code = .JAVACLASS_ERROR_TAG_UNKNOWN)
      (javaclass_new_parse_pool classbytes n offset) :=
  javaclass_new_parse_pool_errors _ _ _ (read_constant_pool_errors _ _ _)

theorem javaclass_new_parse_pool_eq_ok (classbytes : Bytes) (n offset : Nat)
    (r : List cp_info × Nat) :
    javaclass_new_parse_pool classbytes n offset = .ok r ↔
      read_constant_pool classbytes n offset = .ok r := by
  cases hr : read_constant_pool classbytes n offset with
  | ok r1 => rw [javaclass_new_parse_pool_ok _ _ _ _ hr]
  | error e =>
    rw [javaclass_new_parse_pool_error _ _ _ _ hr]
    rcases javaclass_free_ok_or_undefined (cp_tags_written classbytes n offset) with hf | hf
    · rw [hf]; constructor <;> intro h <;> cases h
    · rw [hf]; constructor <;> intro h <;> cases h
  | abort => rw [javaclass_new_parse_pool_abort _ _ _ hr]
  | undefined => rw [javaclass_new_parse_pool_undefined _ _ _ hr]

theorem javaclass_new_parse_errors (classbytes : Bytes) (magic minor major offset : Nat) :
    Exec.ErrorsIn (fun e => e.code = .JAVACLASS_ERROR_TAG_UNKNOWN)
      (javaclass_new_parse classbytes magic minor major offset) := by
  unfold javaclass_new_parse
  repeat' (first
    | split
    | with_reducible apply Exec.ErrorsIn.bind
    | intro _
    | with_reducible exact read_u16_errors _ _
    | with_reducible exact javaclass_new_parse_pool_total_errors _ _ _
    | with_reducible exact javaclass_new_parse_refs_errors _ _ _
    | with_reducible exact javaclass_new_parse_interfaces_errors _ _
    | with_reducible exact javaclass_new_parse_fields_errors _ _ _
    | with_reducible exact javaclass_new_parse_methods_errors _ _ _
    | with_reducible exact javaclass_new_parse_attributes_errors _ _ _
    | with_reducible exact Exec.ErrorsIn.pure _
    | dsimp only)

theorem javaclass_new_body_errors (classbytes : Bytes) (length : Nat) (includecode : Bool)
    (magic minor major offset : Nat) :
    Exec.ErrorsIn (fun e => e.code = .JAVACLASS_ERROR_TAG_UNKNOWN)
      (javaclass_new_body classbytes length includecode magic minor major offset) := by
  unfold javaclass_new_body
  repeat' (first
    | split
    | with_reducible apply Exec.ErrorsIn.bind
    | intro _
    | with_reducible exact javaclass_new_parse_errors _ _ _ _ _
    | with_reducible exact javaclass_new_views_errors _ _
    | with_reducible exact Exec.ErrorsIn.abort
    | dsimp only)

/-! ## Error codes -/

/-- C2 (the code at the failing inputs): a buffer with a wrong magic number
and a buffer with an unknown constant-pool tag are both reported with the code
`JAVACLASS_ERROR_TAG_UNKNOWN`; only the message text differs. -/
theorem bad_magic_shares_unknown_tag_code :
    javaclass_new [0, 0, 0, 0] 4 false
        = .error ⟨.JAVACLASS_ERROR_TAG_UNKNOWN, bad_magic_message⟩ ∧
    javaclass_new [0xCA, 0xFE, 0xBA, 0xBE, 0, 0, 0, 50, 0, 2, 99] 11 false
        = .error ⟨.JAVACLASS_ERROR_TAG_UNKNOWN, unknown_tag_message 99⟩ ∧
    javaclass_new [0xCA, 0xFE, 0xBA, 0xBE, 0, 0, 0, 51] 8 false
        = .error ⟨.JAVACLASS_ERROR_UNSUPPORTED_VERSION, unsupported_version_message⟩ := by
  decide

/-! ## The version check -/

/-- The first eight bytes, once the magic number is right: `javaclass_new`
checks the major version and either reports the version error or goes on with
the rest of the decode. -/
theorem javaclass_new_header (m1 m2 M1 M2 : Byte) (rest : Bytes) (length : Nat)
    (includecode : Bool) :
    javaclass_new (0xCA :: 0xFE :: 0xBA :: 0xBE :: m1 :: m2 :: M1 :: M2 :: rest) length
        includecode
      = if be [M1, M2] > MAX_MAJOR_VERSION then
          .error ⟨.JAVACLASS_ERROR_UNSUPPORTED_VERSION, unsupported_version_message⟩
        else
          javaclass_new_body (0xCA :: 0xFE :: 0xBA :: 0xBE :: m1 :: m2 :: M1 :: M2 :: rest)
            length includecode 0xCAFEBABE (be [m1, m2]) (be [M1, M2]) 8 := by
  have hmagic : be [(0xCA : Byte), 0xFE, 0xBA, 0xBE] = 0xCAFEBABE := by decide
  simp [javaclass_new, read_u32, read_u16, copy_bytes, hmagic]

/-- C3: for every input that starts with CA FE BA BE (and holds the version
fields), `javaclass_new` fails with the unsupported-version error exactly when
the big-endian major version in bytes 6..7 is greater than 50; the minor
version plays no part, and with a major version of at most 50 the decode goes
on past the version check. -/
theorem unsupported_version_iff (m1 m2 M1 M2 : Byte) (rest : Bytes) (length : Nat)
    (includecode : Bool) :
    ((∃ e, javaclass_new (0xCA :: 0xFE :: 0xBA :: 0xBE :: m1 :: m2 :: M1 :: M2 :: rest)
          length includecode = .error e ∧ e.code = .JAVACLASS_ERROR_UNSUPPORTED_VERSION)
        ↔ 50 < M1.val * 256 + M2.val) ∧
    (50 < M1.val * 256 + M2.val →
      javaclass_new (0xCA :: 0xFE :: 0xBA :: 0xBE :: m1 :: m2 :: M1 :: M2 :: rest)
          length includecode
        = .error ⟨.JAVACLASS_ERROR_UNSUPPORTED_VERSION, unsupported_version_message⟩) ∧
    (M1.val * 256 + M2.val ≤ 50 →
      javaclass_new (0xCA :: 0xFE :: 0xBA :: 0xBE :: m1 :: m2 :: M1 :: M2 :: rest)
          length includecode
        = javaclass_new_body
            (0xCA :: 0xFE :: 0xBA :: 0xBE :: m1 :: m2 :: M1 :: M2 :: rest)
            length includecode 0xCAFEBABE (m1.val * 256 + m2.val)
            (M1.val * 256 + M2.val) 8) := by
  rw [javaclass_new_header, be2, be2]
  refine ⟨⟨?_, ?_⟩, ?_, ?_⟩
  · rintro ⟨e, he, hcode⟩
    by_contra hle
    rw [if_neg (by simpa [MAX_MAJOR_VERSION] using hle)] at he
    have := (javaclass_new_body_errors _ _ _ _ _ _ _).of_eq e he
    rw [this] at hcode
    cases hcode
  · intro h
    exact ⟨_, by rw [if_pos (by simpa [MAX_MAJOR_VERSION] using h)], rfl⟩
  · intro h
    rw [if_pos (by simpa [MAX_MAJOR_VERSION] using h)]
  · intro h
    rw [if_neg (by simp [MAX_MAJOR_VERSION]; omega)]

/-! ## The constant-pool loop and its tag bytes -/

theorem be1 (t : Byte) : be [t] = t.val := by simp [be]

theorem copy_bytes_one (classbytes : Bytes) (o : Nat) (t : Byte)
    (h : classbytes[o]? = some t) :
    copy_bytes classbytes o 1 = .ok ([t], (o + 1) % 2 ^ 32) := by
  obtain ⟨hlt, rfl⟩ := List.getElem?_eq_some.mp h
  unfold copy_bytes
  rw [if_pos (by omega), List.take_one_drop_eq_of_lt_length hlt]
  rfl

theorem copy_bytes_one_none (classbytes : Bytes) (o : Nat) (h : classbytes[o]? = none) :
    copy_bytes classbytes o 1 = .undefined := by
  have hle : classbytes.length ≤ o := by simpa using h
  unfold copy_bytes
  rw [if_neg (by omega)]

theorem read_cp_entry_unknown (classbytes : Bytes) (o : Nat) (t : Byte)
    (h : classbytes[o]? = some t) (hbad : ¬ recognised_tag t.val) :
    read_cp_entry classbytes o
      = .error ⟨.JAVACLASS_ERROR_TAG_UNKNOWN, unknown_tag_message t.val⟩ := by
  unfold read_cp_entry
  rw [copy_bytes_one _ _ _ h]
  simp only [Exec.ok_bind, be1]
  simp only [recognised_tag, List.mem_cons, List.mem_singleton, not_or, List.mem_nil_iff,
    or_false] at hbad
  obtain ⟨h1, h2, h3, h4, h5, h6, h7, h8, h9, h10, h11⟩ := hbad
  simp [h1, h2, h3, h4, h5, h6, h7, h8, h9, h10, h11]

theorem read_cp_entry_recognised (classbytes : Bytes) (o : Nat) (t : Byte)
    (h : classbytes[o]? = some t) (hgood : recognised_tag t.val) :
    Exec.ErrorsIn (fun _ => False) (read_cp_entry classbytes o) := by
  unfold read_cp_entry
  rw [copy_bytes_one _ _ _ h]
  simp only [Exec.ok_bind, be1]
  repeat' (first
    | split
    | with_reducible apply Exec.ErrorsIn.bind
    | intro _
    | with_reducible exact copy_bytes_errors _ _ _
    | with_reducible exact read_u16_errors _ _
    | with_reducible exact read_u32_errors _ _
    | with_reducible exact GINT32_CONV_gfloat_errors _
    | with_reducible exact GINT64_CONV_gdouble_errors _
    | with_reducible exact Exec.ErrorsIn.pure _)
  simp only [recognised_tag, List.mem_cons, List.mem_singleton, List.mem_nil_iff,
    or_false] at hgood
  show False
  simp_all

theorem read_cp_entry_error (classbytes : Bytes) (o : Nat) (e : GError)
    (h : read_cp_entry classbytes o = .error e) :
    ∃ t, classbytes[o]? = some t ∧ ¬ recognised_tag t.val := by
  cases hget : classbytes[o]? with
  | none =>
    unfold read_cp_entry at h
    rw [copy_bytes_one_none _ _ hget] at h
    cases h
  | some t =>
    refine ⟨t, rfl, fun hgood => ?_⟩
    exact (read_cp_entry_recognised classbytes o t hget hgood).of_eq e h

theorem read_constant_pool_unknown (classbytes : Bytes) (n offset o : Nat) (t : Byte)
    (hmem : o ∈ cp_record_offsets classbytes n offset)
    (hget : classbytes[o]? = some t) (hbad : ¬ recognised_tag t.val) :
    read_constant_pool classbytes n offset
        = .error ⟨.JAVACLASS_ERROR_TAG_UNKNOWN, unknown_tag_message t.val⟩ ∧
      (cp_record_offsets classbytes n offset).getLast? = some o := by
  induction n using Nat.strong_induction_on generalizing offset with
  | _ n ih =>
    match n with
    | 0 => simp [cp_record_offsets] at hmem
    | n + 1 =>
      unfold cp_record_offsets at hmem ⊢
      unfold read_constant_pool
      cases hr : read_cp_entry classbytes offset with
      | ok r =>
        obtain ⟨e, two, off1⟩ := r
        rw [hr] at hmem
        simp only [List.mem_cons] at hmem
        have hne : o ≠ offset := by
          rintro rfl
          rw [read_cp_entry_unknown _ _ _ hget hbad] at hr
          cases hr
        have hmem := hmem.resolve_left hne
        simp only [Exec.ok_bind]
        cases two with
        | true =>
          match n with
          | 0 => simp at hmem
          | m + 1 =>
            simp only [if_true] at hmem ⊢
            obtain ⟨h1, h2⟩ := ih m (by omega) off1 hmem
            rw [h1]
            exact ⟨rfl, by rw [List.getLast?_cons, h2]; rfl⟩
        | false =>
          simp only [Bool.false_eq_true, if_false] at hmem ⊢
          obtain ⟨h1, h2⟩ := ih n (by omega) off1 hmem
          rw [h1]
          exact ⟨rfl, by rw [List.getLast?_cons, h2]; rfl⟩
      | error e =>
        rw [hr] at hmem
        simp only [List.mem_cons, List.not_mem_nil, or_false] at hmem
        subst hmem
        rw [read_cp_entry_unknown _ _ _ hget hbad] at hr
        cases hr
        exact ⟨rfl, rfl⟩
      | abort =>
        rw [hr] at hmem
        simp only [List.mem_cons, List.not_mem_nil, or_false] at hmem
        subst hmem
        rw [read_cp_entry_unknown _ _ _ hget hbad] at hr
        cases hr
      | undefined =>
        rw [hr] at hmem
        simp only [List.mem_cons, List.not_mem_nil, or_false] at hmem
        subst hmem
        rw [read_cp_entry_unknown _ _ _ hget hbad] at hr
        cases hr

theorem read_constant_pool_error (classbytes : Bytes) (n offset : Nat) (e : GError)
    (h : read_constant_pool classbytes n offset = .error e) :
    ∃ o t, o ∈ cp_record_offsets classbytes n offset ∧ classbytes[o]? = some t ∧
      ¬ recognised_tag t.val := by
  induction n using Nat.strong_induction_on generalizing offset e with
  | _ n ih =>
    match n with
    | 0 => cases h
    | n + 1 =>
      unfold read_constant_pool at h
      unfold cp_record_offsets
      cases hr : read_cp_entry classbytes offset with
      | ok r =>
        obtain ⟨en, two, off1⟩ := r
        rw [hr] at h
        simp only [Exec.ok_bind] at h
        cases two with
        | true =>
          match n with
          | 0 => cases h
          | m + 1 =>
            simp only [if_true] at h ⊢
            cases hrest : read_constant_pool classbytes m off1 with
            | ok r2 => rw [hrest] at h; cases h
            | error e2 =>
              obtain ⟨o, t, h1, h2, h3⟩ := ih m (by omega) off1 e2 hrest
              exact ⟨o, t, List.mem_cons_of_mem _ h1, h2, h3⟩
            | abort => rw [hrest] at h; cases h
            | undefined => rw [hrest] at h; cases h
        | false =>
          simp only [Bool.false_eq_true, if_false] at h ⊢
          cases hrest : read_constant_pool classbytes n off1 with
          | ok r2 => rw [hrest] at h; cases h
          | error e2 =>
            obtain ⟨o, t, h1, h2, h3⟩ := ih n (by omega) off1 e2 hrest
            exact ⟨o, t, List.mem_cons_of_mem _ h1, h2, h3⟩
          | abort => rw [hrest] at h; cases h
          | undefined => rw [hrest] at h; cases h
      | error e2 =>
        obtain ⟨t, h2, h3⟩ := read_cp_entry_error _ _ _ hr
        exact ⟨offset, t, List.mem_cons_self _ _, h2, h3⟩
      | abort => rw [hr] at h; cases h
      | undefined => rw [hr] at h; cases h

/-- After an accepted header, an error with which the pool step of lines
425-440 ends is what `javaclass_new` reports. -/
theorem javaclass_new_pool_error (m1 m2 M1 M2 c1 c2 : Byte) (rest : Bytes) (length : Nat)
    (includecode : Bool) (e : GError) (hver : M1.val * 256 + M2.val ≤ 50)
    (h : javaclass_new_parse_pool
        (0xCA :: 0xFE :: 0xBA :: 0xBE :: m1 :: m2 :: M1 :: M2 :: c1 :: c2 :: rest)
        (dec16 (c1.val * 256 + c2.val)) 10 = .error e) :
    javaclass_new (0xCA :: 0xFE :: 0xBA :: 0xBE :: m1 :: m2 :: M1 :: M2 :: c1 :: c2 :: rest)
      length includecode = .error e := by
  rw [javaclass_new_header, be2, if_neg (by simp [MAX_MAJOR_VERSION]; omega)]
  unfold javaclass_new_body javaclass_new_parse
  have h16 : read_u16
      (0xCA :: 0xFE :: 0xBA :: 0xBE :: m1 :: m2 :: M1 :: M2 :: c1 :: c2 :: rest) 8
      = .ok (c1.val * 256 + c2.val, 10) := by
    simp [read_u16, copy_bytes, be]
  rw [h16]
  simp only [Exec.ok_bind]
  rw [h]
  rfl

/-- After an accepted header, a pool step that leaves the defined behaviour of
C leaves `javaclass_new` without a result. -/
theorem javaclass_new_pool_undefined (m1 m2 M1 M2 c1 c2 : Byte) (rest : Bytes)
    (length : Nat) (includecode : Bool) (hver : M1.val * 256 + M2.val ≤ 50)
    (h : javaclass_new_parse_pool
        (0xCA :: 0xFE :: 0xBA :: 0xBE :: m1 :: m2 :: M1 :: M2 :: c1 :: c2 :: rest)
        (dec16 (c1.val * 256 + c2.val)) 10 = .undefined) :
    javaclass_new (0xCA :: 0xFE :: 0xBA :: 0xBE :: m1 :: m2 :: M1 :: M2 :: c1 :: c2 :: rest)
      length includecode = .undefined := by
  rw [javaclass_new_header, be2, if_neg (by simp [MAX_MAJOR_VERSION]; omega)]
  unfold javaclass_new_body javaclass_new_parse
  have h16 : read_u16
      (0xCA :: 0xFE :: 0xBA :: 0xBE :: m1 :: m2 :: M1 :: M2 :: c1 :: c2 :: rest) 8
      = .ok (c1.val * 256 + c2.val, 10) := by
    simp [read_u16, copy_bytes, be]
  rw [h16]
  simp only [Exec.ok_bind]
  rw [h]
  rfl

/-- When the record that fails is the first one the loop reads, its tag byte
is the only tag written to the array. -/
theorem cp_tags_written_first_error (classbytes : Bytes) (n offset : Nat) (e : GError)
    (h : read_cp_entry classbytes offset = .error e) :
    cp_tags_written classbytes (n + 1) offset
      = some (be ((classbytes.drop offset).take 1)) :: List.replicate n none := by
  unfold cp_tags_written
  rw [h]

theorem javaclass_free_unwritten (t : Nat) (n : Nat) :
    javaclass_free (some t :: List.replicate (n + 1) none) = .undefined := rfl

/-- The error exit of lines 436-440 when the first record has an unknown tag:
with one slot the error is reported; with more slots `javaclass_free` reads
the tag of a slot that was never written. -/
theorem javaclass_new_parse_pool_first_unknown (classbytes : Bytes) (o : Nat) (t : Byte)
    (hget : classbytes[o]? = some t) (hbad : ¬ recognised_tag t.val) :
    javaclass_new_parse_pool classbytes 1 o
        = .error ⟨.JAVACLASS_ERROR_TAG_UNKNOWN, unknown_tag_message t.val⟩ ∧
      ∀ n, javaclass_new_parse_pool classbytes (n + 2) o = .undefined := by
  have hr := read_cp_entry_unknown classbytes o t hget hbad
  have hp : ∀ n, read_constant_pool classbytes (n + 1) o
      = .error ⟨.JAVACLASS_ERROR_TAG_UNKNOWN, unknown_tag_message t.val⟩ := by
    intro n
    unfold read_constant_pool
    rw [hr]
    rfl
  constructor
  · rw [javaclass_new_parse_pool_error _ _ _ _ (hp 0), cp_tags_written_first_error _ _ _ _ hr]
    rfl
  · intro n
    rw [javaclass_new_parse_pool_error _ _ _ _ (hp (n + 1)),
      cp_tags_written_first_error _ _ _ _ hr, javaclass_free_unwritten]
    rfl

/-- With valid magic and a supported version, a record whose tag byte is not
recognised is the last record the pool decoder reads, and `javaclass_new`
either reports the unknown-tag error for that byte or, when a slot of the
array was not written before the error exit, has no defined result. -/
theorem unknown_tag_ends_pool_decode (m1 m2 M1 M2 c1 c2 : Byte) (rest : Bytes)
    (length : Nat) (includecode : Bool) (o : Nat) (t : Byte)
    (hver : M1.val * 256 + M2.val ≤ 50)
    (hmem : o ∈ cp_record_offsets
      (0xCA :: 0xFE :: 0xBA :: 0xBE :: m1 :: m2 :: M1 :: M2 :: c1 :: c2 :: rest)
      (dec16 (c1.val * 256 + c2.val)) 10)
    (hget : (0xCA :: 0xFE :: 0xBA :: 0xBE :: m1 :: m2 :: M1 :: M2 :: c1 :: c2 :: rest)[o]?
      = some t)
    (hbad : ¬ recognised_tag t.val) :
    (javaclass_new
          (0xCA :: 0xFE :: 0xBA :: 0xBE :: m1 :: m2 :: M1 :: M2 :: c1 :: c2 :: rest)
          length includecode
        = .error ⟨.JAVACLASS_ERROR_TAG_UNKNOWN, unknown_tag_message t.val⟩ ∨
      javaclass_new
          (0xCA :: 0xFE :: 0xBA :: 0xBE :: m1 :: m2 :: M1 :: M2 :: c1 :: c2 :: rest)
          length includecode = .undefined) ∧
    (cp_record_offsets
        (0xCA :: 0xFE :: 0xBA :: 0xBE :: m1 :: m2 :: M1 :: M2 :: c1 :: c2 :: rest)
        (dec16 (c1.val * 256 + c2.val)) 10).getLast? = some o := by
  obtain ⟨h1, h2⟩ := read_constant_pool_unknown _ _ _ o t hmem hget hbad
  refine ⟨?_, h2⟩
  have hp := javaclass_new_parse_pool_error _ _ _ _ h1
  rcases javaclass_free_ok_or_undefined (cp_tags_written
    (0xCA :: 0xFE :: 0xBA :: 0xBE :: m1 :: m2 :: M1 :: M2 :: c1 :: c2 :: rest)
    (dec16 (c1.val * 256 + c2.val)) 10) with hf | hf
  · rw [hf] at hp
    exact Or.inl (javaclass_new_pool_error m1 m2 M1 M2 c1 c2 rest length includecode _ hver hp)
  · rw [hf] at hp
    exact Or.inr (javaclass_new_pool_undefined m1 m2 M1 M2 c1 c2 rest length includecode
      hver hp)

/-- When every tag byte the pool decoder reads is recognised, it reports no
error. -/
theorem recognised_tags_give_no_error (classbytes : Bytes) (n offset : Nat)
    (hall : ∀ o t, o ∈ cp_record_offsets classbytes n offset → classbytes[o]? = some t →
      recognised_tag t.val) (e : GError) :
    read_constant_pool classbytes n offset ≠ .error e := by
  intro he
  obtain ⟨o, t, h1, h2, h3⟩ := read_constant_pool_error classbytes n offset e he
  exact h3 (hall o t h1 h2)

/-- C4: `unknown_first_tag_class` has a valid magic number, version 50 and a
pool of two slots whose first record starts with the byte 99.  The pool
decoder stops at that record (offset 10 is the only record offset) and sets
the unknown-tag error, but the error exit of `javaclass_new` then runs
`javaclass_free` over both slots of the array: slot 0 holds the tag 99, slot 1
was never written.  Reading its tag is a read of uninitialised memory, and
when the value found is 1 the uninitialised pointer next to it is passed to
`g_free`; the run has no defined result, so the error is not guaranteed to
reach the caller. -/
theorem unknown_tag_exit_reads_unwritten_slot :
    read_constant_pool unknown_first_tag_class (dec16 3) 10
      = .error ⟨.JAVACLASS_ERROR_TAG_UNKNOWN, unknown_tag_message 99⟩ ∧
    cp_record_offsets unknown_first_tag_class (dec16 3) 10 = [10] ∧
    cp_tags_written unknown_first_tag_class (dec16 3) 10 = [some 99, none] ∧
    javaclass_free [some 99, none] = .undefined ∧
    javaclass_new unknown_first_tag_class 14 false = .undefined ∧
    javaclass_new unknown_first_tag_class 14 true = .undefined := by
  refine ⟨by decide, by decide, by decide, rfl, by decide, by decide⟩

/-! ## Decoding a truncated buffer -/

theorem truncates_bind {α β : Type} {len : Nat} {offa : α → Nat} {offb : β → Nat} {o : Nat}
    {x x' : Exec α} {f f' : α → Exec β}
    (hx : Truncates len offa o x x')
    (hf : ∀ a, o ≤ offa a → Truncates len offb (offa a) (f a) (f' a)) :
    Truncates len offb o (x >>= f) (x' >>= f') := by
  intro r h
  cases x with
  | ok a =>
    obtain ⟨h1, h2⟩ := hx a rfl
    obtain ⟨h3, h4⟩ := hf a h1 r h
    refine ⟨Nat.le_trans h1 h3, fun ho => ?_⟩
    rw [h2 ho]
    by_cases hle : offa a ≤ len
    · rw [if_pos hle]
      exact h4 hle
    · rw [if_neg hle, if_neg (by omega)]
      rfl
  | error e => cases h
  | abort => cases h
  | undefined => cases h

theorem truncates_bind_pair {α β : Type} {len : Nat} {offb : β → Nat} {o : Nat}
    {x x' : Exec (α × Nat)} {f f' : α × Nat → Exec β}
    (hx : Truncates len Prod.snd o x x')
    (hf : ∀ v o1, o ≤ o1 → Truncates len offb o1 (f (v, o1)) (f' (v, o1))) :
    Truncates len offb o (x >>= f) (x' >>= f') :=
  truncates_bind hx (fun a ha => hf a.1 a.2 ha)

theorem truncates_bind_triple {α γ β : Type} {len : Nat} {offb : β → Nat} {o : Nat}
    {x x' : Exec (α × γ × Nat)} {f f' : α × γ × Nat → Exec β}
    (hx : Truncates len (fun r => r.2.2) o x x')
    (hf : ∀ v w o1, o ≤ o1 → Truncates len offb o1 (f (v, w, o1)) (f' (v, w, o1))) :
    Truncates len offb o (x >>= f) (x' >>= f') :=
  truncates_bind hx (fun a ha => hf a.1 a.2.1 a.2.2 ha)

theorem truncates_pure {β : Type} {len : Nat} {off : β → Nat} {o : Nat} (r : β)
    (h : off r = o) : Truncates len off o (pure r) (pure r) := by
  intro r' hr
  cases hr
  refine ⟨by omega, fun ho => ?_⟩
  rw [if_pos (by omega)]
  rfl

theorem truncates_undefined {β : Type} {len : Nat} {off : β → Nat} {o : Nat}
    (x' : Exec β) : Truncates len off o .undefined x' := by
  intro r hr
  cases hr

theorem truncates_error {β : Type} {len : Nat} {off : β → Nat} {o : Nat}
    (e : GError) (x' : Exec β) : Truncates len off o (.error e) x' := by
  intro r hr
  cases hr

theorem copy_bytes_truncates (cb ext : Bytes) (o n : Nat)
    (hlen : (cb ++ ext).length < 2 ^ 32) :
    Truncates cb.length Prod.snd o (copy_bytes (cb ++ ext) o n) (copy_bytes cb o n) := by
  intro r hr
  unfold copy_bytes at hr ⊢
  by_cases hfull : o + n ≤ (cb ++ ext).length
  · rw [if_pos hfull, Nat.mod_eq_of_lt (by omega)] at hr
    cases hr
    refine ⟨by simp, fun _ => ?_⟩
    simp only
    by_cases hcb : o + n ≤ cb.length
    · rw [if_pos hcb, if_pos hcb, Nat.mod_eq_of_lt (by omega)]
      have h1 : List.take n (List.drop o (cb ++ ext)) = List.take n (List.drop o cb) := by
        rw [List.drop_append_of_le_length (by omega),
          List.take_append_of_le_length (by simp; omega)]
      rw [h1]
    · rw [if_neg hcb, if_neg hcb]
  · rw [if_neg hfull] at hr
    cases hr

theorem read_u16_truncates (cb ext : Bytes) (o : Nat) (hlen : (cb ++ ext).length < 2 ^ 32) :
    Truncates cb.length Prod.snd o (read_u16 (cb ++ ext) o) (read_u16 cb o) := by
  unfold read_u16
  refine truncates_bind_pair (copy_bytes_truncates cb ext o 2 hlen) (fun v o1 _ => ?_)
  exact truncates_pure _ rfl

theorem read_u32_truncates (cb ext : Bytes) (o : Nat) (hlen : (cb ++ ext).length < 2 ^ 32) :
    Truncates cb.length Prod.snd o (read_u32 (cb ++ ext) o) (read_u32 cb o) := by
  unfold read_u32
  refine truncates_bind_pair (copy_bytes_truncates cb ext o 4 hlen) (fun v o1 _ => ?_)
  exact truncates_pure _ rfl

theorem truncates_bind_value {α β : Type} {len : Nat} {off : β → Nat} {o : Nat}
    (x : Exec α) (g : α → β) (h : ∀ a, off (g a) = o) :
    Truncates len off o (x >>= fun a => pure (g a)) (x >>= fun a => pure (g a)) := by
  intro r hr
  cases x with
  | ok a =>
    cases hr
    refine ⟨by rw [h a], fun ho => ?_⟩
    rw [if_pos (by rw [h a]; exact ho)]
    rfl
  | error e => cases hr
  | abort => cases hr
  | undefined => cases hr

theorem read_cp_entry_truncates (cb ext : Bytes) (o : Nat)
    (hlen : (cb ++ ext).length < 2 ^ 32) :
    Truncates cb.length (fun r => r.2.2) o (read_cp_entry (cb ++ ext) o)
      (read_cp_entry cb o) := by
  unfold read_cp_entry
  refine truncates_bind_pair (copy_bytes_truncates cb ext o 1 hlen) (fun tagb o1 _ => ?_)
  dsimp only
  repeat' (first
    | split
    | with_reducible exact truncates_error _ _
    | with_reducible exact truncates_pure _ rfl
    | with_reducible exact copy_bytes_truncates cb ext _ _ hlen
    | with_reducible exact read_u16_truncates cb ext _ hlen
    | with_reducible exact read_u32_truncates cb ext _ hlen
    | with_reducible apply truncates_bind_pair
    | with_reducible exact truncates_bind_value _ _ (fun _ => rfl)
    | intro _ _ _
    | dsimp only)

theorem read_constant_pool_truncates (cb ext : Bytes) (n o : Nat)
    (hlen : (cb ++ ext).length < 2 ^ 32) :
    Truncates cb.length Prod.snd o (read_constant_pool (cb ++ ext) n o)
      (read_constant_pool cb n o) := by
  induction n using Nat.strong_induction_on generalizing o with
  | _ n ih =>
    match n with
    | 0 => exact truncates_pure _ rfl
    | n + 1 =>
      unfold read_constant_pool
      refine truncates_bind_triple (read_cp_entry_truncates cb ext o hlen)
        (fun e two o1 _ => ?_)
      dsimp only
      cases two with
      | true =>
        match n with
        | 0 => exact truncates_undefined _
        | m + 1 =>
          simp only [if_true]
          refine truncates_bind_pair (ih m (by omega) o1) (fun rest o2 _ => ?_)
          exact truncates_pure _ rfl
      | false =>
        simp only [Bool.false_eq_true, if_false]
        refine truncates_bind_pair (ih n (by omega) o1) (fun rest o2 _ => ?_)
        exact truncates_pure _ rfl

theorem read_u16_count (m1 m2 M1 M2 c1 c2 : Byte) (rest : Bytes) :
    read_u16 (0xCA :: 0xFE :: 0xBA :: 0xBE :: m1 :: m2 :: M1 :: M2 :: c1 :: c2 :: rest) 8
      = .ok (c1.val * 256 + c2.val, 10) := by
  simp [read_u16, copy_bytes, be]

/-- C5 (amended): the cursor never reports an error: a `copy_bytes` that goes
past the last byte of the buffer is an out-of-bounds `memcpy` (undefined
behaviour) and `skip_bytes` just moves the offset, also past the last byte.
So for every buffer that stops inside the constant pool, that is a buffer
which some extension `ext` completes to one whose pool decodes and stops
beyond the buffer's last byte, `javaclass_new` reads past the buffer.  That
read is undefined behaviour: the run has no defined result, and there is no
truncation error it could report. -/
theorem truncated_pool_reads_past_end (m1 m2 M1 M2 c1 c2 : Byte) (rest ext : Bytes)
    (length : Nat) (includecode : Bool) (pool : List cp_info) (offset : Nat)
    (hlen : ((0xCA :: 0xFE :: 0xBA :: 0xBE :: m1 :: m2 :: M1 :: M2 :: c1 :: c2 :: rest)
      ++ ext).length < 2 ^ 32)
    (hver : M1.val * 256 + M2.val ≤ 50)
    (hfull : read_constant_pool
      ((0xCA :: 0xFE :: 0xBA :: 0xBE :: m1 :: m2 :: M1 :: M2 :: c1 :: c2 :: rest) ++ ext)
      (dec16 (c1.val * 256 + c2.val)) 10 = .ok (pool, offset))
    (htrunc : (0xCA :: 0xFE :: 0xBA :: 0xBE :: m1 :: m2 :: M1 :: M2 :: c1 :: c2 :: rest).length
      < offset) :
    javaclass_new (0xCA :: 0xFE :: 0xBA :: 0xBE :: m1 :: m2 :: M1 :: M2 :: c1 :: c2 :: rest)
        length includecode = .undefined ∧
    (∀ (src : Bytes) (o n : Nat), src.length < o + n → copy_bytes src o n = .undefined) ∧
    (∀ (src : Bytes) (o n : Nat) (e : GError), copy_bytes src o n ≠ .error e) ∧
    (∀ o n : Nat, o + n < 2 ^ 32 → skip_bytes o n = o + n) := by
  refine ⟨?_, ?_, ?_, ?_⟩
  · obtain ⟨_, h2⟩ := read_constant_pool_truncates _ ext _ 10 hlen _ hfull
    have hpool := h2 (by simp)
    rw [if_neg (by simpa using htrunc)] at hpool
    exact javaclass_new_pool_undefined m1 m2 M1 M2 c1 c2 rest length includecode hver
      (javaclass_new_parse_pool_undefined _ _ _ hpool)
  · intro src o n h
    unfold copy_bytes
    rw [if_neg (by omega)]
  · intro src o n e h
    exact (copy_bytes_errors (P := fun _ => False) src o n).of_eq e h
  · intro o n h
    unfold skip_bytes
    exact Nat.mod_eq_of_lt h

/-- C5 (amended), at a concrete input: the first 15 bytes of a 21-byte buffer
whose two-entry pool ends at offset 21. -/
theorem truncated_pool_reads_past_end_witness :
    javaclass_new [0xCA, 0xFE, 0xBA, 0xBE, 0, 0, 0, 0x32, 0, 3, 1, 0, 5, 0x61, 0x62]
        15 false = .undefined ∧
    (∀ (src : Bytes) (o n : Nat), src.length < o + n → copy_bytes src o n = .undefined) ∧
    (∀ (src : Bytes) (o n : Nat) (e : GError), copy_bytes src o n ≠ .error e) ∧
    (∀ o n : Nat, o + n < 2 ^ 32 → skip_bytes o n = o + n) :=
  truncated_pool_reads_past_end 0 0 0 0x32 0 3 [1, 0, 5, 0x61, 0x62]
    [0x63, 0x64, 0x65, 7, 0, 1] 15 false
    [⟨1, .str [0x61, 0x62, 0x63, 0x64, 0x65]⟩, ⟨7, .index 0⟩] 21
    (by decide) (by decide) (by decide) (by decide)

/-- C5 (counterexample): a 15-byte buffer whose constant pool announces a
5-byte string and holds only 2 bytes of it.  The `copy_bytes` of the string
goes past the end of the buffer, `skip_bytes` at the same position would move
the offset to 18, and `javaclass_new` does not end with a truncation error:
it makes the out-of-bounds read, after which the run has no defined
result. -/
theorem truncated_pool_read_is_unchecked :
    javaclass_new [0xCA, 0xFE, 0xBA, 0xBE, 0, 0, 0, 0x32, 0, 3, 1, 0, 5, 0x61, 0x62]
        15 false = .undefined ∧
    copy_bytes [0xCA, 0xFE, 0xBA, 0xBE, 0, 0, 0, 0x32, 0, 3, 1, 0, 5, 0x61, 0x62] 13 5
        = .undefined ∧
    skip_bytes 13 5 = 18 := by
  decide

/-! ## The final length check -/

theorem javaclass_new_body_ok (classbytes : Bytes) (length : Nat) (includecode : Bool)
    (magic minor major offset : Nat) (c : JavaClass)
    (h : javaclass_new_body classbytes length includecode magic minor major offset = .ok c) :
    ∃ raw, javaclass_new_parse classbytes magic minor major offset = .ok (raw, length) ∧
      javaclass_new_views raw includecode = .ok c := by
  unfold javaclass_new_body at h
  cases hp : javaclass_new_parse classbytes magic minor major offset with
  | ok r =>
    obtain ⟨raw, off⟩ := r
    rw [hp] at h
    simp only [Exec.ok_bind] at h
    by_cases hoff : off = length
    · rw [if_pos hoff] at h
      exact ⟨raw, by rw [hoff], h⟩
    · rw [if_neg hoff] at h
      cases h
  | error e => rw [hp] at h; cases h
  | abort => rw [hp] at h; cases h
  | undefined => rw [hp] at h; cases h

/-- A class is returned only through the structural parse ending at `length`
followed by the derived views. -/
theorem javaclass_new_ok_parse (classbytes : Bytes) (length : Nat) (includecode : Bool)
    (c : JavaClass) (h : javaclass_new classbytes length includecode = .ok c) :
    ∃ minor major raw,
      javaclass_new_parse classbytes 0xCAFEBABE minor major 8 = .ok (raw, length) ∧
      javaclass_new_views raw includecode = .ok c := by
  match classbytes, h with
  | [], h => simp [javaclass_new, read_u32, copy_bytes] at h
  | [_], h => simp [javaclass_new, read_u32, copy_bytes] at h
  | [_, _], h => simp [javaclass_new, read_u32, copy_bytes] at h
  | [_, _, _], h => simp [javaclass_new, read_u32, copy_bytes] at h
  | [a, b, c4, d], h =>
    simp [javaclass_new, read_u32, read_u16, copy_bytes] at h
    split at h <;> cases h
  | [a, b, c4, d, _], h =>
    simp [javaclass_new, read_u32, read_u16, copy_bytes] at h
    split at h <;> cases h
  | [a, b, c4, d, _, _], h =>
    simp [javaclass_new, read_u32, read_u16, copy_bytes] at h
    split at h <;> cases h
  | [a, b, c4, d, _, _, _], h =>
    simp [javaclass_new, read_u32, read_u16, copy_bytes] at h
    split at h <;> cases h
  | a :: b :: c4 :: d :: m1 :: m2 :: M1 :: M2 :: rest, h =>
    by_cases hmagic : [a, b, c4, d] = [0xCA, 0xFE, 0xBA, 0xBE]
    · simp only [List.cons.injEq, and_true] at hmagic
      obtain ⟨rfl, rfl, rfl, rfl⟩ := hmagic
      rw [javaclass_new_header] at h
      split at h
      · cases h
      · exact ⟨_, _, javaclass_new_body_ok _ _ _ _ _ _ _ _ h⟩
    · have hne : be [a, b, c4, d] ≠ 0xCAFEBABE :=
        fun hbe => hmagic (be4_eq_magic a b c4 d hbe)
      simp [javaclass_new, read_u32, copy_bytes, hne] at h

/-- C6 (amended): `javaclass_new` returns a class only if the offset reached
after the top-level attribute list equals `length`; when the structural parse
stops at any other offset, the `g_assert` fails and the process is aborted:
no class is returned and no error is reported to the caller. -/
theorem length_mismatch_aborts (classbytes : Bytes) (length : Nat) (includecode : Bool) :
    (∀ c, javaclass_new classbytes length includecode = .ok c →
      ∃ minor major raw,
        javaclass_new_parse classbytes 0xCAFEBABE minor major 8 = .ok (raw, length)) ∧
    (∀ (m1 m2 M1 M2 : Byte) (rest : Bytes) (raw : JavaClass) (offset : Nat),
      classbytes = 0xCA :: 0xFE :: 0xBA :: 0xBE :: m1 :: m2 :: M1 :: M2 :: rest →
      M1.val * 256 + M2.val ≤ 50 →
      javaclass_new_parse classbytes 0xCAFEBABE (m1.val * 256 + m2.val)
        (M1.val * 256 + M2.val) 8 = .ok (raw, offset) →
      offset ≠ length →
      javaclass_new classbytes length includecode = .abort) := by
  refine ⟨fun c h => ?_, ?_⟩
  · obtain ⟨minor, major, raw, hparse, _⟩ :=
      javaclass_new_ok_parse classbytes length includecode c h
    exact ⟨minor, major, raw, hparse⟩
  intro m1 m2 M1 M2 rest raw offset hcb hver hparse hne
  subst hcb
  rw [javaclass_new_header, be2, be2, if_neg (by simp [MAX_MAJOR_VERSION]; omega)]
  unfold javaclass_new_body
  rw [hparse]
  simp only [Exec.ok_bind]
  rw [if_neg hne]

/-- C6 (counterexample): the 65-byte minimal class file followed by one extra
byte, decoded with `length = 66`: the parse ends at offset 65, the assertion
fails, and the outcome is a process abort, not an error reported to the
caller. -/
theorem trailing_byte_aborts :
    javaclass_new
      [0xCA, 0xFE, 0xBA, 0xBE, 0, 0, 0, 0x32, 0, 5,
       1, 0, 13, 112, 107, 103, 47, 67, 108, 97, 115, 115, 78, 97, 109, 101,
       7, 0, 1,
       1, 0, 16, 106, 97, 118, 97, 47, 108, 97, 110, 103, 47, 79, 98, 106, 101, 99, 116,
       7, 0, 3,
       0, 1, 0, 2, 0, 4, 0, 0, 0, 0, 0, 0, 0, 0,
       0] 66 false = .abort := by
  decide

/-! ## Splitting a qualified name -/

theorem g_strrstr_eq_none_iff (s : Bytes) (d : Byte) : g_strrstr s d = none ↔ d ∉ s := by
  induction s with
  | nil => simp [g_strrstr]
  | cons ch rest ih =>
    unfold g_strrstr
    cases h : g_strrstr rest d with
    | none =>
      have hn := ih.mp h
      by_cases hc : ch = d
      · simp [hc]
      · simp [hc, hn, Ne.symm hc]
    | some p =>
      have hm : d ∈ rest := by
        by_contra hcon
        rw [ih.mpr hcon] at h
        cases h
      simp [hm]

theorem g_strrstr_eq_some (s : Bytes) (d : Byte) (p : Nat) (h : g_strrstr s d = some p) :
    s = s.take p ++ d :: s.drop (p + 1) ∧ d ∉ s.drop (p + 1) := by
  induction s generalizing p with
  | nil => simp [g_strrstr] at h
  | cons ch rest ih =>
    unfold g_strrstr at h
    cases hr : g_strrstr rest d with
    | none =>
      rw [hr] at h
      by_cases hc : ch = d
      · simp only [hc, if_true, Option.some.injEq] at h
        subst h
        subst hc
        exact ⟨by simp, by simpa using (g_strrstr_eq_none_iff rest ch).mp hr⟩
      · simp [hc] at h
    | some q =>
      rw [hr] at h
      simp only [Option.some.injEq] at h
      subst h
      obtain ⟨h1, h2⟩ := ih q hr
      refine ⟨?_, by simpa using h2⟩
      simp only [List.take_succ_cons, List.drop_succ_cons, List.cons_append]
      rw [← h1]

theorem getLast?_append_cons_ne_nil {α : Type} (a : List α) (x : α) (b : List α)
    (hb : b ≠ []) : (a ++ x :: b).getLast? = b.getLast? := by
  rw [show a ++ x :: b = (a ++ [x]) ++ b by simp]
  rw [List.getLast?_append]
  cases hbl : b.getLast? with
  | none => exact absurd (List.getLast?_eq_none_iff.mp hbl) hb
  | some y => rfl

/-- C7: for every string `s` that contains a `'.'` and does not end in one,
the package, a `"."` and the class name give back `s`; the class name is
what follows the last `'.'`, so it holds no `'.'` and is not empty. -/
theorem extract_roundtrip (s : Bytes) (hdot : DOT ∈ s) (hend : s.getLast? ≠ some DOT) :
    ∃ pkg cls, javaclass_extract_package (some s) = some pkg ∧
      javaclass_extract_classname (some s) = some cls ∧
      pkg ++ [DOT] ++ cls = s ∧ DOT ∉ cls ∧ cls ≠ [] := by
  cases hp : g_strrstr s DOT with
  | none => exact absurd hdot ((g_strrstr_eq_none_iff s DOT).mp hp)
  | some p =>
    obtain ⟨h1, h2⟩ := g_strrstr_eq_some s DOT p hp
    have hne : s.drop (p + 1) ≠ [] := by
      intro hnil
      apply hend
      rw [h1, hnil]
      simp
    refine ⟨s.take p, s.drop (p + 1), ?_, ?_, ?_, h2, hne⟩
    · simp [javaclass_extract_package, hp]
    · simp [javaclass_extract_classname, hp, hne]
    · simpa using h1.symm

/-- C7, at a concrete input: `java.lang.Object`. -/
theorem extract_roundtrip_witness :
    ∃ pkg cls, javaclass_extract_package (some (ascii "java.lang.Object")) = some pkg ∧
      javaclass_extract_classname (some (ascii "java.lang.Object")) = some cls ∧
      pkg ++ [DOT] ++ cls = ascii "java.lang.Object" ∧ DOT ∉ cls ∧ cls ≠ [] :=
  extract_roundtrip (ascii "java.lang.Object") (by decide) (by decide)

/-- C8: the package is absent exactly when the string has no `'.'`, and then
the class name is the whole string; the class name is absent exactly when the
string ends in `'.'`, and then the package is the string without that final
character; both functions give `NULL` for `NULL`. -/
theorem extract_absent_cases (s : Bytes) :
    (javaclass_extract_package (some s) = none ↔ DOT ∉ s) ∧
    (DOT ∉ s → javaclass_extract_classname (some s) = some s) ∧
    (javaclass_extract_classname (some s) = none ↔ s.getLast? = some DOT) ∧
    (s.getLast? = some DOT → javaclass_extract_package (some s) = some s.dropLast) ∧
    javaclass_extract_package none = none ∧
    javaclass_extract_classname none = none := by
  have hlast : ∀ p, g_strrstr s DOT = some p →
      (s.drop (p + 1) = [] ↔ s.getLast? = some DOT) := by
    intro p hp
    obtain ⟨h1, h2⟩ := g_strrstr_eq_some s DOT p hp
    constructor
    · intro hnil
      rw [h1, hnil]
      simp
    · intro hl
      by_contra hne
      rw [h1, getLast?_append_cons_ne_nil _ _ _ hne] at hl
      exact h2 (List.mem_of_mem_getLast? hl)
  refine ⟨?_, ?_, ?_, ?_, rfl, rfl⟩
  · cases hp : g_strrstr s DOT with
    | none => simpa [javaclass_extract_package, hp] using (g_strrstr_eq_none_iff s DOT).mp hp
    | some p =>
      have hm : DOT ∈ s := by
        by_contra hcon
        rw [(g_strrstr_eq_none_iff s DOT).mpr hcon] at hp
        cases hp
      simp [javaclass_extract_package, hp, hm]
  · intro hn
    simp [javaclass_extract_classname, (g_strrstr_eq_none_iff s DOT).mpr hn]
  · cases hp : g_strrstr s DOT with
    | none =>
      have hn := (g_strrstr_eq_none_iff s DOT).mp hp
      simp only [javaclass_extract_classname, hp]
      constructor
      · intro h; cases h
      · intro hl; exact absurd (List.mem_of_mem_getLast? hl) hn
    | some p =>
      simp only [javaclass_extract_classname, hp]
      rw [← hlast p hp]
      by_cases hnil : s.drop (p + 1) = []
      · simp [hnil]
      · simp [hnil]
  · intro hl
    cases hp : g_strrstr s DOT with
    | none =>
      exact absurd (List.mem_of_mem_getLast? hl) ((g_strrstr_eq_none_iff s DOT).mp hp)
    | some p =>
      obtain ⟨h1, _⟩ := g_strrstr_eq_some s DOT p hp
      have hnil := (hlast p hp).mpr hl
      simp only [javaclass_extract_package, hp, Option.some.injEq]
      rw [hnil] at h1
      conv_rhs => rw [h1]
      simp

/-! ## Long and Double entries -/

theorem Exec.bind_eq_ok {α β : Type} (x : Exec α) (f : α → Exec β) (b : β) :
    (x >>= f) = .ok b ↔ ∃ a, x = .ok a ∧ f a = .ok b := by
  cases x with
  | ok a => simp
  | error e => simp
  | abort => simp
  | undefined => simp

theorem copy_bytes_eq_ok (src : Bytes) (o n : Nat) (b : Bytes) (o1 : Nat)
    (hlen : src.length < 2 ^ 32) (h : copy_bytes src o n = .ok (b, o1)) :
    o + n ≤ src.length ∧ b = (src.drop o).take n ∧ o1 = o + n := by
  unfold copy_bytes at h
  by_cases hle : o + n ≤ src.length
  · rw [if_pos hle, Nat.mod_eq_of_lt (by omega)] at h
    cases h
    exact ⟨hle, rfl, rfl⟩
  · rw [if_neg hle] at h
    cases h

/-- A record that takes a second slot: its tag byte is 5 or 6, its entry is
made from the 8 bytes after the tag, and the offset moves by 9. -/
theorem read_cp_entry_wide (classbytes : Bytes) (o : Nat) (e : cp_info) (o1 : Nat)
    (hlen : classbytes.length < 2 ^ 32)
    (h : read_cp_entry classbytes o = .ok (e, true, o1)) :
    ∃ t : Byte, classbytes[o]? = some t ∧ (t.val = TAG_LONG ∨ t.val = TAG_DOUBLE) ∧
      o + 9 ≤ classbytes.length ∧ o1 = o + 9 ∧
      wide_entry t.val ((classbytes.drop (o + 1)).take 8) e := by
  cases hget : classbytes[o]? with
  | none =>
    unfold read_cp_entry at h
    rw [copy_bytes_one_none _ _ hget] at h
    cases h
  | some t =>
    have hlt : o < classbytes.length := (List.getElem?_eq_some.mp hget).1
    unfold read_cp_entry at h
    rw [copy_bytes_one _ _ _ hget, Nat.mod_eq_of_lt (by omega)] at h
    simp only [Exec.ok_bind, be1] at h
    refine ⟨t, rfl, ?_⟩
    split at h
    · simp [Exec.bind_eq_ok, read_u16] at h
    split at h
    · simp [Exec.bind_eq_ok, read_u32] at h
    split at h
    · simp [Exec.bind_eq_ok] at h
    split at h
    · rename_i htag
      simp only [Exec.bind_eq_ok, Exec.pure_eq, Exec.ok.injEq, Prod.mk.injEq, and_true,
        Prod.exists] at h
      obtain ⟨b, o2, hcopy, rfl, -, rfl⟩ := h
      obtain ⟨h1, rfl, rfl⟩ := copy_bytes_eq_ok _ _ _ _ _ hlen hcopy
      exact ⟨Or.inl htag, by omega, by omega, Or.inl ⟨htag, rfl⟩⟩
    split at h
    · rename_i hn htag
      simp only [Exec.bind_eq_ok, Exec.pure_eq, Exec.ok.injEq, Prod.mk.injEq, and_true,
        Prod.exists] at h
      obtain ⟨b, o2, hcopy, d, hd, rfl, -, rfl⟩ := h
      obtain ⟨h1, rfl, rfl⟩ := copy_bytes_eq_ok _ _ _ _ _ hlen hcopy
      exact ⟨Or.inr htag, by omega, by omega, Or.inr ⟨htag, d, hd, rfl⟩⟩
    split at h
    · simp [Exec.bind_eq_ok, read_u16] at h
    split at h
    · simp [Exec.bind_eq_ok, read_u16] at h
    · cases h

/-- A record that takes one slot holds neither a Long nor a Double. -/
theorem read_cp_entry_narrow (classbytes : Bytes) (o : Nat) (e : cp_info) (o1 : Nat)
    (h : read_cp_entry classbytes o = .ok (e, false, o1)) :
    is_long_or_double e = false := by
  unfold read_cp_entry at h
  simp only [Exec.bind_eq_ok, Prod.exists] at h
  obtain ⟨tagb, o2, _, h⟩ := h
  split at h
  · simp only [Exec.bind_eq_ok, Prod.exists, read_u16, Exec.pure_eq, Exec.ok.injEq,
      Prod.mk.injEq] at h
    obtain ⟨_, _, _, _, _, _, rfl, _⟩ := h
    rfl
  split at h
  · simp only [Exec.bind_eq_ok, Prod.exists, read_u32, Exec.pure_eq, Exec.ok.injEq,
      Prod.mk.injEq] at h
    obtain ⟨_, _, _, rfl, _⟩ := h
    rfl
  split at h
  · simp only [Exec.bind_eq_ok, Prod.exists, Exec.pure_eq, Exec.ok.injEq,
      Prod.mk.injEq] at h
    obtain ⟨_, _, _, _, _, rfl, _⟩ := h
    rfl
  split at h
  · simp [Exec.bind_eq_ok] at h
  split at h
  · simp [Exec.bind_eq_ok] at h
  split at h
  · simp only [Exec.bind_eq_ok, Prod.exists, read_u16, Exec.pure_eq, Exec.ok.injEq,
      Prod.mk.injEq] at h
    obtain ⟨_, _, _, rfl, _⟩ := h
    rfl
  split at h
  · simp only [Exec.bind_eq_ok, Prod.exists, read_u16, Exec.pure_eq, Exec.ok.injEq,
      Prod.mk.injEq] at h
    obtain ⟨_, _, _, _, _, _, rfl, _⟩ := h
    rfl
  · cases h

theorem wide_entry_is_wide {t : Nat} {b : Bytes} {e : cp_info} (h : wide_entry t b e) :
    is_long_or_double e = true := by
  rcases h with ⟨-, rfl⟩ | ⟨-, d, -, rfl⟩ <;> rfl

theorem wide_entry_tag {t : Nat} {b : Bytes} {e : cp_info} (h : wide_entry t b e) :
    e.tag = t := by
  rcases h with ⟨-, rfl⟩ | ⟨-, d, -, rfl⟩ <;> rfl

theorem read_constant_pool_wide (classbytes : Bytes) (hlen : classbytes.length < 2 ^ 32)
    (N offset : Nat) (pool : List cp_info) (offset' : Nat)
    (h : read_constant_pool classbytes N offset = .ok (pool, offset')) :
    pool.length = N ∧
    (∀ i e, pool[i]? = some e → is_long_or_double e = true →
      ∃ (o : Nat) (t : Byte), classbytes[o]? = some t ∧
        (t.val = TAG_LONG ∨ t.val = TAG_DOUBLE) ∧ o + 9 ≤ classbytes.length ∧
        wide_entry t.val ((classbytes.drop (o + 1)).take 8) e ∧
        i + 1 < N ∧ pool[i + 1]? = some ⟨t.val, .uninit⟩ ∧
        read_constant_pool classbytes (N - (i + 2)) (o + 9)
          = .ok (pool.drop (i + 2), offset')) ∧
    (cp_record_offsets classbytes N offset).length + pool.countP is_long_or_double = N := by
  induction N using Nat.strong_induction_on generalizing offset pool with
  | _ N ih =>
    match N with
    | 0 =>
      simp only [read_constant_pool, Exec.pure_eq, Exec.ok.injEq, Prod.mk.injEq] at h
      obtain ⟨rfl, _⟩ := h
      simp [cp_record_offsets]
    | n + 1 =>
      unfold read_constant_pool at h
      unfold cp_record_offsets
      simp only [Exec.bind_eq_ok, Prod.exists] at h
      obtain ⟨e, two, o1, hentry, h⟩ := h
      rw [hentry]
      cases two with
      | true =>
        match n with
        | 0 => simp at h
        | m + 1 =>
          simp only [if_true, Exec.bind_eq_ok, Prod.exists, Exec.pure_eq, Exec.ok.injEq,
            Prod.mk.injEq] at h
          obtain ⟨rest, o2, hrest, rfl, rfl⟩ := h
          obtain ⟨t, hget, htag, hfit, rfl, hwe⟩ := read_cp_entry_wide _ _ _ _ hlen hentry
          obtain ⟨ih1, ih2, ih3⟩ := ih m (by omega) _ _ hrest
          have hwide : is_long_or_double e = true := wide_entry_is_wide hwe
          have htg : e.tag = t.val := wide_entry_tag hwe
          rw [htg]
          refine ⟨by simp [ih1], ?_, ?_⟩
          · intro i e hi he
            match i with
            | 0 =>
              simp only [List.getElem?_cons_zero, Option.some.injEq] at hi
              subst hi
              exact ⟨offset, t, hget, htag, hfit, hwe, by omega, by simp, by simpa using hrest⟩
            | 1 =>
              simp only [List.getElem?_cons_succ, List.getElem?_cons_zero,
                Option.some.injEq] at hi
              subst hi
              simp [is_long_or_double] at he
            | j + 2 =>
              simp only [List.getElem?_cons_succ] at hi
              obtain ⟨o, t', h1, h2, h3, h4, h5, h6, h7⟩ := ih2 j e hi he
              refine ⟨o, t', h1, h2, h3, h4, by omega, by simpa using h6, ?_⟩
              have : m + 1 + 1 - (j + 2 + 2) = m - (j + 2) := by omega
              rw [this]
              simpa using h7
          · simp only [if_true, List.length_cons]
            rw [List.countP_cons_of_pos _ _ hwide, List.countP_cons_of_neg _ _ (by simp [is_long_or_double])]
            omega
      | false =>
        simp only [Bool.false_eq_true, if_false, Exec.bind_eq_ok, Prod.exists, Exec.pure_eq,
          Exec.ok.injEq, Prod.mk.injEq] at h
        obtain ⟨rest, o2, hrest, rfl, rfl⟩ := h
        have hnarrow := read_cp_entry_narrow _ _ _ _ hentry
        obtain ⟨ih1, ih2, ih3⟩ := ih n (by omega) _ _ hrest
        refine ⟨by simp [ih1], ?_, ?_⟩
        · intro i e' hi he
          match i with
          | 0 =>
            simp only [List.getElem?_cons_zero, Option.some.injEq] at hi
            subst hi
            rw [hnarrow] at he
            cases he
          | j + 1 =>
            simp only [List.getElem?_cons_succ] at hi
            obtain ⟨o, t', h1, h2, h3, h4, h5, h6, h7⟩ := ih2 j e' hi he
            refine ⟨o, t', h1, h2, h3, h4, by omega, by simpa using h6, ?_⟩
            have : n + 1 - (j + 1 + 2) = n - (j + 2) := by omega
            rw [this]
            simpa using h7
        · simp only [Bool.false_eq_true, if_false, List.length_cons]
          rw [List.countP_cons_of_neg _ _ (by simp [hnarrow])]
          omega

/-- A Long record with two slots left: slot `i` takes the big-endian signed
value of the 8 payload bytes, slot `i + 1` the placeholder, and the loop goes
on 9 bytes later with the slots from `i + 2`. -/
theorem read_constant_pool_long_step (classbytes : Bytes) (hlen : classbytes.length < 2 ^ 32)
    (m o : Nat) (t : Byte) (hget : classbytes[o]? = some t)
    (htag : t.val = TAG_LONG) (hfit : o + 9 ≤ classbytes.length) :
    read_constant_pool classbytes (m + 2) o
      = (read_constant_pool classbytes m (o + 9) >>= fun r =>
          pure (⟨TAG_LONG, .l (toSigned 64 (be ((classbytes.drop (o + 1)).take 8)))⟩
            :: ⟨TAG_LONG, .uninit⟩ :: r.1, r.2)) := by
  have hentry : read_cp_entry classbytes o
      = .ok (⟨TAG_LONG, .l (toSigned 64 (be ((classbytes.drop (o + 1)).take 8)))⟩,
          true, o + 9) := by
    unfold read_cp_entry
    rw [copy_bytes_one _ _ _ hget, Nat.mod_eq_of_lt (by omega)]
    simp only [Exec.ok_bind, be1]
    have hc := copy_bytes_ok classbytes (o + 1) 8 (by omega) hlen
    simp [htag, hc, TAG_LONG, TAG_UTF8, TAG_INTEGER, TAG_FLOAT]
  rw [read_constant_pool, hentry]
  simp only [Exec.ok_bind, if_true]

/-- A Double record with two slots left: the 8 payload bytes go through
`GINT64_CONV` on the `gdouble`; slot `i` takes the result, slot `i + 1` the
placeholder, and the loop goes on 9 bytes later with the slots from `i + 2`. -/
theorem read_constant_pool_double_step (classbytes : Bytes)
    (hlen : classbytes.length < 2 ^ 32)
    (m o : Nat) (t : Byte) (hget : classbytes[o]? = some t)
    (htag : t.val = TAG_DOUBLE) (hfit : o + 9 ≤ classbytes.length) :
    read_constant_pool classbytes (m + 2) o
      = (GINT64_CONV_gdouble ((classbytes.drop (o + 1)).take 8) >>= fun d =>
          read_constant_pool classbytes m (o + 9) >>= fun r =>
            pure (⟨TAG_DOUBLE, .d d⟩ :: ⟨TAG_DOUBLE, .uninit⟩ :: r.1, r.2)) := by
  have hentry : read_cp_entry classbytes o
      = (GINT64_CONV_gdouble ((classbytes.drop (o + 1)).take 8) >>= fun d =>
          pure (⟨TAG_DOUBLE, .d d⟩, true, o + 9)) := by
    unfold read_cp_entry
    rw [copy_bytes_one _ _ _ hget, Nat.mod_eq_of_lt (by omega)]
    simp only [Exec.ok_bind, be1]
    have hc := copy_bytes_ok classbytes (o + 1) 8 (by omega) hlen
    simp [htag, hc, TAG_LONG, TAG_DOUBLE, TAG_UTF8, TAG_INTEGER, TAG_FLOAT]
  rw [read_constant_pool, hentry]
  cases GINT64_CONV_gdouble ((classbytes.drop (o + 1)).take 8) with
  | ok d => rfl
  | error e => rfl
  | abort => rfl
  | undefined => rfl

/-- In every pool that decodes, each Long or Double entry is followed by its
placeholder inside the pool, no byte is read for the placeholder, the record
that follows in the stream goes into the slot after it, and the number of
records read plus the number of Long and Double records is the number of
slots. -/
theorem long_double_occupy_two_slots (classbytes : Bytes)
    (hlen : classbytes.length < 2 ^ 32) (N offset : Nat) (pool : List cp_info)
    (offset' : Nat) (h : read_constant_pool classbytes N offset = .ok (pool, offset')) :
    pool.length = N ∧
    (∀ i e, pool[i]? = some e → is_long_or_double e = true →
      ∃ (o : Nat) (t : Byte), classbytes[o]? = some t ∧
        (t.val = TAG_LONG ∨ t.val = TAG_DOUBLE) ∧ o + 9 ≤ classbytes.length ∧
        wide_entry t.val ((classbytes.drop (o + 1)).take 8) e ∧
        i + 1 < N ∧ pool[i + 1]? = some ⟨t.val, .uninit⟩ ∧
        read_constant_pool classbytes (N - (i + 2)) (o + 9)
          = .ok (pool.drop (i + 2), offset')) ∧
    (cp_record_offsets classbytes N offset).length + pool.countP is_long_or_double = N :=
  read_constant_pool_wide classbytes hlen N offset pool offset' h

/-- The occupancy of slots at a concrete input: a pool of 4 slots holding a
string, a Long and a class reference, read as 3 records. -/
theorem long_takes_two_slots_example :
    read_constant_pool [1, 0, 2, 65, 66, 5, 0, 0, 0, 0, 0, 0, 0, 9, 7, 0, 1] 4 0
      = .ok ([⟨1, .str [65, 66]⟩, ⟨5, .l 9⟩, ⟨5, .uninit⟩, ⟨7, .index 0⟩], 17) ∧
    cp_record_offsets [1, 0, 2, 65, 66, 5, 0, 0, 0, 0, 0, 0, 0, 9, 7, 0, 1] 4 0
      = [0, 5, 14] := by
  decide

/-- A Double whose bytes, read in host order, are an infinity: the conversion
of `GINT64_CONV` to an unsigned integer is not defined, and neither is the
decode of a pool that holds the record. -/
theorem double_conversion_can_be_undefined :
    GINT64_CONV_gdouble [0, 0, 0, 0, 0, 0, 0xF0, 0x7F] = .undefined ∧
    read_constant_pool [6, 0, 0, 0, 0, 0, 0, 0xF0, 0x7F] 2 0 = .undefined := by
  decide

/-- C9: `double_constant_class` decodes, and its pool holds at offset 17 a
Double record whose 8 payload bytes `3F F0 00 00 00 00 00 00` are the value
1.0.  The record does take two slots (slot 3 is the placeholder), but slot 2
does not hold the 64-bit value of the payload: the bytes are copied into the
`gdouble` in host order (bit pattern `0xF03F`, a denormal number), and
`GINT64_CONV` converts that number to an integer (0), swaps the bytes of the
integer and converts back, so the value stored is 0.0. -/
theorem double_slot_holds_converted_integer :
    javaclass_new double_constant_class 40 false = .ok double_constant_class_decoded ∧
    double_constant_class[17]? = some 6 ∧
    (double_constant_class.drop 18).take 8 = [0x3F, 0xF0, 0, 0, 0, 0, 0, 0] ∧
    wide_value TAG_DOUBLE [0x3F, 0xF0, 0, 0, 0, 0, 0, 0] = .d 0x3FF0000000000000 ∧
    le [0x3F, 0xF0, 0, 0, 0, 0, 0, 0] = 0xF03F ∧
    float_to_unsigned 11 52 64 0xF03F = some 0 ∧
    signed_to_float 11 52 (toSigned 64 (bswap 8 0)) = 0 ∧
    GINT64_CONV_gdouble [0x3F, 0xF0, 0, 0, 0, 0, 0, 0] = .ok 0 ∧
    double_constant_class_decoded.constant_pool[2]? = some ⟨TAG_DOUBLE, .d 0⟩ ∧
    double_constant_class_decoded.constant_pool[3]? = some ⟨TAG_DOUBLE, .uninit⟩ ∧
    (⟨TAG_DOUBLE, .d 0⟩ : cp_info)
      ≠ ⟨TAG_DOUBLE, wide_value TAG_DOUBLE [0x3F, 0xF0, 0, 0, 0, 0, 0, 0]⟩ := by
  decide

/-! ## In-place name conversion and the constant pool -/

theorem to_external_char_ne_zero (ch : Byte) (h : ch ≠ 0) : to_external_char ch ≠ 0 := by
  unfold to_external_char
  split
  · decide
  · exact h

theorem to_external_char_idem (ch : Byte) :
    to_external_char (to_external_char ch) = to_external_char ch := by
  unfold to_external_char
  by_cases h : ch = SLASH
  · simp [h, DOT, SLASH]
  · simp [h]

theorem classname_to_external_format_cons (ch : Byte) (rest : Bytes) (h : ch ≠ 0) :
    classname_to_external_format (ch :: rest)
      = to_external_char ch :: classname_to_external_format rest := by
  simp [classname_to_external_format, h, to_external_char]

theorem classname_to_external_format_idem (s : Bytes) :
    classname_to_external_format (classname_to_external_format s)
      = classname_to_external_format s := by
  induction s with
  | nil => rfl
  | cons ch rest ih =>
    by_cases h : ch = 0
    · simp [classname_to_external_format, h]
    · rw [classname_to_external_format_cons _ _ h,
        classname_to_external_format_cons _ _ (to_external_char_ne_zero ch h), ih,
        to_external_char_idem]

theorem cstr_classname_to_external_format (s : Bytes) :
    cstr (classname_to_external_format s) = (cstr s).map to_external_char := by
  induction s with
  | nil => rfl
  | cons ch rest ih =>
    by_cases h : ch = 0
    · simp [classname_to_external_format, cstr, h]
    · rw [classname_to_external_format_cons _ _ h]
      unfold cstr at ih ⊢
      rw [List.takeWhile_cons_of_pos (by simpa using to_external_char_ne_zero ch h),
        List.takeWhile_cons_of_pos (by simpa using h), ih]
      rfl

/-- Converting cannot produce or destroy a name without `'/'` and `'.'`. -/
theorem map_to_external_char_eq_iff (n x : Bytes) (hs : SLASH ∉ x) (hd : DOT ∉ x) :
    n.map to_external_char = x ↔ n = x := by
  induction n generalizing x with
  | nil => simp [eq_comm]
  | cons ch rest ih =>
    cases x with
    | nil => simp
    | cons y ys =>
      simp only [List.mem_cons, not_or] at hs hd
      simp only [List.map_cons, List.cons.injEq]
      rw [ih ys hs.2 hd.2]
      constructor
      · rintro ⟨h1, h2⟩
        refine ⟨?_, h2⟩
        unfold to_external_char at h1
        by_cases hc : ch = SLASH
        · rw [if_pos hc] at h1
          exact absurd h1 hd.1
        · rw [if_neg hc] at h1
          exact h1
      · rintro ⟨h1, h2⟩
        refine ⟨?_, h2⟩
        subst h1
        unfold to_external_char
        rw [if_neg (fun h => hs.1 h.symm)]

theorem slotConv_refl (e : cp_info) : SlotConv e e := Or.inl rfl

theorem slotConv_trans {a b c : cp_info} (h1 : SlotConv a b) (h2 : SlotConv b c) :
    SlotConv a c := by
  rcases h1 with rfl | ⟨t, s, rfl, rfl⟩
  · exact h2
  · rcases h2 with rfl | ⟨t', s', h, rfl⟩
    · exact Or.inr ⟨t, s, rfl, rfl⟩
    · cases h
      exact Or.inr ⟨t, s, rfl, by rw [classname_to_external_format_idem]⟩

theorem poolConv_refl (p : List cp_info) : PoolConv p p := by
  intro j
  cases h : p[j]? with
  | none => exact Or.inl ⟨rfl, rfl⟩
  | some e => exact Or.inr ⟨e, e, rfl, rfl, slotConv_refl e⟩

theorem poolConv_trans {p q r : List cp_info} (h1 : PoolConv p q) (h2 : PoolConv q r) :
    PoolConv p r := by
  intro j
  rcases h1 j with ⟨hp, hq⟩ | ⟨e, e', hp, hq, hs⟩
  · rcases h2 j with ⟨_, hr⟩ | ⟨e, e', hq', _, _⟩
    · exact Or.inl ⟨hp, hr⟩
    · rw [hq] at hq'
      cases hq'
  · rcases h2 j with ⟨hq', _⟩ | ⟨e2, e3, hq', hr, hs'⟩
    · rw [hq] at hq'
      cases hq'
    · rw [hq] at hq'
      cases hq'
      exact Or.inr ⟨e, e3, hp, hr, slotConv_trans hs hs'⟩

theorem poolConv_set (p : List cp_info) (j : Nat) (t : Nat) (s : Bytes)
    (h : p[j]? = some ⟨t, .str s⟩) :
    PoolConv p (p.set j ⟨t, .str (classname_to_external_format s)⟩) := by
  intro k
  have hj : j < p.length := (List.getElem?_eq_some.mp h).1
  by_cases hk : j = k
  · subst hk
    refine Or.inr ⟨_, _, h, ?_, Or.inr ⟨t, s, rfl, rfl⟩⟩
    simp [List.getElem?_set, hj]
  · cases hp : p[k]? with
    | none =>
      refine Or.inl ⟨rfl, ?_⟩
      rw [List.getElem?_set_ne hk]
      exact hp
    | some e =>
      refine Or.inr ⟨e, e, rfl, ?_, slotConv_refl e⟩
      rw [List.getElem?_set_ne hk]
      exact hp

/-- `string_from_cp` succeeds exactly on a slot that holds a string under the
Utf8 tag. -/
theorem string_from_cp_eq_ok (pool : List cp_info) (i : Nat) (n : Bytes) :
    string_from_cp pool i = .ok n ↔
      ∃ s, pool[i]? = some ⟨TAG_UTF8, .str s⟩ ∧ n = cstr s := by
  unfold string_from_cp cp_get
  rw [List.get?_eq_getElem?]
  cases h : pool[i]? with
  | none => simp
  | some e =>
    obtain ⟨t, v⟩ := e
    simp only [Exec.ok_bind]
    by_cases ht : t = TAG_UTF8
    · subst ht
      cases v <;> simp [eq_comm]
    · simp [ht]

/-- A name test against a string without `'/'` and `'.'` gives the same
answer before and after in-place conversions. -/
theorem string_from_cp_conv (p p' : List cp_info) (hconv : PoolConv p p') (i : Nat)
    (x : Bytes) (hs : SLASH ∉ x) (hd : DOT ∉ x) :
    string_from_cp p i = .ok x ↔ string_from_cp p' i = .ok x := by
  rw [string_from_cp_eq_ok, string_from_cp_eq_ok]
  rcases hconv i with ⟨hp, hp'⟩ | ⟨e, e', hp, hp', hslot⟩
  · simp [hp, hp']
  · rw [hp, hp']
    rcases hslot with rfl | ⟨t, s, rfl, rfl⟩
    · rfl
    · constructor
      · rintro ⟨s0, h1, h2⟩
        cases h1
        refine ⟨_, rfl, ?_⟩
        rw [cstr_classname_to_external_format, ← h2]
        exact ((map_to_external_char_eq_iff x x hs hd).mpr rfl).symm
      · rintro ⟨s0, h1, h2⟩
        cases h1
        refine ⟨_, rfl, ?_⟩
        rw [cstr_classname_to_external_format] at h2
        exact ((map_to_external_char_eq_iff _ x hs hd).mp h2.symm).symm

theorem classname_to_external_format_at_conv (pool pool' : List cp_info) (i : Nat)
    (h : classname_to_external_format_at pool i = .ok pool') : PoolConv pool pool' := by
  unfold classname_to_external_format_at at h
  simp only [Exec.bind_eq_ok] at h
  obtain ⟨j, _, h⟩ := h
  rw [List.get?_eq_getElem?] at h
  split at h
  · rename_i t s hget
    cases h
    exact poolConv_set pool j t s hget
  · cases h

theorem extract_exceptions_loop_conv (info : Bytes) (n : Nat) (pool : List cp_info)
    (offset : Nat) (pool' : List cp_info) (ptrs : List Nat)
    (h : extract_exceptions_loop info n pool offset = .ok (pool', ptrs)) :
    PoolConv pool pool' := by
  induction n generalizing pool offset ptrs with
  | zero =>
    simp only [extract_exceptions_loop, Exec.pure_eq, Exec.ok.injEq, Prod.mk.injEq] at h
    rw [← h.1]
    exact poolConv_refl pool
  | succ n ih =>
    unfold extract_exceptions_loop at h
    simp only [Exec.bind_eq_ok, Prod.exists, Exec.pure_eq, Exec.ok.injEq, Prod.mk.injEq] at h
    obtain ⟨cur, o1, _, p1, hconv, j, _, p2, rest, hrest, rfl, _⟩ := h
    exact poolConv_trans (classname_to_external_format_at_conv _ _ _ hconv) (ih _ _ _ hrest)

theorem extract_exceptions_conv (pool : List cp_info) (attrs : List attribute_info)
    (pool' : List cp_info) (ptrs : Option (List Nat))
    (h : extract_exceptions pool attrs = .ok (pool', ptrs)) : PoolConv pool pool' := by
  induction attrs with
  | nil =>
    simp only [extract_exceptions, Exec.pure_eq, Exec.ok.injEq, Prod.mk.injEq] at h
    rw [← h.1]
    exact poolConv_refl pool
  | cons a rest ih =>
    unfold extract_exceptions at h
    simp only [Exec.bind_eq_ok] at h
    obtain ⟨name, _, h⟩ := h
    split at h
    · simp only [Exec.bind_eq_ok, Prod.exists] at h
      obtain ⟨num, o1, _, h⟩ := h
      split at h
      · simp only [Exec.pure_eq, Exec.ok.injEq, Prod.mk.injEq] at h
        rw [← h.1]
        exact poolConv_refl pool
      · simp only [Exec.bind_eq_ok, Prod.exists, Exec.pure_eq, Exec.ok.injEq,
          Prod.mk.injEq] at h
        obtain ⟨p1, l, hloop, rfl, _⟩ := h
        exact extract_exceptions_loop_conv _ _ _ _ _ _ hloop
    · exact ih h

/-! ## The bytecode of a method -/

theorem read_u32_eq_ok (src : Bytes) (o : Nat) (v o1 : Nat)
    (h : read_u32 src o = .ok (v, o1)) :
    o + 4 ≤ src.length ∧ v = be ((src.drop o).take 4) := by
  unfold read_u32 copy_bytes at h
  by_cases hle : o + 4 ≤ src.length
  · rw [if_pos hle] at h
    simp only [Exec.ok_bind, Exec.pure_eq, Exec.ok.injEq, Prod.mk.injEq] at h
    exact ⟨hle, h.1.symm⟩
  · rw [if_neg hle] at h
    cases h

theorem ascii_code_ne_signature : ascii "Signature" ≠ ascii "Code" := by decide

theorem scan_method_attributes_keeps_code (pool : List cp_info)
    (post : List attribute_info)
    (hpost : ∀ b ∈ post, string_from_cp pool b.attribute_name_index ≠ .ok (ascii "Code"))
    (signature : Option Bytes) (codelen : Nat) (code : Option Bytes)
    (r : Option Bytes × Nat × Option Bytes)
    (h : scan_method_attributes pool true post (signature, codelen, code) = .ok r) :
    r.2.1 = codelen ∧ r.2.2 = code := by
  induction post generalizing signature with
  | nil =>
    simp only [scan_method_attributes, Exec.pure_eq, Exec.ok.injEq] at h
    subst h
    exact ⟨rfl, rfl⟩
  | cons b rest ih =>
    have hb := hpost b (List.mem_cons_self _ _)
    have hrest : ∀ b' ∈ rest,
        string_from_cp pool b'.attribute_name_index ≠ .ok (ascii "Code") :=
      fun b' hb' => hpost b' (List.mem_cons_of_mem _ hb')
    unfold scan_method_attributes at h
    simp only [Exec.bind_eq_ok] at h
    obtain ⟨name, hname, h⟩ := h
    split at h
    · simp only [Exec.bind_eq_ok, Prod.exists] at h
      obtain ⟨sig, o1, _, s, _, h⟩ := h
      exact ih hrest _ h
    · simp only [if_true, Exec.bind_eq_ok] at h
      obtain ⟨name2, hname2, h⟩ := h
      split at h
      · rename_i hcode
        simp only [g_strcmp0_eq, decide_eq_true_eq, Option.some.injEq] at hcode
        rw [← hcode] at hname2
        exact absurd hname2 hb
      · exact ih hrest _ h

theorem scan_method_attributes_at_code (pool : List cp_info) (a : attribute_info)
    (post : List attribute_info)
    (ha : string_from_cp pool a.attribute_name_index = .ok (ascii "Code"))
    (st r : Option Bytes × Nat × Option Bytes)
    (h : scan_method_attributes pool true (a :: post) st = .ok r) :
    8 ≤ (payload a.info).length ∧
      scan_method_attributes pool true post
        (st.1, be (((payload a.info).drop 4).take 4), some ((payload a.info).drop 8))
        = .ok r := by
  obtain ⟨signature, codelen, code⟩ := st
  unfold scan_method_attributes at h
  rw [ha] at h
  simp only [Exec.ok_bind, g_strcmp0_eq, Option.some.injEq, ascii_code_ne_signature,
    decide_False, Bool.false_eq_true, if_false, if_true, decide_True] at h
  simp only [Exec.bind_eq_ok, Prod.exists] at h
  obtain ⟨len, o1, hread, h⟩ := h
  obtain ⟨h1, rfl⟩ := read_u32_eq_ok _ _ _ _ hread
  exact ⟨by omega, h⟩

theorem scan_method_attributes_append (pool : List cp_info) (includecode : Bool)
    (pre rest : List attribute_info) (st r : Option Bytes × Nat × Option Bytes)
    (h : scan_method_attributes pool includecode (pre ++ rest) st = .ok r) :
    ∃ st', scan_method_attributes pool includecode rest st' = .ok r := by
  induction pre generalizing st with
  | nil => exact ⟨st, h⟩
  | cons b pre ih =>
    obtain ⟨signature, codelen, code⟩ := st
    rw [List.cons_append] at h
    unfold scan_method_attributes at h
    simp only [Exec.bind_eq_ok] at h
    obtain ⟨name, _, h⟩ := h
    split at h
    · simp only [Exec.bind_eq_ok, Prod.exists] at h
      obtain ⟨sig, o1, _, s, _, h⟩ := h
      exact ih _ h
    · split at h
      · simp only [Exec.bind_eq_ok] at h
        obtain ⟨name2, _, h⟩ := h
        split at h
        · simp only [Exec.bind_eq_ok, Prod.exists] at h
          obtain ⟨len, o1, _, h⟩ := h
          exact ih _ h
        · exact ih _ h
      · exact ih _ h

/-- What the scan of a method's attributes leaves in `codelen` and `code`
when the last attribute named `Code` is `a`. -/
theorem scan_method_attributes_last_code (pool : List cp_info)
    (pre post : List attribute_info) (a : attribute_info)
    (ha : string_from_cp pool a.attribute_name_index = .ok (ascii "Code"))
    (hpost : ∀ b ∈ post, string_from_cp pool b.attribute_name_index ≠ .ok (ascii "Code"))
    (st r : Option Bytes × Nat × Option Bytes)
    (h : scan_method_attributes pool true (pre ++ a :: post) st = .ok r) :
    8 ≤ (payload a.info).length ∧
      r.2.1 = be (((payload a.info).drop 4).take 4) ∧
      r.2.2 = some ((payload a.info).drop 8) := by
  obtain ⟨st', h'⟩ := scan_method_attributes_append pool true pre (a :: post) st r h
  obtain ⟨h8, hscan⟩ := scan_method_attributes_at_code pool a post ha st' r h'
  obtain ⟨h1, h2⟩ := scan_method_attributes_keeps_code pool post hpost _ _ _ r hscan
  exact ⟨h8, h1, h2⟩

theorem javamethod_set_code_eq_ok (m0 jm : JavaMethod) (bytes : Bytes) (codelen : Nat)
    (h0 : m0.code = none) (h0' : m0.codelen = 0)
    (h : javamethod_set_code m0 (some bytes) codelen = .ok jm) :
    (codelen = 0 → jm.code = none ∧ jm.codelen = 0) ∧
    (codelen ≠ 0 → codelen ≤ bytes.length ∧ jm.code = some (bytes.take codelen) ∧
      jm.codelen = codelen) := by
  unfold javamethod_set_code at h
  simp only at h
  by_cases hz : codelen = 0
  · rw [if_pos hz] at h
    cases h
    exact ⟨fun _ => ⟨h0, h0'⟩, fun hne => absurd hz hne⟩
  · rw [if_neg hz] at h
    by_cases hle : codelen ≤ bytes.length
    · rw [if_pos hle] at h
      cases h
      exact ⟨fun hzz => absurd hzz hz, fun _ => ⟨hle, rfl, rfl⟩⟩
    · rw [if_neg hle] at h
      cases h

theorem javaclass_new_methods_conv (ms : List method_info) (pool final : List cp_info)
    (jms : List JavaMethod)
    (h : javaclass_new_methods true ms pool = .ok (final, jms)) :
    PoolConv pool final ∧
    ∀ (i : Nat) (m : method_info), ms[i]? = some m →
      ∃ (jm : JavaMethod) (p : List cp_info) (r : Option Bytes × Nat × Option Bytes)
        (m0 : JavaMethod),
        jms[i]? = some jm ∧ PoolConv p final ∧
        scan_method_attributes p true m.attributes (none, 0, none) = .ok r ∧
        m0.code = none ∧ m0.codelen = 0 ∧
        javamethod_set_code m0 r.2.2 r.2.1 = .ok jm := by
  induction ms generalizing pool jms with
  | nil =>
    simp only [javaclass_new_methods, Exec.pure_eq, Exec.ok.injEq, Prod.mk.injEq] at h
    rw [← h.1]
    exact ⟨poolConv_refl pool, fun i m hm => by simp at hm⟩
  | cons m rest ih =>
    unfold javaclass_new_methods at h
    simp only [Exec.bind_eq_ok, Prod.exists, if_true, Exec.pure_eq, Exec.ok.injEq,
      Prod.mk.injEq] at h
    obtain ⟨n1, _, n2, _, p, exc, hexc, sig, cl, code, hscan, jm, hset, f, jms', hrest,
      rfl, rfl⟩ := h
    obtain ⟨ih1, ih2⟩ := ih p jms' hrest
    refine ⟨poolConv_trans (extract_exceptions_conv _ _ _ _ hexc) ih1, ?_⟩
    intro i m' hm'
    match i with
    | 0 =>
      simp only [List.getElem?_cons_zero, Option.some.injEq] at hm'
      subst hm'
      exact ⟨jm, p, (sig, cl, code), _, by simp, ih1, hscan, rfl, rfl, hset⟩
    | j + 1 =>
      simp only [List.getElem?_cons_succ] at hm'
      obtain ⟨jm', p', r, m0, h1, h2, h3, h4, h5, h6⟩ := ih2 j m' hm'
      exact ⟨jm', p', r, m0, by simpa using h1, h2, h3, h4, h5, h6⟩

theorem javaclass_new_parse_methods_nil (pool : List cp_info) (classbytes : Bytes)
    (offset : Nat) (count : Nat) (ms : List method_info) (offset' : Nat)
    (h : javaclass_new_parse_methods pool classbytes offset = .ok (count, ms, offset')) :
    ¬ count > 0 → ms = [] := by
  intro hc
  unfold javaclass_new_parse_methods at h
  simp only [Exec.bind_eq_ok, Prod.exists] at h
  obtain ⟨mc, o1, _, h⟩ := h
  split at h
  · simp only [Exec.bind_eq_ok, Prod.exists, Exec.pure_eq, Exec.ok.injEq, Prod.mk.injEq] at h
    obtain ⟨_, _, _, rfl, _, _⟩ := h
    exact absurd (by assumption) hc
  · simp only [Exec.pure_eq, Exec.ok.injEq, Prod.mk.injEq] at h
    exact h.2.1.symm

theorem javaclass_new_parse_methods_count (classbytes : Bytes) (magic minor major offset : Nat)
    (raw : JavaClass) (offset' : Nat)
    (h : javaclass_new_parse classbytes magic minor major offset = .ok (raw, offset')) :
    ¬ raw.methods_count > 0 → raw.methods = [] := by
  unfold javaclass_new_parse at h
  simp only [Exec.bind_eq_ok, Prod.exists, Exec.pure_eq, Exec.ok.injEq, Prod.mk.injEq] at h
  obtain ⟨cnt, o1, _, pool, o2, _, af, tc, sc, pool2, o3, _, ic, ifs, o4, _, fc, fs, o5, _,
    mc, ms, o6, hms, ac, as, o7, _, rfl, _⟩ := h
  exact javaclass_new_parse_methods_nil _ _ _ _ _ _ hms

theorem javaclass_new_views_methods_eq (raw c : JavaClass)
    (h : javaclass_new_views raw true = .ok c) :
    c.methods = raw.methods ∧
    ((raw.methods_count > 0 ∧ ∃ pool jms,
        javaclass_new_methods true raw.methods pool = .ok (c.constant_pool, jms) ∧
        c._methods = some jms) ∨
     (¬ raw.methods_count > 0 ∧ c._methods = none)) := by
  unfold javaclass_new_views at h
  simp only [Exec.bind_eq_ok, Prod.exists, Exec.pure_eq, Exec.ok.injEq] at h
  obtain ⟨j1, _, j2, _, pool1, ifs, _, flds, _, pool2, ms, hms, sig, _, rfl⟩ := h
  refine ⟨rfl, ?_⟩
  unfold javaclass_new_views_methods at hms
  by_cases hc : raw.methods_count > 0
  · rw [if_pos hc] at hms
    simp only [Exec.bind_eq_ok, Prod.exists, Exec.pure_eq, Exec.ok.injEq, Prod.mk.injEq] at hms
    obtain ⟨p, jms, hjms, rfl, rfl⟩ := hms
    exact Or.inl ⟨hc, pool1, jms, hjms, rfl⟩
  · rw [if_neg hc] at hms
    simp only [Exec.pure_eq, Exec.ok.injEq, Prod.mk.injEq] at hms
    obtain ⟨_, rfl⟩ := hms
    exact Or.inr ⟨hc, rfl⟩

theorem ascii_code_no_slash : SLASH ∉ ascii "Code" := by decide

theorem ascii_code_no_dot : DOT ∉ ascii "Code" := by decide

/-! ## What a returned class says about the input -/

theorem be2_lt (a b : Byte) : be [a, b] < 65536 := by
  rw [be2]
  have := a.isLt
  have := b.isLt
  omega

/-- A class is returned only for an input that starts with the magic number
and carries a major version of at most 50; the class then comes from
`javaclass_new_body`. -/
theorem javaclass_new_ok_shape (classbytes : Bytes) (length : Nat) (includecode : Bool)
    (c : JavaClass) (h : javaclass_new classbytes length includecode = .ok c) :
    ∃ (m1 m2 M1 M2 : Byte) (rest : Bytes),
      classbytes = 0xCA :: 0xFE :: 0xBA :: 0xBE :: m1 :: m2 :: M1 :: M2 :: rest ∧
      be [M1, M2] ≤ MAX_MAJOR_VERSION ∧
      javaclass_new_body classbytes length includecode 0xCAFEBABE (be [m1, m2])
        (be [M1, M2]) 8 = .ok c := by
  match classbytes, h with
  | [], h => simp [javaclass_new, read_u32, copy_bytes] at h
  | [_], h => simp [javaclass_new, read_u32, copy_bytes] at h
  | [_, _], h => simp [javaclass_new, read_u32, copy_bytes] at h
  | [_, _, _], h => simp [javaclass_new, read_u32, copy_bytes] at h
  | [a, b, c4, d], h =>
    simp [javaclass_new, read_u32, read_u16, copy_bytes] at h
    split at h <;> cases h
  | [a, b, c4, d, _], h =>
    simp [javaclass_new, read_u32, read_u16, copy_bytes] at h
    split at h <;> cases h
  | [a, b, c4, d, _, _], h =>
    simp [javaclass_new, read_u32, read_u16, copy_bytes] at h
    split at h <;> cases h
  | [a, b, c4, d, _, _, _], h =>
    simp [javaclass_new, read_u32, read_u16, copy_bytes] at h
    split at h <;> cases h
  | a :: b :: c4 :: d :: m1 :: m2 :: M1 :: M2 :: rest, h =>
    by_cases hmagic : [a, b, c4, d] = [0xCA, 0xFE, 0xBA, 0xBE]
    · simp only [List.cons.injEq, and_true] at hmagic
      obtain ⟨rfl, rfl, rfl, rfl⟩ := hmagic
      rw [javaclass_new_header] at h
      split at h
      · cases h
      · exact ⟨m1, m2, M1, M2, rest, rfl, by omega, h⟩
    · have hne : be [a, b, c4, d] ≠ 0xCAFEBABE :=
        fun hbe => hmagic (be4_eq_magic a b c4 d hbe)
      simp [javaclass_new, read_u32, copy_bytes, hne] at h

/-- The pieces of a successful structural parse. -/
theorem javaclass_new_parse_eq_ok (classbytes : Bytes) (magic minor major offset : Nat)
    (raw : JavaClass) (offset' : Nat)
    (h : javaclass_new_parse classbytes magic minor major offset = .ok (raw, offset')) :
    ∃ cnt o1 pool0 o2 af tc sc pool1 o3 ic ifs o4 fc fs o5 mc ms o6 ac ats,
      read_u16 classbytes offset = .ok (cnt, o1) ∧
      read_constant_pool classbytes (dec16 cnt) o1 = .ok (pool0, o2) ∧
      javaclass_new_parse_refs classbytes pool0 o2 = .ok (af, tc, sc, pool1, o3) ∧
      javaclass_new_parse_interfaces classbytes o3 = .ok (ic, ifs, o4) ∧
      javaclass_new_parse_fields pool1 classbytes o4 = .ok (fc, fs, o5) ∧
      javaclass_new_parse_methods pool1 classbytes o5 = .ok (mc, ms, o6) ∧
      javaclass_new_parse_attributes pool1 classbytes o6 = .ok (ac, ats, offset') ∧
      raw = { magic_number := magic, minor_version := minor,
              major_version := major, constant_pool_count := dec16 cnt,
              constant_pool := pool1, access_flags := af, this_class := tc,
              super_class := sc, interfaces_count := ic,
              interfaces := ifs, fields_count := fc, fields := fs,
              methods_count := mc, methods := ms,
              attributes_count := ac, attributes := ats,
              _package := none, _classname := none, _interfaces := none, _fields := none,
              _methods := none, _signature := none } := by
  unfold javaclass_new_parse at h
  simp only [Exec.bind_eq_ok, Prod.exists, Exec.pure_eq, Exec.ok.injEq, Prod.mk.injEq] at h
  obtain ⟨cnt, o1, h1, pool, o2, h2, af, tc, sc, pool2, o3, h3, ic, ifs, o4, h4, fc, fs, o5, h5,
    mc, ms, o6, h6, ac, ats, o7, h7, rfl, rfl⟩ := h
  exact ⟨cnt, o1, pool, o2, af, tc, sc, pool2, o3, ic, ifs, o4, fc, fs, o5, mc, ms, o6, ac, ats,
    h1, (javaclass_new_parse_pool_eq_ok _ _ _ _).mp h2, h3, h4, h5, h6, h7, rfl⟩

/-- The pieces of a successful second pass. -/
theorem javaclass_new_views_eq_ok (raw c : JavaClass) (includecode : Bool)
    (h : javaclass_new_views raw includecode = .ok c) :
    ∃ j pool1 ifs flds pool2 ms sig,
      classname_from_cp raw.constant_pool raw.this_class = .ok j ∧
      javaclass_new_views_interfaces raw raw.constant_pool = .ok (pool1, ifs) ∧
      javaclass_new_views_fields raw pool1 = .ok flds ∧
      javaclass_new_views_methods raw includecode pool1 = .ok (pool2, ms) ∧
      scan_signature pool2 raw.attributes none = .ok sig ∧
      c = { raw with
              constant_pool := pool2,
              _package := javaclass_extract_package (some (cp_cstr raw.constant_pool j)),
              _classname := javaclass_extract_classname (some (cp_cstr raw.constant_pool j)),
              _interfaces := ifs, _fields := flds, _methods := ms, _signature := sig } := by
  unfold javaclass_new_views at h
  simp only [Exec.bind_eq_ok, Prod.exists, Exec.pure_eq, Exec.ok.injEq] at h
  obtain ⟨j1, hj1, j2, hj2, pool1, ifs, h1, flds, h2, pool2, ms, h3, sig, h4, rfl⟩ := h
  have : j2 = j1 := by rw [hj1] at hj2; cases hj2; rfl
  subst this
  exact ⟨j2, pool1, ifs, flds, pool2, ms, sig, hj1, h1, h2, h3, h4, rfl⟩

/-- The pieces of lines 442-459. -/
theorem javaclass_new_parse_refs_eq_ok (classbytes : Bytes) (pool : List cp_info) (offset : Nat)
    (af tc sc : Nat) (pool' : List cp_info) (offset' : Nat)
    (h : javaclass_new_parse_refs classbytes pool offset = .ok (af, tc, sc, pool', offset')) :
    ∃ o1 v o2 poolA w,
      read_u16 classbytes offset = .ok (af, o1) ∧
      read_u16 classbytes o1 = .ok (v, o2) ∧ tc = dec16 v ∧
      classname_to_external_format_at pool tc = .ok poolA ∧
      read_u16 classbytes o2 = .ok (w, offset') ∧ sc = dec16 w ∧
      ((sc ≠ INVALID_INDEX ∧ classname_to_external_format_at poolA sc = .ok pool') ∨
       (sc = INVALID_INDEX ∧ pool' = poolA)) := by
  unfold javaclass_new_parse_refs at h
  simp only [Exec.bind_eq_ok, Prod.exists] at h
  obtain ⟨af', o1, h1, v, o2, h2, poolA, h3, w, o3, h4, h5⟩ := h
  by_cases hsc : dec16 w ≠ INVALID_INDEX
  · rw [if_pos hsc] at h5
    simp only [Exec.bind_eq_ok, Exec.pure_eq, Exec.ok.injEq, Prod.mk.injEq] at h5
    obtain ⟨p2, h6, rfl, rfl, rfl, rfl, rfl⟩ := h5
    exact ⟨o1, v, o2, poolA, w, h1, h2, rfl, h3, h4, rfl, Or.inl ⟨hsc, h6⟩⟩
  · rw [if_neg hsc] at h5
    simp only [Exec.pure_eq, Exec.ok.injEq, Prod.mk.injEq] at h5
    obtain ⟨rfl, rfl, rfl, rfl, rfl⟩ := h5
    exact ⟨o1, v, o2, _, w, h1, h2, rfl, h3, h4, rfl, Or.inr ⟨not_not.mp hsc, rfl⟩⟩

theorem read_u16_eq_ok (src : Bytes) (o : Nat) (v o1 : Nat)
    (h : read_u16 src o = .ok (v, o1)) :
    o + 2 ≤ src.length ∧ v = be ((src.drop o).take 2) ∧ o1 = (o + 2) % 2 ^ 32 := by
  unfold read_u16 at h
  simp only [Exec.bind_eq_ok, Prod.exists, Exec.pure_eq, Exec.ok.injEq, Prod.mk.injEq] at h
  obtain ⟨b, o2, hcopy, rfl, rfl⟩ := h
  unfold copy_bytes at hcopy
  by_cases hle : o + 2 ≤ src.length
  · rw [if_pos hle] at hcopy
    cases hcopy
    exact ⟨hle, rfl, rfl⟩
  · rw [if_neg hle] at hcopy
    cases hcopy

theorem read_u16_lt (src : Bytes) (o : Nat) (v o1 : Nat)
    (h : read_u16 src o = .ok (v, o1)) : v < 65536 := by
  obtain ⟨hlen, rfl, _⟩ := read_u16_eq_ok _ _ _ _ h
  have hl : ((src.drop o).take 2).length = 2 := by
    simp only [List.length_take, List.length_drop]; omega
  match hx : (src.drop o).take 2, hl with
  | [a, b], _ => exact be2_lt a b

theorem dec16_eq_invalid_iff (v : Nat) (hv : v < 65536) : dec16 v = INVALID_INDEX ↔ v = 0 := by
  unfold dec16 INVALID_INDEX
  split <;> omega

/-- A returned class is the second pass over a structural parse that started
after an accepted header and stopped at `length`. -/
theorem javaclass_new_ok_struct (classbytes : Bytes) (length : Nat) (includecode : Bool)
    (c : JavaClass) (h : javaclass_new classbytes length includecode = .ok c) :
    ∃ (m1 m2 M1 M2 : Byte) (rest : Bytes) (raw : JavaClass),
      classbytes = 0xCA :: 0xFE :: 0xBA :: 0xBE :: m1 :: m2 :: M1 :: M2 :: rest ∧
      be [M1, M2] ≤ MAX_MAJOR_VERSION ∧
      javaclass_new_parse classbytes 0xCAFEBABE (be [m1, m2]) (be [M1, M2]) 8
        = .ok (raw, length) ∧
      javaclass_new_views raw includecode = .ok c := by
  obtain ⟨m1, m2, M1, M2, rest, hcb, hle, hbody⟩ := javaclass_new_ok_shape _ _ _ _ h
  obtain ⟨raw, hparse, hviews⟩ := javaclass_new_body_ok _ _ _ _ _ _ _ _ hbody
  exact ⟨m1, m2, M1, M2, rest, raw, hcb, hle, hparse, hviews⟩

/-! ## Single-bit masks -/

/-- The test `flags & mask ? TRUE : FALSE` against a one-bit mask reads that
bit. -/
theorem and_two_pow_ne_zero (a k : Nat) : (a &&& 2 ^ k ≠ 0) ↔ a.testBit k = true := by
  constructor
  · intro h
    by_contra hb
    apply h
    apply Nat.eq_of_testBit_eq
    intro i
    rw [Nat.testBit_and, Nat.testBit_two_pow, Nat.zero_testBit]
    by_cases hki : k = i
    · subst hki; simp [hb]
    · simp [hki]
  · intro hb h
    have := congrArg (fun x => x.testBit k) h
    simp [Nat.testBit_two_pow, hb] at this

theorem flag_test (a k : Nat) :
    (if a &&& 2 ^ k ≠ 0 then true else false) = a.testBit k := by
  by_cases h : a.testBit k = true
  · rw [if_pos ((and_two_pow_ne_zero a k).mpr h), h]
  · rw [if_neg (fun hne => h ((and_two_pow_ne_zero a k).mp hne))]
    simpa using h

/-- Setting a bit: `flags |= mask`. -/
theorem testBit_or_two_pow (a k i : Nat) :
    (a ||| 2 ^ k).testBit i = (a.testBit i || decide (k = i)) := by
  rw [Nat.testBit_or, Nat.testBit_two_pow]

/-- Clearing a bit of a 16-bit value: `flags &= ~mask`. -/
theorem testBit_and_not16 (a k i : Nat) (ha : a < 65536) :
    (a &&& not16 (2 ^ k)).testBit i = (a.testBit i && !decide (k = i)) := by
  unfold not16
  rw [Nat.testBit_and, Nat.testBit_xor, Nat.testBit_two_pow,
    show (0xFFFF : Nat) = 2 ^ 16 - 1 from rfl, Nat.testBit_two_pow_sub_one]
  by_cases hi : i < 16
  · simp [hi]
  · have : a.testBit i = false :=
      Nat.testBit_lt_two_pow (Nat.lt_of_lt_of_le ha
        (by rw [show (65536 : Nat) = 2 ^ 16 from rfl]
            exact Nat.pow_le_pow_right (by decide) (by omega)))
    simp [this]

theorem set_flag_reads_true (a k : Nat) :
    (if (a ||| 2 ^ k) &&& 2 ^ k ≠ 0 then true else false) = true := by
  rw [flag_test, testBit_or_two_pow]
  simp

theorem set_flag_keeps_others (a k i : Nat) (hi : i ≠ k) :
    (a ||| 2 ^ k).testBit i = a.testBit i := by
  rw [testBit_or_two_pow]
  simp [Ne.symm hi]

theorem clear_flag_reads_false (a k : Nat) (ha : a < 65536) :
    (if (a &&& not16 (2 ^ k)) &&& 2 ^ k ≠ 0 then true else false) = false := by
  rw [flag_test, testBit_and_not16 a k k ha]
  simp

theorem clear_flag_keeps_others (a k i : Nat) (ha : a < 65536) (hi : i ≠ k) :
    (a &&& not16 (2 ^ k)).testBit i = a.testBit i := by
  rw [testBit_and_not16 a k i ha]
  simp [Ne.symm hi]

/-! ## Class names across the in-place conversions -/

/-- `classname_from_cp` succeeds exactly on a class entry whose name index is
the slot of a Utf8 string. -/
theorem classname_from_cp_eq_ok (pool : List cp_info) (i j : Nat) :
    classname_from_cp pool i = .ok j ↔ ∃ s, class_name_at pool i j s := by
  unfold classname_from_cp cp_get class_name_at
  rw [List.get?_eq_getElem?]
  cases h : pool[i]? with
  | none => simp
  | some e =>
    obtain ⟨t, v⟩ := e
    simp only [Exec.ok_bind]
    by_cases ht : t = TAG_CLASS
    · subst ht
      cases v with
      | index k =>
        simp only [if_true, List.get?_eq_getElem?]
        cases hk : pool[k]? with
        | none =>
          simp only [Exec.undefined_bind]
          constructor
          · intro h; cases h
          · rintro ⟨s, h1, h2⟩
            simp only [Option.some.injEq, cp_info.mk.injEq, cp_value.index.injEq, true_and] at h1
            subst h1
            rw [hk] at h2
            cases h2
        | some u =>
          obtain ⟨tu, vu⟩ := u
          simp only [Exec.ok_bind]
          by_cases htu : tu = TAG_UTF8
          · subst htu
            cases vu with
            | str s =>
              simp only [if_true, Exec.pure_eq, Exec.ok.injEq]
              constructor
              · rintro rfl
                exact ⟨s, rfl, hk⟩
              · rintro ⟨s', h1, _⟩
                simp only [Option.some.injEq, cp_info.mk.injEq, cp_value.index.injEq,
                  true_and] at h1
                exact h1
            | _ =>
              simp only [if_true]
              constructor
              · intro h; cases h
              · rintro ⟨s', h1, h2⟩
                simp only [Option.some.injEq, cp_info.mk.injEq, cp_value.index.injEq,
                  true_and] at h1
                subst h1
                rw [hk] at h2
                cases h2
          · rw [if_neg htu]
            constructor
            · intro h; cases h
            · rintro ⟨s', h1, h2⟩
              simp only [Option.some.injEq, cp_info.mk.injEq, cp_value.index.injEq,
                true_and] at h1
              subst h1
              rw [hk] at h2
              cases h2
              exact absurd rfl htu
      | _ =>
        simp only [if_true]
        constructor
        · intro h; cases h
        · rintro ⟨s', h1, _⟩
          cases h1
    · rw [if_neg ht]
      constructor
      · intro h; cases h
      · rintro ⟨s', h1, _⟩
        cases h1
        exact absurd rfl ht

/-- The in-place conversion of the name of class entry `i` rewrites the
string of its name slot. -/
theorem classname_to_external_format_at_eq_ok (pool pool' : List cp_info) (i : Nat)
    (h : classname_to_external_format_at pool i = .ok pool') :
    ∃ j s, class_name_at pool i j s ∧
      pool' = pool.set j ⟨TAG_UTF8, .str (classname_to_external_format s)⟩ := by
  unfold classname_to_external_format_at at h
  simp only [Exec.bind_eq_ok] at h
  obtain ⟨j, hj, h⟩ := h
  obtain ⟨s, hs⟩ := (classname_from_cp_eq_ok _ _ _).mp hj
  rw [List.get?_eq_getElem?, hs.2] at h
  simp only [Exec.pure_eq, Exec.ok.injEq] at h
  exact ⟨j, s, hs, h.symm⟩

theorem poolConv_index {p p' : List cp_info} (h : PoolConv p p') (i t j : Nat) :
    p[i]? = some ⟨t, .index j⟩ ↔ p'[i]? = some ⟨t, .index j⟩ := by
  rcases h i with ⟨hp, hp'⟩ | ⟨e, e', hp, hp', hslot⟩
  · simp [hp, hp']
  · rw [hp, hp']
    rcases hslot with rfl | ⟨t', s, rfl, rfl⟩
    · rfl
    · simp

theorem poolConv_str {p p' : List cp_info} (h : PoolConv p p') (j t : Nat) (s : Bytes)
    (hs : p[j]? = some ⟨t, .str s⟩) :
    p'[j]? = some ⟨t, .str s⟩ ∨ p'[j]? = some ⟨t, .str (classname_to_external_format s)⟩ := by
  rcases h j with ⟨hp, _⟩ | ⟨e, e', hp, hp', hslot⟩
  · rw [hp] at hs; cases hs
  · rw [hp] at hs
    cases hs
    rcases hslot with rfl | ⟨t', s', h1, rfl⟩
    · exact Or.inl hp'
    · cases h1
      exact Or.inr hp'

theorem poolConv_str_back {p p' : List cp_info} (h : PoolConv p p') (j t : Nat) (s' : Bytes)
    (hs : p'[j]? = some ⟨t, .str s'⟩) :
    ∃ s, p[j]? = some ⟨t, .str s⟩ ∧ (s' = s ∨ s' = classname_to_external_format s) := by
  rcases h j with ⟨_, hp'⟩ | ⟨e, e', hp, hp', hslot⟩
  · rw [hp'] at hs; cases hs
  · rw [hp'] at hs
    cases hs
    rcases hslot with h1 | ⟨t', s, rfl, h1⟩
    · exact ⟨s', by rw [hp, ← h1], Or.inl rfl⟩
    · cases h1
      exact ⟨s, hp, Or.inr rfl⟩

theorem poolConv_length {p p' : List cp_info} (h : PoolConv p p') : p.length = p'.length := by
  by_contra hne
  rcases Nat.lt_or_gt_of_ne hne with hlt | hgt
  · rcases h p.length with ⟨_, hp'⟩ | ⟨e, e', hp, _, _⟩
    · exact absurd (List.getElem?_eq_none_iff.mp hp') (by omega)
    · exact absurd (List.getElem?_eq_some.mp hp).1 (by omega)
  · rcases h p'.length with ⟨hp, _⟩ | ⟨e, e', _, hp', _⟩
    · exact absurd (List.getElem?_eq_none_iff.mp hp) (by omega)
    · exact absurd (List.getElem?_eq_some.mp hp').1 (by omega)

/-- A class entry keeps its name slot under conversions; the name it reads is
the original one or its converted form. -/
theorem class_name_at_conv {p p' : List cp_info} (h : PoolConv p p') (i j : Nat) (s : Bytes)
    (hn : class_name_at p i j s) :
    class_name_at p' i j s ∨ class_name_at p' i j (classname_to_external_format s) := by
  have hi := (poolConv_index h i TAG_CLASS j).mp hn.1
  rcases poolConv_str h j TAG_UTF8 s hn.2 with hs | hs
  · exact Or.inl ⟨hi, hs⟩
  · exact Or.inr ⟨hi, hs⟩

theorem class_name_at_conv_back {p p' : List cp_info} (h : PoolConv p p') (i j : Nat)
    (s' : Bytes) (hn : class_name_at p' i j s') :
    ∃ s, class_name_at p i j s ∧ (s' = s ∨ s' = classname_to_external_format s) := by
  have hi := (poolConv_index h i TAG_CLASS j).mpr hn.1
  obtain ⟨s, hs, hor⟩ := poolConv_str_back h j TAG_UTF8 s' hn.2
  exact ⟨s, ⟨hi, hs⟩, hor⟩

theorem classname_from_cp_conv {p p' : List cp_info} (h : PoolConv p p') (i j : Nat) :
    classname_from_cp p i = .ok j ↔ classname_from_cp p' i = .ok j := by
  rw [classname_from_cp_eq_ok, classname_from_cp_eq_ok]
  constructor
  · rintro ⟨s, hs⟩
    rcases class_name_at_conv h i j s hs with h1 | h1
    · exact ⟨_, h1⟩
    · exact ⟨_, h1⟩
  · rintro ⟨s, hs⟩
    obtain ⟨s0, h0, _⟩ := class_name_at_conv_back h i j s hs
    exact ⟨s0, h0⟩

theorem class_name_at_unique {p : List cp_info} {i j j' : Nat} {s s' : Bytes}
    (h : class_name_at p i j s) (h' : class_name_at p i j' s') : j' = j ∧ s' = s := by
  have h1 := h.1.symm.trans h'.1
  simp only [Option.some.injEq, cp_info.mk.injEq, cp_value.index.injEq, true_and] at h1
  subst h1
  have h2 := h.2.symm.trans h'.2
  simp only [Option.some.injEq, cp_info.mk.injEq, cp_value.str.injEq, true_and] at h2
  exact ⟨rfl, h2.symm⟩

/-- After the name of class entry `i` went through the in-place conversion,
its slot holds the converted form of the string the pool held originally. -/
theorem converted_after {p0 p p' : List cp_info} (h0 : PoolConv p0 p) (i j : Nat) (s : Bytes)
    (hn : class_name_at p0 i j s)
    (hc : classname_to_external_format_at p i = .ok p') :
    p'[j]? = some ⟨TAG_UTF8, .str (classname_to_external_format s)⟩ := by
  obtain ⟨j', s', hn', rfl⟩ := classname_to_external_format_at_eq_ok _ _ _ hc
  have hlt : j' < p.length := (List.getElem?_eq_some.mp hn'.2).1
  rcases class_name_at_conv h0 i j s hn with h1 | h1
  · obtain ⟨rfl, rfl⟩ := class_name_at_unique h1 hn'
    simp [List.getElem?_set, hlt]
  · obtain ⟨rfl, rfl⟩ := class_name_at_unique h1 hn'
    simp [List.getElem?_set, hlt, classname_to_external_format_idem]

/-- A converted string is not changed by further conversions. -/
theorem converted_stays {p p' : List cp_info} (h : PoolConv p p') (j t : Nat) (s : Bytes)
    (hj : p[j]? = some ⟨t, .str (classname_to_external_format s)⟩) :
    p'[j]? = some ⟨t, .str (classname_to_external_format s)⟩ := by
  rcases poolConv_str h j t _ hj with h1 | h1
  · exact h1
  · rw [classname_to_external_format_idem] at h1
    exact h1

theorem cp_cstr_of_str (pool : List cp_info) (j t : Nat) (s : Bytes)
    (h : pool[j]? = some ⟨t, .str s⟩) : cp_cstr pool j = cstr s := by
  unfold cp_cstr
  rw [List.get?_eq_getElem?, h]

theorem cp_cstr_converted (pool : List cp_info) (j t : Nat) (s : Bytes)
    (h : pool[j]? = some ⟨t, .str (classname_to_external_format s)⟩) :
    cp_cstr pool j = external_name (cstr s) := by
  rw [cp_cstr_of_str pool j t _ h, cstr_classname_to_external_format]
  rfl

/-- A name slot converted at some stage holds the converted form of the
string the earlier pool held. -/
theorem converted_from_origin {p0 p p' : List cp_info} (h0 : PoolConv p0 p) (i j : Nat)
    (s : Bytes) (hn : class_name_at p i j s)
    (hj : p'[j]? = some ⟨TAG_UTF8, .str (classname_to_external_format s)⟩) :
    ∃ s0, class_name_at p0 i j s0 ∧
      p'[j]? = some ⟨TAG_UTF8, .str (classname_to_external_format s0)⟩ := by
  obtain ⟨s0, hn0, hor⟩ := class_name_at_conv_back h0 i j s hn
  refine ⟨s0, hn0, ?_⟩
  rcases hor with rfl | rfl
  · exact hj
  · rw [classname_to_external_format_idem] at hj
    exact hj

/-- The interface pass (lines 542-545): one pointer per interface index, each
to the name slot of that class entry, whose string is converted. -/
theorem javaclass_new_interfaces_conv (idxs : List Nat) (pool pool' : List cp_info)
    (ptrs : List Nat) (h : javaclass_new_interfaces idxs pool = .ok (pool', ptrs)) :
    PoolConv pool pool' ∧ ptrs.length = idxs.length ∧
    ∀ (i idx : Nat), idxs[i]? = some idx →
      ∃ (j : Nat) (s : Bytes), ptrs[i]? = some j ∧ class_name_at pool idx j s ∧
        pool'[j]? = some ⟨TAG_UTF8, .str (classname_to_external_format s)⟩ := by
  induction idxs generalizing pool ptrs with
  | nil =>
    simp only [javaclass_new_interfaces, Exec.pure_eq, Exec.ok.injEq, Prod.mk.injEq] at h
    obtain ⟨rfl, rfl⟩ := h
    exact ⟨poolConv_refl pool, rfl, fun i idx hi => by simp at hi⟩
  | cons idx rest ih =>
    unfold javaclass_new_interfaces at h
    simp only [Exec.bind_eq_ok, Prod.exists, Exec.pure_eq, Exec.ok.injEq, Prod.mk.injEq] at h
    obtain ⟨p1, hconv, j, hj, p2, ptrs', hrest, rfl, rfl⟩ := h
    obtain ⟨ih1, ih2, ih3⟩ := ih p1 ptrs' hrest
    have hc1 := classname_to_external_format_at_conv _ _ _ hconv
    refine ⟨poolConv_trans hc1 ih1, by simp [ih2], ?_⟩
    intro i idx' hi
    match i with
    | 0 =>
      simp only [List.getElem?_cons_zero, Option.some.injEq] at hi
      subst hi
      obtain ⟨s, hs⟩ := (classname_from_cp_eq_ok _ _ _).mp
        ((classname_from_cp_conv hc1 idx j).mpr hj)
      exact ⟨j, s, by simp, hs,
        converted_stays ih1 j TAG_UTF8 s (converted_after (poolConv_refl pool) idx j s hs hconv)⟩
    | k + 1 =>
      simp only [List.getElem?_cons_succ] at hi
      obtain ⟨j', s', hp, hn, hs⟩ := ih3 k idx' hi
      obtain ⟨s0, hn0, hs0⟩ := converted_from_origin hc1 idx' j' s' hn hs
      exact ⟨j', s0, by simpa using hp, hn0, hs0⟩

/-- The method pass only converts names in the pool. -/
theorem javaclass_new_methods_poolConv (includecode : Bool) (ms : List method_info)
    (pool final : List cp_info) (jms : List JavaMethod)
    (h : javaclass_new_methods includecode ms pool = .ok (final, jms)) :
    PoolConv pool final := by
  induction ms generalizing pool jms with
  | nil =>
    simp only [javaclass_new_methods, Exec.pure_eq, Exec.ok.injEq, Prod.mk.injEq] at h
    rw [← h.1]
    exact poolConv_refl pool
  | cons m rest ih =>
    unfold javaclass_new_methods at h
    simp only [Exec.bind_eq_ok, Prod.exists, Exec.pure_eq, Exec.ok.injEq, Prod.mk.injEq] at h
    obtain ⟨n1, _, n2, _, p, exc, hexc, sig, cl, code, hscan, jm, hset, f, jms', hrest,
      rfl, rfl⟩ := h
    exact poolConv_trans (extract_exceptions_conv _ _ _ _ hexc) (ih p jms' hrest)

theorem javaclass_new_views_interfaces_conv (c : JavaClass) (pool pool' : List cp_info)
    (ifs : Option (List Nat))
    (h : javaclass_new_views_interfaces c pool = .ok (pool', ifs)) : PoolConv pool pool' := by
  unfold javaclass_new_views_interfaces at h
  split at h
  · simp only [Exec.bind_eq_ok, Prod.exists, Exec.pure_eq, Exec.ok.injEq, Prod.mk.injEq] at h
    obtain ⟨p, ptrs, hi, rfl, rfl⟩ := h
    exact (javaclass_new_interfaces_conv _ _ _ _ hi).1
  · simp only [Exec.pure_eq, Exec.ok.injEq, Prod.mk.injEq] at h
    rw [← h.1]
    exact poolConv_refl pool

theorem javaclass_new_views_methods_conv (c : JavaClass) (includecode : Bool)
    (pool pool' : List cp_info) (ms : Option (List JavaMethod))
    (h : javaclass_new_views_methods c includecode pool = .ok (pool', ms)) :
    PoolConv pool pool' := by
  unfold javaclass_new_views_methods at h
  split at h
  · simp only [Exec.bind_eq_ok, Prod.exists, Exec.pure_eq, Exec.ok.injEq, Prod.mk.injEq] at h
    obtain ⟨p, jms, hi, rfl, rfl⟩ := h
    exact javaclass_new_methods_poolConv _ _ _ _ _ hi
  · simp only [Exec.pure_eq, Exec.ok.injEq, Prod.mk.injEq] at h
    rw [← h.1]
    exact poolConv_refl pool

/-- The second pass only converts names in the pool. -/
theorem javaclass_new_views_conv (raw c : JavaClass) (includecode : Bool)
    (h : javaclass_new_views raw includecode = .ok c) :
    PoolConv raw.constant_pool c.constant_pool := by
  obtain ⟨j, p1, ifs, flds, p2, jms, sig, -, h1, -, h3, -, rfl⟩ :=
    javaclass_new_views_eq_ok _ _ _ h
  exact poolConv_trans (javaclass_new_views_interfaces_conv _ _ _ _ h1)
    (javaclass_new_views_methods_conv _ _ _ _ _ h3)

/-- Lines 442-459 convert the names of the this-class and super-class entries
of the pool as read. -/
theorem javaclass_new_parse_refs_conv (classbytes : Bytes) (pool : List cp_info) (offset : Nat)
    (af tc sc : Nat) (pool' : List cp_info) (offset' : Nat)
    (h : javaclass_new_parse_refs classbytes pool offset = .ok (af, tc, sc, pool', offset')) :
    PoolConv pool pool' ∧
    (∃ j s, class_name_at pool tc j s ∧
      pool'[j]? = some ⟨TAG_UTF8, .str (classname_to_external_format s)⟩) ∧
    (sc ≠ INVALID_INDEX → ∃ j s, class_name_at pool sc j s ∧
      pool'[j]? = some ⟨TAG_UTF8, .str (classname_to_external_format s)⟩) := by
  obtain ⟨o1, v, o2, poolA, w, -, -, -, hthis, -, -, hsuper⟩ :=
    javaclass_new_parse_refs_eq_ok _ _ _ _ _ _ _ _ h
  have hcA := classname_to_external_format_at_conv _ _ _ hthis
  obtain ⟨j, s, hn, -⟩ := classname_to_external_format_at_eq_ok _ _ _ hthis
  have hA := converted_after (poolConv_refl pool) tc j s hn hthis
  rcases hsuper with ⟨hne, hsup⟩ | ⟨heq, rfl⟩
  · have hcB := classname_to_external_format_at_conv _ _ _ hsup
    refine ⟨poolConv_trans hcA hcB, ⟨j, s, hn, converted_stays hcB j TAG_UTF8 s hA⟩, ?_⟩
    intro _
    obtain ⟨j', s', hn', -⟩ := classname_to_external_format_at_eq_ok _ _ _ hsup
    obtain ⟨s0, hn0, -⟩ := class_name_at_conv_back hcA sc j' s' hn'
    exact ⟨j', s0, hn0, converted_after hcA sc j' s0 hn0 hsup⟩
  · exact ⟨hcA, ⟨j, s, hn, hA⟩, fun hne => absurd heq hne⟩

/-! ## The names of a returned class -/

/-- A returned class and the pool as read: the three references after the
pool, the pool of the class as a conversion of the pool as read, and the
converted names of the this-class and super-class entries. -/
theorem javaclass_new_ok_names (classbytes : Bytes) (length : Nat) (includecode : Bool)
    (c : JavaClass) (h : javaclass_new classbytes length includecode = .ok c) :
    ∃ pool0 o2 o3 v o4 w o5 raw,
      pool_as_read classbytes = .ok (pool0, o2) ∧
      read_u16 classbytes o2 = .ok (c.access_flags, o3) ∧
      read_u16 classbytes o3 = .ok (v, o4) ∧ c.this_class = dec16 v ∧
      read_u16 classbytes o4 = .ok (w, o5) ∧ c.super_class = dec16 w ∧
      javaclass_new_views raw includecode = .ok c ∧
      PoolConv pool0 raw.constant_pool ∧
      PoolConv raw.constant_pool c.constant_pool ∧
      (∃ j s, class_name_at pool0 c.this_class j s ∧
        c.constant_pool[j]? = some ⟨TAG_UTF8, .str (classname_to_external_format s)⟩ ∧
        c._package = javaclass_extract_package (some (external_name (cstr s))) ∧
        c._classname = javaclass_extract_classname (some (external_name (cstr s)))) ∧
      (c.super_class ≠ INVALID_INDEX → ∃ j s, class_name_at pool0 c.super_class j s ∧
        c.constant_pool[j]? = some ⟨TAG_UTF8, .str (classname_to_external_format s)⟩) := by
  obtain ⟨m1, m2, M1, M2, rest, raw, hcb, hle, hparse, hviews⟩ :=
    javaclass_new_ok_struct _ _ _ _ h
  obtain ⟨cnt, o1, pool0, o2, af, tc, sc, pool1, o3, ic, ifs, o4, fc, fs, o5, mc, ms, o6, ac,
    ats, hcnt, hpool, hrefs, -, -, -, -, hraw⟩ := javaclass_new_parse_eq_ok _ _ _ _ _ _ _ hparse
  have hconvV := javaclass_new_views_conv _ _ _ hviews
  obtain ⟨j, p1, ifs', flds, p2, jms, sig, hj, -, -, -, -, hc⟩ :=
    javaclass_new_views_eq_ok _ _ _ hviews
  obtain ⟨oa, v, ob, poolA, w, haf, hv, htc, -, hw, hsc, -⟩ :=
    javaclass_new_parse_refs_eq_ok _ _ _ _ _ _ _ _ hrefs
  obtain ⟨hconvP, ⟨jt, st, hnt, hst⟩, hsuper⟩ := javaclass_new_parse_refs_conv _ _ _ _ _ _ _ _ hrefs
  have hpar : pool_as_read classbytes = .ok (pool0, o2) := by
    unfold pool_as_read
    rw [hcnt]
    exact hpool
  subst hraw
  have hjt : j = jt := by
    have h1 := (classname_from_cp_conv hconvP tc jt).mp
      ((classname_from_cp_eq_ok _ _ _).mpr ⟨st, hnt⟩)
    have h2 : classname_from_cp pool1 tc = .ok j := hj
    rw [h1] at h2
    cases h2
    rfl
  subst hjt
  have hcstr : cp_cstr pool1 j = external_name (cstr st) := cp_cstr_converted _ _ _ _ hst
  subst hc
  refine ⟨pool0, o2, oa, v, ob, w, o3, _, hpar, haf, hv, htc, hw, hsc, hviews, hconvP, hconvV,
    ⟨j, st, hnt, converted_stays hconvV j TAG_UTF8 st hst, ?_, ?_⟩, ?_⟩
  · show javaclass_extract_package (some (cp_cstr pool1 j)) = _
    rw [hcstr]
  · show javaclass_extract_classname (some (cp_cstr pool1 j)) = _
    rw [hcstr]
  · intro hne
    obtain ⟨js, ss, hns, hss⟩ := hsuper hne
    exact ⟨js, ss, hns, converted_stays hconvV js TAG_UTF8 ss hss⟩

theorem mem_external_name (x : Bytes) : DOT ∈ external_name x ↔ SLASH ∈ x ∨ DOT ∈ x := by
  unfold external_name
  rw [List.mem_map]
  constructor
  · rintro ⟨ch, hch, heq⟩
    unfold to_external_char at heq
    split at heq
    · subst_vars; exact Or.inl hch
    · subst heq; exact Or.inr hch
  · rintro (hs | hd)
    · exact ⟨SLASH, hs, by simp [to_external_char]⟩
    · exact ⟨DOT, hd, by decide⟩

/-- The two halves `javaclass_extract_package` and
`javaclass_extract_classname` return, when both are present, join to the
string they were taken from. -/
theorem extract_join (s pkg cls : Bytes)
    (hp : javaclass_extract_package (some s) = some pkg)
    (hc : javaclass_extract_classname (some s) = some cls) :
    pkg ++ [DOT] ++ cls = s := by
  cases hpos : g_strrstr s DOT with
  | none => simp [javaclass_extract_package, hpos] at hp
  | some p =>
    obtain ⟨h1, _⟩ := g_strrstr_eq_some s DOT p hpos
    simp only [javaclass_extract_package, hpos, Option.some.injEq] at hp
    simp only [javaclass_extract_classname, hpos] at hc
    split at hc
    · cases hc
    · simp only [Option.some.injEq] at hc
      subst hp hc
      simpa using h1.symm

theorem extract_package_eq_none (s : Bytes) :
    javaclass_extract_package (some s) = none ↔ DOT ∉ s := by
  cases hp : g_strrstr s DOT with
  | none => simpa [javaclass_extract_package, hp] using (g_strrstr_eq_none_iff s DOT).mp hp
  | some p =>
    have hm : DOT ∈ s := by
      by_contra hcon
      rw [(g_strrstr_eq_none_iff s DOT).mpr hcon] at hp
      cases hp
    simp [javaclass_extract_package, hp, hm]

/-! ## The interface list -/

theorem read_interfaces_eq_ok (buf : Bytes) (n i0 : Nat) (l : List Nat)
    (h : read_interfaces buf n i0 = .ok l) :
    l.length = n ∧ ∀ i, i < n → 2 * (i0 + i) + 2 ≤ buf.length ∧
      l[i]? = some (dec16 (be ((buf.drop (2 * (i0 + i))).take 2))) := by
  induction n generalizing i0 l with
  | zero =>
    simp only [read_interfaces, Exec.pure_eq, Exec.ok.injEq] at h
    subst h
    exact ⟨rfl, fun i hi => absurd hi (by omega)⟩
  | succ n ih =>
    unfold read_interfaces at h
    simp only [Exec.bind_eq_ok, Prod.exists, Exec.pure_eq, Exec.ok.injEq] at h
    obtain ⟨v, o1, hv, rest, hrest, rfl⟩ := h
    obtain ⟨ih1, ih2⟩ := ih (i0 + 1) rest hrest
    obtain ⟨hlen, hval, -⟩ := read_u16_eq_ok _ _ _ _ hv
    refine ⟨by simp [ih1], ?_⟩
    intro i hi
    match i with
    | 0 => exact ⟨hlen, by simp [hval]⟩
    | k + 1 =>
      obtain ⟨h1, h2⟩ := ih2 k (by omega)
      have he : i0 + 1 + k = i0 + (k + 1) := by omega
      rw [he] at h1 h2
      exact ⟨h1, by simpa using h2⟩

theorem take_drop_take (cb : Bytes) (o len m : Nat) (h : m + 2 ≤ len) :
    (((cb.drop o).take len).drop m).take 2 = (cb.drop (o + m)).take 2 := by
  rw [List.drop_take, List.take_take, List.drop_drop, Nat.min_eq_left (by omega)]

/-- Lines 461-475: a successful read of the interface list gives exactly
`interfaces_count` entries, entry `i` being the 16-bit big-endian value at
bytes `2i, 2i+1` after the count, less one. -/
theorem javaclass_new_parse_interfaces_eq_ok (classbytes : Bytes) (offset : Nat)
    (k : Nat) (ifs : List Nat) (offset' : Nat)
    (h : javaclass_new_parse_interfaces classbytes offset = .ok (k, ifs, offset')) :
    ∃ o1, read_u16 classbytes offset = .ok (k, o1) ∧ ifs.length = k ∧ k < 32768 ∧
      ∀ i, i < k → o1 + 2 * i + 2 ≤ classbytes.length ∧
        ifs[i]? = some (dec16 (be ((classbytes.drop (o1 + 2 * i)).take 2))) := by
  unfold javaclass_new_parse_interfaces at h
  simp only [Exec.bind_eq_ok, Prod.exists] at h
  obtain ⟨k', o1, hk, h⟩ := h
  have hklt := read_u16_lt _ _ _ _ hk
  by_cases hpos : k' > 0
  · rw [if_pos hpos] at h
    simp only [Exec.bind_eq_ok, Prod.exists, Exec.pure_eq, Exec.ok.injEq, Prod.mk.injEq] at h
    obtain ⟨buf, o2, hcopy, l, hl, rfl, rfl, rfl⟩ := h
    obtain ⟨hlen, hent⟩ := read_interfaces_eq_ok _ _ _ _ hl
    unfold copy_bytes at hcopy
    split at hcopy
    · rename_i hfit
      simp only [Exec.ok.injEq, Prod.mk.injEq] at hcopy
      obtain ⟨rfl, -⟩ := hcopy
      have hbl : ((classbytes.drop o1).take (k' * 2 % 65536)).length = k' * 2 % 65536 := by
        simp only [List.length_take, List.length_drop]
        omega
      have hlast := (hent (k' - 1) (by omega)).1
      rw [hbl] at hlast
      have hsmall : k' < 32768 := by omega
      have hmod : k' * 2 % 65536 = k' * 2 := Nat.mod_eq_of_lt (by omega)
      refine ⟨o1, hk, hlen, hsmall, ?_⟩
      intro i hi
      obtain ⟨h1, h2⟩ := hent i hi
      rw [hbl] at h1
      simp only [Nat.zero_add] at h1 h2
      rw [take_drop_take _ _ _ _ (by omega)] at h2
      exact ⟨by omega, h2⟩
    · cases hcopy
  · rw [if_neg hpos] at h
    simp only [Exec.pure_eq, Exec.ok.injEq, Prod.mk.injEq] at h
    obtain ⟨rfl, rfl, rfl⟩ := h
    exact ⟨o1, hk, by simp; omega, by omega, fun i hi => absurd hi (by omega)⟩

/-! ## The size of the pool -/

theorem read_constant_pool_length (classbytes : Bytes) (n offset : Nat) (pool : List cp_info)
    (offset' : Nat) (h : read_constant_pool classbytes n offset = .ok (pool, offset')) :
    pool.length = n := by
  induction n using Nat.strong_induction_on generalizing offset pool offset' with
  | _ n ih =>
    match n with
    | 0 =>
      simp only [read_constant_pool, Exec.pure_eq, Exec.ok.injEq, Prod.mk.injEq] at h
      rw [← h.1]
      rfl
    | k + 1 =>
      unfold read_constant_pool at h
      simp only [Exec.bind_eq_ok, Prod.exists] at h
      obtain ⟨e, two, o1, -, h⟩ := h
      cases two with
      | true =>
        simp only [if_true] at h
        match k, h with
        | 0, h => cases h
        | m + 1, h =>
          simp only [Exec.bind_eq_ok, Prod.exists, Exec.pure_eq, Exec.ok.injEq,
            Prod.mk.injEq] at h
          obtain ⟨rest, o2, hrest, rfl, -⟩ := h
          have := ih m (by omega) _ _ _ hrest
          simp [this]
      | false =>
        simp only [Bool.false_eq_true, if_false, Exec.bind_eq_ok, Prod.exists, Exec.pure_eq,
          Exec.ok.injEq, Prod.mk.injEq] at h
        obtain ⟨rest, o2, hrest, rfl, -⟩ := h
        have := ih k (by omega) _ _ _ hrest
        simp [this]

theorem dec16_le (x : Nat) (hx : x < 65536) : dec16 x ≤ 65535 := by
  unfold dec16
  split <;> omega

/-- The pool has at most 65535 slots. -/
theorem pool_as_read_length (classbytes : Bytes) (pool : List cp_info) (offset : Nat)
    (h : pool_as_read classbytes = .ok (pool, offset)) : pool.length ≤ 65535 := by
  unfold pool_as_read at h
  simp only [Exec.bind_eq_ok, Prod.exists] at h
  obtain ⟨cnt, o1, hcnt, hpool⟩ := h
  rw [read_constant_pool_length _ _ _ _ _ hpool]
  exact dec16_le _ (read_u16_lt _ _ _ _ hcnt)

/-- A stored index whose re-based value is a slot of the pool is at least 1,
and the re-based value is the stored one less one. -/
theorem stored_index_pos (r bound : Nat) (hb : bound ≤ 65535) (h : dec16 r < bound) :
    1 ≤ r ∧ dec16 r = r - 1 := by
  unfold dec16 at h ⊢
  split at h
  · omega
  · rename_i hr
    rw [if_neg hr]
    omega

theorem class_name_at_lt {pool : List cp_info} {i j : Nat} {s : Bytes}
    (h : class_name_at pool i j s) : i < pool.length ∧ j < pool.length :=
  ⟨(List.getElem?_eq_some.mp h.1).1, (List.getElem?_eq_some.mp h.2).1⟩

/-! ## Decoding without the bytecode -/

/-- Without `includecode` the attribute search leaves `codelen` and `code` as
they were, and finds the signature the search with `includecode` finds. -/
theorem scan_method_attributes_false (pool : List cp_info) (attrs : List attribute_info)
    (sig : Option Bytes) (cl : Nat) (code : Option Bytes)
    (r : Option Bytes × Nat × Option Bytes)
    (h : scan_method_attributes pool true attrs (sig, cl, code) = .ok r)
    (cl0 : Nat) (code0 : Option Bytes) :
    scan_method_attributes pool false attrs (sig, cl0, code0) = .ok (r.1, cl0, code0) := by
  induction attrs generalizing sig cl code with
  | nil =>
    simp only [scan_method_attributes, Exec.pure_eq, Exec.ok.injEq] at h
    subst h
    rfl
  | cons a rest ih =>
    unfold scan_method_attributes at h ⊢
    simp only [Exec.bind_eq_ok] at h
    obtain ⟨name, hname, h⟩ := h
    rw [hname]
    simp only [Exec.ok_bind]
    split at h
    · rename_i hsig
      rw [if_pos hsig]
      simp only [Exec.bind_eq_ok, Prod.exists] at h
      obtain ⟨sg, o, hsg, s, hs, h⟩ := h
      rw [hsg]
      simp only [Exec.ok_bind]
      rw [hs]
      simp only [Exec.ok_bind]
      exact ih _ _ _ h
    · rename_i hsig
      rw [if_neg hsig]
      simp only [if_true, Exec.bind_eq_ok] at h
      simp only [Bool.false_eq_true, if_false]
      obtain ⟨name2, -, h⟩ := h
      split at h
      · simp only [Exec.bind_eq_ok, Prod.exists] at h
        obtain ⟨len, o, -, h⟩ := h
        exact ih _ _ _ h
      · exact ih _ _ _ h

/-- A descriptor that `javamethod_set_code` made from one without bytecode
loses nothing but the bytecode when the bytecode is erased. -/
theorem erase_code_set_code (m jm : JavaMethod) (code : Option Bytes) (codelen : Nat)
    (hc : m.code = none) (hl : m.codelen = 0)
    (h : javamethod_set_code m code codelen = .ok jm) : erase_code jm = m := by
  obtain ⟨af, n, d, s, e, c0, l0⟩ := m
  simp only at hc hl
  subst hc hl
  unfold javamethod_set_code at h
  cases code with
  | none =>
    simp only [Exec.pure_eq, Exec.ok.injEq] at h
    subst h
    rfl
  | some bytes =>
    simp only at h
    split at h
    · simp only [Exec.pure_eq, Exec.ok.injEq] at h
      subst h
      rfl
    · split at h
      · simp only [Exec.pure_eq, Exec.ok.injEq] at h
        subst h
        rfl
      · cases h

/-- The method pass without `includecode` gives what the pass with it gives,
less the bytecode. -/
theorem javaclass_new_methods_erase (ms : List method_info) (pool final : List cp_info)
    (jms : List JavaMethod)
    (h : javaclass_new_methods true ms pool = .ok (final, jms)) :
    javaclass_new_methods false ms pool = .ok (final, jms.map erase_code) := by
  induction ms generalizing pool jms with
  | nil =>
    simp only [javaclass_new_methods, Exec.pure_eq, Exec.ok.injEq, Prod.mk.injEq] at h
    obtain ⟨rfl, rfl⟩ := h
    rfl
  | cons m rest ih =>
    unfold javaclass_new_methods at h ⊢
    simp only [Exec.bind_eq_ok, Prod.exists, if_true, Exec.pure_eq, Exec.ok.injEq,
      Prod.mk.injEq] at h
    obtain ⟨n1, hn1, n2, hn2, p, exc, hexc, sig, cl, code, hscan, jm, hset, f, jms', hrest,
      rfl, rfl⟩ := h
    have hscan' := scan_method_attributes_false _ _ _ _ _ _ hscan 0 none
    simp only [hn1, hn2, hexc, hscan', Exec.ok_bind, Bool.false_eq_true, if_false, Exec.pure_eq,
      ih _ _ hrest, List.map_cons]
    rw [erase_code_set_code _ _ _ _ rfl rfl hset]

/-- The second pass without `includecode` gives what the pass with it gives,
less the bytecode. -/
theorem javaclass_new_views_erase (raw c : JavaClass)
    (h : javaclass_new_views raw true = .ok c) :
    javaclass_new_views raw false = .ok (erase_codes c) := by
  unfold javaclass_new_views at h ⊢
  simp only [Exec.bind_eq_ok, Prod.exists, Exec.pure_eq, Exec.ok.injEq] at h
  obtain ⟨j1, hj1, j2, hj2, pool1, ifs, h1, flds, h2, pool2, ms, h3, sig, h4, rfl⟩ := h
  have hj : j2 = j1 := by rw [hj1] at hj2; cases hj2; rfl
  subst hj
  have h3' : javaclass_new_views_methods raw false pool1
      = .ok (pool2, ms.map (fun methods => methods.map erase_code)) := by
    unfold javaclass_new_views_methods at h3 ⊢
    by_cases hc : raw.methods_count > 0
    · rw [if_pos hc] at h3 ⊢
      simp only [Exec.bind_eq_ok, Prod.exists, Exec.pure_eq, Exec.ok.injEq,
        Prod.mk.injEq] at h3
      obtain ⟨p, jms, hjms, rfl, rfl⟩ := h3
      rw [javaclass_new_methods_erase _ _ _ _ hjms]
      rfl
    · rw [if_neg hc] at h3 ⊢
      simp only [Exec.pure_eq, Exec.ok.injEq, Prod.mk.injEq] at h3
      obtain ⟨rfl, rfl⟩ := h3
      rfl
  simp only [hj1, h1, h2, h3', h4, Exec.ok_bind, Exec.pure_eq]
  rfl

theorem read_u32_ok_or_undefined (src : Bytes) (o : Nat) :
    (∃ r, read_u32 src o = .ok r) ∨ read_u32 src o = .undefined := by
  unfold read_u32 copy_bytes
  split
  · exact Or.inl ⟨_, rfl⟩
  · exact Or.inr rfl

/-- Where the attribute search without `includecode` succeeds, the search
with it succeeds too or reads outside a Code payload. -/
theorem scan_method_attributes_true (pool : List cp_info) (attrs : List attribute_info)
    (sig : Option Bytes) (cl0 : Nat) (code0 : Option Bytes)
    (r : Option Bytes × Nat × Option Bytes)
    (h : scan_method_attributes pool false attrs (sig, cl0, code0) = .ok r)
    (cl : Nat) (code : Option Bytes) :
    (∃ r', scan_method_attributes pool true attrs (sig, cl, code) = .ok r') ∨
      scan_method_attributes pool true attrs (sig, cl, code) = .undefined := by
  induction attrs generalizing sig cl code with
  | nil => exact Or.inl ⟨_, rfl⟩
  | cons a rest ih =>
    unfold scan_method_attributes at h ⊢
    simp only [Exec.bind_eq_ok] at h
    obtain ⟨name, hname, h⟩ := h
    rw [hname]
    simp only [Exec.ok_bind]
    split at h
    · rename_i hsig
      rw [if_pos hsig]
      simp only [Exec.bind_eq_ok, Prod.exists] at h
      obtain ⟨sg, o, hsg, s, hs, h⟩ := h
      rw [hsg]
      simp only [Exec.ok_bind]
      rw [hs]
      simp only [Exec.ok_bind]
      exact ih _ h _ _
    · rename_i hsig
      rw [if_neg hsig]
      simp only [Bool.false_eq_true, if_false] at h
      simp only [if_true]
      split
      · rcases read_u32_ok_or_undefined (payload a.info) 4 with ⟨⟨len, o⟩, hr⟩ | hr
        · rw [hr]
          simp only [Exec.ok_bind]
          exact ih _ h _ _
        · rw [hr]
          exact Or.inr rfl
      · exact ih _ h _ _

theorem javamethod_set_code_ok_or_undefined (m : JavaMethod) (code : Option Bytes)
    (codelen : Nat) :
    (∃ jm, javamethod_set_code m code codelen = .ok jm) ∨
      javamethod_set_code m code codelen = .undefined := by
  unfold javamethod_set_code
  cases code with
  | none => exact Or.inl ⟨_, rfl⟩
  | some bytes =>
    simp only
    split
    · exact Or.inl ⟨_, rfl⟩
    · split
      · exact Or.inl ⟨_, rfl⟩
      · exact Or.inr rfl

theorem javaclass_new_methods_true (ms : List method_info) (pool final : List cp_info)
    (jms : List JavaMethod)
    (h : javaclass_new_methods false ms pool = .ok (final, jms)) :
    (∃ jms', javaclass_new_methods true ms pool = .ok (final, jms')) ∨
      javaclass_new_methods true ms pool = .undefined := by
  induction ms generalizing pool jms with
  | nil =>
    simp only [javaclass_new_methods, Exec.pure_eq, Exec.ok.injEq, Prod.mk.injEq] at h
    obtain ⟨rfl, rfl⟩ := h
    exact Or.inl ⟨[], rfl⟩
  | cons m rest ih =>
    unfold javaclass_new_methods at h ⊢
    simp only [Exec.bind_eq_ok, Prod.exists, Bool.false_eq_true, if_false, Exec.pure_eq,
      Exec.ok.injEq, Prod.mk.injEq] at h
    obtain ⟨n1, hn1, n2, hn2, p, exc, hexc, sig, cl, code, hscan, jm, hset, f, jms', hrest,
      rfl, rfl⟩ := h
    simp only [hn1, hn2, hexc, Exec.ok_bind, if_true]
    rcases scan_method_attributes_true _ _ _ _ _ _ hscan 0 none with ⟨⟨s', l', c'⟩, hr⟩ | hr
    · rw [hr]
      simp only [Exec.ok_bind]
      rcases javamethod_set_code_ok_or_undefined
          (javamethod_new m.access_flags (some (cp_cstr p m.name_index))
            (some (cp_cstr p m.descriptor_index)) s'
            (Option.map (fun ptrs => List.map (cp_cstr p) ptrs) exc)) c' l' with ⟨jm', hj⟩ | hj
      · rw [hj]
        simp only [Exec.ok_bind]
        rcases ih _ _ hrest with ⟨jr, hjr⟩ | hjr
        · rw [hjr]
          exact Or.inl ⟨_, rfl⟩
        · rw [hjr]
          exact Or.inr rfl
      · rw [hj]
        exact Or.inr rfl
    · rw [hr]
      exact Or.inr rfl

/-- Where the second pass without `includecode` succeeds, the pass with it
succeeds too or reads outside a Code payload. -/
theorem javaclass_new_views_true (raw c : JavaClass)
    (h : javaclass_new_views raw false = .ok c) :
    (∃ c', javaclass_new_views raw true = .ok c') ∨
      javaclass_new_views raw true = .undefined := by
  unfold javaclass_new_views at h ⊢
  simp only [Exec.bind_eq_ok, Prod.exists, Exec.pure_eq, Exec.ok.injEq] at h
  obtain ⟨j1, hj1, j2, hj2, pool1, ifs, h1, flds, h2, pool2, ms, h3, sig, h4, rfl⟩ := h
  simp only [hj1, h1, h2, Exec.ok_bind]
  have h3' : (∃ ms', javaclass_new_views_methods raw true pool1 = .ok (pool2, ms')) ∨
      javaclass_new_views_methods raw true pool1 = .undefined := by
    unfold javaclass_new_views_methods at h3 ⊢
    by_cases hc : raw.methods_count > 0
    · rw [if_pos hc] at h3 ⊢
      simp only [Exec.bind_eq_ok, Prod.exists, Exec.pure_eq, Exec.ok.injEq,
        Prod.mk.injEq] at h3
      obtain ⟨p, jms, hjms, rfl, rfl⟩ := h3
      rcases javaclass_new_methods_true _ _ _ _ hjms with ⟨jr, hjr⟩ | hjr
      · rw [hjr]
        exact Or.inl ⟨_, rfl⟩
      · rw [hjr]
        exact Or.inr rfl
    · rw [if_neg hc] at h3 ⊢
      simp only [Exec.pure_eq, Exec.ok.injEq, Prod.mk.injEq] at h3
      obtain ⟨rfl, rfl⟩ := h3
      exact Or.inl ⟨_, rfl⟩
  rcases h3' with ⟨ms', hm⟩ | hm
  · rw [hm]
    simp only [Exec.ok_bind, h4]
    exact Or.inl ⟨_, rfl⟩
  · rw [hm]
    exact Or.inr rfl

/-- C12: for every class `javaclass_new` returns whose interface count `k`
(the 16-bit value read after the super-class index) is greater than 0:
`javaclass_get_interface_number` returns `k`, `javaclass_get_interfaces` yields
exactly `k` names, and for every `i < k`, with `r` the 16-bit big-endian value
at bytes `2i, 2i+1` after the count (the `i`-th stored interface index): `r ≥ 1`
and the `i`-th name is the name of the class entry at index `r - 1` of the pool
as read from the file (the C string of the Utf8 entry it names) with every
`'/'` replaced by `'.'`. -/
theorem interfaces_getter (classbytes : Bytes) (length : Nat) (includecode : Bool)
    (c : JavaClass) (h : javaclass_new classbytes length includecode = .ok c)
    (hk : 0 < c.interfaces_count) :
    ∃ pool0 o2 o3 v o4 w o5 o6 names,
      pool_as_read classbytes = .ok (pool0, o2) ∧
      read_u16 classbytes o2 = .ok (c.access_flags, o3) ∧
      read_u16 classbytes o3 = .ok (v, o4) ∧
      read_u16 classbytes o4 = .ok (w, o5) ∧
      read_u16 classbytes o5 = .ok (c.interfaces_count, o6) ∧
      javaclass_get_interface_number c = c.interfaces_count ∧
      javaclass_get_interfaces c = some names ∧
      names.length = c.interfaces_count ∧
      ∀ i, i < c.interfaces_count →
        o6 + 2 * i + 2 ≤ classbytes.length ∧
        1 ≤ be ((classbytes.drop (o6 + 2 * i)).take 2) ∧
        ∃ j s, class_name_at pool0 (be ((classbytes.drop (o6 + 2 * i)).take 2) - 1) j s ∧
          names[i]? = some (external_name (cstr s)) := by
  obtain ⟨m1, m2, M1, M2, rest, raw, hcb, hle, hparse, hviews⟩ :=
    javaclass_new_ok_struct _ _ _ _ h
  obtain ⟨cnt, o1, pool0, o2, af, tc, sc, pool1, o3, ic, ifs, o4, fc, fs, o5, mc, ms, o6, ac,
    ats, hcnt, hpool, hrefs, hifs, -, -, -, hraw⟩ :=
    javaclass_new_parse_eq_ok _ _ _ _ _ _ _ hparse
  obtain ⟨j, p1, ifs', flds, p2, jms, sig, -, hvi, -, hvm, -, hc⟩ :=
    javaclass_new_views_eq_ok _ _ _ hviews
  obtain ⟨oa, v, ob, poolA, w, haf, hv, -, -, hw, -, -⟩ :=
    javaclass_new_parse_refs_eq_ok _ _ _ _ _ _ _ _ hrefs
  obtain ⟨hconvP, -, -⟩ := javaclass_new_parse_refs_conv _ _ _ _ _ _ _ _ hrefs
  obtain ⟨oc, hic, hlen, -, hent⟩ := javaclass_new_parse_interfaces_eq_ok _ _ _ _ _ hifs
  have hconvM := javaclass_new_views_methods_conv _ _ _ _ _ hvm
  have hpar : pool_as_read classbytes = .ok (pool0, o2) := by
    unfold pool_as_read
    rw [hcnt]
    exact hpool
  have hsize := pool_as_read_length _ _ _ hpar
  subst hraw
  subst hc
  have hk' : ic > 0 := hk
  unfold javaclass_new_views_interfaces at hvi
  simp only [] at hvi
  rw [if_pos hk'] at hvi
  simp only [Exec.bind_eq_ok, Prod.exists, Exec.pure_eq, Exec.ok.injEq, Prod.mk.injEq] at hvi
  obtain ⟨p1', ptrs, hptrs, rfl, rfl⟩ := hvi
  obtain ⟨-, hplen, hpent⟩ := javaclass_new_interfaces_conv _ _ _ _ hptrs
  refine ⟨pool0, o2, oa, v, ob, w, o3, oc, ptrs.map (cp_cstr p2), hpar, haf, hv, hw, hic, rfl,
    rfl, by simp [hplen, hlen], ?_⟩
  intro i hi
  obtain ⟨hfit, hidx⟩ := hent i hi
  obtain ⟨jp, s, hp, hn, hs⟩ := hpent i _ hidx
  obtain ⟨s0, hn0, hs0⟩ := converted_from_origin hconvP _ jp s hn hs
  obtain ⟨hpos, hdec⟩ := stored_index_pos _ _ hsize (class_name_at_lt hn0).1
  rw [hdec] at hn0
  refine ⟨hfit, hpos, jp, s0, hn0, ?_⟩
  rw [List.getElem?_map, hp]
  simp only [Option.map_some']
  rw [cp_cstr_converted _ _ _ _ (converted_stays hconvM jp TAG_UTF8 s0 hs0)]

/-- C12 at a concrete input: `class A implements a.I, b.J`. -/
theorem interfaces_getter_witness :
    ∃ pool0 o2 o3 v o4 w o5 o6 names,
      pool_as_read two_interface_class = .ok (pool0, o2) ∧
      read_u16 two_interface_class o2 = .ok (two_interface_class_decoded.access_flags, o3) ∧
      read_u16 two_interface_class o3 = .ok (v, o4) ∧
      read_u16 two_interface_class o4 = .ok (w, o5) ∧
      read_u16 two_interface_class o5
        = .ok (two_interface_class_decoded.interfaces_count, o6) ∧
      javaclass_get_interface_number two_interface_class_decoded
        = two_interface_class_decoded.interfaces_count ∧
      javaclass_get_interfaces two_interface_class_decoded = some names ∧
      names.length = two_interface_class_decoded.interfaces_count ∧
      ∀ i, i < two_interface_class_decoded.interfaces_count →
        o6 + 2 * i + 2 ≤ two_interface_class.length ∧
        1 ≤ be ((two_interface_class.drop (o6 + 2 * i)).take 2) ∧
        ∃ j s,
          class_name_at pool0 (be ((two_interface_class.drop (o6 + 2 * i)).take 2) - 1) j s ∧
          names[i]? = some (external_name (cstr s)) :=
  interfaces_getter two_interface_class 53 false two_interface_class_decoded (by decide)
    (by decide)

/-- C13: for every class `javaclass_new` returns, with `w` the super-class
index stored in the file (the third 16-bit value after the constant pool):
`javaclass_get_fq_parent` returns `NULL` exactly when `w` is 0; when `w ≥ 1` it
returns the name of the class entry at internal index `w - 1` of the pool (the
C string of the Utf8 entry that entry names, as read from the file) with every
`'/'` replaced by `'.'`. -/
theorem fq_parent_getter (classbytes : Bytes) (length : Nat) (includecode : Bool)
    (c : JavaClass) (h : javaclass_new classbytes length includecode = .ok c) :
    ∃ pool0 o2 o3 v o4 w o5,
      pool_as_read classbytes = .ok (pool0, o2) ∧
      read_u16 classbytes o2 = .ok (c.access_flags, o3) ∧
      read_u16 classbytes o3 = .ok (v, o4) ∧
      read_u16 classbytes o4 = .ok (w, o5) ∧
      (javaclass_get_fq_parent c = .ok none ↔ w = 0) ∧
      (1 ≤ w → ∃ j s, class_name_at pool0 (w - 1) j s ∧
        javaclass_get_fq_parent c = .ok (some (external_name (cstr s)))) := by
  obtain ⟨pool0, o2, o3, v, o4, w, o5, raw, hpar, haf, hv, htc, hw, hsc, hviews, hconvP,
    hconvV, -, hsuper⟩ := javaclass_new_ok_names _ _ _ _ h
  have hwlt := read_u16_lt _ _ _ _ hw
  have hinv := dec16_eq_invalid_iff w hwlt
  have hname : c.super_class ≠ INVALID_INDEX → ∃ j s, class_name_at pool0 c.super_class j s ∧
      javaclass_get_fq_parent c = .ok (some (external_name (cstr s))) := by
    intro hne
    obtain ⟨j, s, hn, hs⟩ := hsuper hne
    refine ⟨j, s, hn, ?_⟩
    have hj : classname_from_cp c.constant_pool c.super_class = .ok j :=
      (classname_from_cp_conv (poolConv_trans hconvP hconvV) _ j).mp
        ((classname_from_cp_eq_ok _ _ _).mpr ⟨s, hn⟩)
    unfold javaclass_get_fq_parent
    rw [if_neg hne, hj]
    simp only [Exec.ok_bind, Exec.pure_eq]
    rw [cp_cstr_converted _ _ _ _ hs]
  refine ⟨pool0, o2, o3, v, o4, w, o5, hpar, haf, hv, hw, ?_, ?_⟩
  · constructor
    · intro hnone
      by_contra hw0
      have hne : c.super_class ≠ INVALID_INDEX := by
        rw [hsc]
        exact fun hc => hw0 (hinv.mp hc)
      obtain ⟨j, s, -, hget⟩ := hname hne
      rw [hget] at hnone
      cases hnone
    · intro hw0
      unfold javaclass_get_fq_parent
      rw [if_pos (by rw [hsc]; exact hinv.mpr hw0)]
      rfl
  · intro hw1
    have hne : c.super_class ≠ INVALID_INDEX := by
      rw [hsc]
      exact fun hc => absurd (hinv.mp hc) (by omega)
    have hdec : c.super_class = w - 1 := by
      rw [hsc]
      unfold dec16
      rw [if_neg (by omega)]
    rw [← hdec]
    exact hname hne

/-- C13 at a concrete input: the minimal class file, whose stored super-class
index is 4. -/
theorem fq_parent_getter_witness :
    ∃ pool0 o2 o3 v o4 w o5,
      pool_as_read minimal_class = .ok (pool0, o2) ∧
      read_u16 minimal_class o2 = .ok (minimal_class_decoded.access_flags, o3) ∧
      read_u16 minimal_class o3 = .ok (v, o4) ∧
      read_u16 minimal_class o4 = .ok (w, o5) ∧
      (javaclass_get_fq_parent minimal_class_decoded = .ok none ↔ w = 0) ∧
      (1 ≤ w → ∃ j s, class_name_at pool0 (w - 1) j s ∧
        javaclass_get_fq_parent minimal_class_decoded
          = .ok (some (external_name (cstr s)))) :=
  fq_parent_getter minimal_class 65 false minimal_class_decoded (by decide)

/-- C14: for every class `javaclass_new` returns, with `s` the text of the
Utf8 entry named by the this-class entry of the pool as read from the file
(as a C string): `javaclass_get_fq_name` returns `s` with every `'/'` replaced
by `'.'`; `javaclass_get_package` and `javaclass_get_name` equal
`javaclass_extract_package` and `javaclass_extract_classname` of that name;
the package is absent exactly when `s` holds no `'/'` and no `'.'`; and when
package and name are both present, package, `"."` and name join to the
fully-qualified name. -/
theorem class_name_getters (classbytes : Bytes) (length : Nat) (includecode : Bool)
    (c : JavaClass) (h : javaclass_new classbytes length includecode = .ok c) :
    ∃ pool0 o2 j s,
      pool_as_read classbytes = .ok (pool0, o2) ∧
      class_name_at pool0 c.this_class j s ∧
      javaclass_get_fq_name c = .ok (external_name (cstr s)) ∧
      javaclass_get_package c
        = javaclass_extract_package (some (external_name (cstr s))) ∧
      javaclass_get_name c
        = javaclass_extract_classname (some (external_name (cstr s))) ∧
      (javaclass_get_package c = none ↔ SLASH ∉ cstr s ∧ DOT ∉ cstr s) ∧
      (∀ pkg name, javaclass_get_package c = some pkg → javaclass_get_name c = some name →
        pkg ++ [DOT] ++ name = external_name (cstr s)) := by
  obtain ⟨pool0, o2, o3, v, o4, w, o5, raw, hpar, haf, hv, htc, hw, hsc, hviews, hconvP,
    hconvV, ⟨j, s, hn, hs, hpkg, hcls⟩, -⟩ := javaclass_new_ok_names _ _ _ _ h
  have hj : classname_from_cp c.constant_pool c.this_class = .ok j :=
    (classname_from_cp_conv (poolConv_trans hconvP hconvV) _ j).mp
      ((classname_from_cp_eq_ok _ _ _).mpr ⟨s, hn⟩)
  refine ⟨pool0, o2, j, s, hpar, hn, ?_, hpkg, hcls, ?_, ?_⟩
  · unfold javaclass_get_fq_name
    rw [hj]
    simp only [Exec.ok_bind, Exec.pure_eq]
    rw [cp_cstr_converted _ _ _ _ hs]
  · unfold javaclass_get_package
    rw [hpkg, extract_package_eq_none, mem_external_name]
    exact not_or
  · intro pkg name hp hc
    unfold javaclass_get_package at hp
    unfold javaclass_get_name at hc
    rw [hpkg] at hp
    rw [hcls] at hc
    exact extract_join _ _ _ hp hc

/-- C14 at a concrete input: the minimal class file, `pkg/ClassName`. -/
theorem class_name_getters_witness :
    ∃ pool0 o2 j s,
      pool_as_read minimal_class = .ok (pool0, o2) ∧
      class_name_at pool0 minimal_class_decoded.this_class j s ∧
      javaclass_get_fq_name minimal_class_decoded = .ok (external_name (cstr s)) ∧
      javaclass_get_package minimal_class_decoded
        = javaclass_extract_package (some (external_name (cstr s))) ∧
      javaclass_get_name minimal_class_decoded
        = javaclass_extract_classname (some (external_name (cstr s))) ∧
      (javaclass_get_package minimal_class_decoded = none ↔
        SLASH ∉ cstr s ∧ DOT ∉ cstr s) ∧
      (∀ pkg name, javaclass_get_package minimal_class_decoded = some pkg →
        javaclass_get_name minimal_class_decoded = some name →
        pkg ++ [DOT] ++ name = external_name (cstr s)) :=
  class_name_getters minimal_class 65 false minimal_class_decoded (by decide)

/-- C15: for every class `javaclass_new` returns, the major and minor version
getters give the big-endian values of input bytes 6..7 and 4..5, and the
version label is the unknown label exactly when the major version is below
45; the label table itself: major versions 50, 49, 48, 47, 46, 45 give
"J2SE 6.0", "J2SE 5.0", "JDK 1.4", "JDK 1.3", "JDK 1.2", "JDK 1.1", every
other major version gives "UNKNOWN JAVA VERSION". -/
theorem version_name_table (classbytes : Bytes) (length : Nat) (includecode : Bool)
    (c : JavaClass) (h : javaclass_new classbytes length includecode = .ok c) :
    javaclass_get_major_version_number c = be ((classbytes.drop 6).take 2) ∧
    javaclass_get_minor_version_number c = be ((classbytes.drop 4).take 2) ∧
    (javaclass_get_version_name c = "UNKNOWN JAVA VERSION" ↔
      javaclass_get_major_version_number c < 45) ∧
    (∀ d : JavaClass,
      (d.major_version = 50 → javaclass_get_version_name d = "J2SE 6.0") ∧
      (d.major_version = 49 → javaclass_get_version_name d = "J2SE 5.0") ∧
      (d.major_version = 48 → javaclass_get_version_name d = "JDK 1.4") ∧
      (d.major_version = 47 → javaclass_get_version_name d = "JDK 1.3") ∧
      (d.major_version = 46 → javaclass_get_version_name d = "JDK 1.2") ∧
      (d.major_version = 45 → javaclass_get_version_name d = "JDK 1.1") ∧
      (d.major_version < 45 ∨ 50 < d.major_version →
        javaclass_get_version_name d = "UNKNOWN JAVA VERSION")) := by
  obtain ⟨m1, m2, M1, M2, rest, raw, rfl, hle, hparse, hviews⟩ :=
    javaclass_new_ok_struct _ _ _ _ h
  obtain ⟨cnt, o1, pool0, o2, af, tc, sc, pool1, o3, ic, ifs, o4, fc, fs, o5, mc, ms, o6, ac,
    ats, -, -, -, -, -, -, -, rfl⟩ := javaclass_new_parse_eq_ok _ _ _ _ _ _ _ hparse
  obtain ⟨j, p1, ifs', flds, p2, jms, sig, -, -, -, -, -, rfl⟩ :=
    javaclass_new_views_eq_ok _ _ _ hviews
  have htable : ∀ d : JavaClass,
      (d.major_version = 50 → javaclass_get_version_name d = "J2SE 6.0") ∧
      (d.major_version = 49 → javaclass_get_version_name d = "J2SE 5.0") ∧
      (d.major_version = 48 → javaclass_get_version_name d = "JDK 1.4") ∧
      (d.major_version = 47 → javaclass_get_version_name d = "JDK 1.3") ∧
      (d.major_version = 46 → javaclass_get_version_name d = "JDK 1.2") ∧
      (d.major_version = 45 → javaclass_get_version_name d = "JDK 1.1") ∧
      (d.major_version < 45 ∨ 50 < d.major_version →
        javaclass_get_version_name d = "UNKNOWN JAVA VERSION") := by
    intro d
    refine ⟨?_, ?_, ?_, ?_, ?_, ?_, ?_⟩
    · intro hd; simp [javaclass_get_version_name, hd]
    · intro hd; simp [javaclass_get_version_name, hd]
    · intro hd; simp [javaclass_get_version_name, hd]
    · intro hd; simp [javaclass_get_version_name, hd]
    · intro hd; simp [javaclass_get_version_name, hd]
    · intro hd; simp [javaclass_get_version_name, hd]
    · intro hd
      unfold javaclass_get_version_name
      split <;> first | rfl | omega
  refine ⟨rfl, rfl, ?_, htable⟩
  simp only [javaclass_get_major_version_number]
  constructor
  · intro hname
    by_contra hge
    have hM : be [M1, M2] ≤ 50 := hle
    have h6 := htable
      { magic_number := 0xCAFEBABE, minor_version := be [m1, m2],
        major_version := be [M1, M2], constant_pool_count := dec16 cnt,
        constant_pool := p2, access_flags := af, this_class := tc,
        super_class := sc, interfaces_count := ic,
        interfaces := ifs, fields_count := fc, fields := fs,
        methods_count := mc, methods := ms,
        attributes_count := ac, attributes := ats,
        _package := javaclass_extract_package (some (cp_cstr pool1 j)),
        _classname := javaclass_extract_classname (some (cp_cstr pool1 j)),
        _interfaces := ifs', _fields := flds,
        _methods := jms, _signature := sig }
    simp only [hname] at h6
    have hcases : be [M1, M2] = 50 ∨ be [M1, M2] = 49 ∨ be [M1, M2] = 48 ∨ be [M1, M2] = 47 ∨
        be [M1, M2] = 46 ∨ be [M1, M2] = 45 := by
      simp only [not_lt] at hge
      omega
    rcases hcases with hv | hv | hv | hv | hv | hv
    · exact absurd (h6.1 hv) (by decide)
    · exact absurd (h6.2.1 hv) (by decide)
    · exact absurd (h6.2.2.1 hv) (by decide)
    · exact absurd (h6.2.2.2.1 hv) (by decide)
    · exact absurd (h6.2.2.2.2.1 hv) (by decide)
    · exact absurd (h6.2.2.2.2.2.1 hv) (by decide)
  · intro hlt
    exact (htable _).2.2.2.2.2.2 (Or.inl hlt)

/-- C15 at a concrete input: the minimal class file (version 50.0). -/
theorem version_name_table_witness :
    javaclass_get_major_version_number minimal_class_decoded
        = be ((minimal_class.drop 6).take 2) ∧
    javaclass_get_minor_version_number minimal_class_decoded
        = be ((minimal_class.drop 4).take 2) ∧
    (javaclass_get_version_name minimal_class_decoded = "UNKNOWN JAVA VERSION" ↔
      javaclass_get_major_version_number minimal_class_decoded < 45) ∧
    (∀ d : JavaClass,
      (d.major_version = 50 → javaclass_get_version_name d = "J2SE 6.0") ∧
      (d.major_version = 49 → javaclass_get_version_name d = "J2SE 5.0") ∧
      (d.major_version = 48 → javaclass_get_version_name d = "JDK 1.4") ∧
      (d.major_version = 47 → javaclass_get_version_name d = "JDK 1.3") ∧
      (d.major_version = 46 → javaclass_get_version_name d = "JDK 1.2") ∧
      (d.major_version = 45 → javaclass_get_version_name d = "JDK 1.1") ∧
      (d.major_version < 45 ∨ 50 < d.major_version →
        javaclass_get_version_name d = "UNKNOWN JAVA VERSION")) :=
  version_name_table minimal_class 65 false minimal_class_decoded (by decide)

/-- C16: the 65-byte minimal class file (CA FE BA BE, minor 0, major 50,
pool count 5, Utf8 "pkg/ClassName", ClassRef 1, Utf8 "java/lang/Object",
ClassRef 3, flags 0x0001, this-class 2, super-class 4, four zero counts)
decodes, with either value of `includecode`, to a class with package "pkg",
simple name "ClassName", fully-qualified name "pkg.ClassName", parent
"java.lang.Object", version 50.0 labelled "J2SE 6.0", `is_public` TRUE, and
interface, field and method numbers 0 with absent lists. -/
theorem minimal_class_decodes :
    minimal_class.length = 65 ∧
    minimal_class =
      [0xCA, 0xFE, 0xBA, 0xBE, 0x00, 0x00, 0x00, 0x32, 0x00, 0x05,
       0x01, 0x00, 0x0D, 0x70, 0x6B, 0x67, 0x2F, 0x43, 0x6C, 0x61, 0x73, 0x73, 0x4E, 0x61,
       0x6D, 0x65,
       0x07, 0x00, 0x01,
       0x01, 0x00, 0x10, 0x6A, 0x61, 0x76, 0x61, 0x2F, 0x6C, 0x61, 0x6E, 0x67, 0x2F, 0x4F,
       0x62, 0x6A, 0x65, 0x63, 0x74,
       0x07, 0x00, 0x03,
       0x00, 0x01, 0x00, 0x02, 0x00, 0x04,
       0x00, 0x00, 0x00, 0x00, 0x00, 0x00, 0x00, 0x00] ∧
    ∀ includecode : Bool, ∃ c,
      javaclass_new minimal_class 65 includecode = .ok c ∧
      javaclass_get_package c = some (ascii "pkg") ∧
      javaclass_get_name c = some (ascii "ClassName") ∧
      javaclass_get_fq_name c = .ok (ascii "pkg.ClassName") ∧
      javaclass_get_fq_parent c = .ok (some (ascii "java.lang.Object")) ∧
      javaclass_get_major_version_number c = 50 ∧
      javaclass_get_minor_version_number c = 0 ∧
      javaclass_get_version_name c = "J2SE 6.0" ∧
      javaclass_is_public c = true ∧
      javaclass_get_interface_number c = 0 ∧ javaclass_get_interfaces c = none ∧
      javaclass_get_field_number c = 0 ∧ javaclass_get_fields c = none ∧
      javaclass_get_method_number c = 0 ∧ javaclass_get_methods c = none := by
  refine ⟨by decide, by decide, fun includecode => ⟨minimal_class_decoded, ?_, by decide, by decide,
    by decide, by decide, by decide, by decide, by decide, by decide, by decide, by decide,
    by decide, by decide, by decide, by decide⟩⟩
  cases includecode <;> decide

/-- The contract holds for the `JavaField` setters of public, protected,
static, final and enum with either value, and for the setter of private with
the value TRUE. -/
theorem javafield_setters_contract_sound (f : JavaField) (v : Bool)
    (hflags : f.access_flags < 65536) :
    FieldSetterContract javafield_set_is_public javafield_is_public 0 f v ∧
    FieldSetterContract javafield_set_is_protected javafield_is_protected 2 f v ∧
    FieldSetterContract javafield_set_is_static javafield_is_static 3 f v ∧
    FieldSetterContract javafield_set_is_final javafield_is_final 4 f v ∧
    FieldSetterContract javafield_set_is_enum javafield_is_enum 14 f v ∧
    FieldSetterContract javafield_set_is_private javafield_is_private 1 f true := by
  have hpriv : FieldSetterContract javafield_set_is_private javafield_is_private 1 f true :=
    ⟨set_flag_reads_true _ 1, fun i hi => set_flag_keeps_others _ 1 i hi, rfl, rfl, rfl⟩
  cases v
  · exact
      ⟨⟨clear_flag_reads_false _ 0 hflags, fun i hi => clear_flag_keeps_others _ 0 i hflags hi,
          rfl, rfl, rfl⟩,
        ⟨clear_flag_reads_false _ 2 hflags, fun i hi => clear_flag_keeps_others _ 2 i hflags hi,
          rfl, rfl, rfl⟩,
        ⟨clear_flag_reads_false _ 3 hflags, fun i hi => clear_flag_keeps_others _ 3 i hflags hi,
          rfl, rfl, rfl⟩,
        ⟨clear_flag_reads_false _ 4 hflags, fun i hi => clear_flag_keeps_others _ 4 i hflags hi,
          rfl, rfl, rfl⟩,
        ⟨clear_flag_reads_false _ 14 hflags,
          fun i hi => clear_flag_keeps_others _ 14 i hflags hi, rfl, rfl, rfl⟩,
        hpriv⟩
  · exact
      ⟨⟨set_flag_reads_true _ 0, fun i hi => set_flag_keeps_others _ 0 i hi, rfl, rfl, rfl⟩,
        ⟨set_flag_reads_true _ 2, fun i hi => set_flag_keeps_others _ 2 i hi, rfl, rfl, rfl⟩,
        ⟨set_flag_reads_true _ 3, fun i hi => set_flag_keeps_others _ 3 i hi, rfl, rfl, rfl⟩,
        ⟨set_flag_reads_true _ 4, fun i hi => set_flag_keeps_others _ 4 i hi, rfl, rfl, rfl⟩,
        ⟨set_flag_reads_true _ 14, fun i hi => set_flag_keeps_others _ 14 i hi, rfl, rfl, rfl⟩,
        hpriv⟩

/-- What `javafield_set_is_private(field, FALSE)` does: it keeps the private
bit as it was and clears every other bit. -/
theorem javafield_set_is_private_false (f : JavaField) (i : Nat) :
    (javafield_set_is_private f false).access_flags.testBit i
      = (f.access_flags.testBit i && decide (i = 1)) := by
  show (f.access_flags &&& 2 ^ 1).testBit i = _
  rw [Nat.testBit_and, Nat.testBit_two_pow]
  simp [eq_comm]

/-- C17: `javafield_set_is_private(field, FALSE)` on the public private field
`int x` (access flags 0x0003) leaves the flags at 0x0002: `javafield_is_private`
still returns TRUE afterwards, and the public bit, set before, is cleared; the
setter contract fails there. -/
theorem javafield_set_is_private_clear_fails :
    (javafield_set_is_private ⟨0x0003, some (ascii "x"), some (ascii "I"), none⟩ false)
      = ⟨0x0002, some (ascii "x"), some (ascii "I"), none⟩ ∧
    javafield_is_private
      (javafield_set_is_private ⟨0x0003, some (ascii "x"), some (ascii "I"), none⟩ false)
      = true ∧
    javafield_is_public ⟨0x0003, some (ascii "x"), some (ascii "I"), none⟩ = true ∧
    javafield_is_public
      (javafield_set_is_private ⟨0x0003, some (ascii "x"), some (ascii "I"), none⟩ false)
      = false ∧
    ¬ FieldSetterContract javafield_set_is_private javafield_is_private 1
      ⟨0x0003, some (ascii "x"), some (ascii "I"), none⟩ false := by
  refine ⟨by decide, by decide, by decide, by decide, fun h => ?_⟩
  exact absurd h.1 (by decide)

/-- C18: for every `JavaMethod` (access flags a 16-bit value) and every value
`v`, each of the setters for public, protected, private, abstract, static,
final and synchronized makes the matching getter return `v`, leaves every
other bit of the access flags unchanged, and leaves name, descriptor,
signature, exceptions and code unchanged. -/
theorem javamethod_setters_contract (m : JavaMethod) (v : Bool)
    (hflags : m.access_flags < 65536) :
    MethodSetterContract javamethod_set_is_public javamethod_is_public 0 m v ∧
    MethodSetterContract javamethod_set_is_protected javamethod_is_protected 2 m v ∧
    MethodSetterContract javamethod_set_is_private javamethod_is_private 1 m v ∧
    MethodSetterContract javamethod_set_is_abstract javamethod_is_abstract 10 m v ∧
    MethodSetterContract javamethod_set_is_static javamethod_is_static 3 m v ∧
    MethodSetterContract javamethod_set_is_final javamethod_is_final 4 m v ∧
    MethodSetterContract javamethod_set_is_synchronized javamethod_is_synchronized 5 m v := by
  cases v
  · exact
      ⟨⟨clear_flag_reads_false _ 0 hflags, fun i hi => clear_flag_keeps_others _ 0 i hflags hi,
          rfl, rfl, rfl, rfl, rfl, rfl⟩,
        ⟨clear_flag_reads_false _ 2 hflags, fun i hi => clear_flag_keeps_others _ 2 i hflags hi,
          rfl, rfl, rfl, rfl, rfl, rfl⟩,
        ⟨clear_flag_reads_false _ 1 hflags, fun i hi => clear_flag_keeps_others _ 1 i hflags hi,
          rfl, rfl, rfl, rfl, rfl, rfl⟩,
        ⟨clear_flag_reads_false _ 10 hflags,
          fun i hi => clear_flag_keeps_others _ 10 i hflags hi, rfl, rfl, rfl, rfl, rfl, rfl⟩,
        ⟨clear_flag_reads_false _ 3 hflags, fun i hi => clear_flag_keeps_others _ 3 i hflags hi,
          rfl, rfl, rfl, rfl, rfl, rfl⟩,
        ⟨clear_flag_reads_false _ 4 hflags, fun i hi => clear_flag_keeps_others _ 4 i hflags hi,
          rfl, rfl, rfl, rfl, rfl, rfl⟩,
        ⟨clear_flag_reads_false _ 5 hflags, fun i hi => clear_flag_keeps_others _ 5 i hflags hi,
          rfl, rfl, rfl, rfl, rfl, rfl⟩⟩
  · exact
      ⟨⟨set_flag_reads_true _ 0, fun i hi => set_flag_keeps_others _ 0 i hi,
          rfl, rfl, rfl, rfl, rfl, rfl⟩,
        ⟨set_flag_reads_true _ 2, fun i hi => set_flag_keeps_others _ 2 i hi,
          rfl, rfl, rfl, rfl, rfl, rfl⟩,
        ⟨set_flag_reads_true _ 1, fun i hi => set_flag_keeps_others _ 1 i hi,
          rfl, rfl, rfl, rfl, rfl, rfl⟩,
        ⟨set_flag_reads_true _ 10, fun i hi => set_flag_keeps_others _ 10 i hi,
          rfl, rfl, rfl, rfl, rfl, rfl⟩,
        ⟨set_flag_reads_true _ 3, fun i hi => set_flag_keeps_others _ 3 i hi,
          rfl, rfl, rfl, rfl, rfl, rfl⟩,
        ⟨set_flag_reads_true _ 4, fun i hi => set_flag_keeps_others _ 4 i hi,
          rfl, rfl, rfl, rfl, rfl, rfl⟩,
        ⟨set_flag_reads_true _ 5, fun i hi => set_flag_keeps_others _ 5 i hi,
          rfl, rfl, rfl, rfl, rfl, rfl⟩⟩

/-- C18 at a concrete input: clearing each flag of a public abstract method
`m()V`. -/
theorem javamethod_setters_contract_witness :
    MethodSetterContract javamethod_set_is_public javamethod_is_public 0
      ⟨0x0401, some (ascii "m"), some (ascii "()V"), none, none, none, 0⟩ false ∧
    MethodSetterContract javamethod_set_is_protected javamethod_is_protected 2
      ⟨0x0401, some (ascii "m"), some (ascii "()V"), none, none, none, 0⟩ false ∧
    MethodSetterContract javamethod_set_is_private javamethod_is_private 1
      ⟨0x0401, some (ascii "m"), some (ascii "()V"), none, none, none, 0⟩ false ∧
    MethodSetterContract javamethod_set_is_abstract javamethod_is_abstract 10
      ⟨0x0401, some (ascii "m"), some (ascii "()V"), none, none, none, 0⟩ false ∧
    MethodSetterContract javamethod_set_is_static javamethod_is_static 3
      ⟨0x0401, some (ascii "m"), some (ascii "()V"), none, none, none, 0⟩ false ∧
    MethodSetterContract javamethod_set_is_final javamethod_is_final 4
      ⟨0x0401, some (ascii "m"), some (ascii "()V"), none, none, none, 0⟩ false ∧
    MethodSetterContract javamethod_set_is_synchronized javamethod_is_synchronized 5
      ⟨0x0401, some (ascii "m"), some (ascii "()V"), none, none, none, 0⟩ false :=
  javamethod_setters_contract
    ⟨0x0401, some (ascii "m"), some (ascii "()V"), none, none, none, 0⟩ false (by decide)

/-- C19: for every class `javaclass_new` returns, the access flags are the
big-endian 16-bit value read right after the constant pool, and
`javaclass_is_public`, `_final`, `_interface`, `_abstract`, `_annotation`,
`_enum` return TRUE exactly when bit 0x0001, 0x0010, 0x0200, 0x0400, 0x2000,
0x4000 (bit number 0, 4, 9, 10, 13, 14) of the access flags is set, and FALSE
otherwise. -/
theorem class_flag_getters (classbytes : Bytes) (length : Nat) (includecode : Bool)
    (c : JavaClass) (h : javaclass_new classbytes length includecode = .ok c) :
    (∃ cnt o1 pool o2,
      read_u16 classbytes 8 = .ok (cnt, o1) ∧
      read_constant_pool classbytes (dec16 cnt) o1 = .ok (pool, o2) ∧
      o2 + 2 ≤ classbytes.length ∧
      c.access_flags = be ((classbytes.drop o2).take 2)) ∧
    c.access_flags < 65536 ∧
    javaclass_is_public c = c.access_flags.testBit 0 ∧
    javaclass_is_final c = c.access_flags.testBit 4 ∧
    javaclass_is_interface c = c.access_flags.testBit 9 ∧
    javaclass_is_abstract c = c.access_flags.testBit 10 ∧
    javaclass_is_annotation c = c.access_flags.testBit 13 ∧
    javaclass_is_enum c = c.access_flags.testBit 14 := by
  obtain ⟨m1, m2, M1, M2, rest, raw, hcb, hle, hparse, hviews⟩ :=
    javaclass_new_ok_struct _ _ _ _ h
  obtain ⟨cnt, o1, pool0, o2, af, tc, sc, pool1, o3, ic, ifs, o4, fc, fs, o5, mc, ms, o6, ac,
    ats, hcnt, hpool, hrefs, -, -, -, -, rfl⟩ := javaclass_new_parse_eq_ok _ _ _ _ _ _ _ hparse
  obtain ⟨j, p1, ifs', flds, p2, jms, sig, -, -, -, -, -, rfl⟩ :=
    javaclass_new_views_eq_ok _ _ _ hviews
  obtain ⟨oa, v, ob, poolA, w, haf, -⟩ := javaclass_new_parse_refs_eq_ok _ _ _ _ _ _ _ _ hrefs
  obtain ⟨hlen, hval, -⟩ := read_u16_eq_ok _ _ _ _ haf
  exact ⟨⟨cnt, o1, pool0, o2, hcnt, hpool, hlen, hval⟩, read_u16_lt _ _ _ _ haf,
    flag_test _ 0, flag_test _ 4, flag_test _ 9, flag_test _ 10, flag_test _ 13,
    flag_test _ 14⟩

/-- C19 at a concrete input: the minimal class file, whose flags are 0x0001. -/
theorem class_flag_getters_witness :
    (∃ cnt o1 pool o2,
      read_u16 minimal_class 8 = .ok (cnt, o1) ∧
      read_constant_pool minimal_class (dec16 cnt) o1 = .ok (pool, o2) ∧
      o2 + 2 ≤ minimal_class.length ∧
      minimal_class_decoded.access_flags = be ((minimal_class.drop o2).take 2)) ∧
    minimal_class_decoded.access_flags < 65536 ∧
    javaclass_is_public minimal_class_decoded = minimal_class_decoded.access_flags.testBit 0 ∧
    javaclass_is_final minimal_class_decoded = minimal_class_decoded.access_flags.testBit 4 ∧
    javaclass_is_interface minimal_class_decoded
      = minimal_class_decoded.access_flags.testBit 9 ∧
    javaclass_is_abstract minimal_class_decoded
      = minimal_class_decoded.access_flags.testBit 10 ∧
    javaclass_is_annotation minimal_class_decoded
      = minimal_class_decoded.access_flags.testBit 13 ∧
    javaclass_is_enum minimal_class_decoded = minimal_class_decoded.access_flags.testBit 14 :=
  class_flag_getters minimal_class 65 false minimal_class_decoded (by decide)

/-! ## Every dereferenced index is a slot of the expected kind -/

theorem utf8_at_conv {p p' : List cp_info} (h : PoolConv p p') (i : Nat) :
    utf8_at p i ↔ utf8_at p' i := by
  constructor
  · rintro ⟨s, hs⟩
    rcases poolConv_str h i TAG_UTF8 s hs with h1 | h1
    · exact ⟨_, h1⟩
    · exact ⟨_, h1⟩
  · rintro ⟨s, hs⟩
    obtain ⟨s0, h0, -⟩ := poolConv_str_back h i TAG_UTF8 s hs
    exact ⟨s0, h0⟩

theorem utf8_at_of_string_from_cp {pool : List cp_info} {i : Nat} {n : Bytes}
    (h : string_from_cp pool i = .ok n) : utf8_at pool i := by
  obtain ⟨s, hs, -⟩ := (string_from_cp_eq_ok _ _ _).mp h
  exact ⟨s, hs⟩

theorem class_at_of_classname_from_cp {pool : List cp_info} {i j : Nat}
    (h : classname_from_cp pool i = .ok j) : class_at pool i := by
  obtain ⟨s, hs⟩ := (classname_from_cp_eq_ok _ _ _).mp h
  exact ⟨j, s, hs⟩

theorem ascii_signature_no_slash : SLASH ∉ ascii "Signature" := by decide

theorem ascii_signature_no_dot : DOT ∉ ascii "Signature" := by decide

theorem ascii_exceptions_no_slash : SLASH ∉ ascii "Exceptions" := by decide

theorem ascii_exceptions_no_dot : DOT ∉ ascii "Exceptions" := by decide

theorem read_u32_lt (src : Bytes) (o : Nat) (v o1 : Nat)
    (h : read_u32 src o = .ok (v, o1)) : v < 2 ^ 32 := by
  unfold read_u32 copy_bytes at h
  split at h
  · rename_i hfit
    simp only [Exec.ok_bind, Exec.pure_eq, Exec.ok.injEq, Prod.mk.injEq] at h
    obtain ⟨rfl, -⟩ := h
    have hl : ((src.drop o).take 4).length = 4 := by
      simp only [List.length_take, List.length_drop]; omega
    match hx : (src.drop o).take 4, hl with
    | [a, b, c, d], _ =>
      rw [be4]
      have := a.isLt
      have := b.isLt
      have := c.isLt
      have := d.isLt
      omega
  · simp at h

theorem payload_g_new_guchar (bytes : Bytes) : payload (g_new_guchar bytes) = bytes := by
  unfold payload g_new_guchar
  split
  · rename_i h; simp [h]
  · rfl

/-- `read_attributes` dereferences every attribute name index; every payload
it stores is shorter than `2^32` bytes. -/
theorem read_attributes_refs (pool : List cp_info) (classbytes : Bytes) (n offset : Nat)
    (attrs : List attribute_info) (offset' : Nat)
    (h : read_attributes pool classbytes n offset = .ok (attrs, offset')) :
    ∀ a ∈ attrs, utf8_at pool a.attribute_name_index ∧ (payload a.info).length < 2 ^ 32 := by
  induction n generalizing offset attrs with
  | zero =>
    simp only [read_attributes, Exec.pure_eq, Exec.ok.injEq, Prod.mk.injEq] at h
    obtain ⟨rfl, -⟩ := h
    intro a ha
    cases ha
  | succ n ih =>
    unfold read_attributes at h
    simp only [Exec.bind_eq_ok, Prod.exists] at h
    obtain ⟨idx, o1, -, len, o2, hlen, name, hname, h⟩ := h
    have hu := utf8_at_of_string_from_cp hname
    have hl := read_u32_lt _ _ _ _ hlen
    split at h
    · simp only [Exec.bind_eq_ok, Prod.exists, Exec.pure_eq, Exec.ok.injEq, Prod.mk.injEq] at h
      obtain ⟨info, o3, hcopy, rest, o4, hrest, rfl, rfl⟩ := h
      intro a ha
      rcases List.mem_cons.mp ha with rfl | ha'
      · refine ⟨hu, ?_⟩
        simp only [payload_g_new_guchar]
        unfold copy_bytes at hcopy
        split at hcopy
        · simp only [Exec.ok.injEq, Prod.mk.injEq] at hcopy
          rw [← hcopy.1]
          simp only [List.length_take, List.length_drop]
          omega
        · cases hcopy
      · exact ih _ _ hrest a ha'
    · simp only [Exec.bind_eq_ok, Prod.exists, Exec.pure_eq, Exec.ok.injEq, Prod.mk.injEq] at h
      obtain ⟨rest, o4, hrest, rfl, rfl⟩ := h
      intro a ha
      rcases List.mem_cons.mp ha with rfl | ha'
      · exact ⟨hu, by simp [payload]⟩
      · exact ih _ _ hrest a ha'

theorem read_fields_refs (pool : List cp_info) (classbytes : Bytes) (n offset : Nat)
    (fs : List field_info) (offset' : Nat)
    (h : read_fields pool classbytes n offset = .ok (fs, offset')) :
    ∀ f ∈ fs, ∀ a ∈ f.attributes,
      utf8_at pool a.attribute_name_index ∧ (payload a.info).length < 2 ^ 32 := by
  induction n generalizing offset fs with
  | zero =>
    simp only [read_fields, Exec.pure_eq, Exec.ok.injEq, Prod.mk.injEq] at h
    obtain ⟨rfl, -⟩ := h
    intro f hf
    cases hf
  | succ n ih =>
    unfold read_fields at h
    simp only [Exec.bind_eq_ok, Prod.exists, Exec.pure_eq, Exec.ok.injEq, Prod.mk.injEq] at h
    obtain ⟨af, o1, -, ni, o2, -, di, o3, -, ac, o4, -, attrs, o5, hattrs, rest, o6, hrest,
      rfl, rfl⟩ := h
    intro f hf
    rcases List.mem_cons.mp hf with rfl | hf'
    · exact read_attributes_refs _ _ _ _ _ _ hattrs
    · exact ih _ _ hrest f hf'

theorem read_methods_refs (pool : List cp_info) (classbytes : Bytes) (n offset : Nat)
    (ms : List method_info) (offset' : Nat)
    (h : read_methods pool classbytes n offset = .ok (ms, offset')) :
    ∀ m ∈ ms, ∀ a ∈ m.attributes,
      utf8_at pool a.attribute_name_index ∧ (payload a.info).length < 2 ^ 32 := by
  induction n generalizing offset ms with
  | zero =>
    simp only [read_methods, Exec.pure_eq, Exec.ok.injEq, Prod.mk.injEq] at h
    obtain ⟨rfl, -⟩ := h
    intro f hf
    cases hf
  | succ n ih =>
    unfold read_methods at h
    simp only [Exec.bind_eq_ok, Prod.exists, Exec.pure_eq, Exec.ok.injEq, Prod.mk.injEq] at h
    obtain ⟨af, o1, -, ni, o2, -, di, o3, -, ac, o4, -, attrs, o5, hattrs, rest, o6, hrest,
      rfl, rfl⟩ := h
    intro f hf
    rcases List.mem_cons.mp hf with rfl | hf'
    · exact read_attributes_refs _ _ _ _ _ _ hattrs
    · exact ih _ _ hrest f hf'

theorem g_strcmp0_eq_iff (a b : Option Bytes) : g_strcmp0_eq a b = true ↔ a = b := by
  unfold g_strcmp0_eq
  exact decide_eq_true_iff

/-- The `Signature` search dereferences every attribute name index and the
string index of every attribute named `Signature`. -/
theorem scan_signature_refs (pool : List cp_info) (attrs : List attribute_info)
    (sig r : Option Bytes) (h : scan_signature pool attrs sig = .ok r) :
    attributes_refs_ok pool attrs := by
  induction attrs generalizing sig with
  | nil =>
    intro a ha
    cases ha
  | cons b rest ih =>
    unfold scan_signature at h
    simp only [Exec.bind_eq_ok] at h
    obtain ⟨name, hname, h⟩ := h
    have hu := utf8_at_of_string_from_cp hname
    split at h
    · simp only [Exec.bind_eq_ok, Prod.exists] at h
      obtain ⟨sg, o, hsg, s, hs, h⟩ := h
      obtain ⟨hlen, hval, -⟩ := read_u16_eq_ok _ _ _ _ hsg
      intro a ha
      rcases List.mem_cons.mp ha with rfl | ha'
      · refine ⟨hu, fun _ => ⟨by omega, ?_⟩⟩
        have := utf8_at_of_string_from_cp hs
        rw [hval] at this
        simpa using this
      · exact ih _ h a ha'
    · rename_i hne
      intro a ha
      rcases List.mem_cons.mp ha with rfl | ha'
      · refine ⟨hu, fun hsig => ?_⟩
        rw [hname] at hsig
        cases hsig
        exact absurd ((g_strcmp0_eq_iff _ _).mpr rfl) hne
      · exact ih _ h a ha'

theorem javaclass_new_parse_fields_refs (pool : List cp_info) (classbytes : Bytes)
    (offset : Nat) (count : Nat) (fs : List field_info) (offset' : Nat)
    (h : javaclass_new_parse_fields pool classbytes offset = .ok (count, fs, offset')) :
    (¬ count > 0 → fs = []) ∧
    ∀ f ∈ fs, ∀ a ∈ f.attributes,
      utf8_at pool a.attribute_name_index ∧ (payload a.info).length < 2 ^ 32 := by
  unfold javaclass_new_parse_fields at h
  simp only [Exec.bind_eq_ok, Prod.exists] at h
  obtain ⟨fc, o1, -, h⟩ := h
  split at h
  · rename_i hpos
    simp only [Exec.bind_eq_ok, Prod.exists, Exec.pure_eq, Exec.ok.injEq, Prod.mk.injEq] at h
    obtain ⟨l, o2, hl, rfl, rfl, rfl⟩ := h
    exact ⟨fun hn => absurd hpos hn, read_fields_refs _ _ _ _ _ _ hl⟩
  · simp only [Exec.pure_eq, Exec.ok.injEq, Prod.mk.injEq] at h
    obtain ⟨rfl, rfl, rfl⟩ := h
    exact ⟨fun _ => rfl, fun f hf => by cases hf⟩

theorem javaclass_new_parse_methods_refs (pool : List cp_info) (classbytes : Bytes)
    (offset : Nat) (count : Nat) (ms : List method_info) (offset' : Nat)
    (h : javaclass_new_parse_methods pool classbytes offset = .ok (count, ms, offset')) :
    (¬ count > 0 → ms = []) ∧
    ∀ m ∈ ms, ∀ a ∈ m.attributes,
      utf8_at pool a.attribute_name_index ∧ (payload a.info).length < 2 ^ 32 := by
  unfold javaclass_new_parse_methods at h
  simp only [Exec.bind_eq_ok, Prod.exists] at h
  obtain ⟨fc, o1, -, h⟩ := h
  split at h
  · rename_i hpos
    simp only [Exec.bind_eq_ok, Prod.exists, Exec.pure_eq, Exec.ok.injEq, Prod.mk.injEq] at h
    obtain ⟨l, o2, hl, rfl, rfl, rfl⟩ := h
    exact ⟨fun hn => absurd hpos hn, read_methods_refs _ _ _ _ _ _ hl⟩
  · simp only [Exec.pure_eq, Exec.ok.injEq, Prod.mk.injEq] at h
    obtain ⟨rfl, rfl, rfl⟩ := h
    exact ⟨fun _ => rfl, fun f hf => by cases hf⟩

/-- The payload sizes by tag. -/
theorem cp_payload_size_table (len : Nat) :
    cp_payload_size TAG_UTF8 len = 2 + len ∧
    cp_payload_size TAG_INTEGER len = 4 ∧ cp_payload_size TAG_FLOAT len = 4 ∧
    cp_payload_size TAG_LONG len = 8 ∧ cp_payload_size TAG_DOUBLE len = 8 ∧
    cp_payload_size TAG_CLASS len = 2 ∧ cp_payload_size TAG_STRING len = 2 ∧
    cp_payload_size TAG_FIELDREF len = 4 ∧ cp_payload_size TAG_METHODREF len = 4 ∧
    cp_payload_size TAG_INTERFACEMETHODREF len = 4 ∧ cp_payload_size TAG_NAMEANDTYPE len = 4 :=
  ⟨rfl, rfl, rfl, rfl, rfl, rfl, rfl, rfl, rfl, rfl, rfl⟩

/-- One record: the tag byte, then the payload of that tag. -/
theorem read_cp_entry_size (classbytes : Bytes) (hlen : classbytes.length < 2 ^ 32)
    (o : Nat) (e : cp_info) (two : Bool) (o1 : Nat)
    (h : read_cp_entry classbytes o = .ok (e, two, o1)) :
    ∃ t : Byte, classbytes[o]? = some t ∧ e.tag = t.val ∧
      o1 = o + 1 + cp_payload_size t.val (be ((classbytes.drop (o + 1)).take 2)) ∧
      o1 ≤ classbytes.length ∧
      (t.val = TAG_UTF8 →
        e.value = .str ((classbytes.drop (o + 3)).take (be ((classbytes.drop (o + 1)).take 2))) ∧
        ((classbytes.drop (o + 3)).take (be ((classbytes.drop (o + 1)).take 2))).length
          = be ((classbytes.drop (o + 1)).take 2)) ∧
      o1 = o + cp_record_size e := by
  cases hget : classbytes[o]? with
  | none =>
    unfold read_cp_entry at h
    rw [copy_bytes_one_none _ _ hget] at h
    cases h
  | some t =>
    have hlt : o < classbytes.length := (List.getElem?_eq_some.mp hget).1
    refine ⟨t, rfl, ?_⟩
    unfold read_cp_entry at h
    rw [copy_bytes_one _ _ _ hget, Nat.mod_eq_of_lt (by omega)] at h
    simp only [Exec.ok_bind, be1] at h
    have hT := cp_payload_size_table
    split at h
    · rename_i ht
      simp only [Exec.bind_eq_ok, Prod.exists, Exec.pure_eq, Exec.ok.injEq,
        Prod.mk.injEq] at h
      obtain ⟨slen, o2, hs, s, o3, hc, rfl, -, rfl⟩ := h
      obtain ⟨hfit, hval, ho2⟩ := read_u16_eq_ok _ _ _ _ hs
      rw [Nat.mod_eq_of_lt (by omega)] at ho2
      subst ho2
      obtain ⟨hfit2, hsv, ho3⟩ := copy_bytes_eq_ok _ _ _ _ _ hlen hc
      subst hval hsv ho3
      have hl : ((classbytes.drop (o + 1 + 2)).take
          (be ((classbytes.drop (o + 1)).take 2))).length
          = be ((classbytes.drop (o + 1)).take 2) := by
        simp only [List.length_take, List.length_drop]
        omega
      refine ⟨rfl, ?_, hfit2, fun _ => ⟨rfl, hl⟩, ?_⟩
      · rw [ht, (hT _).1]
        omega
      · show _ = o + (1 + cp_payload_size t.val _)
        rw [ht, (hT _).1, hl]
        omega
    split at h
    · rename_i ht1 ht
      simp only [Exec.bind_eq_ok, Prod.exists, Exec.pure_eq, Exec.ok.injEq,
        Prod.mk.injEq, read_u32] at h
      obtain ⟨v, o2, ⟨b, o3, hc, rfl, rfl⟩, rfl, -, rfl⟩ := h
      obtain ⟨hfit, -, ho3⟩ := copy_bytes_eq_ok _ _ _ _ _ hlen hc
      subst ho3
      refine ⟨rfl, ?_, hfit, fun hu => absurd hu ht1, ?_⟩
      · rw [ht, (hT _).2.1]
      · show _ = o + (1 + cp_payload_size t.val 0)
        rw [ht, (hT _).2.1]
    split at h
    · rename_i ht1 ht2 ht
      simp only [Exec.bind_eq_ok, Prod.exists, Exec.pure_eq, Exec.ok.injEq,
        Prod.mk.injEq] at h
      obtain ⟨b, o3, hc, d, hd, rfl, -, rfl⟩ := h
      obtain ⟨hfit, -, ho3⟩ := copy_bytes_eq_ok _ _ _ _ _ hlen hc
      subst ho3
      refine ⟨rfl, ?_, hfit, fun hu => absurd hu ht1, ?_⟩
      · rw [ht, (hT _).2.2.1]
      · show _ = o + (1 + cp_payload_size t.val 0)
        rw [ht, (hT _).2.2.1]
    split at h
    · rename_i ht1 ht2 ht3 ht
      simp only [Exec.bind_eq_ok, Prod.exists, Exec.pure_eq, Exec.ok.injEq,
        Prod.mk.injEq] at h
      obtain ⟨b, o3, hc, rfl, -, rfl⟩ := h
      obtain ⟨hfit, -, ho3⟩ := copy_bytes_eq_ok _ _ _ _ _ hlen hc
      subst ho3
      refine ⟨rfl, ?_, hfit, fun hu => absurd hu ht1, ?_⟩
      · rw [ht, (hT _).2.2.2.1]
      · show _ = o + (1 + cp_payload_size t.val 0)
        rw [ht, (hT _).2.2.2.1]
    split at h
    · rename_i ht1 ht2 ht3 ht4 ht
      simp only [Exec.bind_eq_ok, Prod.exists, Exec.pure_eq, Exec.ok.injEq,
        Prod.mk.injEq] at h
      obtain ⟨b, o3, hc, d, hd, rfl, -, rfl⟩ := h
      obtain ⟨hfit, -, ho3⟩ := copy_bytes_eq_ok _ _ _ _ _ hlen hc
      subst ho3
      refine ⟨rfl, ?_, hfit, fun hu => absurd hu ht1, ?_⟩
      · rw [ht, (hT _).2.2.2.2.1]
      · show _ = o + (1 + cp_payload_size t.val 0)
        rw [ht, (hT _).2.2.2.2.1]
    split at h
    · rename_i ht1 ht2 ht3 ht4 ht5 ht
      simp only [Exec.bind_eq_ok, Prod.exists, Exec.pure_eq, Exec.ok.injEq,
        Prod.mk.injEq] at h
      obtain ⟨v, o3, hv, rfl, -, rfl⟩ := h
      obtain ⟨hfit, -, ho3⟩ := read_u16_eq_ok _ _ _ _ hv
      rw [Nat.mod_eq_of_lt (by omega)] at ho3
      subst ho3
      have hp : ∀ len, cp_payload_size t.val len = 2 := by
        intro len
        rcases ht with ht | ht
        · rw [ht, (hT _).2.2.2.2.2.1]
        · rw [ht, (hT _).2.2.2.2.2.2.1]
      refine ⟨rfl, ?_, by omega, fun hu => absurd hu ht1, ?_⟩
      · rw [hp]
      · show _ = o + (1 + cp_payload_size t.val 0)
        rw [hp]
    split at h
    · rename_i ht1 ht2 ht3 ht4 ht5 ht6 ht
      simp only [Exec.bind_eq_ok, Prod.exists, Exec.pure_eq, Exec.ok.injEq,
        Prod.mk.injEq] at h
      obtain ⟨a, o3, ha, b, o4, hb, rfl, -, rfl⟩ := h
      obtain ⟨hfit, -, ho3⟩ := read_u16_eq_ok _ _ _ _ ha
      rw [Nat.mod_eq_of_lt (by omega)] at ho3
      subst ho3
      obtain ⟨hfit2, -, ho4⟩ := read_u16_eq_ok _ _ _ _ hb
      rw [Nat.mod_eq_of_lt (by omega)] at ho4
      subst ho4
      have hp : ∀ len, cp_payload_size t.val len = 4 := by
        intro len
        rcases ht with ht | ht | ht | ht
        · rw [ht, (hT _).2.2.2.2.2.2.2.1]
        · rw [ht, (hT _).2.2.2.2.2.2.2.2.1]
        · rw [ht, (hT _).2.2.2.2.2.2.2.2.2.1]
        · rw [ht, (hT _).2.2.2.2.2.2.2.2.2.2]
      refine ⟨rfl, ?_, by omega, fun hu => absurd hu ht1, ?_⟩
      · rw [hp]
      · show _ = o + (1 + cp_payload_size t.val 0)
        rw [hp]
    · cases h

/-- The whole pool: the offset moves by the sizes of the records read. -/
theorem read_constant_pool_size (classbytes : Bytes) (hlen : classbytes.length < 2 ^ 32)
    (n offset : Nat) (pool : List cp_info) (offset' : Nat)
    (h : read_constant_pool classbytes n offset = .ok (pool, offset')) :
    offset' = offset + (pool.map cp_record_size).sum := by
  induction n using Nat.strong_induction_on generalizing offset pool offset' with
  | _ n ih =>
    match n with
    | 0 =>
      simp only [read_constant_pool, Exec.pure_eq, Exec.ok.injEq, Prod.mk.injEq] at h
      obtain ⟨rfl, rfl⟩ := h
      simp
    | k + 1 =>
      unfold read_constant_pool at h
      simp only [Exec.bind_eq_ok, Prod.exists] at h
      obtain ⟨e, two, o1, he, h⟩ := h
      obtain ⟨t, -, -, -, -, -, hsize⟩ := read_cp_entry_size _ hlen _ _ _ _ he
      cases two with
      | true =>
        simp only [if_true] at h
        match k, h with
        | 0, h => cases h
        | m + 1, h =>
          simp only [Exec.bind_eq_ok, Prod.exists, Exec.pure_eq, Exec.ok.injEq,
            Prod.mk.injEq] at h
          obtain ⟨rest, o2, hrest, rfl, rfl⟩ := h
          have := ih m (by omega) _ _ _ hrest
          simp only [List.map_cons, List.sum_cons]
          have hz : cp_record_size ⟨e.tag, .uninit⟩ = 0 := rfl
          rw [hz]
          omega
      | false =>
        simp only [Bool.false_eq_true, if_false, Exec.bind_eq_ok, Prod.exists, Exec.pure_eq,
          Exec.ok.injEq, Prod.mk.injEq] at h
        obtain ⟨rest, o2, hrest, rfl, rfl⟩ := h
        have := ih k (by omega) _ _ _ hrest
        simp only [List.map_cons, List.sum_cons]
        omega

/-- C23: decoding one constant-pool record moves the cursor by the tag byte
plus the payload size of its tag: 2 + len for Utf8 (len the big-endian 16-bit
length field; the stored text is the len bytes that follow it), 4 for Integer
and Float, 8 for Long and Double, 2 for Class and String, 4 for FieldRef,
MethodRef, InterfaceMethodRef and NameAndType; decoding the whole pool moves
the cursor by the sum of the sizes of the records read (a placeholder slot
stands for no bytes). -/
theorem cp_record_sizes (classbytes : Bytes) (hlen : classbytes.length < 2 ^ 32) :
    (∀ (o : Nat) (e : cp_info) (two : Bool) (o1 : Nat),
      read_cp_entry classbytes o = .ok (e, two, o1) →
      ∃ t : Byte, classbytes[o]? = some t ∧ e.tag = t.val ∧
        o1 = o + 1 + cp_payload_size t.val (be ((classbytes.drop (o + 1)).take 2)) ∧
        o1 ≤ classbytes.length ∧
        (t.val = TAG_UTF8 →
          e.value
            = .str ((classbytes.drop (o + 3)).take (be ((classbytes.drop (o + 1)).take 2))) ∧
          ((classbytes.drop (o + 3)).take (be ((classbytes.drop (o + 1)).take 2))).length
            = be ((classbytes.drop (o + 1)).take 2)) ∧
        o1 = o + cp_record_size e) ∧
    (∀ (n offset : Nat) (pool : List cp_info) (offset' : Nat),
      read_constant_pool classbytes n offset = .ok (pool, offset') →
      offset' = offset + (pool.map cp_record_size).sum) ∧
    (∀ len : Nat,
      cp_payload_size TAG_UTF8 len = 2 + len ∧
      cp_payload_size TAG_INTEGER len = 4 ∧ cp_payload_size TAG_FLOAT len = 4 ∧
      cp_payload_size TAG_LONG len = 8 ∧ cp_payload_size TAG_DOUBLE len = 8 ∧
      cp_payload_size TAG_CLASS len = 2 ∧ cp_payload_size TAG_STRING len = 2 ∧
      cp_payload_size TAG_FIELDREF len = 4 ∧ cp_payload_size TAG_METHODREF len = 4 ∧
      cp_payload_size TAG_INTERFACEMETHODREF len = 4 ∧
      cp_payload_size TAG_NAMEANDTYPE len = 4) :=
  ⟨fun o e two o1 h => read_cp_entry_size classbytes hlen o e two o1 h,
   fun n offset pool offset' h => read_constant_pool_size classbytes hlen n offset pool offset' h,
   cp_payload_size_table⟩

/-- C23 at a concrete input: a pool of 4 slots holding a string, a Long and a
class reference, 17 bytes in 3 records. -/
theorem cp_record_sizes_witness :
    read_constant_pool [1, 0, 2, 65, 66, 5, 0, 0, 0, 0, 0, 0, 0, 9, 7, 0, 1] 4 0
      = .ok ([⟨1, .str [65, 66]⟩, ⟨5, .l 9⟩, ⟨5, .uninit⟩, ⟨7, .index 0⟩], 17) ∧
    17 = 0 + (([⟨1, .str [65, 66]⟩, ⟨5, .l 9⟩, ⟨5, .uninit⟩, ⟨7, .index 0⟩] :
      List cp_info).map cp_record_size).sum :=
  ⟨by decide,
   (cp_record_sizes [1, 0, 2, 65, 66, 5, 0, 0, 0, 0, 0, 0, 0, 9, 7, 0, 1] (by decide)).2.1
     4 0 _ 17 (by decide)⟩

/-! ## The layout of attribute, field and method records -/

theorem attributes_span_cons (a : attribute_info) (rest : List attribute_info) :
    attributes_span (a :: rest) = 6 + a.attribute_length + attributes_span rest := by
  simp [attributes_span]

theorem g_new_guchar_eq_none (bytes : Bytes) : g_new_guchar bytes = none ↔ bytes.length = 0 := by
  unfold g_new_guchar
  split
  · rename_i h; simp [h]
  · rename_i h
    constructor
    · intro hn; cases hn
    · intro hl
      exact absurd (List.eq_nil_of_length_eq_zero hl) h

/-- `read_attributes` reads `n` records one after the other; each starts
where the one before it ends, modulo `2^32`. -/
theorem read_attributes_layout (pool : List cp_info) (classbytes : Bytes)
    (hlen : classbytes.length < 2 ^ 32) (n offset : Nat) (ho : offset < 2 ^ 32)
    (attrs : List attribute_info) (offset' : Nat)
    (h : read_attributes pool classbytes n offset = .ok (attrs, offset')) :
    attrs.length = n ∧ offset' = (offset + attributes_span attrs) % 2 ^ 32 ∧
    ∀ i a, attrs[i]? = some a →
      attribute_record_at pool classbytes
        ((offset + attributes_span (attrs.take i)) % 2 ^ 32) a := by
  induction n generalizing offset attrs with
  | zero =>
    simp only [read_attributes, Exec.pure_eq, Exec.ok.injEq, Prod.mk.injEq] at h
    obtain ⟨rfl, rfl⟩ := h
    refine ⟨rfl, ?_, fun i a hi => by simp at hi⟩
    simp only [attributes_span, List.map_nil, List.sum_nil, Nat.add_zero]
    exact (Nat.mod_eq_of_lt ho).symm
  | succ n ih =>
    unfold read_attributes at h
    simp only [Exec.bind_eq_ok, Prod.exists] at h
    obtain ⟨idx, o1, hidx, len, o2, hlenf, name, hname, h⟩ := h
    obtain ⟨hfit1, hv1, ho1⟩ := read_u16_eq_ok _ _ _ _ hidx
    rw [Nat.mod_eq_of_lt (by omega)] at ho1
    subst ho1
    obtain ⟨hfit2, hv2⟩ := read_u32_eq_ok _ _ _ _ hlenf
    have ho2 : o2 = offset + 6 := by
      unfold read_u32 copy_bytes at hlenf
      rw [if_pos hfit2] at hlenf
      simp only [Exec.ok_bind, Exec.pure_eq, Exec.ok.injEq, Prod.mk.injEq] at hlenf
      rw [← hlenf.2, Nat.mod_eq_of_lt (by omega)]
    subst ho2
    have hrec0 : ∀ (info : Option Bytes),
        (is_known_attribute (some name) = true →
          offset + 6 + len ≤ classbytes.length ∧
          payload info = (classbytes.drop (offset + 6)).take len ∧
          (payload info).length = len ∧ (info = none ↔ len = 0)) →
        (is_known_attribute (some name) = false → info = none) →
        attribute_record_at pool classbytes offset ⟨dec16 idx, len, info⟩ := by
      intro info hk hu
      exact ⟨by omega, by rw [hv1], by rw [hv2], name, hname, hk, hu⟩
    split at h
    · rename_i hknown
      simp only [Exec.bind_eq_ok, Prod.exists, Exec.pure_eq, Exec.ok.injEq, Prod.mk.injEq] at h
      obtain ⟨info, o3, hcopy, rest, o4, hrest, rfl, rfl⟩ := h
      obtain ⟨hfit3, hinfo, ho3⟩ := copy_bytes_eq_ok _ _ _ _ _ hlen hcopy
      subst ho3
      obtain ⟨ih1, ih2, ih3⟩ := ih _ (by omega) _ hrest
      have hil : info.length = len := by
        rw [hinfo]
        simp only [List.length_take, List.length_drop]
        omega
      refine ⟨by simp [ih1], ?_, ?_⟩
      · rw [ih2, attributes_span_cons]
        simp only []
        congr 1
        omega
      · intro i a hi
        match i with
        | 0 =>
          simp only [List.getElem?_cons_zero, Option.some.injEq] at hi
          subst hi
          simp only [List.take_zero, attributes_span, List.map_nil, List.sum_nil, Nat.add_zero]
          rw [Nat.mod_eq_of_lt ho]
          refine hrec0 _ (fun _ => ⟨hfit3, ?_, ?_, ?_⟩) (fun hf => ?_)
          · rw [payload_g_new_guchar, hinfo]
          · rw [payload_g_new_guchar, hil]
          · rw [g_new_guchar_eq_none, hil]
          · rw [hknown] at hf
            cases hf
        | k + 1 =>
          simp only [List.getElem?_cons_succ] at hi
          have := ih3 k a hi
          simp only [List.take_succ_cons, attributes_span_cons]
          have he : (offset + (6 + len + attributes_span (List.take k rest))) % 2 ^ 32
              = (offset + 6 + len + attributes_span (List.take k rest)) % 2 ^ 32 := by
            congr 1
            omega
          rw [he]
          exact this
    · rename_i hknown
      simp only [Exec.bind_eq_ok, Prod.exists, Exec.pure_eq, Exec.ok.injEq, Prod.mk.injEq] at h
      obtain ⟨rest, o4, hrest, rfl, rfl⟩ := h
      have hskip : skip_bytes (offset + 6) len = (offset + 6 + len) % 2 ^ 32 := rfl
      rw [hskip] at hrest
      obtain ⟨ih1, ih2, ih3⟩ := ih _ (Nat.mod_lt _ (by decide)) _ hrest
      refine ⟨by simp [ih1], ?_, ?_⟩
      · rw [ih2, attributes_span_cons]
        simp only []
        rw [Nat.mod_add_mod]
        congr 1
        omega
      · intro i a hi
        match i with
        | 0 =>
          simp only [List.getElem?_cons_zero, Option.some.injEq] at hi
          subst hi
          simp only [List.take_zero, attributes_span, List.map_nil, List.sum_nil, Nat.add_zero]
          rw [Nat.mod_eq_of_lt ho]
          refine hrec0 _ (fun hk => absurd hk hknown) (fun _ => rfl)
        | k + 1 =>
          simp only [List.getElem?_cons_succ] at hi
          have := ih3 k a hi
          simp only [List.take_succ_cons, attributes_span_cons]
          rw [Nat.mod_add_mod] at this
          have he : (offset + (6 + len + attributes_span (List.take k rest))) % 2 ^ 32
              = (offset + 6 + len + attributes_span (List.take k rest)) % 2 ^ 32 := by
            congr 1
            omega
          rw [he]
          exact this

theorem fields_span_cons (f : field_info) (rest : List field_info) :
    fields_span (f :: rest) = 8 + attributes_span f.attributes + fields_span rest := by
  simp [fields_span]

/-- `read_fields` reads `n` records one after the other; each starts where
the one before it ends, modulo `2^32`. -/
theorem read_fields_layout (pool : List cp_info) (classbytes : Bytes)
    (hlen : classbytes.length < 2 ^ 32) (n offset : Nat) (ho : offset < 2 ^ 32)
    (fs : List field_info) (offset' : Nat)
    (h : read_fields pool classbytes n offset = .ok (fs, offset')) :
    fs.length = n ∧ offset' = (offset + fields_span fs) % 2 ^ 32 ∧
    ∀ i f, fs[i]? = some f →
      field_record_at pool classbytes ((offset + fields_span (fs.take i)) % 2 ^ 32) f := by
  induction n generalizing offset fs with
  | zero =>
    simp only [read_fields, Exec.pure_eq, Exec.ok.injEq, Prod.mk.injEq] at h
    obtain ⟨rfl, rfl⟩ := h
    refine ⟨rfl, ?_, fun i a hi => by simp at hi⟩
    simp only [fields_span, List.map_nil, List.sum_nil, Nat.add_zero]
    exact (Nat.mod_eq_of_lt ho).symm
  | succ n ih =>
    unfold read_fields at h
    simp only [Exec.bind_eq_ok, Prod.exists, Exec.pure_eq, Exec.ok.injEq, Prod.mk.injEq] at h
    obtain ⟨af, o1, haf, ni, o2, hni, di, o3, hdi, ac, o4, hac, attrs, o5, hattrs, rest, o6,
      hrest, rfl, rfl⟩ := h
    obtain ⟨hfit1, hv1, ho1⟩ := read_u16_eq_ok _ _ _ _ haf
    rw [Nat.mod_eq_of_lt (by omega)] at ho1
    subst ho1
    obtain ⟨hfit2, hv2, ho2⟩ := read_u16_eq_ok _ _ _ _ hni
    rw [Nat.mod_eq_of_lt (by omega)] at ho2
    subst ho2
    obtain ⟨hfit3, hv3, ho3⟩ := read_u16_eq_ok _ _ _ _ hdi
    rw [Nat.mod_eq_of_lt (by omega)] at ho3
    subst ho3
    obtain ⟨hfit4, hv4, ho4⟩ := read_u16_eq_ok _ _ _ _ hac
    rw [Nat.mod_eq_of_lt (by omega)] at ho4
    subst ho4
    obtain ⟨-, ho5, -⟩ := read_attributes_layout _ _ hlen _ _ (by omega) _ _ hattrs
    obtain ⟨ih1, ih2, ih3⟩ := ih o5 (by rw [ho5]; exact Nat.mod_lt _ (by decide)) _ hrest
    refine ⟨by simp [ih1], ?_, ?_⟩
    · rw [ih2, fields_span_cons, ho5]
      simp only []
      rw [Nat.mod_add_mod]
      congr 1
      omega
    · intro i f hi
      match i with
      | 0 =>
        simp only [List.getElem?_cons_zero, Option.some.injEq] at hi
        subst hi
        simp only [List.take_zero, fields_span, List.map_nil, List.sum_nil, Nat.add_zero]
        rw [Nat.mod_eq_of_lt ho]
        exact ⟨by omega, hv1, by rw [hv2], by rw [hv3], by rw [hv4], o5, hattrs⟩
      | k + 1 =>
        simp only [List.getElem?_cons_succ] at hi
        have := ih3 k f hi
        simp only [List.take_succ_cons, fields_span_cons]
        rw [ho5, Nat.mod_add_mod] at this
        have he : (offset + (8 + attributes_span attrs + fields_span (List.take k rest)))
              % 2 ^ 32
            = (offset + 2 + 2 + 2 + 2 + attributes_span attrs
                + fields_span (List.take k rest)) % 2 ^ 32 := by
          congr 1
          omega
        rw [he]
        exact this

theorem methods_span_cons (f : method_info) (rest : List method_info) :
    methods_span (f :: rest) = 8 + attributes_span f.attributes + methods_span rest := by
  simp [methods_span]

/-- `read_methods` reads `n` records one after the other; each starts where
the one before it ends, modulo `2^32`. -/
theorem read_methods_layout (pool : List cp_info) (classbytes : Bytes)
    (hlen : classbytes.length < 2 ^ 32) (n offset : Nat) (ho : offset < 2 ^ 32)
    (fs : List method_info) (offset' : Nat)
    (h : read_methods pool classbytes n offset = .ok (fs, offset')) :
    fs.length = n ∧ offset' = (offset + methods_span fs) % 2 ^ 32 ∧
    ∀ i f, fs[i]? = some f →
      method_record_at pool classbytes ((offset + methods_span (fs.take i)) % 2 ^ 32) f := by
  induction n generalizing offset fs with
  | zero =>
    simp only [read_methods, Exec.pure_eq, Exec.ok.injEq, Prod.mk.injEq] at h
    obtain ⟨rfl, rfl⟩ := h
    refine ⟨rfl, ?_, fun i a hi => by simp at hi⟩
    simp only [methods_span, List.map_nil, List.sum_nil, Nat.add_zero]
    exact (Nat.mod_eq_of_lt ho).symm
  | succ n ih =>
    unfold read_methods at h
    simp only [Exec.bind_eq_ok, Prod.exists, Exec.pure_eq, Exec.ok.injEq, Prod.mk.injEq] at h
    obtain ⟨af, o1, haf, ni, o2, hni, di, o3, hdi, ac, o4, hac, attrs, o5, hattrs, rest, o6,
      hrest, rfl, rfl⟩ := h
    obtain ⟨hfit1, hv1, ho1⟩ := read_u16_eq_ok _ _ _ _ haf
    rw [Nat.mod_eq_of_lt (by omega)] at ho1
    subst ho1
    obtain ⟨hfit2, hv2, ho2⟩ := read_u16_eq_ok _ _ _ _ hni
    rw [Nat.mod_eq_of_lt (by omega)] at ho2
    subst ho2
    obtain ⟨hfit3, hv3, ho3⟩ := read_u16_eq_ok _ _ _ _ hdi
    rw [Nat.mod_eq_of_lt (by omega)] at ho3
    subst ho3
    obtain ⟨hfit4, hv4, ho4⟩ := read_u16_eq_ok _ _ _ _ hac
    rw [Nat.mod_eq_of_lt (by omega)] at ho4
    subst ho4
    obtain ⟨-, ho5, -⟩ := read_attributes_layout _ _ hlen _ _ (by omega) _ _ hattrs
    obtain ⟨ih1, ih2, ih3⟩ := ih o5 (by rw [ho5]; exact Nat.mod_lt _ (by decide)) _ hrest
    refine ⟨by simp [ih1], ?_, ?_⟩
    · rw [ih2, methods_span_cons, ho5]
      simp only []
      rw [Nat.mod_add_mod]
      congr 1
      omega
    · intro i f hi
      match i with
      | 0 =>
        simp only [List.getElem?_cons_zero, Option.some.injEq] at hi
        subst hi
        simp only [List.take_zero, methods_span, List.map_nil, List.sum_nil, Nat.add_zero]
        rw [Nat.mod_eq_of_lt ho]
        exact ⟨by omega, hv1, by rw [hv2], by rw [hv3], by rw [hv4], o5, hattrs⟩
      | k + 1 =>
        simp only [List.getElem?_cons_succ] at hi
        have := ih3 k f hi
        simp only [List.take_succ_cons, methods_span_cons]
        rw [ho5, Nat.mod_add_mod] at this
        have he : (offset + (8 + attributes_span attrs + methods_span (List.take k rest)))
              % 2 ^ 32
            = (offset + 2 + 2 + 2 + 2 + attributes_span attrs
                + methods_span (List.take k rest)) % 2 ^ 32 := by
          congr 1
          omega
        rw [he]
        exact this

theorem is_known_attribute_iff (name : Bytes) :
    is_known_attribute (some name) = true ↔ known_attribute_name name := by
  simp [is_known_attribute, g_strcmp0_eq, known_attribute_name]

theorem attributes_span_take_succ (attrs : List attribute_info) (i : Nat) (a : attribute_info)
    (h : attrs[i]? = some a) :
    attributes_span (attrs.take (i + 1))
      = attributes_span (attrs.take i) + (6 + a.attribute_length) := by
  induction attrs generalizing i with
  | nil => simp at h
  | cons b rest ih =>
    match i with
    | 0 =>
      simp only [List.getElem?_cons_zero, Option.some.injEq] at h
      subst h
      simp [attributes_span]
    | k + 1 =>
      simp only [List.getElem?_cons_succ] at h
      simp only [List.take_succ_cons, attributes_span_cons, ih k h]
      omega

/-- C21: for every attribute record `read_attributes` reads (the record at
position `p` of the stream, with declared length `L` in header bytes 2..5 and
`name` the text of the Utf8 entry at the re-based name index): when `name` is
exactly "Exceptions", "SourceFile", "Signature" or "Code" the payload kept
with the record is the `L` bytes that follow the 6-byte header; for every
other name no payload is kept.  (The payload pointer itself is `NULL` exactly
when the name is not one of the four or `L` is 0.) -/
theorem attribute_payload_retained (pool : List cp_info) (classbytes : Bytes)
    (hlen : classbytes.length < 2 ^ 32) (n offset : Nat) (ho : offset < 2 ^ 32)
    (attrs : List attribute_info) (offset' : Nat)
    (h : read_attributes pool classbytes n offset = .ok (attrs, offset')) :
    attrs.length = n ∧
    ∀ i a, attrs[i]? = some a →
      ∃ p name, p = (offset + attributes_span (attrs.take i)) % 2 ^ 32 ∧
        p + 6 ≤ classbytes.length ∧
        a.attribute_name_index = dec16 (be ((classbytes.drop p).take 2)) ∧
        a.attribute_length = be ((classbytes.drop (p + 2)).take 4) ∧
        string_from_cp pool a.attribute_name_index = .ok name ∧
        (known_attribute_name name →
          p + 6 + a.attribute_length ≤ classbytes.length ∧
          payload a.info = (classbytes.drop (p + 6)).take a.attribute_length ∧
          (payload a.info).length = a.attribute_length) ∧
        (¬ known_attribute_name name → a.info = none) ∧
        (a.info = none ↔ ¬ known_attribute_name name ∨ a.attribute_length = 0) := by
  obtain ⟨h1, -, h3⟩ := read_attributes_layout pool classbytes hlen n offset ho attrs offset' h
  refine ⟨h1, fun i a hi => ?_⟩
  obtain ⟨hfit, hidx, hl, name, hname, hk, hu⟩ := h3 i a hi
  refine ⟨_, name, rfl, hfit, hidx, hl, hname, ?_, ?_, ?_⟩
  · intro hkn
    obtain ⟨k1, k2, k3, -⟩ := hk ((is_known_attribute_iff name).mpr hkn)
    exact ⟨k1, k2, k3⟩
  · intro hkn
    apply hu
    cases hb : is_known_attribute (some name) with
    | true => exact absurd ((is_known_attribute_iff name).mp hb) hkn
    | false => rfl
  · by_cases hkn : known_attribute_name name
    · obtain ⟨-, -, -, k4⟩ := hk ((is_known_attribute_iff name).mpr hkn)
      rw [k4]
      constructor
      · intro hz; exact Or.inr hz
      · rintro (hc | hz)
        · exact absurd hkn hc
        · exact hz
    · have hnone : a.info = none := by
        apply hu
        cases hb : is_known_attribute (some name) with
        | true => exact absurd ((is_known_attribute_iff name).mp hb) hkn
        | false => rfl
      simp [hnone, hkn]

/-- C21 at a concrete input: a `Code` attribute with 2 payload bytes followed
by an attribute named `X` with 1 payload byte. -/
theorem attribute_payload_retained_witness :
    ([⟨0, 2, some [7, 8]⟩, ⟨1, 1, none⟩] : List attribute_info).length = 2 ∧
    ∀ i a, ([⟨0, 2, some [7, 8]⟩, ⟨1, 1, none⟩] : List attribute_info)[i]? = some a →
      ∃ p name,
        p = (0 + attributes_span
              (([⟨0, 2, some [7, 8]⟩, ⟨1, 1, none⟩] : List attribute_info).take i)) % 2 ^ 32 ∧
        p + 6 ≤ ([0, 1, 0, 0, 0, 2, 7, 8, 0, 2, 0, 0, 0, 1, 9] : Bytes).length ∧
        a.attribute_name_index
          = dec16 (be ((([0, 1, 0, 0, 0, 2, 7, 8, 0, 2, 0, 0, 0, 1, 9] : Bytes).drop p).take 2)) ∧
        a.attribute_length
          = be ((([0, 1, 0, 0, 0, 2, 7, 8, 0, 2, 0, 0, 0, 1, 9] : Bytes).drop (p + 2)).take 4) ∧
        string_from_cp [⟨1, .str (ascii "Code")⟩, ⟨1, .str [0x58]⟩] a.attribute_name_index
          = .ok name ∧
        (known_attribute_name name →
          p + 6 + a.attribute_length
            ≤ ([0, 1, 0, 0, 0, 2, 7, 8, 0, 2, 0, 0, 0, 1, 9] : Bytes).length ∧
          payload a.info
            = (([0, 1, 0, 0, 0, 2, 7, 8, 0, 2, 0, 0, 0, 1, 9] : Bytes).drop (p + 6)).take
                a.attribute_length ∧
          (payload a.info).length = a.attribute_length) ∧
        (¬ known_attribute_name name → a.info = none) ∧
        (a.info = none ↔ ¬ known_attribute_name name ∨ a.attribute_length = 0) :=
  attribute_payload_retained [⟨1, .str (ascii "Code")⟩, ⟨1, .str [0x58]⟩]
    [0, 1, 0, 0, 0, 2, 7, 8, 0, 2, 0, 0, 0, 1, 9] (by decide) 2 0 (by decide)
    [⟨0, 2, some [7, 8]⟩, ⟨1, 1, none⟩] 15 (by decide)

/-- C22 (amended): `read_attributes` moves the cursor, a 32-bit value, by
`6 + L` modulo `2^32` for each record with declared length `L`, whether the
payload is kept or skipped: after `n` records the cursor is the start plus the
sum of `6 + L_i`, modulo `2^32`, and equals that sum exactly whenever it is
below `2^32`; the record after record `i` starts at the position of record `i`
plus `6 + L_i` (modulo `2^32`) in both cases; a record whose payload is kept
ends inside the buffer, so the cursor does not wrap there. -/
theorem attribute_cursor_advance (pool : List cp_info) (classbytes : Bytes)
    (hlen : classbytes.length < 2 ^ 32) (n offset : Nat) (ho : offset < 2 ^ 32)
    (attrs : List attribute_info) (offset' : Nat)
    (h : read_attributes pool classbytes n offset = .ok (attrs, offset')) :
    attrs.length = n ∧
    offset' = (offset + attributes_span attrs) % 2 ^ 32 ∧
    (offset + attributes_span attrs < 2 ^ 32 → offset' = offset + attributes_span attrs) ∧
    ∀ i a, attrs[i]? = some a →
      ∃ p, p = (offset + attributes_span (attrs.take i)) % 2 ^ 32 ∧
        p + 6 ≤ classbytes.length ∧
        a.attribute_length = be ((classbytes.drop (p + 2)).take 4) ∧
        (offset + attributes_span (attrs.take (i + 1))) % 2 ^ 32
          = (p + (6 + a.attribute_length)) % 2 ^ 32 ∧
        (a.info ≠ none → p + (6 + a.attribute_length) ≤ classbytes.length) := by
  obtain ⟨h1, h2, h3⟩ := read_attributes_layout pool classbytes hlen n offset ho attrs offset' h
  refine ⟨h1, h2, fun hlt => by rw [h2, Nat.mod_eq_of_lt hlt], fun i a hi => ?_⟩
  obtain ⟨hfit, hidx, hl, name, hname, hk, hu⟩ := h3 i a hi
  refine ⟨_, rfl, hfit, hl, ?_, ?_⟩
  · rw [attributes_span_take_succ attrs i a hi, Nat.mod_add_mod]
    congr 1
    omega
  · intro hne
    cases hb : is_known_attribute (some name) with
    | true =>
      have := (hk hb).1
      omega
    | false => exact absurd (hu hb) hne

/-- C22 (amended), at a concrete input: a `Code` attribute with 2 payload
bytes followed by an attribute named `X` with 1 payload byte. -/
theorem attribute_cursor_advance_witness :
    ([⟨0, 2, some [7, 8]⟩, ⟨1, 1, none⟩] : List attribute_info).length = 2 ∧
    15 = (0 + attributes_span [⟨0, 2, some [7, 8]⟩, ⟨1, 1, none⟩]) % 2 ^ 32 ∧
    (0 + attributes_span [⟨0, 2, some [7, 8]⟩, ⟨1, 1, none⟩] < 2 ^ 32 →
      15 = 0 + attributes_span [⟨0, 2, some [7, 8]⟩, ⟨1, 1, none⟩]) ∧
    ∀ i a, ([⟨0, 2, some [7, 8]⟩, ⟨1, 1, none⟩] : List attribute_info)[i]? = some a →
      ∃ p,
        p = (0 + attributes_span
              (([⟨0, 2, some [7, 8]⟩, ⟨1, 1, none⟩] : List attribute_info).take i)) % 2 ^ 32 ∧
        p + 6 ≤ ([0, 1, 0, 0, 0, 2, 7, 8, 0, 2, 0, 0, 0, 1, 9] : Bytes).length ∧
        a.attribute_length
          = be ((([0, 1, 0, 0, 0, 2, 7, 8, 0, 2, 0, 0, 0, 1, 9] : Bytes).drop (p + 2)).take 4) ∧
        (0 + attributes_span
              (([⟨0, 2, some [7, 8]⟩, ⟨1, 1, none⟩] : List attribute_info).take (i + 1)))
            % 2 ^ 32
          = (p + (6 + a.attribute_length)) % 2 ^ 32 ∧
        (a.info ≠ none → p + (6 + a.attribute_length)
          ≤ ([0, 1, 0, 0, 0, 2, 7, 8, 0, 2, 0, 0, 0, 1, 9] : Bytes).length) :=
  attribute_cursor_advance [⟨1, .str (ascii "Code")⟩, ⟨1, .str [0x58]⟩]
    [0, 1, 0, 0, 0, 2, 7, 8, 0, 2, 0, 0, 0, 1, 9] (by decide) 2 0 (by decide)
    [⟨0, 2, some [7, 8]⟩, ⟨1, 1, none⟩] 15 (by decide)

/-- C22 (counterexample): a class file (41 bytes) whose only class attribute,
read at offset 35, is named `X` (not in the allow-list) and declares the
length `0xFFFFFFFA`.  `read_attributes` returns with the cursor at 35 again:
it did not advance by `6 + L = 2^32` bytes (and `javaclass_new` then fails its
assertion on the final offset). -/
theorem skipped_attribute_wraps_cursor :
    read_attributes [⟨1, .str [0x41]⟩, ⟨7, .index 0⟩, ⟨1, .str [0x58]⟩]
        [0xCA, 0xFE, 0xBA, 0xBE, 0, 0, 0, 0x32, 0, 4,
         1, 0, 1, 0x41,
         7, 0, 1,
         1, 0, 1, 0x58,
         0, 1, 0, 2, 0, 0,
         0, 0, 0, 0, 0, 0,
         0, 1,
         0, 3, 0xFF, 0xFF, 0xFF, 0xFA] 1 35
      = .ok ([⟨2, 0xFFFFFFFA, none⟩], 35) ∧
    (35 : Nat) ≠ 35 + (6 + 0xFFFFFFFA) ∧
    javaclass_new
        [0xCA, 0xFE, 0xBA, 0xBE, 0, 0, 0, 0x32, 0, 4,
         1, 0, 1, 0x41,
         7, 0, 1,
         1, 0, 1, 0x58,
         0, 1, 0, 2, 0, 0,
         0, 0, 0, 0, 0, 0,
         0, 1,
         0, 3, 0xFF, 0xFF, 0xFF, 0xFA] 41 false = .abort := by
  refine ⟨by decide, by decide, by decide⟩

/-! ## Re-based references -/

theorem dec16_be2 (b0 b1 : Byte) : dec16 (be [b0, b1]) = rebased b0 b1 := by
  rw [be2]
  unfold dec16 rebased
  have h0 := b0.isLt
  have h1 := b1.isLt
  split <;> omega

theorem take_two_drop (classbytes : Bytes) (p : Nat) (h : p + 2 ≤ classbytes.length) :
    ∃ b0 b1 : Byte, classbytes[p]? = some b0 ∧ classbytes[p + 1]? = some b1 ∧
      (classbytes.drop p).take 2 = [b0, b1] := by
  have h0 : p < classbytes.length := by omega
  have h1 : p + 1 < classbytes.length := by omega
  refine ⟨classbytes[p], classbytes[p + 1], List.getElem?_eq_getElem h0,
    List.getElem?_eq_getElem h1, ?_⟩
  rw [List.drop_eq_getElem_cons h0, List.take_succ_cons, List.drop_eq_getElem_cons h1,
    List.take_succ_cons, List.take_zero]

theorem stored_rebased_of_be (classbytes : Bytes) (p : Nat) (h : p + 2 ≤ classbytes.length) :
    stored_rebased classbytes p (dec16 (be ((classbytes.drop p).take 2))) := by
  obtain ⟨b0, b1, h0, h1, ht⟩ := take_two_drop classbytes p h
  exact ⟨b0, b1, h0, h1, by rw [ht, dec16_be2]⟩

theorem read_u16_rebased (classbytes : Bytes) (p x p1 : Nat)
    (h : read_u16 classbytes p = .ok (x, p1)) : stored_rebased classbytes p (dec16 x) := by
  obtain ⟨hfit, hval, -⟩ := read_u16_eq_ok _ _ _ _ h
  rw [hval]
  exact stored_rebased_of_be _ _ hfit

/-- The references inside a constant-pool record. -/
theorem read_cp_entry_refs (classbytes : Bytes) (hlen : classbytes.length < 2 ^ 32)
    (o : Nat) (e : cp_info) (two : Bool) (o1 : Nat)
    (h : read_cp_entry classbytes o = .ok (e, two, o1)) :
    ((e.tag = TAG_CLASS ∨ e.tag = TAG_STRING) →
      ∃ v, e.value = .index v ∧ stored_rebased classbytes (o + 1) v) ∧
    ((e.tag = TAG_FIELDREF ∨ e.tag = TAG_METHODREF ∨ e.tag = TAG_INTERFACEMETHODREF ∨
        e.tag = TAG_NAMEANDTYPE) →
      ∃ a b, e.value = .indexpair a b ∧ stored_rebased classbytes (o + 1) a ∧
        stored_rebased classbytes (o + 3) b) := by
  cases hget : classbytes[o]? with
  | none =>
    unfold read_cp_entry at h
    rw [copy_bytes_one_none _ _ hget] at h
    cases h
  | some t =>
    have hlt : o < classbytes.length := (List.getElem?_eq_some.mp hget).1
    unfold read_cp_entry at h
    rw [copy_bytes_one _ _ _ hget, Nat.mod_eq_of_lt (by omega)] at h
    simp only [Exec.ok_bind, be1] at h
    split at h
    · rename_i ht
      simp only [Exec.bind_eq_ok, Prod.exists, Exec.pure_eq, Exec.ok.injEq,
        Prod.mk.injEq] at h
      obtain ⟨slen, o2, hs, s, o3, hc, rfl, -, rfl⟩ := h
      simp only [ht]
      exact ⟨fun hc => absurd hc (by decide), fun hc => absurd hc (by decide)⟩
    split at h
    · rename_i ht1 ht
      simp only [Exec.bind_eq_ok, Prod.exists, Exec.pure_eq, Exec.ok.injEq,
        Prod.mk.injEq] at h
      obtain ⟨v, o2, -, rfl, -, rfl⟩ := h
      simp only [ht]
      exact ⟨fun hc => absurd hc (by decide), fun hc => absurd hc (by decide)⟩
    split at h
    · rename_i ht1 ht2 ht
      simp only [Exec.bind_eq_ok, Prod.exists, Exec.pure_eq, Exec.ok.injEq,
        Prod.mk.injEq] at h
      obtain ⟨b, o3, hc, d, hd, rfl, -, rfl⟩ := h
      simp only [ht]
      exact ⟨fun hc => absurd hc (by decide), fun hc => absurd hc (by decide)⟩
    split at h
    · rename_i ht1 ht2 ht3 ht
      simp only [Exec.bind_eq_ok, Prod.exists, Exec.pure_eq, Exec.ok.injEq,
        Prod.mk.injEq] at h
      obtain ⟨b, o3, hc, rfl, -, rfl⟩ := h
      simp only [ht]
      exact ⟨fun hc => absurd hc (by decide), fun hc => absurd hc (by decide)⟩
    split at h
    · rename_i ht1 ht2 ht3 ht4 ht
      simp only [Exec.bind_eq_ok, Prod.exists, Exec.pure_eq, Exec.ok.injEq,
        Prod.mk.injEq] at h
      obtain ⟨b, o3, hc, d, hd, rfl, -, rfl⟩ := h
      simp only [ht]
      exact ⟨fun hc => absurd hc (by decide), fun hc => absurd hc (by decide)⟩
    split at h
    · rename_i ht1 ht2 ht3 ht4 ht5 ht
      simp only [Exec.bind_eq_ok, Prod.exists, Exec.pure_eq, Exec.ok.injEq,
        Prod.mk.injEq] at h
      obtain ⟨v, o3, hv, rfl, -, rfl⟩ := h
      refine ⟨fun _ => ⟨_, rfl, read_u16_rebased _ _ _ _ hv⟩, fun hc => ?_⟩
      simp only at hc
      rcases ht with ht | ht <;> rw [ht] at hc <;> exact absurd hc (by decide)
    split at h
    · rename_i ht1 ht2 ht3 ht4 ht5 ht6 ht
      simp only [Exec.bind_eq_ok, Prod.exists, Exec.pure_eq, Exec.ok.injEq,
        Prod.mk.injEq] at h
      obtain ⟨a, o3, ha, b, o4, hb, rfl, -, rfl⟩ := h
      obtain ⟨hfit, -, ho3⟩ := read_u16_eq_ok _ _ _ _ ha
      rw [Nat.mod_eq_of_lt (by omega)] at ho3
      subst ho3
      exact ⟨fun hc => absurd hc ht6,
        fun _ => ⟨_, _, rfl, read_u16_rebased _ _ _ _ ha, read_u16_rebased _ _ _ _ hb⟩⟩
    · cases h

theorem rebased_zero : rebased 0 0 = 65535 := by decide

/-- C24: every 2-byte cross-reference the decoder reads is stored as
`(256 * b0 + b1 - 1) mod 2^16`, `b0`, `b1` being its two bytes in file order:
the index of a Class or String entry and both indices of a FieldRef,
MethodRef, InterfaceMethodRef or NameAndType entry (bytes after the tag byte),
the this-class and super-class index (bytes 2..5 after the pool), each
interface index, the name and descriptor index of each field and method
record (header bytes 2..5), and the name index of each attribute record
(header bytes 0..1); two zero bytes give 65535. -/
theorem references_rebased (classbytes : Bytes) (hlen : classbytes.length < 2 ^ 32) :
    (∀ (o : Nat) (e : cp_info) (two : Bool) (o1 : Nat),
      read_cp_entry classbytes o = .ok (e, two, o1) →
      ((e.tag = TAG_CLASS ∨ e.tag = TAG_STRING) →
        ∃ v, e.value = .index v ∧ stored_rebased classbytes (o + 1) v) ∧
      ((e.tag = TAG_FIELDREF ∨ e.tag = TAG_METHODREF ∨ e.tag = TAG_INTERFACEMETHODREF ∨
          e.tag = TAG_NAMEANDTYPE) →
        ∃ a b, e.value = .indexpair a b ∧ stored_rebased classbytes (o + 1) a ∧
          stored_rebased classbytes (o + 3) b)) ∧
    (∀ (pool : List cp_info) (o af tc sc : Nat) (pool1 : List cp_info) (o1 : Nat),
      javaclass_new_parse_refs classbytes pool o = .ok (af, tc, sc, pool1, o1) →
      stored_rebased classbytes (o + 2) tc ∧ stored_rebased classbytes (o + 4) sc) ∧
    (∀ (o k : Nat) (ifs : List Nat) (o1 : Nat),
      javaclass_new_parse_interfaces classbytes o = .ok (k, ifs, o1) →
      ∀ i, i < k → ∃ v, ifs[i]? = some v ∧ stored_rebased classbytes (o + 2 + 2 * i) v) ∧
    (∀ (pool : List cp_info) (n o : Nat) (fs : List field_info) (o1 : Nat), o < 2 ^ 32 →
      read_fields pool classbytes n o = .ok (fs, o1) →
      ∀ i f, fs[i]? = some f →
        stored_rebased classbytes ((o + fields_span (fs.take i)) % 2 ^ 32 + 2) f.name_index ∧
        stored_rebased classbytes ((o + fields_span (fs.take i)) % 2 ^ 32 + 4)
          f.descriptor_index) ∧
    (∀ (pool : List cp_info) (n o : Nat) (ms : List method_info) (o1 : Nat), o < 2 ^ 32 →
      read_methods pool classbytes n o = .ok (ms, o1) →
      ∀ i m, ms[i]? = some m →
        stored_rebased classbytes ((o + methods_span (ms.take i)) % 2 ^ 32 + 2) m.name_index ∧
        stored_rebased classbytes ((o + methods_span (ms.take i)) % 2 ^ 32 + 4)
          m.descriptor_index) ∧
    (∀ (pool : List cp_info) (n o : Nat) (attrs : List attribute_info) (o1 : Nat), o < 2 ^ 32 →
      read_attributes pool classbytes n o = .ok (attrs, o1) →
      ∀ i a, attrs[i]? = some a →
        stored_rebased classbytes ((o + attributes_span (attrs.take i)) % 2 ^ 32)
          a.attribute_name_index) ∧
    (∀ p v, stored_rebased classbytes p v → classbytes[p]? = some 0 →
      classbytes[p + 1]? = some 0 → v = 65535) := by
  refine ⟨fun o e two o1 h => read_cp_entry_refs classbytes hlen o e two o1 h, ?_, ?_, ?_, ?_,
    ?_, ?_⟩
  · intro pool o af tc sc pool1 o9 h
    obtain ⟨o1, v, o2, poolA, w, haf, hv, htc, -, hw, hsc, -⟩ :=
      javaclass_new_parse_refs_eq_ok _ _ _ _ _ _ _ _ h
    obtain ⟨hfit1, -, ho1⟩ := read_u16_eq_ok _ _ _ _ haf
    rw [Nat.mod_eq_of_lt (by omega)] at ho1
    subst ho1
    obtain ⟨hfit2, -, ho2⟩ := read_u16_eq_ok _ _ _ _ hv
    rw [Nat.mod_eq_of_lt (by omega)] at ho2
    subst ho2
    subst htc hsc
    exact ⟨read_u16_rebased _ _ _ _ hv, read_u16_rebased _ _ _ _ hw⟩
  · intro o k ifs o9 h i hi
    obtain ⟨o1, hk, -, -, hent⟩ := javaclass_new_parse_interfaces_eq_ok _ _ _ _ _ h
    obtain ⟨hfit, -, ho1⟩ := read_u16_eq_ok _ _ _ _ hk
    rw [Nat.mod_eq_of_lt (by omega)] at ho1
    subst ho1
    obtain ⟨hfit2, hval⟩ := hent i hi
    exact ⟨_, hval, stored_rebased_of_be _ _ (by omega)⟩
  · intro pool n o fs o9 ho h i f hi
    obtain ⟨-, -, h3⟩ := read_fields_layout pool classbytes hlen n o ho fs o9 h
    obtain ⟨hfit, -, hn, hd, -, -⟩ := h3 i f hi
    rw [hn, hd]
    exact ⟨stored_rebased_of_be _ _ (by omega), stored_rebased_of_be _ _ (by omega)⟩
  · intro pool n o ms o9 ho h i m hi
    obtain ⟨-, -, h3⟩ := read_methods_layout pool classbytes hlen n o ho ms o9 h
    obtain ⟨hfit, -, hn, hd, -, -⟩ := h3 i m hi
    rw [hn, hd]
    exact ⟨stored_rebased_of_be _ _ (by omega), stored_rebased_of_be _ _ (by omega)⟩
  · intro pool n o attrs o9 ho h i a hi
    obtain ⟨-, -, h3⟩ := read_attributes_layout pool classbytes hlen n o ho attrs o9 h
    obtain ⟨hfit, hn, -⟩ := h3 i a hi
    rw [hn]
    exact stored_rebased_of_be _ _ (by omega)
  · rintro p v ⟨b0, b1, h0, h1, rfl⟩ hz0 hz1
    rw [h0] at hz0
    rw [h1] at hz1
    cases hz0
    cases hz1
    exact rebased_zero

/-- C24 at a concrete input: the references after the pool of the minimal
class file (this-class 2, super-class 4, stored as 1 and 3). -/
theorem references_rebased_witness :
    stored_rebased minimal_class (51 + 2) 1 ∧ stored_rebased minimal_class (51 + 4) 3 :=
  (references_rebased minimal_class (by decide)).2.1
    [⟨1, .str (ascii "pkg/ClassName")⟩, ⟨7, .index 0⟩,
      ⟨1, .str (ascii "java/lang/Object")⟩, ⟨7, .index 2⟩] 51 1 1 3
    [⟨1, .str (ascii "pkg.ClassName")⟩, ⟨7, .index 0⟩,
      ⟨1, .str (ascii "java.lang.Object")⟩, ⟨7, .index 2⟩] 57 (by decide)

/-! ## The slots the pool decoder writes -/

/-- When the pool decodes, every slot index written is inside the pool. -/
theorem cp_written_slots_lt (classbytes : Bytes) (n i offset : Nat) (pool : List cp_info)
    (offset1 : Nat) (h : read_constant_pool classbytes n offset = .ok (pool, offset1)) :
    ∀ s ∈ cp_written_slots classbytes n i offset, s < i + n := by
  induction n using Nat.strong_induction_on generalizing i offset pool offset1 with
  | _ n ih =>
    match n with
    | 0 =>
      intro s hs
      simp [cp_written_slots] at hs
    | k + 1 =>
      unfold read_constant_pool at h
      simp only [Exec.bind_eq_ok, Prod.exists] at h
      obtain ⟨e, two, o1, he, h⟩ := h
      unfold cp_written_slots
      rw [he]
      simp only []
      cases two with
      | true =>
        simp only [if_true] at h ⊢
        match k, h with
        | 0, h => cases h
        | m + 1, h =>
          simp only [Exec.bind_eq_ok, Prod.exists, Exec.pure_eq, Exec.ok.injEq,
            Prod.mk.injEq] at h
          obtain ⟨rest, o2, hrest, -, -⟩ := h
          intro s hs
          simp only [List.mem_cons] at hs
          rcases hs with rfl | rfl | hs
          · omega
          · omega
          · have h2 := ih m (by omega) (i + 2) o1 rest o2 hrest s hs
            omega
      | false =>
        simp only [Bool.false_eq_true, if_false, Exec.bind_eq_ok, Prod.exists, Exec.pure_eq,
          Exec.ok.injEq, Prod.mk.injEq] at h ⊢
        obtain ⟨rest, o2, hrest, -, -⟩ := h
        intro s hs
        simp only [List.mem_cons] at hs
        rcases hs with rfl | hs
        · omega
        · have h2 := ih k (by omega) (i + 1) o1 rest o2 hrest s hs
          omega

/-- A Long or Double record decoded into the last slot: the placeholder tag
is written to the slot after the last one. -/
theorem cp_written_slots_last_wide (classbytes : Bytes) (i offset : Nat) (e : cp_info)
    (offset1 : Nat) (h : read_cp_entry classbytes offset = .ok (e, true, offset1)) :
    cp_written_slots classbytes 1 i offset = [i, i + 1] ∧
    read_constant_pool classbytes 1 offset = .undefined := by
  constructor
  · unfold cp_written_slots
    rw [h]
    simp
  · unfold read_constant_pool
    rw [h]
    simp

/-- C27: `long_in_last_slot_class` declares the pool count 4, so the pool has
`N = 3` slots; its third record is a Long, decoded into slot 2, the last one.
The decoder writes the slots 0, 1, 2 and then slot 3 (the placeholder tag),
which is not less than `N`: the write is outside the pool array. -/
theorem long_in_last_slot_writes_slot_count :
    read_u16 long_in_last_slot_class 8 = .ok (4, 10) ∧
    dec16 4 = 3 ∧
    cp_written_slots long_in_last_slot_class 3 0 10 = [0, 1, 2, 3] ∧
    read_constant_pool long_in_last_slot_class 3 10 = .undefined ∧
    javaclass_new long_in_last_slot_class 40 false = .undefined := by
  refine ⟨by decide, by decide, by decide, by decide, by decide⟩

/-! ## The length of the interface list -/

theorem read_interfaces_ok_or_undefined (buf : Bytes) (n i : Nat) :
    (∃ l, read_interfaces buf n i = .ok l) ∨ read_interfaces buf n i = .undefined := by
  induction n generalizing i with
  | zero => exact Or.inl ⟨[], rfl⟩
  | succ n ih =>
    unfold read_interfaces
    unfold read_u16 copy_bytes
    split
    · simp only [Exec.ok_bind, Exec.pure_eq]
      rcases ih (i + 1) with ⟨l, hl⟩ | hl
      · rw [hl]
        exact Or.inl ⟨_, rfl⟩
      · rw [hl]
        exact Or.inr rfl
    · exact Or.inr rfl

/-- With 32768 or more interfaces the 16-bit length `interfaces_count * 2`
wraps: fewer bytes are copied than the loop converts, and the loop reads an
entry that was never initialised. -/
theorem javaclass_new_parse_interfaces_wraps (classbytes : Bytes) (o k o1 : Nat)
    (hk : read_u16 classbytes o = .ok (k, o1)) (hbig : 32768 ≤ k) :
    javaclass_new_parse_interfaces classbytes o = .undefined := by
  cases hres : javaclass_new_parse_interfaces classbytes o with
  | ok r =>
    obtain ⟨k1, ifs, o2⟩ := r
    obtain ⟨o3, hk1, -, hsmall, -⟩ := javaclass_new_parse_interfaces_eq_ok _ _ _ _ _ hres
    rw [hk] at hk1
    cases hk1
    omega
  | undefined => rfl
  | error e =>
    exfalso
    unfold javaclass_new_parse_interfaces at hres
    rw [hk] at hres
    simp only [Exec.ok_bind] at hres
    rw [if_pos (by omega)] at hres
    unfold copy_bytes at hres
    split at hres
    · simp only [Exec.ok_bind] at hres
      rcases read_interfaces_ok_or_undefined
        (List.take (k * 2 % 65536) (List.drop o1 classbytes)) k 0 with ⟨l, hl⟩ | hl
      · rw [hl] at hres
        cases hres
      · rw [hl] at hres
        cases hres
    · cases hres
  | abort =>
    exfalso
    unfold javaclass_new_parse_interfaces at hres
    rw [hk] at hres
    simp only [Exec.ok_bind] at hres
    rw [if_pos (by omega)] at hres
    unfold copy_bytes at hres
    split at hres
    · simp only [Exec.ok_bind] at hres
      rcases read_interfaces_ok_or_undefined
        (List.take (k * 2 % 65536) (List.drop o1 classbytes)) k 0 with ⟨l, hl⟩ | hl
      · rw [hl] at hres
        cases hres
      · rw [hl] at hres
        cases hres
    · cases hres

/-- The loop over the interface entries succeeds when all entries lie in the
copied bytes. -/
theorem read_interfaces_total (buf : Bytes) (n i : Nat) (h : 2 * (i + n) ≤ buf.length) :
    ∃ l, read_interfaces buf n i = .ok l := by
  induction n generalizing i with
  | zero => exact ⟨[], rfl⟩
  | succ n ih =>
    unfold read_interfaces
    unfold read_u16 copy_bytes
    rw [if_pos (by omega)]
    simp only [Exec.ok_bind, Exec.pure_eq]
    obtain ⟨l, hl⟩ := ih (i + 1) (by omega)
    rw [hl]
    exact ⟨_, rfl⟩

/-- With fewer than 32768 interfaces, all of whose bytes are in the buffer,
the list is read: the cursor moves by 2 bytes for the count and `2 * k` bytes
for the entries, and entry `i` is the re-based value of its two bytes. -/
theorem javaclass_new_parse_interfaces_small (classbytes : Bytes)
    (hlen : classbytes.length < 2 ^ 32) (o k o1 : Nat)
    (hk : read_u16 classbytes o = .ok (k, o1)) (hsmall : k < 32768)
    (hfit : o + 2 + 2 * k ≤ classbytes.length) :
    ∃ ifs, javaclass_new_parse_interfaces classbytes o = .ok (k, ifs, o + 2 + 2 * k) ∧
      ifs.length = k ∧
      ∀ i, i < k → ∃ v, ifs[i]? = some v ∧ stored_rebased classbytes (o + 2 + 2 * i) v := by
  obtain ⟨hfit0, -, ho1⟩ := read_u16_eq_ok _ _ _ _ hk
  rw [Nat.mod_eq_of_lt (by omega)] at ho1
  subst ho1
  have hres : ∃ ifs, javaclass_new_parse_interfaces classbytes o
      = .ok (k, ifs, o + 2 + 2 * k) := by
    unfold javaclass_new_parse_interfaces
    rw [hk]
    simp only [Exec.ok_bind]
    by_cases hpos : k > 0
    · rw [if_pos hpos]
      have hmod : k * 2 % 65536 = 2 * k := by omega
      simp only [hmod]
      rw [copy_bytes_ok _ _ _ (by omega) hlen]
      simp only [Exec.ok_bind]
      obtain ⟨l, hl⟩ := read_interfaces_total
        (List.take (2 * k) (List.drop (o + 2) classbytes)) k 0
        (by simp only [List.length_take, List.length_drop]; omega)
      rw [hl]
      exact ⟨l, rfl⟩
    · rw [if_neg hpos]
      have : k = 0 := by omega
      subst this
      exact ⟨[], rfl⟩
  obtain ⟨ifs, hifs⟩ := hres
  obtain ⟨o2, hk2, hl, -, hent⟩ := javaclass_new_parse_interfaces_eq_ok _ _ _ _ _ hifs
  rw [hk] at hk2
  cases hk2
  refine ⟨ifs, hifs, hl, fun i hi => ?_⟩
  obtain ⟨hf, hv⟩ := hent i hi
  exact ⟨_, hv, stored_rebased_of_be _ _ (by omega)⟩

theorem read_u16_wide_interface_list : read_u16 wide_interface_list 0 = .ok (32768, 2) := by
  have hl : wide_interface_list.length = 65538 := by
    unfold wide_interface_list
    rw [List.length_cons, List.length_cons, List.length_replicate]
  unfold read_u16 copy_bytes
  rw [if_pos (by rw [hl]; decide)]
  rfl

/-- C28: `wide_interface_list` declares the interface count 32768 and holds
the 65536 bytes of its 32768 entries.  The decoder does not read them: the
16-bit length `32768 * 2` is 0, no byte is copied, and the conversion loop
reads an entry that was never initialised. -/
theorem interface_count_32768_not_read :
    wide_interface_list.length = 2 + 2 * 32768 ∧
    read_u16 wide_interface_list 0 = .ok (32768, 2) ∧
    javaclass_new_parse_interfaces wide_interface_list 0 = .undefined :=
  ⟨by unfold wide_interface_list
      rw [List.length_cons, List.length_cons, List.length_replicate],
    read_u16_wide_interface_list,
    javaclass_new_parse_interfaces_wraps wide_interface_list 0 32768 2
      read_u16_wide_interface_list (by decide)⟩

/-! ## The number of pool slots -/

/-- The structural parse iterates over `dec16 cnt` slots, `cnt` being the
declared count: `cnt - 1` for `cnt ≥ 1`, and 65535 for `cnt = 0`. -/
theorem javaclass_new_parse_slots (classbytes : Bytes) (magic minor major offset : Nat)
    (raw : JavaClass) (offset1 : Nat)
    (h : javaclass_new_parse classbytes magic minor major offset = .ok (raw, offset1)) :
    ∃ cnt o1 pool0 o2, read_u16 classbytes offset = .ok (cnt, o1) ∧
      read_constant_pool classbytes (dec16 cnt) o1 = .ok (pool0, o2) ∧
      raw.constant_pool_count = dec16 cnt ∧ raw.constant_pool.length = dec16 cnt ∧
      (1 ≤ cnt → dec16 cnt = cnt - 1) ∧ (cnt = 0 → dec16 cnt = 65535) := by
  obtain ⟨cnt, o1, pool0, o2, af, tc, sc, pool1, o3, ic, ifs, o4, fc, fs, o5, mc, ms, o6, ac,
    ats, hcnt, hpool, hrefs, -, -, -, -, rfl⟩ := javaclass_new_parse_eq_ok _ _ _ _ _ _ _ h
  obtain ⟨hconvP, -, -⟩ := javaclass_new_parse_refs_conv _ _ _ _ _ _ _ _ hrefs
  refine ⟨cnt, o1, pool0, o2, hcnt, hpool, rfl, ?_, ?_, ?_⟩
  · show pool1.length = dec16 cnt
    rw [← poolConv_length hconvP]
    exact read_constant_pool_length _ _ _ _ _ hpool
  · intro h1
    unfold dec16
    rw [if_neg (by omega)]
  · intro h0
    subst h0
    rfl

/-- C29: `zero_count_class` has a valid magic number, version 50 and the
declared constant-pool count 0, followed by the access flags 0x0001.  The
decoder does not take the pool to be empty: the count wraps to 65535 slots,
the loop reads the byte at offset 10 (the first byte of the access flags) as
the tag of a record for slot 0, and `read_constant_pool` sets the error for
the unknown tag 0.  The error exit of `javaclass_new` then runs
`javaclass_free` over the 65535 slots, of which only slot 0 was written. -/
theorem zero_count_wraps_to_65535_slots :
    read_u16 zero_count_class 8 = .ok (0, 10) ∧
    dec16 0 = 65535 ∧
    cp_record_offsets zero_count_class (dec16 0) 10 = [10] ∧
    read_constant_pool zero_count_class (dec16 0) 10
      = .error ⟨.JAVACLASS_ERROR_TAG_UNKNOWN, unknown_tag_message 0⟩ ∧
    cp_tags_written zero_count_class (dec16 0) 10 = some 0 :: List.replicate 65534 none ∧
    javaclass_new zero_count_class 24 false = .undefined := by
  have h3 : read_cp_entry zero_count_class 10
      = .error ⟨.JAVACLASS_ERROR_TAG_UNKNOWN, unknown_tag_message 0⟩ := by
    unfold read_cp_entry
    have h4 : copy_bytes zero_count_class 10 1 = .ok ([0], 11) := by decide
    rw [h4]
    rfl
  have hd : dec16 0 = 65534 + 1 := by decide
  have h2 : read_constant_pool zero_count_class (dec16 0) 10
      = .error ⟨.JAVACLASS_ERROR_TAG_UNKNOWN, unknown_tag_message 0⟩ := by
    rw [hd]
    unfold read_constant_pool
    rw [h3]
    rfl
  have h5 : cp_tags_written zero_count_class (dec16 0) 10
      = some 0 :: List.replicate 65534 none := by
    rw [hd, cp_tags_written_first_error _ _ _ _ h3]
    rfl
  refine ⟨by decide, by decide, by decide, h2, h5, ?_⟩
  have hx : zero_count_class
      = 0xCA :: 0xFE :: 0xBA :: 0xBE :: 0 :: 0 :: 0 :: 0x32 :: 0 :: 0 ::
          [0, 1, 0, 0, 0, 0, 0, 0, 0, 0, 0, 0, 0, 0] := rfl
  have hu := (javaclass_new_parse_pool_first_unknown zero_count_class 10 0 (by decide)
    (by unfold recognised_tag; decide)).2 65533
  rw [hx] at hu ⊢
  exact javaclass_new_pool_undefined 0 0 0 0x32 0 0 _ 24 false (by decide) hu

/-! ## Properties of the pool kept by every in-place conversion

`P` is any property of the pool that one `classname_to_external_format` call
on the name of a class entry keeps; each pass that converts names keeps it. -/

theorem extract_exceptions_loop_inv (P : List cp_info → Prop)
    (hstep : ∀ p i q, P p → classname_to_external_format_at p i = .ok q → P q)
    (info : Bytes) (n : Nat) (pool : List cp_info) (offset : Nat) (pool1 : List cp_info)
    (ptrs : List Nat) (hP : P pool)
    (h : extract_exceptions_loop info n pool offset = .ok (pool1, ptrs)) : P pool1 := by
  induction n generalizing pool offset ptrs with
  | zero =>
    simp only [extract_exceptions_loop, Exec.pure_eq, Exec.ok.injEq, Prod.mk.injEq] at h
    rw [← h.1]
    exact hP
  | succ n ih =>
    unfold extract_exceptions_loop at h
    simp only [Exec.bind_eq_ok, Prod.exists, Exec.pure_eq, Exec.ok.injEq, Prod.mk.injEq] at h
    obtain ⟨cur, o1, _, p1, hconv, j, _, p2, rest, hrest, rfl, _⟩ := h
    exact ih _ _ _ (hstep _ _ _ hP hconv) hrest

theorem extract_exceptions_inv (P : List cp_info → Prop)
    (hstep : ∀ p i q, P p → classname_to_external_format_at p i = .ok q → P q)
    (pool : List cp_info) (attrs : List attribute_info)
    (pool1 : List cp_info) (ptrs : Option (List Nat)) (hP : P pool)
    (h : extract_exceptions pool attrs = .ok (pool1, ptrs)) : P pool1 := by
  induction attrs with
  | nil =>
    simp only [extract_exceptions, Exec.pure_eq, Exec.ok.injEq, Prod.mk.injEq] at h
    rw [← h.1]
    exact hP
  | cons a rest ih =>
    unfold extract_exceptions at h
    simp only [Exec.bind_eq_ok] at h
    obtain ⟨name, _, h⟩ := h
    split at h
    · simp only [Exec.bind_eq_ok, Prod.exists] at h
      obtain ⟨num, o1, _, h⟩ := h
      split at h
      · simp only [Exec.pure_eq, Exec.ok.injEq, Prod.mk.injEq] at h
        rw [← h.1]
        exact hP
      · simp only [Exec.bind_eq_ok, Prod.exists, Exec.pure_eq, Exec.ok.injEq,
          Prod.mk.injEq] at h
        obtain ⟨p1, l, hloop, rfl, _⟩ := h
        exact extract_exceptions_loop_inv P hstep _ _ _ _ _ _ hP hloop
    · exact ih h

theorem javaclass_new_interfaces_inv (P : List cp_info → Prop)
    (hstep : ∀ p i q, P p → classname_to_external_format_at p i = .ok q → P q)
    (idxs : List Nat) (pool pool1 : List cp_info)
    (ptrs : List Nat) (hP : P pool)
    (h : javaclass_new_interfaces idxs pool = .ok (pool1, ptrs)) : P pool1 := by
  induction idxs generalizing pool ptrs with
  | nil =>
    simp only [javaclass_new_interfaces, Exec.pure_eq, Exec.ok.injEq, Prod.mk.injEq] at h
    rw [← h.1]
    exact hP
  | cons idx rest ih =>
    unfold javaclass_new_interfaces at h
    simp only [Exec.bind_eq_ok, Prod.exists, Exec.pure_eq, Exec.ok.injEq, Prod.mk.injEq] at h
    obtain ⟨p1, hconv, j, hj, p2, ptrs1, hrest, rfl, rfl⟩ := h
    exact ih p1 ptrs1 (hstep _ _ _ hP hconv) hrest

theorem javaclass_new_views_interfaces_inv (P : List cp_info → Prop)
    (hstep : ∀ p i q, P p → classname_to_external_format_at p i = .ok q → P q)
    (c : JavaClass) (pool pool1 : List cp_info)
    (ifs : Option (List Nat)) (hP : P pool)
    (h : javaclass_new_views_interfaces c pool = .ok (pool1, ifs)) : P pool1 := by
  unfold javaclass_new_views_interfaces at h
  split at h
  · simp only [Exec.bind_eq_ok, Prod.exists, Exec.pure_eq, Exec.ok.injEq, Prod.mk.injEq] at h
    obtain ⟨p, ptrs, hi, rfl, rfl⟩ := h
    exact javaclass_new_interfaces_inv P hstep _ _ _ _ hP hi
  · simp only [Exec.pure_eq, Exec.ok.injEq, Prod.mk.injEq] at h
    rw [← h.1]
    exact hP

theorem javaclass_new_parse_refs_inv (P : List cp_info → Prop)
    (hstep : ∀ p i q, P p → classname_to_external_format_at p i = .ok q → P q)
    (classbytes : Bytes) (pool : List cp_info) (offset : Nat)
    (af tc sc : Nat) (pool1 : List cp_info) (offset1 : Nat) (hP : P pool)
    (h : javaclass_new_parse_refs classbytes pool offset = .ok (af, tc, sc, pool1, offset1)) :
    P pool1 := by
  obtain ⟨o1, v, o2, poolA, w, -, -, -, hthis, -, -, hsuper⟩ :=
    javaclass_new_parse_refs_eq_ok _ _ _ _ _ _ _ _ h
  have hA := hstep _ _ _ hP hthis
  rcases hsuper with ⟨hne, hsup⟩ | ⟨heq, rfl⟩
  · exact hstep _ _ _ hA hsup
  · exact hA

/-! ## Field and method descriptors, one by one -/

/-- The `Signature` search over an attribute array: the last attribute of
that name decides, and without one the initial value stays. -/
theorem scan_signature_eq_ok (pool : List cp_info) (attrs : List attribute_info)
    (sig0 r : Option Bytes) (h : scan_signature pool attrs sig0 = .ok r) :
    ((∀ a ∈ attrs, string_from_cp pool a.attribute_name_index ≠ .ok (ascii "Signature")) →
      r = sig0) ∧
    (∀ (pre : List attribute_info) (a : attribute_info) (post : List attribute_info),
      attrs = pre ++ a :: post →
      string_from_cp pool a.attribute_name_index = .ok (ascii "Signature") →
      (∀ b ∈ post, string_from_cp pool b.attribute_name_index ≠ .ok (ascii "Signature")) →
      2 ≤ (payload a.info).length ∧
      ∃ text, string_from_cp pool (dec16 (be ((payload a.info).take 2))) = .ok text ∧
        r = some text) := by
  induction attrs generalizing sig0 with
  | nil =>
    simp only [scan_signature, Exec.pure_eq, Exec.ok.injEq] at h
    exact ⟨fun _ => h.symm, fun pre a post hs => by simp at hs⟩
  | cons b rest ih =>
    unfold scan_signature at h
    simp only [Exec.bind_eq_ok] at h
    obtain ⟨name, hname, h⟩ := h
    split at h
    · rename_i hsig
      have hn : name = ascii "Signature" := by
        have := (g_strcmp0_eq_iff _ _).mp hsig
        simp only [Option.some.injEq] at this
        exact this.symm
      subst hn
      simp only [Exec.bind_eq_ok, Prod.exists] at h
      obtain ⟨sg, o, hsg, s, hs, h⟩ := h
      obtain ⟨hlen, hval, -⟩ := read_u16_eq_ok _ _ _ _ hsg
      simp only [List.drop_zero, Nat.zero_add] at hlen hval
      subst hval
      obtain ⟨ih1, ih2⟩ := ih _ h
      refine ⟨fun hno => absurd hname (hno b (List.mem_cons_self _ _)), ?_⟩
      intro pre a post hsplit ha hpost
      match pre, hsplit with
      | [], hsplit =>
        simp only [List.nil_append, List.cons.injEq] at hsplit
        obtain ⟨rfl, rfl⟩ := hsplit
        exact ⟨hlen, s, hs, ih1 hpost⟩
      | c :: pre1, hsplit =>
        simp only [List.cons_append, List.cons.injEq] at hsplit
        obtain ⟨rfl, rfl⟩ := hsplit
        exact ih2 pre1 a post rfl ha hpost
    · rename_i hsig
      have hne : string_from_cp pool b.attribute_name_index ≠ .ok (ascii "Signature") := by
        intro hcon
        rw [hname] at hcon
        cases hcon
        exact hsig ((g_strcmp0_eq_iff _ _).mpr rfl)
      obtain ⟨ih1, ih2⟩ := ih _ h
      refine ⟨fun hno => ih1 (fun a ha => hno a (List.mem_cons_of_mem _ ha)), ?_⟩
      intro pre a post hsplit ha hpost
      match pre, hsplit with
      | [], hsplit =>
        simp only [List.nil_append, List.cons.injEq] at hsplit
        obtain ⟨rfl, rfl⟩ := hsplit
        exact absurd ha hne
      | c :: pre1, hsplit =>
        simp only [List.cons_append, List.cons.injEq] at hsplit
        obtain ⟨rfl, rfl⟩ := hsplit
        exact ih2 pre1 a post rfl ha hpost

/-- The attribute search of a method finds the signature the `Signature`
search finds. -/
theorem scan_method_attributes_signature (pool : List cp_info) (includecode : Bool)
    (attrs : List attribute_info) (st r : Option Bytes × Nat × Option Bytes)
    (h : scan_method_attributes pool includecode attrs st = .ok r) :
    scan_signature pool attrs st.1 = .ok r.1 := by
  induction attrs generalizing st with
  | nil =>
    simp only [scan_method_attributes, Exec.pure_eq, Exec.ok.injEq] at h
    subst h
    rfl
  | cons b rest ih =>
    obtain ⟨sig, cl, code⟩ := st
    unfold scan_method_attributes at h
    unfold scan_signature
    simp only [Exec.bind_eq_ok] at h
    obtain ⟨name, hname, h⟩ := h
    rw [hname]
    simp only [Exec.ok_bind]
    split at h
    · rename_i hsig
      rw [if_pos hsig]
      simp only [Exec.bind_eq_ok, Prod.exists] at h
      obtain ⟨sg, o, hsg, s, hs, h⟩ := h
      rw [hsg]
      simp only [Exec.ok_bind]
      rw [hs]
      simp only [Exec.ok_bind]
      exact ih _ h
    · rename_i hsig
      rw [if_neg hsig]
      split at h
      · simp only [Exec.bind_eq_ok] at h
        obtain ⟨name2, -, h⟩ := h
        split at h
        · simp only [Exec.bind_eq_ok, Prod.exists] at h
          obtain ⟨len, o, -, h⟩ := h
          exact ih _ h
        · exact ih _ h
      · exact ih _ h

/-- The field pass, record by record. -/
theorem javaclass_new_fields_each (pool : List cp_info) (fs : List field_info)
    (jfs : List JavaField) (h : javaclass_new_fields pool fs = .ok jfs) :
    jfs.length = fs.length ∧
    ∀ (i : Nat) (f : field_info), fs[i]? = some f →
      ∃ (jf : JavaField) (name descriptor : Bytes), jfs[i]? = some jf ∧
        string_from_cp pool f.name_index = .ok name ∧
        string_from_cp pool f.descriptor_index = .ok descriptor ∧
        scan_signature pool f.attributes none = .ok jf.signature ∧
        jf.access_flags = f.access_flags ∧ jf.name = some name ∧
        jf.descriptor = some descriptor := by
  induction fs generalizing jfs with
  | nil =>
    simp only [javaclass_new_fields, Exec.pure_eq, Exec.ok.injEq] at h
    subst h
    exact ⟨rfl, fun i f hi => by simp at hi⟩
  | cons g rest ih =>
    unfold javaclass_new_fields at h
    simp only [Exec.bind_eq_ok, Exec.pure_eq, Exec.ok.injEq] at h
    obtain ⟨name, hname, descriptor, hdesc, sig, hsig, jrest, hrest, rfl⟩ := h
    obtain ⟨ih1, ih2⟩ := ih _ hrest
    refine ⟨by simp [ih1], ?_⟩
    intro i f hi
    match i with
    | 0 =>
      simp only [List.getElem?_cons_zero, Option.some.injEq] at hi
      subst hi
      exact ⟨javafield_new g.access_flags (some name) (some descriptor) sig, name, descriptor,
        by simp, hname, hdesc, hsig, rfl, rfl, rfl⟩
    | k + 1 =>
      simp only [List.getElem?_cons_succ] at hi
      obtain ⟨jf, n, d, h1, h2⟩ := ih2 k f hi
      exact ⟨jf, n, d, by simpa using h1, h2⟩

theorem javamethod_set_code_keeps (m jm : JavaMethod) (code : Option Bytes) (codelen : Nat)
    (h : javamethod_set_code m code codelen = .ok jm) :
    jm.access_flags = m.access_flags ∧ jm.name = m.name ∧ jm.descriptor = m.descriptor ∧
      jm.signature = m.signature ∧ jm.exceptions = m.exceptions := by
  unfold javamethod_set_code at h
  cases code with
  | none =>
    simp only [Exec.pure_eq, Exec.ok.injEq] at h
    subst h
    exact ⟨rfl, rfl, rfl, rfl, rfl⟩
  | some bytes =>
    simp only at h
    split at h
    · simp only [Exec.pure_eq, Exec.ok.injEq] at h
      subst h
      exact ⟨rfl, rfl, rfl, rfl, rfl⟩
    · split at h
      · simp only [Exec.pure_eq, Exec.ok.injEq] at h
        subst h
        exact ⟨rfl, rfl, rfl, rfl, rfl⟩
      · cases h

/-- The method pass, record by record: `pb` is the pool before the
`Exceptions` attribute of the method is decoded, `pa` the pool after it, from
which `javamethod_new` copies the strings; `P` is a property of the pool kept
by every in-place conversion. -/
theorem javaclass_new_methods_each (P : List cp_info → Prop)
    (hstep : ∀ p i q, P p → classname_to_external_format_at p i = .ok q → P q)
    (includecode : Bool) (ms : List method_info)
    (pool final : List cp_info) (jms : List JavaMethod) (hP : P pool)
    (h : javaclass_new_methods includecode ms pool = .ok (final, jms)) :
    jms.length = ms.length ∧
    ∀ (i : Nat) (m : method_info), ms[i]? = some m →
      ∃ (jm : JavaMethod) (pb pa : List cp_info) (exc : Option (List Nat)),
        jms[i]? = some jm ∧ PoolConv pool pb ∧ P pa ∧
        extract_exceptions pb m.attributes = .ok (pa, exc) ∧ PoolConv pa final ∧
        utf8_at pb m.name_index ∧ utf8_at pb m.descriptor_index ∧
        scan_signature pa m.attributes none = .ok jm.signature ∧
        jm.access_flags = m.access_flags ∧
        jm.name = some (cp_cstr pa m.name_index) ∧
        jm.descriptor = some (cp_cstr pa m.descriptor_index) ∧
        jm.exceptions = exc.map (fun ptrs => ptrs.map (cp_cstr pa)) := by
  induction ms generalizing pool jms with
  | nil =>
    simp only [javaclass_new_methods, Exec.pure_eq, Exec.ok.injEq, Prod.mk.injEq] at h
    obtain ⟨rfl, rfl⟩ := h
    exact ⟨rfl, fun i m hi => by simp at hi⟩
  | cons m0 rest ih =>
    unfold javaclass_new_methods at h
    simp only [Exec.bind_eq_ok, Prod.exists, Exec.pure_eq, Exec.ok.injEq, Prod.mk.injEq] at h
    obtain ⟨n1, hn1, n2, hn2, p, exc, hexc, sig, cl, code, hscan, jm, hset, f, jms1, hrest,
      rfl, rfl⟩ := h
    have hP1 := extract_exceptions_inv P hstep _ _ _ _ hP hexc
    obtain ⟨ih1, ih2⟩ := ih _ _ hP1 hrest
    have hc1 := extract_exceptions_conv _ _ _ _ hexc
    have hc2 := javaclass_new_methods_poolConv _ _ _ _ _ hrest
    refine ⟨by simp [ih1], ?_⟩
    intro i m hi
    match i with
    | 0 =>
      simp only [List.getElem?_cons_zero, Option.some.injEq] at hi
      subst hi
      have hsc := scan_method_attributes_signature _ _ _ _ _ hscan
      have hkeep : jm.access_flags = m0.access_flags ∧
          jm.name = some (cp_cstr p m0.name_index) ∧
          jm.descriptor = some (cp_cstr p m0.descriptor_index) ∧
          jm.signature = sig ∧
          jm.exceptions = exc.map (fun ptrs => ptrs.map (cp_cstr p)) := by
        cases includecode with
        | true =>
          simp only [if_true] at hset
          exact javamethod_set_code_keeps _ _ _ _ hset
        | false =>
          simp only [Bool.false_eq_true, if_false, Exec.pure_eq, Exec.ok.injEq] at hset
          subst hset
          exact ⟨rfl, rfl, rfl, rfl, rfl⟩
      obtain ⟨k1, k2, k3, k4, k5⟩ := hkeep
      refine ⟨jm, pool, p, exc, by simp, poolConv_refl pool, hP1, hexc, hc2,
        utf8_at_of_string_from_cp hn1, utf8_at_of_string_from_cp hn2, ?_, k1, k2, k3, k5⟩
      rw [k4]
      exact hsc
    | k + 1 =>
      simp only [List.getElem?_cons_succ] at hi
      obtain ⟨jm1, pb, pa, exc1, h1, h2, h3⟩ := ih2 k m hi
      exact ⟨jm1, pb, pa, exc1, by simpa using h1, poolConv_trans hc1 h2, h3⟩

/-! ## The exception names of a method -/

/-- The loop over the class indices of an `Exceptions` payload: one pointer
per index, each to the name slot of that class entry, whose string is
converted. -/
theorem extract_exceptions_loop_eq_ok (info : Bytes) (hlen : info.length < 2 ^ 32) (n : Nat)
    (pool : List cp_info) (offset : Nat) (pool1 : List cp_info) (ptrs : List Nat)
    (h : extract_exceptions_loop info n pool offset = .ok (pool1, ptrs)) :
    ptrs.length = n ∧
    ∀ t, t < n → offset + 2 * t + 2 ≤ info.length ∧
      ∃ (j : Nat) (s : Bytes), ptrs[t]? = some j ∧
        class_name_at pool (dec16 (be ((info.drop (offset + 2 * t)).take 2))) j s ∧
        pool1[j]? = some ⟨TAG_UTF8, .str (classname_to_external_format s)⟩ := by
  induction n generalizing pool offset ptrs with
  | zero =>
    simp only [extract_exceptions_loop, Exec.pure_eq, Exec.ok.injEq, Prod.mk.injEq] at h
    obtain ⟨-, rfl⟩ := h
    exact ⟨rfl, fun t ht => absurd ht (by omega)⟩
  | succ n ih =>
    unfold extract_exceptions_loop at h
    simp only [Exec.bind_eq_ok, Prod.exists, Exec.pure_eq, Exec.ok.injEq, Prod.mk.injEq] at h
    obtain ⟨cur, o1, hcur, p1, hconv, j, hj, p2, rest, hrest, rfl, rfl⟩ := h
    obtain ⟨hfit, hval, ho1⟩ := read_u16_eq_ok _ _ _ _ hcur
    rw [Nat.mod_eq_of_lt (by omega)] at ho1
    subst ho1
    subst hval
    have hc1 := classname_to_external_format_at_conv _ _ _ hconv
    have hc2 := extract_exceptions_loop_conv _ _ _ _ _ _ hrest
    obtain ⟨ih1, ih2⟩ := ih _ _ _ hrest
    refine ⟨by simp [ih1], ?_⟩
    intro t ht
    match t with
    | 0 =>
      refine ⟨by omega, ?_⟩
      obtain ⟨s, hs⟩ := (classname_from_cp_eq_ok _ _ _).mp
        ((classname_from_cp_conv hc1 _ j).mpr hj)
      exact ⟨j, s, by simp, hs,
        converted_stays hc2 j TAG_UTF8 s (converted_after (poolConv_refl pool) _ j s hs hconv)⟩
    | k + 1 =>
      obtain ⟨h1, j1, s1, hp, hn, hs⟩ := ih2 k (by omega)
      have he : offset + 2 + 2 * k = offset + 2 * (k + 1) := by omega
      rw [he] at h1 hn
      obtain ⟨s0, hn0, hs0⟩ := converted_from_origin hc1 _ j1 s1 hn hs
      exact ⟨h1, j1, s0, by simpa using hp, hn0, hs0⟩

/-- `extract_exceptions`: the first attribute named `Exceptions` decides;
without one, or with the count 0, the result is `NULL`. -/
theorem extract_exceptions_eq_ok (pool : List cp_info) (attrs : List attribute_info)
    (hlens : ∀ a ∈ attrs, (payload a.info).length < 2 ^ 32)
    (pool1 : List cp_info) (exc : Option (List Nat))
    (h : extract_exceptions pool attrs = .ok (pool1, exc)) :
    ((∀ a ∈ attrs, string_from_cp pool a.attribute_name_index ≠ .ok (ascii "Exceptions")) →
      exc = none) ∧
    (∀ (pre : List attribute_info) (a : attribute_info) (post : List attribute_info),
      attrs = pre ++ a :: post →
      (∀ b ∈ pre, string_from_cp pool b.attribute_name_index ≠ .ok (ascii "Exceptions")) →
      string_from_cp pool a.attribute_name_index = .ok (ascii "Exceptions") →
      2 ≤ (payload a.info).length ∧
      (be ((payload a.info).take 2) = 0 → exc = none) ∧
      (0 < be ((payload a.info).take 2) →
        ∃ ptrs, exc = some ptrs ∧ ptrs.length = be ((payload a.info).take 2) ∧
          ∀ t, t < be ((payload a.info).take 2) →
            2 + 2 * t + 2 ≤ (payload a.info).length ∧
            ∃ (j : Nat) (s : Bytes), ptrs[t]? = some j ∧
              class_name_at pool
                (dec16 (be (((payload a.info).drop (2 + 2 * t)).take 2))) j s ∧
              pool1[j]? = some ⟨TAG_UTF8, .str (classname_to_external_format s)⟩)) := by
  induction attrs with
  | nil =>
    simp only [extract_exceptions, Exec.pure_eq, Exec.ok.injEq, Prod.mk.injEq] at h
    exact ⟨fun _ => h.2.symm, fun pre a post hs => by simp at hs⟩
  | cons b rest ih =>
    unfold extract_exceptions at h
    simp only [Exec.bind_eq_ok] at h
    obtain ⟨name, hname, h⟩ := h
    by_cases hE : g_strcmp0_eq (some (ascii "Exceptions")) (some name) = true
    · rw [if_pos hE] at h
      have hn : name = ascii "Exceptions" := by
        have := (g_strcmp0_eq_iff _ _).mp hE
        simp only [Option.some.injEq] at this
        exact this.symm
      subst hn
      refine ⟨fun hno => absurd hname (hno b (List.mem_cons_self _ _)), ?_⟩
      intro pre a post hsplit hpre ha
      match pre, hsplit, hpre with
      | c :: pre1, hsplit, hpre =>
        simp only [List.cons_append, List.cons.injEq] at hsplit
        obtain ⟨rfl, rfl⟩ := hsplit
        exact absurd hname (hpre b (List.mem_cons_self _ _))
      | [], hsplit, _ =>
        simp only [List.nil_append, List.cons.injEq] at hsplit
        obtain ⟨rfl, rfl⟩ := hsplit
        simp only [Exec.bind_eq_ok, Prod.exists] at h
        obtain ⟨num, o1, hnum, h⟩ := h
        obtain ⟨hfit, hval, ho1⟩ := read_u16_eq_ok _ _ _ _ hnum
        simp only [Nat.zero_add, List.drop_zero] at hfit hval ho1
        rw [show (2 : Nat) % 2 ^ 32 = 2 from rfl] at ho1
        subst ho1
        subst hval
        refine ⟨hfit, ?_, ?_⟩
        · intro hz
          rw [if_pos hz] at h
          simp only [Exec.pure_eq, Exec.ok.injEq, Prod.mk.injEq] at h
          exact h.2.symm
        · intro hpos
          rw [if_neg (by omega)] at h
          simp only [Exec.bind_eq_ok, Prod.exists, Exec.pure_eq, Exec.ok.injEq,
            Prod.mk.injEq] at h
          obtain ⟨p1, l, hloop, rfl, rfl⟩ := h
          obtain ⟨hl1, hl2⟩ := extract_exceptions_loop_eq_ok _
            (hlens b (List.mem_cons_self _ _)) _ _ _ _ _ hloop
          exact ⟨l, rfl, hl1, hl2⟩
    · rw [if_neg hE] at h
      have hne : string_from_cp pool b.attribute_name_index ≠ .ok (ascii "Exceptions") := by
        intro hcon
        rw [hname] at hcon
        cases hcon
        exact hE ((g_strcmp0_eq_iff _ _).mpr rfl)
      obtain ⟨ih1, ih2⟩ := ih (fun x hx => hlens x (List.mem_cons_of_mem _ hx)) h
      refine ⟨fun hno => ih1 (fun a ha => hno a (List.mem_cons_of_mem _ ha)), ?_⟩
      intro pre a post hsplit hpre ha
      match pre, hsplit, hpre with
      | [], hsplit, _ =>
        simp only [List.nil_append, List.cons.injEq] at hsplit
        obtain ⟨rfl, rfl⟩ := hsplit
        exact absurd ha hne
      | c :: pre1, hsplit, hpre =>
        simp only [List.cons_append, List.cons.injEq] at hsplit
        obtain ⟨rfl, rfl⟩ := hsplit
        exact ih2 pre1 a post rfl (fun x hx => hpre x (List.mem_cons_of_mem _ hx)) ha

/-! ## The member lists of a returned class -/

theorem javaclass_new_parse_interfaces_offset (classbytes : Bytes)
    (hlen : classbytes.length < 2 ^ 32) (o k : Nat) (ifs : List Nat) (o1 : Nat)
    (h : javaclass_new_parse_interfaces classbytes o = .ok (k, ifs, o1)) :
    read_u16 classbytes o = .ok (k, o + 2) ∧ o1 = o + 2 + 2 * k ∧ o1 ≤ classbytes.length := by
  obtain ⟨o2, hk, -, hsmall, -⟩ := javaclass_new_parse_interfaces_eq_ok _ _ _ _ _ h
  obtain ⟨hfit, -, ho2⟩ := read_u16_eq_ok _ _ _ _ hk
  rw [Nat.mod_eq_of_lt (by omega)] at ho2
  subst ho2
  refine ⟨hk, ?_⟩
  unfold javaclass_new_parse_interfaces at h
  rw [hk] at h
  simp only [Exec.ok_bind] at h
  split at h
  · simp only [Exec.bind_eq_ok, Prod.exists, Exec.pure_eq, Exec.ok.injEq, Prod.mk.injEq] at h
    obtain ⟨buf, o3, hcopy, l, -, -, -, rfl⟩ := h
    obtain ⟨hf, -, ho3⟩ := copy_bytes_eq_ok _ _ _ _ _ hlen hcopy
    have hmod : k * 2 % 65536 = 2 * k := by omega
    rw [hmod] at ho3 hf
    exact ⟨ho3, by omega⟩
  · rename_i hz
    simp only [Exec.pure_eq, Exec.ok.injEq, Prod.mk.injEq] at h
    obtain ⟨-, -, rfl⟩ := h
    have : k = 0 := by omega
    subst this
    exact ⟨rfl, by omega⟩

theorem javaclass_new_parse_fields_eq_ok (pool : List cp_info) (classbytes : Bytes)
    (o fc : Nat) (fs : List field_info) (o1 : Nat)
    (h : javaclass_new_parse_fields pool classbytes o = .ok (fc, fs, o1)) :
    ∃ o2, read_u16 classbytes o = .ok (fc, o2) ∧ read_fields pool classbytes fc o2 = .ok (fs, o1) := by
  unfold javaclass_new_parse_fields at h
  simp only [Exec.bind_eq_ok, Prod.exists] at h
  obtain ⟨c, o2, hc, h⟩ := h
  split at h
  · simp only [Exec.bind_eq_ok, Prod.exists, Exec.pure_eq, Exec.ok.injEq, Prod.mk.injEq] at h
    obtain ⟨l, o3, hl, rfl, rfl, rfl⟩ := h
    exact ⟨o2, hc, hl⟩
  · rename_i hz
    simp only [Exec.pure_eq, Exec.ok.injEq, Prod.mk.injEq] at h
    obtain ⟨rfl, rfl, rfl⟩ := h
    have : c = 0 := by omega
    subst this
    exact ⟨o2, hc, rfl⟩

theorem javaclass_new_parse_methods_eq_ok (pool : List cp_info) (classbytes : Bytes)
    (o mc : Nat) (ms : List method_info) (o1 : Nat)
    (h : javaclass_new_parse_methods pool classbytes o = .ok (mc, ms, o1)) :
    ∃ o2, read_u16 classbytes o = .ok (mc, o2) ∧
      read_methods pool classbytes mc o2 = .ok (ms, o1) := by
  unfold javaclass_new_parse_methods at h
  simp only [Exec.bind_eq_ok, Prod.exists] at h
  obtain ⟨c, o2, hc, h⟩ := h
  split at h
  · simp only [Exec.bind_eq_ok, Prod.exists, Exec.pure_eq, Exec.ok.injEq, Prod.mk.injEq] at h
    obtain ⟨l, o3, hl, rfl, rfl, rfl⟩ := h
    exact ⟨o2, hc, hl⟩
  · rename_i hz
    simp only [Exec.pure_eq, Exec.ok.injEq, Prod.mk.injEq] at h
    obtain ⟨rfl, rfl, rfl⟩ := h
    have : c = 0 := by omega
    subst this
    exact ⟨o2, hc, rfl⟩

theorem javaclass_new_parse_attributes_eq_ok (pool : List cp_info) (classbytes : Bytes)
    (o ac : Nat) (ats : List attribute_info) (o1 : Nat)
    (h : javaclass_new_parse_attributes pool classbytes o = .ok (ac, ats, o1)) :
    ∃ o2, read_u16 classbytes o = .ok (ac, o2) ∧
      read_attributes pool classbytes ac o2 = .ok (ats, o1) := by
  unfold javaclass_new_parse_attributes at h
  simp only [Exec.bind_eq_ok, Prod.exists] at h
  obtain ⟨c, o2, hc, h⟩ := h
  split at h
  · simp only [Exec.bind_eq_ok, Prod.exists, Exec.pure_eq, Exec.ok.injEq, Prod.mk.injEq] at h
    obtain ⟨l, o3, hl, rfl, rfl, rfl⟩ := h
    exact ⟨o2, hc, hl⟩
  · rename_i hz
    simp only [Exec.pure_eq, Exec.ok.injEq, Prod.mk.injEq] at h
    obtain ⟨rfl, rfl, rfl⟩ := h
    have : c = 0 := by omega
    subst this
    exact ⟨o2, hc, rfl⟩

/-- A returned class and its member passes: `p1` is the pool when the field
descriptors are built and the method pass starts; `P` is a relation to the
pool as read that every in-place conversion keeps. -/
theorem javaclass_new_ok_members (P : List cp_info → List cp_info → Prop)
    (hrefl : ∀ p, P p p)
    (hstep : ∀ p0 p i q, P p0 p → classname_to_external_format_at p i = .ok q → P p0 q)
    (classbytes : Bytes) (length : Nat) (includecode : Bool)
    (c : JavaClass) (h : javaclass_new classbytes length includecode = .ok c) :
    ∃ pool0 o2 p1,
      pool_as_read classbytes = .ok (pool0, o2) ∧ P pool0 p1 ∧
      PoolConv pool0 p1 ∧ PoolConv p1 c.constant_pool ∧
      ((c.fields_count > 0 ∧ ∃ jfs, c._fields = some jfs ∧
          javaclass_new_fields p1 c.fields = .ok jfs) ∨
        (¬ c.fields_count > 0 ∧ c._fields = none ∧ c.fields = [])) ∧
      ((c.methods_count > 0 ∧ ∃ jms, c._methods = some jms ∧
          javaclass_new_methods includecode c.methods p1 = .ok (c.constant_pool, jms)) ∨
        (¬ c.methods_count > 0 ∧ c._methods = none ∧ c.methods = [])) ∧
      (∀ m ∈ c.methods, ∀ a ∈ m.attributes, (payload a.info).length < 2 ^ 32) ∧
      scan_signature c.constant_pool c.attributes none = .ok c._signature := by
  obtain ⟨m1, m2, M1, M2, rest, raw, hcb, hle, hparse, hviews⟩ :=
    javaclass_new_ok_struct _ _ _ _ h
  obtain ⟨cnt, o1, pool0, o2, af, tc, sc, pool1, o3, ic, ifs, o4, fc, fs, o5, mc, ms, o6,
    ac, ats, hcnt, hpool, hrefs, hifs, hfs, hms, hats, hraw⟩ :=
    javaclass_new_parse_eq_ok _ _ _ _ _ _ _ hparse
  obtain ⟨j, p1, ifs1, flds, p2, jms, sig, -, hvi, hvf, hvm, hvs, hc⟩ :=
    javaclass_new_views_eq_ok _ _ _ hviews
  obtain ⟨hconvP, -, -⟩ := javaclass_new_parse_refs_conv _ _ _ _ _ _ _ _ hrefs
  have hconvI := javaclass_new_views_interfaces_conv _ _ _ _ hvi
  have hconvM := javaclass_new_views_methods_conv _ _ _ _ _ hvm
  obtain ⟨hfnil, -⟩ := javaclass_new_parse_fields_refs _ _ _ _ _ _ hfs
  obtain ⟨hmnil, hmlens⟩ := javaclass_new_parse_methods_refs _ _ _ _ _ _ hms
  have hpar : pool_as_read classbytes = .ok (pool0, o2) := by
    unfold pool_as_read
    rw [hcnt]
    exact hpool
  subst hraw
  subst hc
  have hP1 := javaclass_new_parse_refs_inv (P pool0) (hstep pool0) _ _ _ _ _ _ _ _
    (hrefl pool0) hrefs
  have hP2 := javaclass_new_views_interfaces_inv (P pool0) (hstep pool0) _ _ _ _ hP1 hvi
  refine ⟨pool0, o2, p1, hpar, hP2, poolConv_trans hconvP hconvI, hconvM, ?_, ?_,
    fun m hm a ha => (hmlens m hm a ha).2, hvs⟩
  · unfold javaclass_new_views_fields at hvf
    simp only at hvf
    by_cases hpos : fc > 0
    · rw [if_pos hpos] at hvf
      simp only [Exec.bind_eq_ok, Exec.pure_eq, Exec.ok.injEq] at hvf
      obtain ⟨jfs, hjfs, rfl⟩ := hvf
      exact Or.inl ⟨hpos, jfs, rfl, hjfs⟩
    · rw [if_neg hpos] at hvf
      simp only [Exec.pure_eq, Exec.ok.injEq] at hvf
      exact Or.inr ⟨hpos, hvf.symm, hfnil hpos⟩
  · unfold javaclass_new_views_methods at hvm
    simp only at hvm
    by_cases hpos : mc > 0
    · rw [if_pos hpos] at hvm
      simp only [Exec.bind_eq_ok, Prod.exists, Exec.pure_eq, Exec.ok.injEq,
        Prod.mk.injEq] at hvm
      obtain ⟨q, jms1, hjms, rfl, rfl⟩ := hvm
      exact Or.inl ⟨hpos, jms1, rfl, hjms⟩
    · rw [if_neg hpos] at hvm
      simp only [Exec.pure_eq, Exec.ok.injEq, Prod.mk.injEq] at hvm
      exact Or.inr ⟨hpos, hvm.2.symm, hmnil hpos⟩

/-- A returned class and the stream: where the field, method and attribute
arrays lie, and that they end at `length`; `P` is a relation to the pool as
read that every in-place conversion keeps, and `praw` is the pool with which
the arrays are read. -/
theorem javaclass_new_ok_layout_inv (P : List cp_info → List cp_info → Prop)
    (hrefl : ∀ p, P p p)
    (hstep : ∀ p0 p i q, P p0 p → classname_to_external_format_at p i = .ok q → P p0 q)
    (classbytes : Bytes) (hlen : classbytes.length < 2 ^ 32)
    (length : Nat) (includecode : Bool)
    (c : JavaClass) (h : javaclass_new classbytes length includecode = .ok c) :
    ∃ pool0 o2 praw oF oM oA,
      pool_as_read classbytes = .ok (pool0, o2) ∧ P pool0 praw ∧ PoolConv pool0 praw ∧
      read_u16 classbytes (o2 + 6) = .ok (c.interfaces_count, o2 + 8) ∧
      oF = o2 + 8 + 2 * c.interfaces_count ∧
      read_u16 classbytes oF = .ok (c.fields_count, oF + 2) ∧
      read_fields praw classbytes c.fields_count (oF + 2) = .ok (c.fields, oM) ∧
      read_u16 classbytes oM = .ok (c.methods_count, oM + 2) ∧
      read_methods praw classbytes c.methods_count (oM + 2) = .ok (c.methods, oA) ∧
      read_u16 classbytes oA = .ok (c.attributes_count, oA + 2) ∧
      read_attributes praw classbytes c.attributes_count (oA + 2) = .ok (c.attributes, length) := by
  obtain ⟨m1, m2, M1, M2, rest, raw, hcb, hle, hparse, hviews⟩ :=
    javaclass_new_ok_struct _ _ _ _ h
  obtain ⟨cnt, o1, pool0, o2, af, tc, sc, pool1, o3, ic, ifs, o4, fc, fs, o5, mc, ms, o6,
    ac, ats, hcnt, hpool, hrefs, hifs, hfs, hms, hats, hraw⟩ :=
    javaclass_new_parse_eq_ok _ _ _ _ _ _ _ hparse
  obtain ⟨j, p1, ifs1, flds, p2, jms, sig, -, -, -, -, -, hc⟩ :=
    javaclass_new_views_eq_ok _ _ _ hviews
  obtain ⟨hconvP, -, -⟩ := javaclass_new_parse_refs_conv _ _ _ _ _ _ _ _ hrefs
  obtain ⟨oa, v, ob, poolA, w, haf, hv, -, -, hw, -, -⟩ :=
    javaclass_new_parse_refs_eq_ok _ _ _ _ _ _ _ _ hrefs
  obtain ⟨hf1, -, h1⟩ := read_u16_eq_ok _ _ _ _ haf
  rw [Nat.mod_eq_of_lt (by omega)] at h1
  subst h1
  obtain ⟨hf2, -, h2⟩ := read_u16_eq_ok _ _ _ _ hv
  rw [Nat.mod_eq_of_lt (by omega)] at h2
  subst h2
  obtain ⟨hf3, -, h3⟩ := read_u16_eq_ok _ _ _ _ hw
  rw [Nat.mod_eq_of_lt (by omega)] at h3
  subst h3
  obtain ⟨hic, ho4, hfit4⟩ := javaclass_new_parse_interfaces_offset _ hlen _ _ _ _ hifs
  obtain ⟨oF1, hfc, hrf⟩ := javaclass_new_parse_fields_eq_ok _ _ _ _ _ _ hfs
  obtain ⟨hf5, -, h5⟩ := read_u16_eq_ok _ _ _ _ hfc
  rw [Nat.mod_eq_of_lt (by omega)] at h5
  subst h5
  obtain ⟨oM1, hmc, hrm⟩ := javaclass_new_parse_methods_eq_ok _ _ _ _ _ _ hms
  obtain ⟨hf6, -, h6⟩ := read_u16_eq_ok _ _ _ _ hmc
  rw [Nat.mod_eq_of_lt (by omega)] at h6
  subst h6
  obtain ⟨oA1, hac, hra⟩ := javaclass_new_parse_attributes_eq_ok _ _ _ _ _ _ hats
  obtain ⟨hf7, -, h7⟩ := read_u16_eq_ok _ _ _ _ hac
  rw [Nat.mod_eq_of_lt (by omega)] at h7
  subst h7
  have hpar : pool_as_read classbytes = .ok (pool0, o2) := by
    unfold pool_as_read
    rw [hcnt]
    exact hpool
  subst hraw
  subst hc
  subst ho4
  have e6 : o2 + 2 + 2 + 2 = o2 + 6 := by omega
  have e8 : o2 + 2 + 2 + 2 + 2 = o2 + 8 := by omega
  rw [e6] at hic hfc hrf
  rw [e8] at hfc hrf
  have hP1 := javaclass_new_parse_refs_inv (P pool0) (hstep pool0) _ _ _ _ _ _ _ _
    (hrefl pool0) hrefs
  exact ⟨pool0, o2, pool1, _, _, _, hpar, hP1, hconvP, hic, rfl, hfc, hrf, hmc, hrm, hac,
    hra⟩

/-- A returned class and the stream: where the field, method and attribute
arrays lie, and that they end at `length`. -/
theorem javaclass_new_ok_layout (classbytes : Bytes) (hlen : classbytes.length < 2 ^ 32)
    (length : Nat) (includecode : Bool)
    (c : JavaClass) (h : javaclass_new classbytes length includecode = .ok c) :
    ∃ pool0 o2 praw oF oM oA,
      pool_as_read classbytes = .ok (pool0, o2) ∧ PoolConv pool0 praw ∧
      read_u16 classbytes (o2 + 6) = .ok (c.interfaces_count, o2 + 8) ∧
      oF = o2 + 8 + 2 * c.interfaces_count ∧
      read_u16 classbytes oF = .ok (c.fields_count, oF + 2) ∧
      read_fields praw classbytes c.fields_count (oF + 2) = .ok (c.fields, oM) ∧
      read_u16 classbytes oM = .ok (c.methods_count, oM + 2) ∧
      read_methods praw classbytes c.methods_count (oM + 2) = .ok (c.methods, oA) ∧
      read_u16 classbytes oA = .ok (c.attributes_count, oA + 2) ∧
      read_attributes praw classbytes c.attributes_count (oA + 2) = .ok (c.attributes, length) := by
  obtain ⟨pool0, o2, praw, oF, oM, oA, hpar, -, hrest⟩ :=
    javaclass_new_ok_layout_inv (fun _ _ => True) (fun _ => trivial)
      (fun _ _ _ _ _ _ => trivial) _ hlen _ _ _ h
  exact ⟨pool0, o2, praw, oF, oM, oA, hpar, hrest⟩

/-- C25: for every class `javaclass_new` returns and every method record `m`
of it (the `i`-th), with `jm` the `i`-th method descriptor: if no attribute of
`m` is named `Exceptions`, `javamethod_get_exceptions jm` is absent; and if `a`
is the first attribute of `m` named `Exceptions`, its payload holds a 16-bit
count `k`, the list is absent when `k = 0`, and when `k > 0` the getter yields
exactly `k` names, the `t`-th being, for the 16-bit value `r` at payload bytes
`2 + 2t, 3 + 2t` (`r ≥ 1`), the name of the class entry at index `r - 1` of the
pool as read from the file (the C string of the Utf8 entry it names) with
every `'/'` replaced by `'.'`. -/
theorem method_exceptions (classbytes : Bytes) (length : Nat) (includecode : Bool)
    (c : JavaClass) (h : javaclass_new classbytes length includecode = .ok c)
    (i : Nat) (m : method_info) (hm : c.methods[i]? = some m) :
    ∃ pool0 o2 jms jm,
      pool_as_read classbytes = .ok (pool0, o2) ∧
      javaclass_get_methods c = some jms ∧ jms.length = c.methods.length ∧
      jms[i]? = some jm ∧
      ((∀ a ∈ m.attributes,
          string_from_cp pool0 a.attribute_name_index ≠ .ok (ascii "Exceptions")) →
        javamethod_get_exceptions jm = none) ∧
      (∀ (pre : List attribute_info) (a : attribute_info) (post : List attribute_info),
        m.attributes = pre ++ a :: post →
        (∀ b ∈ pre, string_from_cp pool0 b.attribute_name_index ≠ .ok (ascii "Exceptions")) →
        string_from_cp pool0 a.attribute_name_index = .ok (ascii "Exceptions") →
        2 ≤ (payload a.info).length ∧
        (be ((payload a.info).take 2) = 0 → javamethod_get_exceptions jm = none) ∧
        (0 < be ((payload a.info).take 2) →
          ∃ names, javamethod_get_exceptions jm = some names ∧
            names.length = be ((payload a.info).take 2) ∧
            ∀ t, t < be ((payload a.info).take 2) →
              2 + 2 * t + 2 ≤ (payload a.info).length ∧
              1 ≤ be (((payload a.info).drop (2 + 2 * t)).take 2) ∧
              ∃ (j : Nat) (s : Bytes),
                class_name_at pool0
                  (be (((payload a.info).drop (2 + 2 * t)).take 2) - 1) j s ∧
                names[t]? = some (external_name (cstr s)))) := by
  obtain ⟨pool0, o2, p1, hpar, -, hconv1, hconv2, -, hmeth, hlens, -⟩ :=
    javaclass_new_ok_members (fun _ _ => True) (fun _ => trivial)
      (fun _ _ _ _ _ _ => trivial) _ _ _ _ h
  have hsize := pool_as_read_length _ _ _ hpar
  rcases hmeth with ⟨-, jms, hjms, hpass⟩ | ⟨-, -, hnil⟩
  swap
  · rw [hnil] at hm
    simp at hm
  obtain ⟨hjlen, heach⟩ := javaclass_new_methods_each (fun _ => True)
    (fun _ _ _ _ _ => trivial) _ _ _ _ _ trivial hpass
  obtain ⟨jm, pb, pa, exc, hjm, hcb, -, hexc, hca, -, -, -, -, -, -, hje⟩ := heach i m hm
  have hc0 : PoolConv pool0 pb := poolConv_trans hconv1 hcb
  have hmem : m ∈ c.methods := by
    obtain ⟨hlt, heq⟩ := List.getElem?_eq_some.mp hm
    rw [← heq]
    exact List.getElem_mem hlt
  obtain ⟨hnone, hfirst⟩ := extract_exceptions_eq_ok pb m.attributes
    (fun a ha => hlens m hmem a ha) pa exc hexc
  have hname : ∀ idx, string_from_cp pool0 idx = .ok (ascii "Exceptions") ↔
      string_from_cp pb idx = .ok (ascii "Exceptions") := fun idx =>
    string_from_cp_conv _ _ hc0 idx _ ascii_exceptions_no_slash ascii_exceptions_no_dot
  refine ⟨pool0, o2, jms, jm, hpar, hjms, hjlen, hjm, ?_, ?_⟩
  · intro hno
    have : exc = none := hnone (fun a ha hx => hno a ha ((hname _).mpr hx))
    unfold javamethod_get_exceptions
    rw [hje, this]
    rfl
  · intro pre a post hsplit hpre ha
    obtain ⟨h2, hzero, hposk⟩ := hfirst pre a post hsplit
      (fun b hb hx => hpre b hb ((hname _).mpr hx)) ((hname _).mp ha)
    refine ⟨h2, ?_, ?_⟩
    · intro hz
      unfold javamethod_get_exceptions
      rw [hje, hzero hz]
      rfl
    · intro hk
      obtain ⟨ptrs, hex, hplen, hent⟩ := hposk hk
      refine ⟨ptrs.map (cp_cstr pa), ?_, by simp [hplen], ?_⟩
      · unfold javamethod_get_exceptions
        rw [hje, hex]
        rfl
      · intro t ht
        obtain ⟨hfit, j, s, hp, hn, hs⟩ := hent t ht
        obtain ⟨s0, hn0, hs0⟩ := converted_from_origin hc0 _ j s hn hs
        obtain ⟨hpos, hdec⟩ := stored_index_pos _ _ hsize (class_name_at_lt hn0).1
        rw [hdec] at hn0
        refine ⟨hfit, hpos, j, s0, hn0, ?_⟩
        rw [List.getElem?_map, hp]
        simp only [Option.map_some']
        rw [cp_cstr_converted _ _ _ _ hs0]

/-- C25 at a concrete input: the method `m()V` of `throwing_method_class`,
which declares one checked exception. -/
theorem method_exceptions_witness :
    ∃ pool0 o2 jms jm,
      pool_as_read throwing_method_class = .ok (pool0, o2) ∧
      javaclass_get_methods throwing_method_class_decoded = some jms ∧
      jms.length = throwing_method_class_decoded.methods.length ∧
      jms[0]? = some jm ∧
      ((∀ a ∈ throwing_method_info.attributes,
          string_from_cp pool0 a.attribute_name_index ≠ .ok (ascii "Exceptions")) →
        javamethod_get_exceptions jm = none) ∧
      (∀ (pre : List attribute_info) (a : attribute_info) (post : List attribute_info),
        throwing_method_info.attributes = pre ++ a :: post →
        (∀ b ∈ pre, string_from_cp pool0 b.attribute_name_index ≠ .ok (ascii "Exceptions")) →
        string_from_cp pool0 a.attribute_name_index = .ok (ascii "Exceptions") →
        2 ≤ (payload a.info).length ∧
        (be ((payload a.info).take 2) = 0 → javamethod_get_exceptions jm = none) ∧
        (0 < be ((payload a.info).take 2) →
          ∃ names, javamethod_get_exceptions jm = some names ∧
            names.length = be ((payload a.info).take 2) ∧
            ∀ t, t < be ((payload a.info).take 2) →
              2 + 2 * t + 2 ≤ (payload a.info).length ∧
              1 ≤ be (((payload a.info).drop (2 + 2 * t)).take 2) ∧
              ∃ (j : Nat) (s : Bytes),
                class_name_at pool0
                  (be (((payload a.info).drop (2 + 2 * t)).take 2) - 1) j s ∧
                names[t]? = some (external_name (cstr s)))) :=
  method_exceptions throwing_method_class 81 false throwing_method_class_decoded (by decide)
    0 throwing_method_info (by decide)

/-! ## Which slots the in-place conversions touch -/

theorem namesConverted_refl (pool0 : List cp_info) : NamesConverted pool0 pool0 :=
  fun _ => Or.inl rfl

theorem namesConverted_poolConv {pool0 p : List cp_info} (h : NamesConverted pool0 p) :
    PoolConv pool0 p := by
  intro j
  rcases h j with heq | ⟨i, s, hn, hp⟩
  · cases h0 : pool0[j]? with
    | none => exact Or.inl ⟨rfl, by rw [heq, h0]⟩
    | some e => exact Or.inr ⟨e, e, rfl, by rw [heq, h0], Or.inl rfl⟩
  · exact Or.inr ⟨_, _, hn.2, hp, Or.inr ⟨_, _, rfl, rfl⟩⟩

theorem namesConverted_step (pool0 p : List cp_info) (i : Nat) (q : List cp_info)
    (h : NamesConverted pool0 p) (hq : classname_to_external_format_at p i = .ok q) :
    NamesConverted pool0 q := by
  obtain ⟨j1, s1, hn1, rfl⟩ := classname_to_external_format_at_eq_ok _ _ _ hq
  obtain ⟨s0, hn0, hor⟩ := class_name_at_conv_back (namesConverted_poolConv h) i j1 s1 hn1
  have hlt : j1 < p.length := (class_name_at_lt hn1).2
  intro j
  by_cases hj : j = j1
  · subst hj
    refine Or.inr ⟨i, s0, hn0, ?_⟩
    rcases hor with rfl | rfl
    · simp [List.getElem?_set, hlt]
    · simp [List.getElem?_set, hlt, classname_to_external_format_idem]
  · have hne : j1 ≠ j := fun hx => hj hx.symm
    rcases h j with heq | ⟨i2, s2, hn2, hp2⟩
    · refine Or.inl ?_
      rw [List.getElem?_set_ne hne]
      exact heq
    · refine Or.inr ⟨i2, s2, hn2, ?_⟩
      rw [List.getElem?_set_ne hne]
      exact hp2

/-- The text read from slot `idx` of a pool with converted names, against the
pool as read. -/
theorem reported_text_of_string_from_cp {pool0 p : List cp_info}
    (hN : NamesConverted pool0 p) (idx : Nat) (text : Bytes)
    (h : string_from_cp p idx = .ok text) : reported_text pool0 idx (some text) := by
  obtain ⟨s1, hs1, rfl⟩ := (string_from_cp_eq_ok _ _ _).mp h
  rcases hN idx with heq | ⟨i, s, hn, hp⟩
  · exact ⟨s1, by rw [← heq]; exact hs1, Or.inl rfl⟩
  · rw [hp] at hs1
    simp only [Option.some.injEq, cp_info.mk.injEq, cp_value.str.injEq, true_and] at hs1
    subst hs1
    refine ⟨s, hn.2, Or.inr ⟨⟨i, s, hn⟩, ?_⟩⟩
    rw [cstr_classname_to_external_format]
    rfl

theorem exists_last_split {α : Type} (p : α → Prop) (l : List α) (h : ∃ a ∈ l, p a) :
    ∃ pre a post, l = pre ++ a :: post ∧ p a ∧ ∀ b ∈ post, ¬ p b := by
  induction l with
  | nil =>
    obtain ⟨a, ha, -⟩ := h
    simp at ha
  | cons x rest ih =>
    by_cases hr : ∃ a ∈ rest, p a
    · obtain ⟨pre, a, post, hsplit, hpa, hpost⟩ := ih hr
      exact ⟨x :: pre, a, post, by rw [hsplit]; rfl, hpa, hpost⟩
    · obtain ⟨a, ha, hpa⟩ := h
      rcases List.mem_cons.mp ha with rfl | hmem
      · exact ⟨[], a, rest, rfl, hpa, fun b hb hpb => hr ⟨b, hb, hpb⟩⟩
      · exact absurd ⟨a, hmem, hpa⟩ hr

/-- The result of the `Signature` search of lines 559-571 and 625-636, in
terms of the stored string index. -/
theorem signature_resolved_of_scan (pool : List cp_info) (hsize : pool.length ≤ 65535)
    (attrs : List attribute_info) (r : Option Bytes)
    (h : scan_signature pool attrs none = .ok r) : signature_resolved pool attrs r := by
  obtain ⟨h1, h2⟩ := scan_signature_eq_ok _ _ _ _ h
  refine ⟨h1, ?_⟩
  intro pre a post hsplit ha hpost
  obtain ⟨hlen, text, htext, hr⟩ := h2 pre a post hsplit ha hpost
  obtain ⟨s, hs, -⟩ := (string_from_cp_eq_ok _ _ _).mp htext
  have hlt := (List.getElem?_eq_some.mp hs).1
  obtain ⟨hpos, hdec⟩ := stored_index_pos _ _ hsize hlt
  rw [hdec] at htext
  exact ⟨hlen, hpos, text, htext, hr⟩

/-- A signature found by the search is the text of the entry a `Signature`
attribute of the array points to. -/
theorem signature_source (pool : List cp_info) (attrs : List attribute_info)
    (text : Bytes) (h : signature_resolved pool attrs (some text)) :
    ∃ a ∈ attrs, string_from_cp pool a.attribute_name_index = .ok (ascii "Signature") ∧
      2 ≤ (payload a.info).length ∧ 1 ≤ be ((payload a.info).take 2) ∧
      string_from_cp pool (be ((payload a.info).take 2) - 1) = .ok text := by
  obtain ⟨h1, h2⟩ := h
  by_cases hall : ∃ a ∈ attrs,
      string_from_cp pool a.attribute_name_index = .ok (ascii "Signature")
  · obtain ⟨pre, a, post, hsplit, ha, hpost⟩ := exists_last_split _ _ hall
    obtain ⟨hlen, hpos, t, ht, hr⟩ := h2 pre a post hsplit ha hpost
    simp only [Option.some.injEq] at hr
    subst hr
    exact ⟨a, by rw [hsplit]; simp, ha, hlen, hpos, ht⟩
  · have := h1 (fun a ha hx => hall ⟨a, ha, hx⟩)
    cases this

/-- Reading a slot that holds a Utf8 string gives the C string `javamethod_new`
copies from it. -/
theorem string_from_cp_cp_cstr {pool : List cp_info} {idx : Nat} (h : utf8_at pool idx) :
    string_from_cp pool idx = .ok (cp_cstr pool idx) := by
  obtain ⟨s, hs⟩ := h
  rw [cp_cstr_of_str pool idx TAG_UTF8 s hs]
  exact (string_from_cp_eq_ok _ _ _).mpr ⟨s, hs, rfl⟩

/-- C30, counterexample: in `shared_name_class` the name index of the field
(stored `0 1` at offset 47, re-based to 0) is the Utf8 entry `a/b` of the pool
as read, which is also the name entry of the this-class reference; the class
decodes, and the name reported for the field is `a.b`, not the stored `a/b`. -/
theorem shared_utf8_field_name_is_converted :
    javaclass_new shared_name_class 65 false = .ok shared_name_class_decoded ∧
    pool_as_read shared_name_class = .ok (shared_name_pool, 35) ∧
    read_u16 shared_name_class 47 = .ok (1, 49) ∧ dec16 1 = 0 ∧
    shared_name_class_decoded.fields[0]? = some shared_name_field_info ∧
    shared_name_field_info.name_index = 0 ∧
    string_from_cp shared_name_pool 0 = .ok (ascii "a/b") ∧
    (∃ jf, javaclass_get_fields shared_name_class_decoded = some [jf] ∧
      javafield_get_name jf = some (ascii "a.b")) ∧
    ascii "a.b" ≠ ascii "a/b" := by
  refine ⟨by decide, by decide, by decide, by decide, by decide, by decide, by decide,
    ⟨_, rfl, by decide⟩, by decide⟩

/-- C30 (amended): for every class `javaclass_new` returns, the name and
descriptor reported for each field and each method, and each reported
signature (which comes from an attribute named `Signature` of the record), are
byte for byte the C string of the Utf8 entry stored in the input at the
re-based index, except that an entry which is also the name entry of a class
entry of the pool may be reported with every `'/'` replaced by `'.'`
(`reported_text`). -/
theorem member_text_frame (classbytes : Bytes) (length : Nat) (includecode : Bool)
    (c : JavaClass) (h : javaclass_new classbytes length includecode = .ok c) :
    ∃ pool0 o2,
      pool_as_read classbytes = .ok (pool0, o2) ∧
      (∀ (i : Nat) (f : field_info), c.fields[i]? = some f →
        ∃ jfs jf, javaclass_get_fields c = some jfs ∧ jfs[i]? = some jf ∧
          reported_text pool0 f.name_index (javafield_get_name jf) ∧
          reported_text pool0 f.descriptor_index (javafield_get_descriptor jf) ∧
          ∀ text, javafield_get_signature jf = some text →
            ∃ a ∈ f.attributes,
              string_from_cp pool0 a.attribute_name_index = .ok (ascii "Signature") ∧
              2 ≤ (payload a.info).length ∧ 1 ≤ be ((payload a.info).take 2) ∧
              reported_text pool0 (be ((payload a.info).take 2) - 1) (some text)) ∧
      (∀ (i : Nat) (m : method_info), c.methods[i]? = some m →
        ∃ jms jm, javaclass_get_methods c = some jms ∧ jms[i]? = some jm ∧
          reported_text pool0 m.name_index (javamethod_get_name jm) ∧
          reported_text pool0 m.descriptor_index (javamethod_get_descriptor jm) ∧
          ∀ text, javamethod_get_signature jm = some text →
            ∃ a ∈ m.attributes,
              string_from_cp pool0 a.attribute_name_index = .ok (ascii "Signature") ∧
              2 ≤ (payload a.info).length ∧ 1 ≤ be ((payload a.info).take 2) ∧
              reported_text pool0 (be ((payload a.info).take 2) - 1) (some text)) := by
  obtain ⟨pool0, o2, p1, hpar, hN1, hconv1, hconv2, hfld, hmeth, hlens, -⟩ :=
    javaclass_new_ok_members NamesConverted namesConverted_refl namesConverted_step
      _ _ _ _ h
  have hsize := pool_as_read_length _ _ _ hpar
  have hsig : ∀ (p : List cp_info), NamesConverted pool0 p →
      ∀ (attrs : List attribute_info) (r : Option Bytes),
        scan_signature p attrs none = .ok r → ∀ text, r = some text →
          ∃ a ∈ attrs,
            string_from_cp pool0 a.attribute_name_index = .ok (ascii "Signature") ∧
            2 ≤ (payload a.info).length ∧ 1 ≤ be ((payload a.info).take 2) ∧
            reported_text pool0 (be ((payload a.info).take 2) - 1) (some text) := by
    intro p hN attrs r hscan text hr
    subst hr
    have hc := namesConverted_poolConv hN
    have hsz : p.length ≤ 65535 := by
      rw [← poolConv_length hc]
      exact hsize
    obtain ⟨a, ha, hname, hl, hpos, htext⟩ :=
      signature_source _ _ _ (signature_resolved_of_scan _ hsz _ _ hscan)
    exact ⟨a, ha, (string_from_cp_conv _ _ hc _ _ ascii_signature_no_slash
      ascii_signature_no_dot).mpr hname, hl, hpos,
      reported_text_of_string_from_cp hN _ _ htext⟩
  refine ⟨pool0, o2, hpar, ?_, ?_⟩
  · intro i f hi
    rcases hfld with ⟨-, jfs, hjfs, hpass⟩ | ⟨-, -, hnil⟩
    swap
    · rw [hnil] at hi
      simp at hi
    obtain ⟨-, heach⟩ := javaclass_new_fields_each _ _ _ hpass
    obtain ⟨jf, name, descriptor, hjf, hname, hdesc, hscan, -, hjn, hjd⟩ := heach i f hi
    refine ⟨jfs, jf, hjfs, hjf, ?_, ?_, hsig p1 hN1 _ _ hscan⟩
    · unfold javafield_get_name
      rw [hjn]
      exact reported_text_of_string_from_cp hN1 _ _ hname
    · unfold javafield_get_descriptor
      rw [hjd]
      exact reported_text_of_string_from_cp hN1 _ _ hdesc
  · intro i m hi
    rcases hmeth with ⟨-, jms, hjms, hpass⟩ | ⟨-, -, hnil⟩
    swap
    · rw [hnil] at hi
      simp at hi
    obtain ⟨-, heach⟩ := javaclass_new_methods_each (NamesConverted pool0)
      (namesConverted_step pool0) _ _ _ _ _ hN1 hpass
    obtain ⟨jm, pb, pa, exc, hjm, hcb, hNa, hexc, hca, hun, hud, hscan, -, hjn, hjd, -⟩ :=
      heach i m hi
    have hba := extract_exceptions_conv _ _ _ _ hexc
    refine ⟨jms, jm, hjms, hjm, ?_, ?_, hsig pa hNa _ _ hscan⟩
    · unfold javamethod_get_name
      rw [hjn]
      exact reported_text_of_string_from_cp hNa _ _
        (string_from_cp_cp_cstr ((utf8_at_conv hba _).mp hun))
    · unfold javamethod_get_descriptor
      rw [hjd]
      exact reported_text_of_string_from_cp hNa _ _
        (string_from_cp_cp_cstr ((utf8_at_conv hba _).mp hud))

/-- C30 (amended) at a concrete input: `throwing_method_class`. -/
theorem member_text_frame_witness :
    ∃ pool0 o2,
      pool_as_read throwing_method_class = .ok (pool0, o2) ∧
      (∀ (i : Nat) (f : field_info), throwing_method_class_decoded.fields[i]? = some f →
        ∃ jfs jf, javaclass_get_fields throwing_method_class_decoded = some jfs ∧ jfs[i]? = some jf ∧
          reported_text pool0 f.name_index (javafield_get_name jf) ∧
          reported_text pool0 f.descriptor_index (javafield_get_descriptor jf) ∧
          ∀ text, javafield_get_signature jf = some text →
            ∃ a ∈ f.attributes,
              string_from_cp pool0 a.attribute_name_index = .ok (ascii "Signature") ∧
              2 ≤ (payload a.info).length ∧ 1 ≤ be ((payload a.info).take 2) ∧
              reported_text pool0 (be ((payload a.info).take 2) - 1) (some text)) ∧
      (∀ (i : Nat) (m : method_info), throwing_method_class_decoded.methods[i]? = some m →
        ∃ jms jm, javaclass_get_methods throwing_method_class_decoded = some jms ∧ jms[i]? = some jm ∧
          reported_text pool0 m.name_index (javamethod_get_name jm) ∧
          reported_text pool0 m.descriptor_index (javamethod_get_descriptor jm) ∧
          ∀ text, javamethod_get_signature jm = some text →
            ∃ a ∈ m.attributes,
              string_from_cp pool0 a.attribute_name_index = .ok (ascii "Signature") ∧
              2 ≤ (payload a.info).length ∧ 1 ≤ be ((payload a.info).take 2) ∧
              reported_text pool0 (be ((payload a.info).take 2) - 1) (some text)) :=
  member_text_frame throwing_method_class 81 false throwing_method_class_decoded (by decide)

/-! ## `classname_to_external_format` on its own -/

theorem classname_to_external_format_length (s : Bytes) :
    (classname_to_external_format s).length = s.length := by
  induction s with
  | nil => rfl
  | cons ch rest ih =>
    by_cases h : ch = 0
    · simp [classname_to_external_format, h]
    · rw [classname_to_external_format_cons _ _ h]
      simp [ih]

theorem cstr_eq_self (s : Bytes) (h : (0 : Byte) ∉ s) : cstr s = s := by
  unfold cstr
  rw [List.takeWhile_eq_self_iff]
  intro ch hch
  simp only [ne_eq, decide_not, Bool.not_eq_eq_eq_not, Bool.not_true, decide_eq_false_iff_not]
  intro hz
  exact h (hz ▸ hch)

theorem classname_to_external_format_getElem_lt (s : Bytes) (i : Nat)
    (hi : i < (cstr s).length) :
    (classname_to_external_format s)[i]? = (s[i]?).map to_external_char := by
  induction s generalizing i with
  | nil => simp [cstr] at hi
  | cons ch rest ih =>
    by_cases h : ch = 0
    · simp [cstr, h] at hi
    · rw [classname_to_external_format_cons _ _ h]
      match i with
      | 0 => simp
      | k + 1 =>
        simp only [List.getElem?_cons_succ]
        apply ih
        unfold cstr at hi ⊢
        rw [List.takeWhile_cons_of_pos (by simpa using h)] at hi
        simpa using hi

theorem classname_to_external_format_getElem_ge (s : Bytes) (i : Nat)
    (hi : (cstr s).length ≤ i) :
    (classname_to_external_format s)[i]? = s[i]? := by
  induction s generalizing i with
  | nil => rfl
  | cons ch rest ih =>
    by_cases h : ch = 0
    · simp [classname_to_external_format, h]
    · rw [classname_to_external_format_cons _ _ h]
      unfold cstr at hi
      rw [List.takeWhile_cons_of_pos (by simpa using h)] at hi
      match i with
      | 0 => simp at hi
      | k + 1 =>
        simp only [List.getElem?_cons_succ]
        apply ih
        unfold cstr
        simpa using hi

theorem slash_not_mem_map_to_external_char (s : Bytes) : SLASH ∉ s.map to_external_char := by
  intro hmem
  obtain ⟨ch, -, hch⟩ := List.mem_map.mp hmem
  unfold to_external_char at hch
  split at hch
  · exact absurd hch (by decide)
  · rename_i hne
    exact hne hch

/-- C34: `classname_to_external_format` keeps the length of the buffer; the
C string in it (the characters before the first NUL, the whole buffer when it
holds no NUL) keeps its length, each `'/'` of it becomes `'.'` and every other
character stays as it is, position by position; what follows a NUL is not
touched; the converted string contains no `'/'`; and converting twice gives
the same as converting once. -/
theorem classname_to_external_format_spec (s : Bytes) :
    (classname_to_external_format s).length = s.length ∧
    (∀ ch : Byte, to_external_char ch = if ch = SLASH then DOT else ch) ∧
    cstr (classname_to_external_format s) = (cstr s).map to_external_char ∧
    (cstr (classname_to_external_format s)).length = (cstr s).length ∧
    (∀ i, i < (cstr s).length →
      (classname_to_external_format s)[i]? = (s[i]?).map to_external_char) ∧
    (∀ i, (cstr s).length ≤ i → (classname_to_external_format s)[i]? = s[i]?) ∧
    SLASH ∉ cstr (classname_to_external_format s) ∧
    ((0 : Byte) ∉ s →
      classname_to_external_format s = s.map to_external_char ∧
      SLASH ∉ classname_to_external_format s) ∧
    classname_to_external_format (classname_to_external_format s)
      = classname_to_external_format s := by
  have hc := cstr_classname_to_external_format s
  refine ⟨classname_to_external_format_length s, fun ch => rfl, hc, by rw [hc]; simp,
    classname_to_external_format_getElem_lt s, classname_to_external_format_getElem_ge s,
    by rw [hc]; exact slash_not_mem_map_to_external_char _, ?_,
    classname_to_external_format_idem s⟩
  intro h0
  have hs := cstr_eq_self s h0
  have heq : classname_to_external_format s = s.map to_external_char := by
    apply List.ext_getElem?
    intro i
    by_cases hi : i < s.length
    · rw [classname_to_external_format_getElem_lt s i (by rw [hs]; exact hi)]
      simp
    · rw [classname_to_external_format_getElem_ge s i (by rw [hs]; omega)]
      simp [List.getElem?_eq_none (by omega : s.length ≤ i)]
  exact ⟨heq, by rw [heq]; exact slash_not_mem_map_to_external_char _⟩

/-! ## What `read_attributes` keeps of the records the second pass matches -/

/-- Every record of a successful `read_attributes` run whose name is in the
allow-list keeps a payload of the declared length; the pointer is `NULL` only
for the length 0. -/
theorem read_attributes_retained (pool : List cp_info) (classbytes : Bytes)
    (hlen : classbytes.length < 2 ^ 32) (n offset : Nat) (ho : offset < 2 ^ 32)
    (attrs : List attribute_info) (offset1 : Nat)
    (h : read_attributes pool classbytes n offset = .ok (attrs, offset1)) :
    ∀ a ∈ attrs, ∃ name, string_from_cp pool a.attribute_name_index = .ok name ∧
      (is_known_attribute (some name) = true →
        (payload a.info).length = a.attribute_length ∧
        (a.info = none ↔ a.attribute_length = 0)) ∧
      (is_known_attribute (some name) = false → a.info = none) := by
  obtain ⟨-, -, hrec⟩ := read_attributes_layout pool classbytes hlen n offset ho attrs offset1 h
  intro a ha
  obtain ⟨i, hi⟩ := List.mem_iff_getElem?.mp ha
  obtain ⟨-, -, -, name, hname, hk, hu⟩ := hrec i a hi
  refine ⟨name, hname, ?_, hu⟩
  intro hkn
  obtain ⟨-, -, k3, k4⟩ := hk hkn
  exact ⟨k3, k4⟩

theorem is_known_attribute_consulted :
    is_known_attribute (some (ascii "Signature")) = true ∧
    is_known_attribute (some (ascii "Exceptions")) = true ∧
    is_known_attribute (some (ascii "Code")) = true := by
  refine ⟨by decide, by decide, by decide⟩

/-- In a returned class, every attribute record whose name (in the pool as
read) is `Signature`, `Exceptions` or `Code` keeps a payload of the declared
length. -/
theorem javaclass_new_ok_retained (classbytes : Bytes) (hlen : classbytes.length < 2 ^ 32)
    (length : Nat) (includecode : Bool) (c : JavaClass)
    (h : javaclass_new classbytes length includecode = .ok c) :
    ∃ pool0 o2, pool_as_read classbytes = .ok (pool0, o2) ∧
      ∀ a, attribute_of_class c a → ∀ name : Bytes,
        string_from_cp pool0 a.attribute_name_index = .ok name →
        SLASH ∉ name → DOT ∉ name → is_known_attribute (some name) = true →
        (payload a.info).length = a.attribute_length ∧
        (a.info = none ↔ a.attribute_length = 0) := by
  obtain ⟨pool0, o2, praw, oF, oM, oA, hpar, hconvR, hic, hoF, hfc, hrf, hmc, hrm, hac,
    hra⟩ := javaclass_new_ok_layout _ hlen _ _ _ h
  obtain ⟨hfF, -, -⟩ := read_u16_eq_ok _ _ _ _ hfc
  obtain ⟨hfM, -, -⟩ := read_u16_eq_ok _ _ _ _ hmc
  obtain ⟨hfA, -, -⟩ := read_u16_eq_ok _ _ _ _ hac
  obtain ⟨-, -, hfrec⟩ := read_fields_layout _ _ hlen _ _ (by omega) _ _ hrf
  obtain ⟨-, -, hmrec⟩ := read_methods_layout _ _ hlen _ _ (by omega) _ _ hrm
  have hkey : ∀ (n o : Nat) (attrs : List attribute_info) (o1 : Nat), o < 2 ^ 32 →
      read_attributes praw classbytes n o = .ok (attrs, o1) →
      ∀ a ∈ attrs, ∀ name : Bytes,
        string_from_cp pool0 a.attribute_name_index = .ok name →
        SLASH ∉ name → DOT ∉ name → is_known_attribute (some name) = true →
        (payload a.info).length = a.attribute_length ∧
        (a.info = none ↔ a.attribute_length = 0) := by
    intro n o attrs o1 ho hread a ha name hname hs hd hkn
    obtain ⟨name1, hname1, hk, -⟩ :=
      read_attributes_retained praw classbytes hlen n o ho attrs o1 hread a ha
    have hraw := (string_from_cp_conv _ _ hconvR _ _ hs hd).mp hname
    have heq := hname1.symm.trans hraw
    simp only [Exec.ok.injEq] at heq
    subst heq
    exact hk hkn
  refine ⟨pool0, o2, hpar, ?_⟩
  intro a ha
  rcases ha with ha | ⟨f, hf, ha⟩ | ⟨m, hm, ha⟩
  · exact hkey _ _ _ _ (by omega) hra a ha
  · obtain ⟨i, hi⟩ := List.mem_iff_getElem?.mp hf
    obtain ⟨hfit, -, -, -, -, o, hread⟩ := hfrec i f hi
    exact hkey _ _ _ _ (by omega) hread a ha
  · obtain ⟨i, hi⟩ := List.mem_iff_getElem?.mp hm
    obtain ⟨hfit, -, -, -, -, o, hread⟩ := hmrec i m hi
    exact hkey _ _ _ _ (by omega) hread a ha

/-- C33: `Signature`, `Exceptions` and `Code`, the names the second pass
looks for, are in the allow-list of `is_known_attribute`; and in every class
`javaclass_new` returns (stream shorter than `2^32` bytes), every attribute
record of the class, of a field or of a method whose name is one of the three
in a pool `pv` of the second pass (the pool as read with some class names
converted in place) and whose declared length is greater than 0 has a payload
that `read_attributes` kept: the pointer is not `NULL` and the payload has the
declared length. -/
theorem matched_attributes_retained (classbytes : Bytes)
    (hlen : classbytes.length < 2 ^ 32) (length : Nat) (includecode : Bool) (c : JavaClass)
    (h : javaclass_new classbytes length includecode = .ok c) :
    (is_known_attribute (some (ascii "Signature")) = true ∧
      is_known_attribute (some (ascii "Exceptions")) = true ∧
      is_known_attribute (some (ascii "Code")) = true) ∧
    ∃ pool0 o2, pool_as_read classbytes = .ok (pool0, o2) ∧
      PoolConv pool0 c.constant_pool ∧
      ∀ a, attribute_of_class c a →
        ∀ pv, PoolConv pool0 pv →
          (attribute_named pv a "Signature" ∨ attribute_named pv a "Exceptions" ∨
            attribute_named pv a "Code") →
          0 < a.attribute_length →
          ∃ bytes, a.info = some bytes ∧ bytes.length = a.attribute_length := by
  refine ⟨is_known_attribute_consulted, ?_⟩
  obtain ⟨pool0, o2, hpar, hret⟩ := javaclass_new_ok_retained _ hlen _ _ _ h
  obtain ⟨pool0a, o2a, p1, hpara, -, hconv1, hconv2, -, -, -, -⟩ :=
    javaclass_new_ok_members (fun _ _ => True) (fun _ => trivial)
      (fun _ _ _ _ _ _ => trivial) _ _ _ _ h
  have hsame := hpara.symm.trans hpar
  simp only [Exec.ok.injEq, Prod.mk.injEq] at hsame
  obtain ⟨rfl, rfl⟩ := hsame
  refine ⟨pool0a, o2a, hpar, poolConv_trans hconv1 hconv2, ?_⟩
  intro a ha pv hpv hname hpos
  have hkey : ∀ name : Bytes, string_from_cp pv a.attribute_name_index = .ok name →
      SLASH ∉ name → DOT ∉ name → is_known_attribute (some name) = true →
      ∃ bytes, a.info = some bytes ∧ bytes.length = a.attribute_length := by
    intro name hn hs hd hk
    obtain ⟨hl, hnone⟩ := hret a ha name
      ((string_from_cp_conv _ _ hpv _ _ hs hd).mpr hn) hs hd hk
    cases hinfo : a.info with
    | none => exact absurd (hnone.mp hinfo) (by omega)
    | some bytes =>
      refine ⟨bytes, rfl, ?_⟩
      rw [hinfo] at hl
      exact hl
  rcases hname with hn | hn | hn
  · exact hkey _ hn ascii_signature_no_slash ascii_signature_no_dot
      is_known_attribute_consulted.1
  · exact hkey _ hn ascii_exceptions_no_slash ascii_exceptions_no_dot
      is_known_attribute_consulted.2.1
  · exact hkey _ hn ascii_code_no_slash ascii_code_no_dot is_known_attribute_consulted.2.2

/-- C33 at a concrete input: `unread_payloads_class`, whose method carries two
`Exceptions` and two `Code` attributes. -/
theorem matched_attributes_retained_witness :
    unread_payloads_class.length < 2 ^ 32 ∧
    ((is_known_attribute (some (ascii "Signature")) = true ∧
      is_known_attribute (some (ascii "Exceptions")) = true ∧
      is_known_attribute (some (ascii "Code")) = true) ∧
    ∃ pool0 o2, pool_as_read unread_payloads_class = .ok (pool0, o2) ∧
      PoolConv pool0 unread_payloads_class_decoded.constant_pool ∧
      ∀ a, attribute_of_class unread_payloads_class_decoded a →
        ∀ pv, PoolConv pool0 pv →
          (attribute_named pv a "Signature" ∨ attribute_named pv a "Exceptions" ∨
            attribute_named pv a "Code") →
          0 < a.attribute_length →
          ∃ bytes, a.info = some bytes ∧ bytes.length = a.attribute_length) :=
  ⟨by decide, matched_attributes_retained unread_payloads_class (by decide) 114 true
    unread_payloads_class_decoded (by decide)⟩

/-! ## Which attribute decides a derived view -/

/-- With `includecode`, the scan reads the `code_length` field of every
attribute named `Code`. -/
theorem scan_method_attributes_code_min (pool : List cp_info) (attrs : List attribute_info)
    (st r : Option Bytes × Nat × Option Bytes)
    (h : scan_method_attributes pool true attrs st = .ok r) :
    ∀ a ∈ attrs, string_from_cp pool a.attribute_name_index = .ok (ascii "Code") →
      8 ≤ (payload a.info).length := by
  intro a ha hname
  obtain ⟨pre, post, hsplit⟩ := List.append_of_mem ha
  rw [hsplit] at h
  obtain ⟨st1, h1⟩ := scan_method_attributes_append pool true pre (a :: post) st r h
  exact (scan_method_attributes_at_code pool a post hname st1 r h1).1

theorem code_from_last_of_scan (pool0 p : List cp_info)
    (hname : ∀ idx, string_from_cp pool0 idx = .ok (ascii "Code") ↔
      string_from_cp p idx = .ok (ascii "Code"))
    (attrs : List attribute_info) (r : Option Bytes × Nat × Option Bytes)
    (m0 jm : JavaMethod)
    (hscan : scan_method_attributes p true attrs (none, 0, none) = .ok r)
    (h0 : m0.code = none) (h0c : m0.codelen = 0)
    (hset : javamethod_set_code m0 r.2.2 r.2.1 = .ok jm) :
    code_from_last pool0 attrs jm.code jm.codelen := by
  constructor
  · intro hno
    obtain ⟨h1, h2⟩ := scan_method_attributes_keeps_code p attrs
      (fun b hb hx => hno b hb ((hname _).mpr hx)) none 0 none r hscan
    rw [h2] at hset
    simp only [javamethod_set_code, Exec.pure_eq, Exec.ok.injEq] at hset
    subst hset
    exact ⟨h0, h0c⟩
  · intro pre a post hsplit ha hpost
    rw [hsplit] at hscan
    obtain ⟨h8, hl, hcode⟩ := scan_method_attributes_last_code p pre post a
      ((hname _).mp ha) (fun b hb hx => hpost b hb ((hname _).mpr hx)) _ r hscan
    rw [hcode, hl] at hset
    obtain ⟨hz, hnz⟩ := javamethod_set_code_eq_ok m0 jm _ _ h0 h0c hset
    refine ⟨?_, hz, ?_⟩
    · by_cases hzero : code_length_field (payload a.info) = 0
      · omega
      · obtain ⟨hle, -, -⟩ := hnz hzero
        simp only [List.length_drop] at hle
        unfold code_length_field at *
        omega
    · intro hne
      obtain ⟨-, k1, k2⟩ := hnz hne
      exact ⟨k1, k2⟩

theorem exceptions_from_first_of_extract (pool0 pb pa : List cp_info)
    (hsize : pool0.length ≤ 65535) (hc0 : PoolConv pool0 pb)
    (attrs : List attribute_info)
    (hlens : ∀ a ∈ attrs, (payload a.info).length < 2 ^ 32)
    (exc : Option (List Nat))
    (hexc : extract_exceptions pb attrs = .ok (pa, exc)) :
    exceptions_from_first pool0 attrs (exc.map (fun ptrs => ptrs.map (cp_cstr pa))) := by
  obtain ⟨hnone, hfirst⟩ := extract_exceptions_eq_ok pb attrs hlens pa exc hexc
  have hname : ∀ idx, string_from_cp pool0 idx = .ok (ascii "Exceptions") ↔
      string_from_cp pb idx = .ok (ascii "Exceptions") := fun idx =>
    string_from_cp_conv _ _ hc0 idx _ ascii_exceptions_no_slash ascii_exceptions_no_dot
  constructor
  · intro hno
    rw [hnone (fun a ha hx => hno a ha ((hname _).mpr hx))]
    rfl
  · intro pre a post hsplit hpre ha
    obtain ⟨h2, hzero, hposk⟩ := hfirst pre a post hsplit
      (fun b hb hx => hpre b hb ((hname _).mpr hx)) ((hname _).mp ha)
    refine ⟨h2, ?_, ?_⟩
    · intro hz
      rw [hzero hz]
      rfl
    · intro hk
      obtain ⟨ptrs, hex, hplen, hent⟩ := hposk hk
      refine ⟨ptrs.map (cp_cstr pa), by rw [hex]; rfl, by simp [hplen], ?_⟩
      intro t ht
      obtain ⟨hfit, j, s, hp, hn, hs⟩ := hent t ht
      obtain ⟨s0, hn0, hs0⟩ := converted_from_origin hc0 _ j s hn hs
      obtain ⟨hpos, hdec⟩ := stored_index_pos _ _ hsize (class_name_at_lt hn0).1
      rw [hdec] at hn0
      refine ⟨hfit, hpos, j, s0, hn0, ?_⟩
      rw [List.getElem?_map, hp]
      simp only [Option.map_some']
      rw [cp_cstr_converted _ _ _ _ hs0]

theorem signature_from_last_of_scan (pool0 pv : List cp_info) (hsize : pool0.length ≤ 65535)
    (hconv : PoolConv pool0 pv) (attrs : List attribute_info) (r : Option Bytes)
    (h : scan_signature pv attrs none = .ok r) : signature_from_last pool0 pv attrs r := by
  have hsz : pv.length ≤ 65535 := by
    rw [← poolConv_length hconv]
    exact hsize
  obtain ⟨h1, h2⟩ := signature_resolved_of_scan _ hsz _ _ h
  have hname : ∀ idx, string_from_cp pool0 idx = .ok (ascii "Signature") ↔
      string_from_cp pv idx = .ok (ascii "Signature") := fun idx =>
    string_from_cp_conv _ _ hconv idx _ ascii_signature_no_slash ascii_signature_no_dot
  exact ⟨fun hno => h1 (fun a ha hx => hno a ha ((hname _).mpr hx)),
    fun pre a post hsplit ha hpost => h2 pre a post hsplit ((hname _).mp ha)
      (fun b hb hx => hpost b hb ((hname _).mpr hx))⟩

/-- The derived views of a returned class, record by record, against the
pool as read `pool0`; `pv` is the pool from which the signature of the record is
read. -/
theorem javaclass_new_ok_views (classbytes : Bytes) (length : Nat) (includecode : Bool)
    (c : JavaClass) (h : javaclass_new classbytes length includecode = .ok c) :
    ∃ pool0 o2, pool_as_read classbytes = .ok (pool0, o2) ∧
      PoolConv pool0 c.constant_pool ∧
      scan_signature c.constant_pool c.attributes none = .ok c._signature ∧
      (∀ (i : Nat) (f : field_info), c.fields[i]? = some f →
        ∃ jfs jf pv, c._fields = some jfs ∧ jfs[i]? = some jf ∧ PoolConv pool0 pv ∧
          scan_signature pv f.attributes none = .ok jf.signature) ∧
      (∀ (i : Nat) (m : method_info), c.methods[i]? = some m →
        ∃ jms jm pv, c._methods = some jms ∧ jms[i]? = some jm ∧ PoolConv pool0 pv ∧
          scan_signature pv m.attributes none = .ok jm.signature ∧
          exceptions_from_first pool0 m.attributes jm.exceptions ∧
          (includecode = true →
            code_from_last pool0 m.attributes jm.code jm.codelen ∧
            ∀ a ∈ m.attributes, attribute_named pool0 a "Code" →
              8 ≤ (payload a.info).length)) := by
  obtain ⟨pool0, o2, p1, hpar, -, hconv1, hconv2, hfld, hmeth, hlens, hsig⟩ :=
    javaclass_new_ok_members (fun _ _ => True) (fun _ => trivial)
      (fun _ _ _ _ _ _ => trivial) _ _ _ _ h
  have hsize := pool_as_read_length _ _ _ hpar
  have hfinal : PoolConv pool0 c.constant_pool := poolConv_trans hconv1 hconv2
  refine ⟨pool0, o2, hpar, hfinal, hsig, ?_, ?_⟩
  · intro i f hi
    rcases hfld with ⟨-, jfs, hjfs, hpass⟩ | ⟨-, -, hnil⟩
    swap
    · rw [hnil] at hi
      simp at hi
    obtain ⟨-, heach⟩ := javaclass_new_fields_each _ _ _ hpass
    obtain ⟨jf, name, descriptor, hjf, -, -, hscan, -, -, -⟩ := heach i f hi
    exact ⟨jfs, jf, p1, hjfs, hjf, hconv1, hscan⟩
  · intro i m hi
    rcases hmeth with ⟨-, jms, hjms, hpass⟩ | ⟨-, -, hnil⟩
    swap
    · rw [hnil] at hi
      simp at hi
    obtain ⟨-, heach⟩ := javaclass_new_methods_each (fun _ => True)
      (fun _ _ _ _ _ => trivial) _ _ _ _ _ trivial hpass
    obtain ⟨jm, pb, pa, exc, hjm, hcb, -, hexc, hca, -, -, hscan, -, -, -, hje⟩ := heach i m hi
    have hmem : m ∈ c.methods := by
      obtain ⟨hlt, heq⟩ := List.getElem?_eq_some.mp hi
      rw [← heq]
      exact List.getElem_mem hlt
    have hc0 : PoolConv pool0 pb := poolConv_trans hconv1 hcb
    have hba := extract_exceptions_conv _ _ _ _ hexc
    refine ⟨jms, jm, pa, hjms, hjm, poolConv_trans hc0 hba, hscan, ?_, ?_⟩
    · rw [hje]
      exact exceptions_from_first_of_extract pool0 pb pa hsize hc0 _
        (fun a ha => hlens m hmem a ha) exc hexc
    · intro hic
      subst hic
      obtain ⟨-, hall⟩ := javaclass_new_methods_conv _ _ _ _ hpass
      obtain ⟨jm1, p, r, m0, hjm1, hconvp, hscanp, h0, h0c, hset⟩ := hall i m hi
      have hjeq : jm1 = jm := by
        have := hjm1.symm.trans hjm
        simpa using this
      subst hjeq
      have hname : ∀ idx, string_from_cp pool0 idx = .ok (ascii "Code") ↔
          string_from_cp p idx = .ok (ascii "Code") := fun idx =>
        (string_from_cp_conv _ _ hfinal idx _ ascii_code_no_slash ascii_code_no_dot).trans
          (string_from_cp_conv _ _ hconvp idx _ ascii_code_no_slash ascii_code_no_dot).symm
      exact ⟨code_from_last_of_scan pool0 p hname _ r m0 jm1 hscanp h0 h0c hset,
        fun a ha hn => scan_method_attributes_code_min p _ _ r hscanp a ha ((hname _).mp hn)⟩

/-! ## Code payloads shorter than the bytes read from them -/

/-- Where the decode without `includecode` returns a class, the decode with
it returns that class with the bytecode added, or reads outside the payload
of a Code attribute. -/
theorem javaclass_new_true_of_false (classbytes : Bytes) (length : Nat) (c : JavaClass)
    (h : javaclass_new classbytes length false = .ok c) :
    (∃ c', javaclass_new classbytes length true = .ok c' ∧ c = erase_codes c') ∨
      javaclass_new classbytes length true = .undefined := by
  obtain ⟨m1, m2, M1, M2, rest, raw, hcb, hle, hparse, hviews⟩ :=
    javaclass_new_ok_struct _ _ _ _ h
  have hbody : javaclass_new classbytes length true = javaclass_new_views raw true := by
    rw [hcb, javaclass_new_header, if_neg (by omega)]
    unfold javaclass_new_body
    rw [← hcb, hparse]
    simp
  rw [hbody]
  rcases javaclass_new_views_true _ _ hviews with ⟨c', hc'⟩ | hu
  · refine Or.inl ⟨c', hc', ?_⟩
    have hv := javaclass_new_views_erase _ _ hc'
    rw [hviews] at hv
    cases hv
    rfl
  · exact Or.inr hu

/-- The decoder makes no length check before it reads a Code payload: when
the decode without `includecode` returns a class one of whose methods has an
attribute named `Code` with fewer than 8 payload bytes, or whose last
attribute named `Code` has fewer than `8 + code_length` payload bytes, the
decode with `includecode` reads outside that payload. -/
theorem short_code_payload_overreads (classbytes : Bytes) (length : Nat) (c : JavaClass)
    (h : javaclass_new classbytes length false = .ok c)
    (pool0 : List cp_info) (o2 : Nat) (hpar : pool_as_read classbytes = .ok (pool0, o2))
    (m : method_info) (hm : m ∈ c.methods)
    (pre : List attribute_info) (a : attribute_info) (post : List attribute_info)
    (hsplit : m.attributes = pre ++ a :: post) (hname : attribute_named pool0 a "Code")
    (hshort : (payload a.info).length < 8 ∨
      ((∀ b ∈ post, ¬ attribute_named pool0 b "Code") ∧
        (payload a.info).length < 8 + code_length_field (payload a.info))) :
    javaclass_new classbytes length true = .undefined := by
  rcases javaclass_new_true_of_false _ _ _ h with ⟨c', hc', he⟩ | hu
  swap
  · exact hu
  exfalso
  obtain ⟨pool0a, o2a, hpara, -, -, -, hmeth⟩ := javaclass_new_ok_views _ _ _ _ hc'
  have hsame := hpara.symm.trans hpar
  simp only [Exec.ok.injEq, Prod.mk.injEq] at hsame
  obtain ⟨rfl, rfl⟩ := hsame
  have hms : c.methods = c'.methods := by
    rw [he]
    rfl
  rw [hms] at hm
  obtain ⟨i, hi⟩ := List.mem_iff_getElem?.mp hm
  obtain ⟨jms, jm, pv, -, -, -, -, -, hcode⟩ := hmeth i m hi
  obtain ⟨hlast, hmin⟩ := hcode rfl
  have hmem : a ∈ m.attributes := by rw [hsplit]; simp
  rcases hshort with h8 | ⟨hpost, hL⟩
  · have := hmin a hmem hname
    omega
  · have := (hlast.2 pre a post hsplit hname hpost).1
    omega

/-- C10 (amended).  First part: on every input for which `javaclass_new` with
`includecode = TRUE` returns a class, every method has a descriptor, and for a
method with a Code attribute (the last one, if it has several) whose payload
holds at least `8 + code_length` bytes, `code_length` being the big-endian
field at payload bytes 4..7: when `code_length` is not zero, the bytecode blob
is present, its length `codelen` equals `code_length`, and its bytes are the
`code_length` payload bytes from payload offset 8 (so the blob is non-empty);
when `code_length` is zero the blob is absent and `codelen` is 0.  Second
part: the decoder does not check that the payload is that long; when the
decode with `includecode = FALSE` returns a class that has a method whose last
Code attribute holds fewer than `8 + code_length` payload bytes, the decode
with `includecode = TRUE` reads outside that payload, which is undefined
behaviour. -/
theorem code_blob_of_code_attribute (classbytes : Bytes) (length : Nat) :
    (∀ (c : JavaClass), javaclass_new classbytes length true = .ok c →
      ∀ (i : Nat) (m : method_info), c.methods[i]? = some m →
      ∀ (pre post : List attribute_info) (a : attribute_info),
        m.attributes = pre ++ a :: post →
        string_from_cp c.constant_pool a.attribute_name_index = .ok (ascii "Code") →
        (∀ b ∈ post,
          string_from_cp c.constant_pool b.attribute_name_index ≠ .ok (ascii "Code")) →
        8 + code_length_field (payload a.info) ≤ (payload a.info).length →
        ∃ jms jm, c._methods = some jms ∧ jms[i]? = some jm ∧
          (code_length_field (payload a.info) ≠ 0 →
            jm.code
              = some (((payload a.info).drop 8).take (code_length_field (payload a.info))) ∧
            jm.codelen = code_length_field (payload a.info) ∧
            jm.code ≠ some []) ∧
          (code_length_field (payload a.info) = 0 → jm.code = none ∧ jm.codelen = 0)) ∧
    (∀ (c : JavaClass), javaclass_new classbytes length false = .ok c →
      ∀ (i : Nat) (m : method_info), c.methods[i]? = some m →
      ∀ (pre post : List attribute_info) (a : attribute_info),
        m.attributes = pre ++ a :: post →
        string_from_cp c.constant_pool a.attribute_name_index = .ok (ascii "Code") →
        (∀ b ∈ post,
          string_from_cp c.constant_pool b.attribute_name_index ≠ .ok (ascii "Code")) →
        (payload a.info).length < 8 + code_length_field (payload a.info) →
        javaclass_new classbytes length true = .undefined) := by
  constructor
  · intro c h i m hm pre post a hattrs ha hpost hfit
    obtain ⟨minor, major, raw, hparse, hviews⟩ := javaclass_new_ok_parse _ _ _ _ h
    obtain ⟨hmeth, hcase⟩ := javaclass_new_views_methods_eq raw c hviews
    rcases hcase with ⟨_, pool, jms, hjms, hc⟩ | ⟨hzero, _⟩
    · obtain ⟨_, hall⟩ := javaclass_new_methods_conv _ _ _ _ hjms
      rw [hmeth] at hm
      obtain ⟨jm, p, r, m0, hjm, hconv, hscan, h0, h0a, hset⟩ := hall i m hm
      have ha1 : string_from_cp p a.attribute_name_index = .ok (ascii "Code") :=
        (string_from_cp_conv p _ hconv _ _ ascii_code_no_slash ascii_code_no_dot).mpr ha
      have hpost1 : ∀ b ∈ post,
          string_from_cp p b.attribute_name_index ≠ .ok (ascii "Code") := fun b hb hn =>
        hpost b hb
          ((string_from_cp_conv p _ hconv _ _ ascii_code_no_slash ascii_code_no_dot).mp hn)
      rw [hattrs] at hscan
      obtain ⟨h8, hlen, hcode⟩ :=
        scan_method_attributes_last_code p pre post a ha1 hpost1 _ r hscan
      rw [hcode, hlen] at hset
      obtain ⟨hz, hnz⟩ := javamethod_set_code_eq_ok m0 jm _ _ h0 h0a hset
      refine ⟨jms, jm, hc, hjm, ?_, hz⟩
      intro hne
      obtain ⟨hle, h1, h2⟩ := hnz hne
      refine ⟨h1, h2, ?_⟩
      rw [h1]
      intro hnil
      have hlen0 := congrArg (fun o => (o.getD []).length) hnil
      simp only [Option.getD_some, List.length_take, List.length_drop,
        List.length_nil] at hlen0
      unfold code_length_field at *
      omega
    · rw [hmeth, javaclass_new_parse_methods_count _ _ _ _ _ _ _ hparse hzero] at hm
      simp at hm
  · intro c h i m hm pre post a hattrs ha hpost hshort
    obtain ⟨pool0, o2, hpar, hfinal, -, -, -⟩ := javaclass_new_ok_views _ _ _ _ h
    have hname : ∀ idx, string_from_cp pool0 idx = .ok (ascii "Code") ↔
        string_from_cp c.constant_pool idx = .ok (ascii "Code") := fun idx =>
      string_from_cp_conv _ _ hfinal idx _ ascii_code_no_slash ascii_code_no_dot
    have hmem : m ∈ c.methods := by
      obtain ⟨hlt, heq⟩ := List.getElem?_eq_some.mp hm
      rw [← heq]
      exact List.getElem_mem hlt
    exact short_code_payload_overreads classbytes length c h pool0 o2 hpar m hmem pre a post
      hattrs ((hname _).mpr ha)
      (Or.inr ⟨fun b hb hn => hpost b hb ((hname _).mp hn), hshort⟩)

/-- C10 (amended), at two concrete inputs: `one_method_class`, whose method
has one byte of bytecode, for the first part, and `overread_code_class`, whose
Code attribute holds 9 bytes and the `code_length` 9, for the second. -/
theorem code_blob_of_code_attribute_witness :
    (8 + code_length_field (payload one_method_class_code.info)
        ≤ (payload one_method_class_code.info).length ∧
      ∃ jms jm, one_method_class_decoded._methods = some jms ∧ jms[0]? = some jm ∧
        (code_length_field (payload one_method_class_code.info) ≠ 0 →
          jm.code = some (((payload one_method_class_code.info).drop 8).take
            (code_length_field (payload one_method_class_code.info))) ∧
          jm.codelen = code_length_field (payload one_method_class_code.info) ∧
          jm.code ≠ some []) ∧
        (code_length_field (payload one_method_class_code.info) = 0 →
          jm.code = none ∧ jm.codelen = 0)) ∧
    ((payload overread_code_attribute.info).length
        < 8 + code_length_field (payload overread_code_attribute.info) ∧
      javaclass_new overread_code_class 71 true = .undefined) :=
  ⟨⟨by decide,
    (code_blob_of_code_attribute one_method_class 75).1 one_method_class_decoded (by decide)
      0 ⟨1, 2, 3, 1, [one_method_class_code]⟩ (by decide) [] [] one_method_class_code
      (by decide) (by decide) (by simp) (by decide)⟩,
   ⟨by decide,
    (code_blob_of_code_attribute overread_code_class 71).2 overread_code_class_decoded
      (by decide) 0 overread_code_method_info (by decide) [] [] overread_code_attribute
      rfl (by decide) (by simp) (by decide)⟩⟩

/-- C10 (counterexample).  A class file with one method whose Code attribute
has `code_length` 0: `javaclass_new` with `includecode = TRUE` returns a
class, and the bytecode blob of the method is absent, not a non-empty blob.
And `overread_code_class`, whose method has a Code attribute of 9 payload
bytes with `code_length` 9: only one payload byte lies at offset 8, so no blob
can hold 9 payload bytes from there; the decoder makes no check and the decode
with `includecode = TRUE` copies 9 bytes starting at that byte. -/
theorem code_blob_absent_or_past_payload :
    javaclass_new
      [0xCA, 0xFE, 0xBA, 0xBE, 0, 0, 0, 0x32, 0, 6,
       1, 0, 1, 0x41,
       7, 0, 1,
       1, 0, 1, 0x6D,
       1, 0, 3, 0x28, 0x29, 0x56,
       1, 0, 4, 0x43, 0x6F, 0x64, 0x65,
       0, 1, 0, 2, 0, 0,
       0, 0,
       0, 0,
       0, 1,
       0, 1, 0, 3, 0, 4, 0, 1,
       0, 5, 0, 0, 0, 12, 0, 0, 0, 0, 0, 0, 0, 0, 0, 0, 0, 0,
       0, 0] 74 true
    = .ok
      { magic_number := 0xCAFEBABE, minor_version := 0, major_version := 50,
        constant_pool_count := 5,
        constant_pool := [⟨1, .str [0x41]⟩, ⟨7, .index 0⟩, ⟨1, .str [0x6D]⟩,
          ⟨1, .str [0x28, 0x29, 0x56]⟩, ⟨1, .str [0x43, 0x6F, 0x64, 0x65]⟩],
        access_flags := 1, this_class := 1, super_class := 65535,
        interfaces_count := 0, interfaces := [], fields_count := 0, fields := [],
        methods_count := 1,
        methods := [⟨1, 2, 3, 1, [⟨4, 12, some [0, 0, 0, 0, 0, 0, 0, 0, 0, 0, 0, 0]⟩]⟩],
        attributes_count := 0, attributes := [],
        _package := none, _classname := some [0x41], _interfaces := none, _fields := none,
        _methods := some [⟨1, some [0x6D], some [0x28, 0x29, 0x56], none, none, none, 0⟩],
        _signature := none } ∧
    javaclass_new overread_code_class 71 false = .ok overread_code_class_decoded ∧
    overread_code_class_decoded.methods = [overread_code_method_info] ∧
    overread_code_method_info.attributes = [overread_code_attribute] ∧
    string_from_cp overread_code_class_decoded.constant_pool
      overread_code_attribute.attribute_name_index = .ok (ascii "Code") ∧
    (payload overread_code_attribute.info).length = 9 ∧
    code_length_field (payload overread_code_attribute.info) = 9 ∧
    ((payload overread_code_attribute.info).drop 8).take 9 = [0xB1] ∧
    javaclass_new overread_code_class 71 true = .undefined := by
  decide

/-! ## The pool of a returned class against the pool as read -/

theorem javaclass_new_methods_inv (P : List cp_info → Prop)
    (hstep : ∀ p i q, P p → classname_to_external_format_at p i = .ok q → P q)
    (includecode : Bool) (ms : List method_info)
    (pool final : List cp_info) (jms : List JavaMethod) (hP : P pool)
    (h : javaclass_new_methods includecode ms pool = .ok (final, jms)) : P final := by
  induction ms generalizing pool jms with
  | nil =>
    simp only [javaclass_new_methods, Exec.pure_eq, Exec.ok.injEq, Prod.mk.injEq] at h
    rw [← h.1]
    exact hP
  | cons m rest ih =>
    unfold javaclass_new_methods at h
    simp only [Exec.bind_eq_ok, Prod.exists, Exec.pure_eq, Exec.ok.injEq, Prod.mk.injEq] at h
    obtain ⟨n1, _, n2, _, p, exc, hexc, sig, cl, code, hscan, jm, hset, f, jms1, hrest,
      rfl, rfl⟩ := h
    exact ih p jms1 (extract_exceptions_inv P hstep _ _ _ _ hP hexc) hrest

theorem javaclass_new_views_methods_inv (P : List cp_info → Prop)
    (hstep : ∀ p i q, P p → classname_to_external_format_at p i = .ok q → P q)
    (c : JavaClass) (includecode : Bool)
    (pool pool1 : List cp_info) (ms : Option (List JavaMethod)) (hP : P pool)
    (h : javaclass_new_views_methods c includecode pool = .ok (pool1, ms)) : P pool1 := by
  unfold javaclass_new_views_methods at h
  split at h
  · simp only [Exec.bind_eq_ok, Prod.exists, Exec.pure_eq, Exec.ok.injEq, Prod.mk.injEq] at h
    obtain ⟨p, jms, hi, rfl, rfl⟩ := h
    exact javaclass_new_methods_inv P hstep _ _ _ _ _ hP hi
  · simp only [Exec.pure_eq, Exec.ok.injEq, Prod.mk.injEq] at h
    rw [← h.1]
    exact hP

/-- The pool of a returned class against the pool as read: `P` is a relation
to the pool as read that every in-place conversion keeps. -/
theorem javaclass_new_ok_pool_inv (P : List cp_info → List cp_info → Prop)
    (hrefl : ∀ p, P p p)
    (hstep : ∀ p0 p i q, P p0 p → classname_to_external_format_at p i = .ok q → P p0 q)
    (classbytes : Bytes) (length : Nat) (includecode : Bool)
    (c : JavaClass) (h : javaclass_new classbytes length includecode = .ok c) :
    ∃ pool0 o2, pool_as_read classbytes = .ok (pool0, o2) ∧ P pool0 c.constant_pool := by
  obtain ⟨m1, m2, M1, M2, rest, raw, hcb, hle, hparse, hviews⟩ :=
    javaclass_new_ok_struct _ _ _ _ h
  obtain ⟨cnt, o1, pool0, o2, af, tc, sc, pool1, o3, ic, ifs, o4, fc, fs, o5, mc, ms, o6,
    ac, ats, hcnt, hpool, hrefs, hifs, hfs, hms, hats, hraw⟩ :=
    javaclass_new_parse_eq_ok _ _ _ _ _ _ _ hparse
  obtain ⟨j, p1, ifs1, flds, p2, jms, sig, -, hvi, hvf, hvm, hvs, hc⟩ :=
    javaclass_new_views_eq_ok _ _ _ hviews
  have hpar : pool_as_read classbytes = .ok (pool0, o2) := by
    unfold pool_as_read
    rw [hcnt]
    exact hpool
  have hP1 := javaclass_new_parse_refs_inv (P pool0) (hstep pool0) _ _ _ _ _ _ _ _
    (hrefl pool0) hrefs
  have hraw1 : raw.constant_pool = pool1 := by rw [hraw]
  rw [hraw1] at hvi
  have hP2 := javaclass_new_views_interfaces_inv (P pool0) (hstep pool0) _ _ _ _ hP1 hvi
  have hP3 := javaclass_new_views_methods_inv (P pool0) (hstep pool0) _ _ _ _ _ hP2 hvm
  have hcp : c.constant_pool = p2 := by rw [hc]
  rw [hcp]
  exact ⟨pool0, o2, hpar, hP3⟩

/-- The signature found by the attribute search, against the pool as read. -/
theorem signature_reported_of_scan (pool0 pv : List cp_info) (hsize : pool0.length ≤ 65535)
    (hN : NamesConverted pool0 pv) (attrs : List attribute_info) (r : Option Bytes)
    (h : scan_signature pv attrs none = .ok r) : signature_reported pool0 attrs r := by
  obtain ⟨h1, h2⟩ :=
    signature_from_last_of_scan pool0 pv hsize (namesConverted_poolConv hN) attrs r h
  refine ⟨h1, fun pre a post hsplit ha hpost => ?_⟩
  obtain ⟨hl, hpos, text, htext, rfl⟩ := h2 pre a post hsplit ha hpost
  exact ⟨hl, hpos, reported_text_of_string_from_cp hN _ _ htext⟩

/-- C26, counterexample: in `shared_method_name_class` the name index of the
method (stored `0 1` at offset 39, re-based to 0) is the Utf8 entry `a/b` of
the pool as read, which is also the name entry of the this-class reference;
the class decodes, and the name of the method record in the list is `a.b`,
not the Utf8 entry `a/b` at the re-based index. -/
theorem shared_utf8_method_name_is_converted :
    javaclass_new shared_method_name_class 47 false
      = .ok shared_method_name_class_decoded ∧
    pool_as_read shared_method_name_class = .ok (shared_method_name_pool, 25) ∧
    read_u16 shared_method_name_class 39 = .ok (1, 41) ∧ dec16 1 = 0 ∧
    shared_method_name_class_decoded.methods[0]? = some shared_method_name_info ∧
    shared_method_name_info.name_index = 0 ∧
    shared_method_name_pool[0]? = some ⟨TAG_UTF8, .str (ascii "a/b")⟩ ∧
    class_name_at shared_method_name_pool 1 0 (ascii "a/b") ∧
    (∃ jm, javaclass_get_methods shared_method_name_class_decoded = some [jm] ∧
      javamethod_get_name jm = some (ascii "a.b")) ∧
    ascii "a.b" ≠ ascii "a/b" := by
  have hclass : javaclass_new shared_method_name_class 47 false
      = .ok shared_method_name_class_decoded := by decide
  have hpool : pool_as_read shared_method_name_class
      = .ok (shared_method_name_pool, 25) := by decide
  have hidx : read_u16 shared_method_name_class 39 = .ok (1, 41) := by decide
  have hne : ascii "a.b" ≠ ascii "a/b" := by decide
  exact ⟨hclass, hpool, hidx, rfl, rfl, rfl, rfl, ⟨rfl, rfl⟩, ⟨_, rfl, rfl⟩, hne⟩

/-- C26 (amended): for every class `javaclass_new` returns (stream shorter
than `2^32` bytes): the 16-bit field count is read after the interface list
and the method count after the field array; the raw field and method arrays
have exactly that many records, each read from the stream where the one before
it ends (`field_record_at`, `method_record_at`: flags, re-based name and
descriptor indices, attribute array); the descriptor arrays are `NULL` for a
count of 0 and otherwise hold one descriptor per record, in the same order,
whose access flags are the stored flags and whose name and descriptor are the
text reported for the Utf8 entries of the pool as read at the re-based name
and descriptor indices (`reported_text`): the C string of the entry, or, only
when the entry is also the name entry of a class entry of the pool, that
string with every `'/'` replaced by `'.'`.  The signature is absent without an
attribute named `Signature`; otherwise it is the text reported, in the same
sense, for the Utf8 entry at index (big-endian value of the first two payload
bytes) - 1 of the last such attribute (`signature_reported`); the class
signature is resolved in the same way from the top-level attribute array.  The
pool `praw` with which the arrays were read, and the pool of the returned
class, differ from the pool as read only in name entries of class entries,
which hold the converted name (`NamesConverted`). -/
theorem member_lists (classbytes : Bytes) (hlen : classbytes.length < 2 ^ 32)
    (length : Nat) (includecode : Bool) (c : JavaClass)
    (h : javaclass_new classbytes length includecode = .ok c) :
    ∃ pool0 o2 praw oF oM oA,
      pool_as_read classbytes = .ok (pool0, o2) ∧ NamesConverted pool0 praw ∧
      NamesConverted pool0 c.constant_pool ∧
      oF = o2 + 8 + 2 * c.interfaces_count ∧
      read_u16 classbytes oF = .ok (c.fields_count, oF + 2) ∧
      oM = (oF + 2 + fields_span c.fields) % 2 ^ 32 ∧
      read_u16 classbytes oM = .ok (c.methods_count, oM + 2) ∧
      oA = (oM + 2 + methods_span c.methods) % 2 ^ 32 ∧
      read_u16 classbytes oA = .ok (c.attributes_count, oA + 2) ∧
      read_attributes praw classbytes c.attributes_count (oA + 2) = .ok (c.attributes, length) ∧
      javaclass_get_field_number c = c.fields_count ∧
      c.fields.length = c.fields_count ∧
      (c.fields_count = 0 → javaclass_get_fields c = none) ∧
      (0 < c.fields_count →
        ∃ jfs, javaclass_get_fields c = some jfs ∧ jfs.length = c.fields_count ∧
          ∀ (i : Nat) (f : field_info), c.fields[i]? = some f →
            field_record_at praw classbytes
              ((oF + 2 + fields_span (c.fields.take i)) % 2 ^ 32) f ∧
            ∃ (jf : JavaField), jfs[i]? = some jf ∧
              jf.access_flags = f.access_flags ∧
              reported_text pool0 f.name_index (javafield_get_name jf) ∧
              reported_text pool0 f.descriptor_index (javafield_get_descriptor jf) ∧
              signature_reported pool0 f.attributes (javafield_get_signature jf)) ∧
      javaclass_get_method_number c = c.methods_count ∧
      c.methods.length = c.methods_count ∧
      (c.methods_count = 0 → javaclass_get_methods c = none) ∧
      (0 < c.methods_count →
        ∃ jms, javaclass_get_methods c = some jms ∧ jms.length = c.methods_count ∧
          ∀ (i : Nat) (m : method_info), c.methods[i]? = some m →
            method_record_at praw classbytes
              ((oM + 2 + methods_span (c.methods.take i)) % 2 ^ 32) m ∧
            ∃ (jm : JavaMethod), jms[i]? = some jm ∧
              jm.access_flags = m.access_flags ∧
              reported_text pool0 m.name_index (javamethod_get_name jm) ∧
              reported_text pool0 m.descriptor_index (javamethod_get_descriptor jm) ∧
              signature_reported pool0 m.attributes (javamethod_get_signature jm)) ∧
      signature_reported pool0 c.attributes (javaclass_get_signature c) := by
  obtain ⟨pool0a, o2a, praw, oF, oM, oA, hpara, hNraw, -, hic, hoF, hfc, hrf, hmc, hrm, hac,
    hra⟩ := javaclass_new_ok_layout_inv NamesConverted namesConverted_refl
      namesConverted_step _ hlen _ _ _ h
  obtain ⟨pool0, o2, p1, hpar, hN1, hconv1, hconv2, hfld, hmeth, hlens, hsig⟩ :=
    javaclass_new_ok_members NamesConverted namesConverted_refl namesConverted_step
      _ _ _ _ h
  obtain ⟨pool0b, o2b, hparb, hNfinal⟩ :=
    javaclass_new_ok_pool_inv NamesConverted namesConverted_refl namesConverted_step
      _ _ _ _ h
  have hsame := hpara.symm.trans hpar
  simp only [Exec.ok.injEq, Prod.mk.injEq] at hsame
  obtain ⟨rfl, rfl⟩ := hsame
  have hsameb := hpar.symm.trans hparb
  simp only [Exec.ok.injEq, Prod.mk.injEq] at hsameb
  obtain ⟨rfl, rfl⟩ := hsameb
  have hsize := pool_as_read_length _ _ _ hpar
  obtain ⟨hfF, -, -⟩ := read_u16_eq_ok _ _ _ _ hfc
  obtain ⟨hfM, -, -⟩ := read_u16_eq_ok _ _ _ _ hmc
  obtain ⟨hfA, -, -⟩ := read_u16_eq_ok _ _ _ _ hac
  obtain ⟨hflen, hoM, hfrec⟩ := read_fields_layout _ _ hlen _ _ (by omega) _ _ hrf
  obtain ⟨hmlen, hoA, hmrec⟩ := read_methods_layout _ _ hlen _ _ (by omega) _ _ hrm
  refine ⟨pool0a, o2a, praw, oF, oM, oA, hpar, hNraw, hNfinal, hoF, hfc, hoM, hmc, hoA, hac,
    hra, rfl, hflen, ?_, ?_, rfl, hmlen, ?_, ?_,
    signature_reported_of_scan _ _ hsize hNfinal _ _ hsig⟩
  · intro hz
    rcases hfld with ⟨hpos, -⟩ | ⟨-, hnone, -⟩
    · omega
    · exact hnone
  · intro hpos
    rcases hfld with ⟨-, jfs, hjfs, hpass⟩ | ⟨hneg, -, -⟩
    swap
    · exact absurd hpos hneg
    obtain ⟨hjlen, heach⟩ := javaclass_new_fields_each _ _ _ hpass
    refine ⟨jfs, hjfs, by rw [hjlen, hflen], ?_⟩
    intro i f hi
    obtain ⟨jf, name, descriptor, hjf, hname, hdesc, hscan, hflags, hjn, hjd⟩ := heach i f hi
    refine ⟨hfrec i f hi, jf, hjf, hflags, ?_, ?_,
      signature_reported_of_scan _ _ hsize hN1 _ _ hscan⟩
    · unfold javafield_get_name
      rw [hjn]
      exact reported_text_of_string_from_cp hN1 _ _ hname
    · unfold javafield_get_descriptor
      rw [hjd]
      exact reported_text_of_string_from_cp hN1 _ _ hdesc
  · intro hz
    rcases hmeth with ⟨hpos, -⟩ | ⟨-, hnone, -⟩
    · omega
    · exact hnone
  · intro hpos
    rcases hmeth with ⟨-, jms, hjms, hpass⟩ | ⟨hneg, -, -⟩
    swap
    · exact absurd hpos hneg
    obtain ⟨hjlen, heach⟩ := javaclass_new_methods_each (NamesConverted pool0a)
      (namesConverted_step pool0a) _ _ _ _ _ hN1 hpass
    refine ⟨jms, hjms, by rw [hjlen, hmlen], ?_⟩
    intro i m hi
    obtain ⟨jm, pb, pa, exc, hjm, hcb, hNa, hexc, hca, hun, hud, hscan, hflags, hjn, hjd, -⟩ :=
      heach i m hi
    have hba := extract_exceptions_conv _ _ _ _ hexc
    refine ⟨hmrec i m hi, jm, hjm, hflags, ?_, ?_,
      signature_reported_of_scan _ _ hsize hNa _ _ hscan⟩
    · unfold javamethod_get_name
      rw [hjn]
      exact reported_text_of_string_from_cp hNa _ _
        (string_from_cp_cp_cstr ((utf8_at_conv hba _).mp hun))
    · unfold javamethod_get_descriptor
      rw [hjd]
      exact reported_text_of_string_from_cp hNa _ _
        (string_from_cp_cp_cstr ((utf8_at_conv hba _).mp hud))

/-- C26 (amended) at a concrete input: `shared_name_class`, one field with a
Signature attribute and no method. -/
theorem member_lists_witness :
    shared_name_class.length < 2 ^ 32 ∧
    (∃ pool0 o2 praw oF oM oA,
      pool_as_read shared_name_class = .ok (pool0, o2) ∧ NamesConverted pool0 praw ∧
      NamesConverted pool0 shared_name_class_decoded.constant_pool ∧
      oF = o2 + 8 + 2 * shared_name_class_decoded.interfaces_count ∧
      read_u16 shared_name_class oF = .ok (shared_name_class_decoded.fields_count, oF + 2) ∧
      oM = (oF + 2 + fields_span shared_name_class_decoded.fields) % 2 ^ 32 ∧
      read_u16 shared_name_class oM = .ok (shared_name_class_decoded.methods_count, oM + 2) ∧
      oA = (oM + 2 + methods_span shared_name_class_decoded.methods) % 2 ^ 32 ∧
      read_u16 shared_name_class oA
        = .ok (shared_name_class_decoded.attributes_count, oA + 2) ∧
      read_attributes praw shared_name_class shared_name_class_decoded.attributes_count
          (oA + 2) = .ok (shared_name_class_decoded.attributes, 65) ∧
      javaclass_get_field_number shared_name_class_decoded
        = shared_name_class_decoded.fields_count ∧
      shared_name_class_decoded.fields.length = shared_name_class_decoded.fields_count ∧
      (shared_name_class_decoded.fields_count = 0 →
        javaclass_get_fields shared_name_class_decoded = none) ∧
      (0 < shared_name_class_decoded.fields_count →
        ∃ jfs, javaclass_get_fields shared_name_class_decoded = some jfs ∧
          jfs.length = shared_name_class_decoded.fields_count ∧
          ∀ (i : Nat) (f : field_info), shared_name_class_decoded.fields[i]? = some f →
            field_record_at praw shared_name_class
              ((oF + 2 + fields_span (shared_name_class_decoded.fields.take i)) % 2 ^ 32) f ∧
            ∃ (jf : JavaField), jfs[i]? = some jf ∧
              jf.access_flags = f.access_flags ∧
              reported_text pool0 f.name_index (javafield_get_name jf) ∧
              reported_text pool0 f.descriptor_index (javafield_get_descriptor jf) ∧
              signature_reported pool0 f.attributes (javafield_get_signature jf)) ∧
      javaclass_get_method_number shared_name_class_decoded
        = shared_name_class_decoded.methods_count ∧
      shared_name_class_decoded.methods.length = shared_name_class_decoded.methods_count ∧
      (shared_name_class_decoded.methods_count = 0 →
        javaclass_get_methods shared_name_class_decoded = none) ∧
      (0 < shared_name_class_decoded.methods_count →
        ∃ jms, javaclass_get_methods shared_name_class_decoded = some jms ∧
          jms.length = shared_name_class_decoded.methods_count ∧
          ∀ (i : Nat) (m : method_info), shared_name_class_decoded.methods[i]? = some m →
            method_record_at praw shared_name_class
              ((oM + 2 + methods_span (shared_name_class_decoded.methods.take i)) % 2 ^ 32)
              m ∧
            ∃ (jm : JavaMethod), jms[i]? = some jm ∧
              jm.access_flags = m.access_flags ∧
              reported_text pool0 m.name_index (javamethod_get_name jm) ∧
              reported_text pool0 m.descriptor_index (javamethod_get_descriptor jm) ∧
              signature_reported pool0 m.attributes (javamethod_get_signature jm)) ∧
      signature_reported pool0 shared_name_class_decoded.attributes
        (javaclass_get_signature shared_name_class_decoded)) :=
  ⟨by decide, member_lists shared_name_class (by decide) 65 false shared_name_class_decoded
    (by decide)⟩

/-- C31, counterexample.  First input: for `overread_code_class` the decode
with `includecode = FALSE` returns a class whose method has one attribute named
`Code` (header at offset 54) of declared length 9 that holds the `code_length`
9, so its length is less than `8 + code_length`.  No length check is made: the
second pass with `includecode = TRUE` takes the pointer to payload offset 8,
where one byte of the payload is left, and `javamethod_set_code` copies 9
bytes from there, a read outside the payload.  Second input:
`javaclass_new` with `includecode = TRUE` returns a class for
`unread_payloads_class`, although the first `Code` attribute of its method
(header at offset 83) declares the length 8 and holds the `code_length` 9, and
the second `Exceptions` attribute (header at offset 75) declares the length 2
and holds the count 5: neither payload is read past its end, because the
bytecode is taken from the last `Code` attribute and the exception list from
the first `Exceptions` attribute. -/
theorem payload_reads_unchecked_or_not_made :
    (javaclass_new overread_code_class 71 false = .ok overread_code_class_decoded ∧
      overread_code_class_decoded.methods = [overread_code_method_info] ∧
      overread_code_method_info.attributes = [overread_code_attribute] ∧
      attribute_named overread_code_class_decoded.constant_pool overread_code_attribute
        "Code" ∧
      read_u32 overread_code_class 56 = .ok (9, 60) ∧
      overread_code_attribute.attribute_length = 9 ∧
      code_length_field (payload overread_code_attribute.info) = 9 ∧
      scan_method_attributes overread_code_class_decoded.constant_pool true
          overread_code_method_info.attributes (none, 0, none)
        = .ok (none, 9, some [0xB1]) ∧
      javamethod_set_code
          (javamethod_new 1 (some [0x6D]) (some [0x28, 0x29, 0x56]) none none)
          (some [0xB1]) 9 = .undefined ∧
      javaclass_new overread_code_class 71 true = .undefined) ∧
    (javaclass_new unread_payloads_class 114 true = .ok unread_payloads_class_decoded ∧
      pool_as_read unread_payloads_class = .ok (unread_payloads_pool, 47) ∧
      unread_payloads_class_decoded.methods = [unread_payloads_method_info] ∧
      unread_payloads_method_info.attributes[2]? = some unread_code_attribute ∧
      attribute_named unread_payloads_pool unread_code_attribute "Code" ∧
      read_u32 unread_payloads_class 85 = .ok (8, 89) ∧
      unread_code_attribute.attribute_length = 8 ∧
      read_u32 unread_payloads_class 93 = .ok (9, 97) ∧
      code_length_field (payload unread_code_attribute.info) = 9 ∧
      ¬ (8 + code_length_field (payload unread_code_attribute.info)
          ≤ unread_code_attribute.attribute_length) ∧
      unread_payloads_method_info.attributes[1]? = some unread_exceptions_attribute ∧
      attribute_named unread_payloads_pool unread_exceptions_attribute "Exceptions" ∧
      read_u32 unread_payloads_class 77 = .ok (2, 81) ∧
      unread_exceptions_attribute.attribute_length = 2 ∧
      be ((payload unread_exceptions_attribute.info).take 2) = 5 ∧
      ¬ (2 + 2 * be ((payload unread_exceptions_attribute.info).take 2)
          ≤ unread_exceptions_attribute.attribute_length)) := by
  have hfalse : javaclass_new overread_code_class 71 false
      = .ok overread_code_class_decoded := by decide
  have htrue : javaclass_new overread_code_class 71 true = .undefined := by decide
  have hnamed : attribute_named overread_code_class_decoded.constant_pool
      overread_code_attribute "Code" := by decide
  have h56 : read_u32 overread_code_class 56 = .ok (9, 60) := by decide
  have hL9 : code_length_field (payload overread_code_attribute.info) = 9 := by decide
  have hscan : scan_method_attributes overread_code_class_decoded.constant_pool true
      overread_code_method_info.attributes (none, 0, none)
        = .ok (none, 9, some [0xB1]) := by decide
  have hclass : javaclass_new unread_payloads_class 114 true
      = .ok unread_payloads_class_decoded := by decide
  have hpool : pool_as_read unread_payloads_class = .ok (unread_payloads_pool, 47) := by
    decide
  have hcode : attribute_named unread_payloads_pool unread_code_attribute "Code" := by
    decide
  have hexc : attribute_named unread_payloads_pool unread_exceptions_attribute
      "Exceptions" := by decide
  have h85 : read_u32 unread_payloads_class 85 = .ok (8, 89) := by decide
  have h93 : read_u32 unread_payloads_class 93 = .ok (9, 97) := by decide
  have h77 : read_u32 unread_payloads_class 77 = .ok (2, 81) := by decide
  have hL : code_length_field (payload unread_code_attribute.info) = 9 := by decide
  have hk : be ((payload unread_exceptions_attribute.info).take 2) = 5 := by decide
  refine ⟨⟨hfalse, rfl, rfl, hnamed, h56, rfl, hL9, hscan, rfl, htrue⟩,
    hclass, hpool, rfl, rfl, hcode, h85, rfl, h93, hL, ?_, rfl, hexc, h77, rfl, hk, ?_⟩
  · rw [hL]
    decide
  · rw [hk]
    decide

/-- C31 (amended).  `javaclass_new` makes no length check before the second
pass reads in a retained payload.  First part, for every class that
`javaclass_new` returns here, that is for every decode that ends without a
read outside the object it reads from (such a read has no defined behaviour,
and the run is given no result): with attribute names resolved in the pool as
read, every attribute named `Signature` of the class, of a field or of a
method keeps a payload of its declared length, which is at least 2; the first
attribute named `Exceptions` of a method, with count `k`, has declared length
at least `2 + 2 * k`; and with `includecode = TRUE` every attribute named
`Code` of a method has declared length at least 8, and the last one, with
`code_length` `L`, at least `8 + L`.  Second part: when the decode with
`includecode = FALSE` returns a class that has a method with an attribute
named `Code` of declared length below 8, or whose last attribute named `Code`
has a declared length below `8 + L`, the decode with `includecode = TRUE`
reads outside that payload. -/
theorem view_reads_within_payload (classbytes : Bytes) (hlen : classbytes.length < 2 ^ 32)
    (length : Nat) :
    (∀ (includecode : Bool) (c : JavaClass),
      javaclass_new classbytes length includecode = .ok c →
      ∃ pool0 o2, pool_as_read classbytes = .ok (pool0, o2) ∧
        (∀ a, attribute_of_class c a → attribute_named pool0 a "Signature" →
          (payload a.info).length = a.attribute_length ∧ 2 ≤ a.attribute_length) ∧
        (∀ m ∈ c.methods,
          ∀ (pre : List attribute_info) (a : attribute_info) (post : List attribute_info),
            m.attributes = pre ++ a :: post →
            (∀ b ∈ pre, ¬ attribute_named pool0 b "Exceptions") →
            attribute_named pool0 a "Exceptions" →
            (payload a.info).length = a.attribute_length ∧
            2 + 2 * be ((payload a.info).take 2) ≤ a.attribute_length) ∧
        (includecode = true → ∀ m ∈ c.methods,
          (∀ a ∈ m.attributes, attribute_named pool0 a "Code" →
            (payload a.info).length = a.attribute_length ∧ 8 ≤ a.attribute_length) ∧
          (∀ (pre : List attribute_info) (a : attribute_info) (post : List attribute_info),
            m.attributes = pre ++ a :: post → attribute_named pool0 a "Code" →
            (∀ b ∈ post, ¬ attribute_named pool0 b "Code") →
            8 + code_length_field (payload a.info) ≤ a.attribute_length))) ∧
    (∀ (c : JavaClass), javaclass_new classbytes length false = .ok c →
      ∀ (pool0 : List cp_info) (o2 : Nat), pool_as_read classbytes = .ok (pool0, o2) →
      ∀ m ∈ c.methods,
        ∀ (pre : List attribute_info) (a : attribute_info) (post : List attribute_info),
          m.attributes = pre ++ a :: post → attribute_named pool0 a "Code" →
          (a.attribute_length < 8 ∨
            ((∀ b ∈ post, ¬ attribute_named pool0 b "Code") ∧
              a.attribute_length < 8 + code_length_field (payload a.info))) →
          (payload a.info).length = a.attribute_length ∧
          javaclass_new classbytes length true = .undefined) := by
  constructor
  · intro includecode c h
    obtain ⟨pool0, o2, hpar, hfinal, hsig, hfld, hmeth⟩ := javaclass_new_ok_views _ _ _ _ h
    obtain ⟨pool0a, o2a, hpara, hret⟩ := javaclass_new_ok_retained _ hlen _ _ _ h
    have hsame := hpara.symm.trans hpar
    simp only [Exec.ok.injEq, Prod.mk.injEq] at hsame
    obtain ⟨rfl, rfl⟩ := hsame
    have hsigname : ∀ (pv : List cp_info), PoolConv pool0a pv → ∀ idx,
        string_from_cp pool0a idx = .ok (ascii "Signature") ↔
          string_from_cp pv idx = .ok (ascii "Signature") := fun pv hpv idx =>
      string_from_cp_conv _ _ hpv idx _ ascii_signature_no_slash ascii_signature_no_dot
    have hindex : ∀ {α : Type} (l : List α) (x : α), x ∈ l → ∃ i, l[i]? = some x :=
      fun l x hx => List.mem_iff_getElem?.mp hx
    refine ⟨pool0a, o2a, hpar, ?_, ?_, ?_⟩
    · intro a ha hname
      obtain ⟨hl, -⟩ := hret a ha _ hname ascii_signature_no_slash ascii_signature_no_dot
        is_known_attribute_consulted.1
      have h2 : 2 ≤ (payload a.info).length := by
        rcases ha with ha | ⟨f, hf, ha⟩ | ⟨m, hm, ha⟩
        · exact ((scan_signature_refs _ _ _ _ hsig a ha).2
            ((hsigname _ hfinal _).mp hname)).1
        · obtain ⟨i, hi⟩ := hindex _ _ hf
          obtain ⟨jfs, jf, pv, -, -, hpv, hscan⟩ := hfld i f hi
          exact ((scan_signature_refs _ _ _ _ hscan a ha).2 ((hsigname _ hpv _).mp hname)).1
        · obtain ⟨i, hi⟩ := hindex _ _ hm
          obtain ⟨jms, jm, pv, -, -, hpv, hscan, -, -⟩ := hmeth i m hi
          exact ((scan_signature_refs _ _ _ _ hscan a ha).2 ((hsigname _ hpv _).mp hname)).1
      exact ⟨hl, by omega⟩
    · intro m hm pre a post hsplit hpre hname
      obtain ⟨i, hi⟩ := hindex _ _ hm
      obtain ⟨jms, jm, pv, -, -, -, -, hexc, -⟩ := hmeth i m hi
      have hmem : a ∈ m.attributes := by rw [hsplit]; simp
      obtain ⟨hl, -⟩ := hret a (Or.inr (Or.inr ⟨m, hm, hmem⟩)) _ hname
        ascii_exceptions_no_slash ascii_exceptions_no_dot is_known_attribute_consulted.2.1
      obtain ⟨h2, -, hk⟩ := hexc.2 pre a post hsplit hpre hname
      refine ⟨hl, ?_⟩
      by_cases hz : be ((payload a.info).take 2) = 0
      · rw [hz]
        omega
      · obtain ⟨names, -, -, hent⟩ := hk (by omega)
        have := (hent (be ((payload a.info).take 2) - 1) (by omega)).1
        omega
    · intro hic m hm
      obtain ⟨i, hi⟩ := hindex _ _ hm
      obtain ⟨jms, jm, pv, -, -, -, -, -, hcode⟩ := hmeth i m hi
      obtain ⟨hlast, hmin⟩ := hcode hic
      have hkeep : ∀ a ∈ m.attributes, attribute_named pool0a a "Code" →
          (payload a.info).length = a.attribute_length := fun a ha hname =>
        (hret a (Or.inr (Or.inr ⟨m, hm, ha⟩)) _ hname ascii_code_no_slash ascii_code_no_dot
          is_known_attribute_consulted.2.2).1
      refine ⟨fun a ha hname => ⟨hkeep a ha hname, ?_⟩, ?_⟩
      · have := hmin a ha hname
        rw [hkeep a ha hname] at this
        exact this
      · intro pre a post hsplit hname hpost
        have hmem : a ∈ m.attributes := by rw [hsplit]; simp
        have := (hlast.2 pre a post hsplit hname hpost).1
        rw [hkeep a hmem hname] at this
        exact this
  · intro c h pool0 o2 hpar m hm pre a post hsplit hname hshort
    obtain ⟨pool0a, o2a, hpara, hret⟩ := javaclass_new_ok_retained _ hlen _ _ _ h
    have hsame := hpar.symm.trans hpara
    simp only [Exec.ok.injEq, Prod.mk.injEq] at hsame
    obtain ⟨rfl, rfl⟩ := hsame
    have hmem : a ∈ m.attributes := by rw [hsplit]; simp
    have hkeep : (payload a.info).length = a.attribute_length :=
      (hret a (Or.inr (Or.inr ⟨m, hm, hmem⟩)) _ hname ascii_code_no_slash ascii_code_no_dot
        is_known_attribute_consulted.2.2).1
    refine ⟨hkeep, ?_⟩
    rw [← hkeep] at hshort
    exact short_code_payload_overreads classbytes length c h pool0 o2 hpar m hm pre a post
      hsplit hname hshort

/-- C31 (amended) at two concrete inputs: `unread_payloads_class` for the
first part and `overread_code_class` for the second. -/
theorem view_reads_within_payload_witness :
    (unread_payloads_class.length < 2 ^ 32 ∧
      ∃ pool0 o2, pool_as_read unread_payloads_class = .ok (pool0, o2) ∧
        (∀ a, attribute_of_class unread_payloads_class_decoded a →
          attribute_named pool0 a "Signature" →
          (payload a.info).length = a.attribute_length ∧ 2 ≤ a.attribute_length) ∧
        (∀ m ∈ unread_payloads_class_decoded.methods,
          ∀ (pre : List attribute_info) (a : attribute_info) (post : List attribute_info),
            m.attributes = pre ++ a :: post →
            (∀ b ∈ pre, ¬ attribute_named pool0 b "Exceptions") →
            attribute_named pool0 a "Exceptions" →
            (payload a.info).length = a.attribute_length ∧
            2 + 2 * be ((payload a.info).take 2) ≤ a.attribute_length) ∧
        (true = true → ∀ m ∈ unread_payloads_class_decoded.methods,
          (∀ a ∈ m.attributes, attribute_named pool0 a "Code" →
            (payload a.info).length = a.attribute_length ∧ 8 ≤ a.attribute_length) ∧
          (∀ (pre : List attribute_info) (a : attribute_info) (post : List attribute_info),
            m.attributes = pre ++ a :: post → attribute_named pool0 a "Code" →
            (∀ b ∈ post, ¬ attribute_named pool0 b "Code") →
            8 + code_length_field (payload a.info) ≤ a.attribute_length))) ∧
    (overread_code_class.length < 2 ^ 32 ∧
      overread_code_attribute.attribute_length
        < 8 + code_length_field (payload overread_code_attribute.info) ∧
      (payload overread_code_attribute.info).length
        = overread_code_attribute.attribute_length ∧
      javaclass_new overread_code_class 71 true = .undefined) :=
  ⟨⟨by decide, (view_reads_within_payload unread_payloads_class (by decide) 114).1 true
      unread_payloads_class_decoded (by decide)⟩,
   ⟨by decide, by decide,
    (view_reads_within_payload overread_code_class (by decide) 71).2
      overread_code_class_decoded (by decide) overread_code_class_decoded.constant_pool 34
      (by decide) overread_code_method_info (by decide) [] overread_code_attribute []
      rfl (by decide) (Or.inr ⟨by simp, by decide⟩)⟩⟩

/-- C32: for every class `javaclass_new` returns, with attribute names
resolved in the pool as read: the signature of each field, of each method and
of the class comes from the last attribute named `Signature` of its attribute
array (`signature_from_last`); with `includecode = TRUE` the bytecode blob of
each method comes from the last attribute named `Code` (`code_from_last`); and
the exception list of each method comes from the first attribute named
`Exceptions` and no other (`exceptions_from_first`), so it is absent when that
first attribute has count 0, whatever follows it. -/
theorem repeated_attributes_choice (classbytes : Bytes) (length : Nat) (includecode : Bool)
    (c : JavaClass) (h : javaclass_new classbytes length includecode = .ok c) :
    ∃ pool0 o2, pool_as_read classbytes = .ok (pool0, o2) ∧
      (∀ (i : Nat) (f : field_info), c.fields[i]? = some f →
        ∃ jfs jf pv, javaclass_get_fields c = some jfs ∧ jfs[i]? = some jf ∧
          PoolConv pool0 pv ∧
          signature_from_last pool0 pv f.attributes (javafield_get_signature jf)) ∧
      (∀ (i : Nat) (m : method_info), c.methods[i]? = some m →
        ∃ jms jm pv, javaclass_get_methods c = some jms ∧ jms[i]? = some jm ∧
          PoolConv pool0 pv ∧
          signature_from_last pool0 pv m.attributes (javamethod_get_signature jm) ∧
          exceptions_from_first pool0 m.attributes (javamethod_get_exceptions jm) ∧
          (includecode = true → code_from_last pool0 m.attributes jm.code jm.codelen)) ∧
      PoolConv pool0 c.constant_pool ∧
      signature_from_last pool0 c.constant_pool c.attributes (javaclass_get_signature c) := by
  obtain ⟨pool0, o2, hpar, hfinal, hsig, hfld, hmeth⟩ := javaclass_new_ok_views _ _ _ _ h
  have hsize := pool_as_read_length _ _ _ hpar
  refine ⟨pool0, o2, hpar, ?_, ?_, hfinal,
    signature_from_last_of_scan pool0 _ hsize hfinal _ _ hsig⟩
  · intro i f hi
    obtain ⟨jfs, jf, pv, hjfs, hjf, hpv, hscan⟩ := hfld i f hi
    exact ⟨jfs, jf, pv, hjfs, hjf, hpv,
      signature_from_last_of_scan pool0 pv hsize hpv _ _ hscan⟩
  · intro i m hi
    obtain ⟨jms, jm, pv, hjms, hjm, hpv, hscan, hexc, hcode⟩ := hmeth i m hi
    exact ⟨jms, jm, pv, hjms, hjm, hpv,
      signature_from_last_of_scan pool0 pv hsize hpv _ _ hscan, hexc,
      fun hic => (hcode hic).1⟩

/-- C32 at two concrete inputs: `unread_payloads_class`, whose method has
two `Exceptions` attributes (the first with count 0: no exception list) and two
`Code` attributes (the bytecode of the second is kept), and
`two_signature_class`, whose field has two `Signature` attributes (the
signature is the text the second points to). -/
theorem repeated_attributes_choice_witness :
    (∃ pool0 o2, pool_as_read unread_payloads_class = .ok (pool0, o2) ∧
      (∀ (i : Nat) (f : field_info), unread_payloads_class_decoded.fields[i]? = some f →
        ∃ jfs jf pv, javaclass_get_fields unread_payloads_class_decoded = some jfs ∧
          jfs[i]? = some jf ∧
          PoolConv pool0 pv ∧
          signature_from_last pool0 pv f.attributes (javafield_get_signature jf)) ∧
      (∀ (i : Nat) (m : method_info), unread_payloads_class_decoded.methods[i]? = some m →
        ∃ jms jm pv, javaclass_get_methods unread_payloads_class_decoded = some jms ∧
          jms[i]? = some jm ∧
          PoolConv pool0 pv ∧
          signature_from_last pool0 pv m.attributes (javamethod_get_signature jm) ∧
          exceptions_from_first pool0 m.attributes (javamethod_get_exceptions jm) ∧
          (true = true → code_from_last pool0 m.attributes jm.code jm.codelen)) ∧
      PoolConv pool0 unread_payloads_class_decoded.constant_pool ∧
      signature_from_last pool0 unread_payloads_class_decoded.constant_pool
        unread_payloads_class_decoded.attributes
        (javaclass_get_signature unread_payloads_class_decoded)) ∧
    (∃ pool0 o2, pool_as_read two_signature_class = .ok (pool0, o2) ∧
      (∀ (i : Nat) (f : field_info), two_signature_class_decoded.fields[i]? = some f →
        ∃ jfs jf pv, javaclass_get_fields two_signature_class_decoded = some jfs ∧
          jfs[i]? = some jf ∧
          PoolConv pool0 pv ∧
          signature_from_last pool0 pv f.attributes (javafield_get_signature jf)) ∧
      (∀ (i : Nat) (m : method_info), two_signature_class_decoded.methods[i]? = some m →
        ∃ jms jm pv, javaclass_get_methods two_signature_class_decoded = some jms ∧
          jms[i]? = some jm ∧
          PoolConv pool0 pv ∧
          signature_from_last pool0 pv m.attributes (javamethod_get_signature jm) ∧
          exceptions_from_first pool0 m.attributes (javamethod_get_exceptions jm) ∧
          (true = true → code_from_last pool0 m.attributes jm.code jm.codelen)) ∧
      PoolConv pool0 two_signature_class_decoded.constant_pool ∧
      signature_from_last pool0 two_signature_class_decoded.constant_pool
        two_signature_class_decoded.attributes
        (javaclass_get_signature two_signature_class_decoded)) :=
  ⟨repeated_attributes_choice unread_payloads_class 114 true unread_payloads_class_decoded
      (by decide),
    repeated_attributes_choice two_signature_class 71 true two_signature_class_decoded
      (by decide)⟩

end ClassReader
